import Mathlib

/-!
# Multiplayer piano: local note state and note transform

A shallow embedding of the local input reconciler of the piano
(`src/piano-core.js`) and of its octave controller (`src/octave-handling.js`).

Conventions of the embedding:

* JavaScript strings are Lean `String`s; the characters the code inspects
  (`A`..`G`, `#`, decimal digits) are ASCII, so code points and UTF-16 code units agree.
* JavaScript numbers that hold octave numbers, offsets and semitone counts are
  exact integers (`Int`); `NaN` (the result of `parseInt(undefined)`) is `none`.
  The numbers of the code are IEEE 754 doubles, which hold every integer of
  magnitude below `2 ^ 53`; `transposeNote` is embedded a second time over doubles
  (`IEEE.transposeNote`), and `ieee_transposeNote_exact` shows that the two agree
  on that range.
* The audio engine and the room service are external: every call to
  `triggerAttack`, `triggerRelease` and `room.send` is appended to a log that is
  part of the state, in the order in which the code issues the calls.
-/

namespace Piano

/-! ## Note names and number rendering -/

/-- The chromatic list `NOTES` (`octave-handling.js` line 1, `piano-core.js` line 7). -/
def NOTES : List String :=
  ["C", "C#", "D", "D#", "E", "F", "F#", "G", "G#", "A", "A#", "B"]

/-- The character class `\d` of a JavaScript regular expression: `0`..`9`. -/
def isDigit (c : Char) : Bool := decide (48 ≤ c.toNat) && decide (c.toNat ≤ 57)

/-- The character class `[A-G]`. -/
def isPitchLetter (c : Char) : Bool := decide (65 ≤ c.toNat) && decide (c.toNat ≤ 71)

/-- The integer that a string `ds` of decimal digits denotes (leading zeros allowed):
the digits are folded from the left. This is the value of `parseInt(ds)` while it
is below `2 ^ 53`; beyond, `parseInt` returns the nearest double (`IEEE.parseInt`). -/
def parseDigits (ds : List Char) : Nat :=
  ds.foldl (fun acc c => 10 * acc + (c.toNat - 48)) 0

/-- The canonical decimal numeral of an integer, with a leading `-` for a negative
one: the text a template literal produces for a number that holds an integer of
magnitude below `2 ^ 53` (`IEEE.numberToString` is the text for every double). -/
def numberToString : Int → String
  | Int.ofNat m => Nat.repr m
  | Int.negSucc m => "-" ++ Nat.repr (m + 1)

/-- The text a template literal produces for a number that may be `NaN`. -/
def numberOrNaNToString : Option Int → String
  | some n => numberToString n
  | none => "NaN"

/-! ## The regular expression of `transposeNote` -/

/-- One attempt to match `([A-G]#?)(\d+)` at the start of `cs`: a pitch letter,
then greedily an optional `#`, then the longest non-empty run of digits.
When `#` is present but no digit follows it, backtracking retries with `#?`
empty, and then `\d+` fails on the `#` itself. The result is the pair of the
two capture groups. -/
def matchHere : List Char → Option (List Char × List Char)
  | [] => none
  | c :: rest =>
    if isPitchLetter c then
      match rest with
      | [] => none
      | d :: rest2 =>
        if d = '#' then
          if (rest2.takeWhile isDigit).isEmpty then none
          else some ([c, d], rest2.takeWhile isDigit)
        else
          if (rest.takeWhile isDigit).isEmpty then none
          else some ([c], rest.takeWhile isDigit)
    else none

/-- The result of `note.match(/([A-G]#?)(\d+)/)`: the capture groups of the leftmost match
(the expression has no anchors, so the match may start anywhere in the string). -/
def regexMatch : List Char → Option (List Char × List Char)
  | [] => none
  | c :: rest =>
    match matchHere (c :: rest) with
    | some m => some m
    | none => regexMatch rest

/-- The result of `NOTES.indexOf(name)`: the first index, or `-1`. -/
def notesIndexOf (name : String) : Int :=
  if NOTES.indexOf name < NOTES.length then (NOTES.indexOf name : Int) else -1

/-- The loop `while (newNoteIndex >= 12) { newNoteIndex -= 12; newOctave++; }` of
`transposeNote`, on the pair (index, octave); `fuel` bounds the number of
iterations. -/
def carryLoop : Nat → Int × Int → Int × Int
  | 0, p => p
  | fuel + 1, (idx, oct) =>
    if idx ≥ 12 then carryLoop fuel (idx - 12, oct + 1) else (idx, oct)

/-- The loop `while (newNoteIndex < 0) { newNoteIndex += 12; newOctave--; }` of
`transposeNote`. -/
def borrowLoop : Nat → Int × Int → Int × Int
  | 0, p => p
  | fuel + 1, (idx, oct) =>
    if idx < 0 then borrowLoop fuel (idx + 12, oct - 1) else (idx, oct)

/-- `transposeNote(note, semitones)` (`octave-handling.js` lines 19-42), with the
numbers as exact integers.
The first loop runs at most `newNoteIndex / 12` times and the second at most
`-newNoteIndex / 12 + 1` times, so `|newNoteIndex|` iterations are enough fuel
for either. -/
def transposeNote (note : String) (semitones : Int) : String :=
  match regexMatch note.data with
  | none => note
  | some (noteName, octaveNumStr) =>
    let octave : Int := parseDigits octaveNumStr
    let noteIndex := notesIndexOf (String.mk noteName)
    if noteIndex = -1 then note
    else
      let newNoteIndex := noteIndex + semitones
      let p := carryLoop newNoteIndex.natAbs (newNoteIndex, octave)
      let q := borrowLoop newNoteIndex.natAbs p
      NOTES.getD q.1.toNat "undefined" ++ numberToString q.2

/-! ## `transposeNote` over IEEE 754 doubles

The numbers of `transposeNote` are IEEE 754 doubles: `parseInt` returns the double
nearest to the numeral it reads, every sum is rounded to a double, and the template
literal prints the shortest numeral that reads back as the double it is given. The
definitions below embed the function with that arithmetic. Every integer of
magnitude below `2 ^ 53` is a double, so there the arithmetic is the exact one of
`transposeNote` above. -/

/-- The binary exponent of the doubles around `n`: the least `e` with
`n / 2 ^ e < 2 ^ 53`, found by halving; `fuel` bounds the number of halvings. -/
def IEEE.exponent : Nat → Nat → Nat
  | 0, _ => 0
  | fuel + 1, n => if n < 2 ^ 53 then 0 else IEEE.exponent fuel (n / 2) + 1

/-- The double nearest to the natural number `n` (round to nearest, a tie goes to the
even significand): with `e` the exponent of `n`, the doubles around `n` are the
multiples of `2 ^ e`. A number below `2 ^ 53` is its own double. -/
def IEEE.round (n : Nat) : Nat :=
  let e := IEEE.exponent n n
  let q := n / 2 ^ e
  let r := n % 2 ^ e
  if 2 * r < 2 ^ e then q * 2 ^ e
  else if 2 ^ e < 2 * r then (q + 1) * 2 ^ e
  else if q % 2 = 0 then q * 2 ^ e
  else (q + 1) * 2 ^ e

/-- The double nearest to the integer `z`; rounding is symmetric about zero. -/
def IEEE.roundInt : Int → Int
  | Int.ofNat n => (IEEE.round n : Nat)
  | Int.negSucc n => -((IEEE.round (n + 1) : Nat) : Int)

/-- A number of `transposeNote` that holds an octave: an integer-valued double, or
`Infinity` (the value of `parseInt` on a numeral beyond the largest double). -/
inductive IEEE.Number
  | finite (value : Int)
  | infinity
  deriving DecidableEq, Repr

/-- The value of `parseInt(ds)` for a string `ds` of decimal digits: the double nearest
to the integer the digits denote. The largest double is `(2 ^ 53 - 1) * 2 ^ 971`;
when rounding leads beyond it (to exponent 972), the value is `Infinity`. -/
def IEEE.parseInt (ds : List Char) : IEEE.Number :=
  if IEEE.exponent (IEEE.round (parseDigits ds)) (IEEE.round (parseDigits ds)) ≤ 971 then
    IEEE.Number.finite (IEEE.round (parseDigits ds))
  else IEEE.Number.infinity

/-- The sum `x + k` of a number and an integer `k` (`newOctave++` is `add 1`,
`newOctave--` is `add (-1)`): the exact sum rounded to a double; `Infinity` stays. -/
def IEEE.Number.add : IEEE.Number → Int → IEEE.Number
  | IEEE.Number.finite v, k => IEEE.Number.finite (IEEE.roundInt (v + k))
  | IEEE.Number.infinity, _ => IEEE.Number.infinity

/-- The numeral with the fewest significant digits that reads back as the double `v`,
as a natural number: for each digit count from one up, the two multiples of the
matching power of ten around `v` are tried, and of two that read back as `v` the
nearer one is taken. -/
def IEEE.shortest (v : Nat) : Nat :=
  ((List.range (Nat.repr v).length).findSome? (fun j =>
    let p := 10 ^ ((Nat.repr v).length - (j + 1))
    let lo := v / p * p
    let hi := lo + p
    if IEEE.round lo = v then
      if IEEE.round hi = v ∧ hi - v < v - lo then some hi else some lo
    else if IEEE.round hi = v then some hi
    else none)).getD v

/-- The digits `l` without the zeros at their end. -/
def IEEE.stripZeros (l : List Char) : List Char :=
  (l.reverse.dropWhile (fun c => c = '0')).reverse

/-- The text of a double `v ≥ 0` that holds an integer (`Number::toString`): below
`10 ^ 21` the digits of its shortest numeral, from there on the exponent form
(`1e+21`, `1.1805916207174113e+21`). -/
def IEEE.natToString (v : Nat) : String :=
  if IEEE.shortest v < 10 ^ 21 then Nat.repr (IEEE.shortest v)
  else
    match IEEE.stripZeros (Nat.repr (IEEE.shortest v)).data with
    | [] => "0"
    | [d] => String.mk [d] ++ "e+" ++ Nat.repr ((Nat.repr (IEEE.shortest v)).length - 1)
    | d :: rest =>
      String.mk (d :: '.' :: rest) ++ "e+" ++ Nat.repr ((Nat.repr (IEEE.shortest v)).length - 1)

/-- The text a template literal produces for a number. -/
def IEEE.numberToString : IEEE.Number → String
  | IEEE.Number.finite (Int.ofNat m) => IEEE.natToString m
  | IEEE.Number.finite (Int.negSucc m) => "-" ++ IEEE.natToString (m + 1)
  | IEEE.Number.infinity => "Infinity"

/-- The loop `while (newNoteIndex >= 12) { newNoteIndex -= 12; newOctave++; }` over
doubles. Above `2 ^ 57` the difference `newNoteIndex - 12` rounds back to
`newNoteIndex` and the loop of the code never ends; below, every turn lowers the
index by 8 at least. The result is `none` when the loop has not ended after `fuel`
turns. -/
def IEEE.carryLoop : Nat → Int × IEEE.Number → Option (Int × IEEE.Number)
  | 0, (idx, oct) => if idx ≥ 12 then none else some (idx, oct)
  | fuel + 1, (idx, oct) =>
    if idx ≥ 12 then IEEE.carryLoop fuel (IEEE.roundInt (idx - 12), oct.add 1)
    else some (idx, oct)

/-- The loop `while (newNoteIndex < 0) { newNoteIndex += 12; newOctave--; }` over
doubles; `none` when the loop has not ended after `fuel` turns. -/
def IEEE.borrowLoop : Nat → Int × IEEE.Number → Option (Int × IEEE.Number)
  | 0, (idx, oct) => if idx < 0 then none else some (idx, oct)
  | fuel + 1, (idx, oct) =>
    if idx < 0 then IEEE.borrowLoop fuel (IEEE.roundInt (idx + 12), oct.add (-1))
    else some (idx, oct)

/-- `transposeNote(note, semitones)` (`octave-handling.js` lines 19-42) over doubles,
for a `semitones` that is a double holding an integer. The result is `none` when
the call does not return: a loop that ends does so within `|newNoteIndex|` turns. -/
def IEEE.transposeNote (note : String) (semitones : Int) : Option String :=
  match regexMatch note.data with
  | none => some note
  | some (noteName, octaveNumStr) =>
    let octave := IEEE.parseInt octaveNumStr
    let noteIndex := notesIndexOf (String.mk noteName)
    if noteIndex = -1 then some note
    else
      let newNoteIndex := IEEE.roundInt (noteIndex + semitones)
      (IEEE.carryLoop newNoteIndex.natAbs (newNoteIndex, octave)).bind (fun p =>
        (IEEE.borrowLoop newNoteIndex.natAbs p).map (fun q =>
          NOTES.getD q.1.toNat "undefined" ++ IEEE.numberToString q.2))

/-! ## The local state -/

/-- The two instrument handles of the local player (`piano-core.js` lines 75 and 91). -/
inductive Instrument
  | sampler
  | mainSynth
  deriving DecidableEq, Repr

/-- The payload of a `room.send` call for a note event:
`{ type, note, useSampler }`. -/
structure NoteMessage where
  type : String
  note : String
  useSampler : Bool
  deriving DecidableEq, Repr

/-- The calls the local code makes on its external collaborators. -/
inductive Effect
  | triggerAttack (instrument : Instrument) (note : String)
  | triggerRelease (instrument : Instrument) (note : String)
  | send (message : NoteMessage)
  deriving DecidableEq, Repr

/-- A key element of the local keyboard: its `data-original-note` and `data-note`
attributes, whether its class list holds `active`, and the text of its
`.key-label` child. -/
structure KeyElement where
  originalNote : Option String
  note : String
  active : Bool
  keyLabel : String
  deriving DecidableEq, Repr

/-- The mutable variables of `setupPiano` and of `setupOctaveControls`, the key
elements of the keyboard, and the log of the calls issued so far. -/
structure LocalState where
  currentOctaveOffset : Int
  currentTransposition : Int
  activeSoundingNotes : List String
  overrideKeyboardMap : List (String × String)
  currentSynth : Instrument
  currentInstrument : Instrument
  sustainActive : Bool
  sustainedNotes : List String
  keys : List KeyElement
  log : List Effect
  deriving DecidableEq, Repr

/-- The value of `window.sampler` read by `releaseAllActiveNotes`: no source file
assigns that property (`sampler` is a local constant of `setupPiano`), so it
is `undefined`. -/
def windowSampler : Option Instrument := none

/-- The value of `a || b` for an attribute `a` that may be missing: the empty string
is falsy as well. -/
def orElse (a : Option String) (b : String) : String :=
  match a with
  | some x => if x = "" then b else x
  | none => b

/-- The value of `keyElement.dataset.originalNote || keyElement.dataset.note`: the note
under which `activateKey` and `deactivateKey` track a key. -/
def KeyElement.trackedNote (k : KeyElement) : String := orElse k.originalNote k.note

/-- The method `activeSoundingNotes.add(note)` on a `Set` kept in insertion order. -/
def addActiveNote (note : String) (s : LocalState) : LocalState :=
  if note ∈ s.activeSoundingNotes then s
  else { s with activeSoundingNotes := s.activeSoundingNotes ++ [note] }

/-- The method `activeSoundingNotes.delete(note)`. -/
def removeActiveNote (note : String) (s : LocalState) : LocalState :=
  { s with activeSoundingNotes := s.activeSoundingNotes.filter (fun n => n ≠ note) }

/-- The setter `set mainSynth(newSynth)` of the controller. -/
def setMainSynth (newSynth : Instrument) (s : LocalState) : LocalState :=
  { s with currentSynth := newSynth }

/-- The effect of `document.querySelector('[data-note="…"]')` followed by
`classList.remove('active')`: the first key whose `data-note` is `note` loses
the class. The search is over the keys of the local keyboard. -/
def clearActiveClass (note : String) : List KeyElement → List KeyElement
  | [] => []
  | k :: ks =>
    if k.note = note then { k with active := false } :: ks
    else k :: clearActiveClass note ks

/-- One iteration of the `forEach` of `releaseAllActiveNotes`
(`octave-handling.js` lines 56-69). -/
def releaseOne (s : LocalState) (soundingNote : String) : LocalState :=
  { s with
    keys := clearActiveClass soundingNote s.keys
    log := s.log ++
      [Effect.triggerRelease s.currentSynth soundingNote,
       Effect.send
        { type := "noteOff", note := soundingNote,
          useSampler := decide (some s.currentSynth = windowSampler) }] }

/-- `releaseAllActiveNotes()` (`octave-handling.js` lines 53-72). -/
def releaseAllActiveNotes (s : LocalState) : LocalState :=
  { s.activeSoundingNotes.foldl releaseOne s with activeSoundingNotes := [] }

/-- The first two elements of `originalNote.split(/(\d+)/)`: the text before the first
digit, and the first maximal run of digits when the string has a digit. -/
def splitAtDigits (cs : List Char) : List Char × Option (List Char) :=
  let noteName := cs.takeWhile (fun c => !isDigit c)
  let rest := cs.dropWhile (fun c => !isDigit c)
  (noteName, if rest.isEmpty then none else some (rest.takeWhile isDigit))

/-- The key of the first entry of `overrideKeyboardMap` whose value is `originalNote`
(the `for … in` loop of `updateKeyLabels`). -/
def assignedKeyboardKey (map : List (String × String)) (originalNote : String) :
    Option String :=
  (map.find? (fun kv => kv.2 = originalNote)).map Prod.fst

/-- The method `toUpperCase()` on the keys of the keyboard map: the ASCII letters
`a`..`z` are raised, every other character is kept. -/
def toUpperCase (key : String) : String := String.mk (key.data.map Char.toUpper)

/-- The text written to a key label: the assigned keyboard key in upper case
(when there is a non-empty one), a line break, and the displayed note. -/
def keyLabelText (assigned : Option String) (displayed : String) : String :=
  match assigned with
  | some key => if key = "" then "\r\n" ++ displayed else toUpperCase key ++ "\r\n" ++ displayed
  | none => "\r\n" ++ displayed

/-- The body of the `forEach` of `updateKeyLabels` for one key
(`octave-handling.js` lines 76-108). -/
def updateKeyLabel (s : LocalState) (k : KeyElement) : KeyElement :=
  let originalNote := orElse k.originalNote k.note
  let parts := splitAtDigits originalNote.data
  let baseOctave : Option Int := parts.2.map (fun ds => (parseDigits ds : Int))
  let newOctaveNum : Option Int := baseOctave.map (fun b => b + s.currentOctaveOffset)
  let newNoteWithOctaveShift := String.mk parts.1 ++ numberOrNaNToString newOctaveNum
  let finalDisplayedNote := transposeNote newNoteWithOctaveShift s.currentTransposition
  { k with
    originalNote := some originalNote
    note := finalDisplayedNote
    keyLabel := keyLabelText (assignedKeyboardKey s.overrideKeyboardMap originalNote)
      finalDisplayedNote }

/-- `updateKeyLabels()` (`octave-handling.js` lines 74-109). -/
def updateKeyLabels (s : LocalState) : LocalState :=
  { s with keys := s.keys.map (updateKeyLabel s) }

/-- `transposeKey(semitones)` (`octave-handling.js` lines 10-17). -/
def transposeKey (semitones : Int) (s : LocalState) : LocalState :=
  let newTransposition := s.currentTransposition + semitones
  if newTransposition ≥ -12 ∧ newTransposition ≤ 12 then
    updateKeyLabels { releaseAllActiveNotes s with currentTransposition := newTransposition }
  else s

/-- `shiftOctave(offset)` (`octave-handling.js` lines 44-51), with the bounds
`MIN_OCTAVE` and `MAX_OCTAVE` that `setupOctaveControls` receives. -/
def shiftOctave (MIN_OCTAVE MAX_OCTAVE : Int) (offset : Int) (s : LocalState) : LocalState :=
  let newOffset := s.currentOctaveOffset + offset
  if newOffset ≥ MIN_OCTAVE ∧ newOffset ≤ MAX_OCTAVE then
    updateKeyLabels { releaseAllActiveNotes s with currentOctaveOffset := newOffset }
  else s

/-- `setCurrentOctaveOffset(offset)` of the controller (`octave-handling.js` lines 214-218). -/
def setCurrentOctaveOffset (offset : Int) (s : LocalState) : LocalState :=
  updateKeyLabels { releaseAllActiveNotes s with currentOctaveOffset := offset }

/-- `activateKey(keyElement)` (`piano-core.js` lines 290-308); the key element is
given by its position in the keyboard (a position outside the keyboard names no
element, and the state is returned as it is). -/
def activateKey (i : Nat) (s : LocalState) : LocalState :=
  match s.keys[i]? with
  | none => s
  | some keyElement =>
    let originalNote := keyElement.trackedNote
    if originalNote ∈ s.activeSoundingNotes then s
    else
      let soundingNote := keyElement.note
      let s1 := { s with keys := s.keys.set i { keyElement with active := true } }
      let s2 := { s1 with log := s1.log ++ [Effect.triggerAttack s.currentInstrument soundingNote] }
      let s3 := addActiveNote originalNote s2
      { s3 with
        log := s3.log ++
          [Effect.send
            { type := "noteOn", note := soundingNote,
              useSampler := decide (s.currentInstrument = Instrument.sampler) }] }

/-- `deactivateKey(keyElement)` (`piano-core.js` lines 310-334); the key element is
given by its position in the keyboard, as for `activateKey`. -/
def deactivateKey (i : Nat) (s : LocalState) : LocalState :=
  match s.keys[i]? with
  | none => s
  | some keyElement =>
    let originalNote := keyElement.trackedNote
    if originalNote ∈ s.activeSoundingNotes then
      let soundingNote := keyElement.note
      let s1 := removeActiveNote originalNote
        { s with keys := s.keys.set i { keyElement with active := false } }
      if s.sustainActive then
        { s1 with sustainedNotes := s1.sustainedNotes ++ [soundingNote] }
      else
        { s1 with
          log := s1.log ++
            [Effect.triggerRelease s.currentInstrument soundingNote,
             Effect.send
              { type := "noteOff", note := soundingNote,
                useSampler := decide (s.currentInstrument = Instrument.sampler) }] }
    else s

/-- One iteration of the `forEach` of `setSustainState` (`piano-core.js` lines 492-499). -/
def releaseSustained (s : LocalState) (note : String) : LocalState :=
  { s with
    log := s.log ++
      [Effect.triggerRelease s.currentInstrument note,
       Effect.send
        { type := "noteOff", note := note,
          useSampler := decide (s.currentInstrument = Instrument.sampler) }] }

/-- `setSustainState(isActive)` (`piano-core.js` lines 485-502). -/
def setSustainState (isActive : Bool) (s : LocalState) : LocalState :=
  let s1 := { s with sustainActive := isActive }
  if !isActive then
    { s1.sustainedNotes.foldl releaseSustained s1 with sustainedNotes := [] }
  else s1

/-- `setUseSampler(usesSampler)` as rebound at `piano-core.js` lines 281-285: the
original function selects the instrument, the wrapper hands it to the octave
controller. -/
def setUseSampler (usesSampler : Bool) (s : LocalState) : LocalState :=
  let currentInstrument := if usesSampler then Instrument.sampler else Instrument.mainSynth
  setMainSynth currentInstrument { s with currentInstrument := currentInstrument }

/-! ## The initial state -/

/-- The constant `OCTAVES` (`piano-core.js` line 8). -/
def OCTAVES : Nat := 2

/-- The constant `keyboardMap` (`piano-core.js` lines 242-267), in property order. -/
def keyboardMap : List (String × String) :=
  [("a", "C3"), ("s", "D3"), ("d", "E3"), ("f", "F3"), ("g", "G3"), ("h", "A3"),
   ("j", "B3"), ("k", "C4"), ("l", "D4"), (";", "E4"), ("m", "F4"), (",", "G4"),
   (".", "A4"), ("/", "B4"), ("w", "C#3"), ("e", "D#3"), ("t", "F#3"), ("y", "G#3"),
   ("u", "A#3"), ("i", "C#4"), ("o", "D#4"), ("p", "F#4"), ("[", "G#4"), ("]", "A#4")]

/-- The key element built for pitch class `note` in keyboard octave `octave`
(`piano-core.js` lines 338-360). -/
def makeKey (octave : Nat) (note : String) : KeyElement :=
  let name := note ++ numberToString ((octave : Int) + 3)
  { originalNote := some name
    note := name
    active := false
    keyLabel := keyLabelText (assignedKeyboardKey keyboardMap name) name }

/-- The keyboard built by the loop at `piano-core.js` lines 337-423. -/
def initialKeys : List KeyElement :=
  (List.range OCTAVES).flatMap (fun octave => NOTES.map (makeKey octave))

/-- The constants `MIN_OCTAVE` and `MAX_OCTAVE` of `piano-core.js` lines 269-270. -/
def MIN_OCTAVE : Int := -2

/-- See `MIN_OCTAVE`. -/
def MAX_OCTAVE : Int := 2

/-- The local state when `setupPiano` has run: the sampler is the current instrument
(`setUseSampler(true)` at line 131), nothing is active, sustain is off. -/
def initialState : LocalState :=
  { currentOctaveOffset := 0
    currentTransposition := 0
    activeSoundingNotes := []
    overrideKeyboardMap := keyboardMap
    currentSynth := Instrument.sampler
    currentInstrument := Instrument.sampler
    sustainActive := false
    sustainedNotes := []
    keys := initialKeys
    log := [] }

/-! ## Sequences of calls and counts over the log -/

/-- A call of `activateKey` or `deactivateKey` on the key at a position. -/
inductive KeyOp
  | activate (i : Nat)
  | deactivate (i : Nat)
  deriving DecidableEq, Repr

/-- The state after one key call. -/
def KeyOp.apply : KeyOp → LocalState → LocalState
  | KeyOp.activate i, s => activateKey i s
  | KeyOp.deactivate i, s => deactivateKey i s

/-- The state after a sequence of key calls, first call first. -/
def runKeyOps (ops : List KeyOp) (s : LocalState) : LocalState :=
  ops.foldl (fun st op => op.apply st) s

/-- A key call or a call of `setSustainState`. -/
inductive LocalOp
  | key (op : KeyOp)
  | sustain (isActive : Bool)
  deriving DecidableEq, Repr

/-- The state after one call. -/
def LocalOp.apply : LocalOp → LocalState → LocalState
  | LocalOp.key op, s => op.apply s
  | LocalOp.sustain b, s => setSustainState b s

/-- The state after a sequence of calls, first call first. -/
def runLocalOps (ops : List LocalOp) (s : LocalState) : LocalState :=
  ops.foldl (fun st op => op.apply st) s

/-- Whether an effect is `triggerAttack(note)` on either instrument. -/
def isAttackOf (note : String) : Effect → Bool
  | Effect.triggerAttack _ n => n == note
  | _ => false

/-- Whether an effect is `triggerRelease(note)` on either instrument. -/
def isReleaseOf (note : String) : Effect → Bool
  | Effect.triggerRelease _ n => n == note
  | _ => false

/-- Whether an effect is an outbound `noteOn` message for `note`. -/
def isNoteOnOf (note : String) : Effect → Bool
  | Effect.send m => m.type == "noteOn" && m.note == note
  | _ => false

/-- Whether an effect is an outbound `noteOff` message for `note`. -/
def isNoteOffOf (note : String) : Effect → Bool
  | Effect.send m => m.type == "noteOff" && m.note == note
  | _ => false

/-- The number of `triggerAttack(note)` calls in a log. -/
def attackCount (note : String) (log : List Effect) : Nat := log.countP (isAttackOf note)

/-- The number of `triggerRelease(note)` calls in a log. -/
def releaseCount (note : String) (log : List Effect) : Nat := log.countP (isReleaseOf note)

/-- The number of outbound `noteOn` messages for `note` in a log. -/
def noteOnCount (note : String) (log : List Effect) : Nat := log.countP (isNoteOnOf note)

/-- The number of outbound `noteOff` messages for `note` in a log. -/
def noteOffCount (note : String) (log : List Effect) : Nat := log.countP (isNoteOffOf note)

/-- The number of keys that are tracked as active and display `note`. -/
def heldCount (note : String) (s : LocalState) : Nat :=
  s.keys.countP (fun k => decide (k.trackedNote ∈ s.activeSoundingNotes) && k.note == note)

/-- The keys of a keyboard are told apart by the note they are tracked under, and by
the note they display. -/
def DistinctKeys (s : LocalState) : Prop :=
  (s.keys.map KeyElement.trackedNote).Nodup ∧ (s.keys.map KeyElement.note).Nodup

instance (s : LocalState) : Decidable (DistinctKeys s) := by
  unfold DistinctKeys; infer_instance

/-- Every attack is accounted for: the attacks of a note are its releases, plus the
keys currently held on it, plus its entries in the deferred list; the same for
the `noteOn` and `noteOff` messages. -/
def Balanced (s : LocalState) : Prop :=
  ∀ S : String,
    attackCount S s.log = releaseCount S s.log + heldCount S s + s.sustainedNotes.count S ∧
    noteOnCount S s.log = noteOffCount S s.log + heldCount S s + s.sustainedNotes.count S

/-- A string contains a note of the grammar somewhere: a letter `A`..`G` directly followed
by a digit, or by `#` and a digit. -/
def ContainsNote (cs : List Char) : Prop :=
  ∃ c d : Char, isPitchLetter c = true ∧ isDigit d = true ∧
    (List.IsInfix [c, d] cs ∨ List.IsInfix [c, '#', d] cs)

/-- The keys carry, in order, the original notes of the keyboard `setupPiano` builds. -/
def StandardKeyboard (s : LocalState) : Prop :=
  s.keys.map KeyElement.originalNote = initialKeys.map KeyElement.originalNote

/-! ## The keyboard handlers of the local player -/

/-- The fields of a `keydown` / `keyup` event the handlers read: the tag name of the
event target, `e.key`, and `e.repeat`. -/
structure KeyboardEvent where
  targetTagName : String
  key : String
  repeated : Bool
  deriving DecidableEq, Repr

/-- The method `toLowerCase()` on `e.key`: the ASCII letters `A`..`Z` are lowered, every
other character is kept. -/
def toLowerCase (key : String) : String := String.mk (key.data.map Char.toLower)

/-- The value of `keyboardMap[key]`: the note stored under an own property `key`, or
`undefined`. -/
def keyboardMapGet (key : String) : List (String × String) → Option String
  | [] => none
  | (k, v) :: rest => if k = key then some v else keyboardMapGet key rest

/-- The result of `document.querySelector('[data-original-note="…"]')`: the position of the
first key whose `data-original-note` is `note`, with the key. -/
def queryOriginalNote (note : String) : List KeyElement → Option (Nat × KeyElement)
  | [] => none
  | k :: ks =>
    if k.originalNote = some note then some (0, k)
    else (queryOriginalNote note ks).map (fun r => (r.1 + 1, r.2))

/-- The `keydown` listener of `piano-core.js` lines 506-540. -/
def keydown (e : KeyboardEvent) (s : LocalState) : LocalState :=
  if e.targetTagName = "INPUT" ∨ e.targetTagName = "TEXTAREA" then s
  else if e.key = " " ∧ s.sustainActive = false then setSustainState true s
  else if e.repeated then s
  else
    match keyboardMapGet (toLowerCase e.key) s.overrideKeyboardMap with
    | none => s
    | some originalMappedNote =>
      if originalMappedNote = "" then s
      else
        match queryOriginalNote originalMappedNote s.keys with
        | none => s
        | some (i, keyElement) =>
          if originalMappedNote ∈ s.activeSoundingNotes then s
          else
            let soundingNote := keyElement.note
            let s1 := { s with keys := s.keys.set i { keyElement with active := true } }
            let s2 := { s1 with
              log := s1.log ++ [Effect.triggerAttack s.currentInstrument soundingNote] }
            let s3 := addActiveNote originalMappedNote s2
            { s3 with
              log := s3.log ++
                [Effect.send
                  { type := "noteOn", note := soundingNote,
                    useSampler := decide (s.currentInstrument = Instrument.sampler) }] }

/-- The `keyup` listener of `piano-core.js` lines 542-579. -/
def keyup (e : KeyboardEvent) (s : LocalState) : LocalState :=
  if e.targetTagName = "INPUT" ∨ e.targetTagName = "TEXTAREA" then s
  else if e.key = " " ∧ s.sustainActive = true then setSustainState false s
  else
    match keyboardMapGet (toLowerCase e.key) s.overrideKeyboardMap with
    | none => s
    | some originalMappedNote =>
      if originalMappedNote = "" then s
      else
        match queryOriginalNote originalMappedNote s.keys with
        | none => s
        | some (i, keyElement) =>
          if originalMappedNote ∈ s.activeSoundingNotes then
            let soundingNote := keyElement.note
            let s1 := removeActiveNote originalMappedNote
              { s with keys := s.keys.set i { keyElement with active := false } }
            if s.sustainActive then
              { s1 with sustainedNotes := s1.sustainedNotes ++ [soundingNote] }
            else
              { s1 with
                log := s1.log ++
                  [Effect.triggerRelease s.currentInstrument soundingNote,
                   Effect.send
                    { type := "noteOff", note := soundingNote,
                      useSampler := decide (s.currentInstrument = Instrument.sampler) }] }
          else s

/-- A call from any local input path: a pointer call on a key, a call of
`setSustainState`, or a keyboard event. -/
inductive InputOp
  | pointer (op : LocalOp)
  | keydown (e : KeyboardEvent)
  | keyup (e : KeyboardEvent)
  deriving DecidableEq, Repr

/-- The state after one input call. -/
def InputOp.apply : InputOp → LocalState → LocalState
  | InputOp.pointer op, s => op.apply s
  | InputOp.keydown e, s => Piano.keydown e s
  | InputOp.keyup e, s => Piano.keyup e s

/-- The state after a sequence of input calls, first call first. -/
def runInputOps (ops : List InputOp) (s : LocalState) : LocalState :=
  ops.foldl (fun st op => op.apply st) s

/-! ## Peers: the audio registry

Conventions: a Tone.js object is a handle, a natural number drawn from a counter
when the object is constructed; handle 0 is the shared master volume node. The
values the audio engine holds for an object (the `wet.value` of an effect, the
`volume` of a gain stage) are kept in the registry entry that owns the handle.
Every call on the audio engine is appended to `calls`. Payload numbers are exact
rationals. Registries are JavaScript objects used as maps: a list of pairs in
property order; participant ids are taken not to be names of properties of
`Object.prototype`. -/

/-- A number carried by a message or a presence field. -/
abbrev Scalar := ℚ

/-- The value handed to `volumeNode.volume.setValueAtTime`: `-Infinity`, a number, or
`undefined` (when `updatePeerVolume` is called without a remote value). -/
inductive Level
  | negInfinity
  | db (value : Scalar)
  | undefined
  deriving DecidableEq

/-- The Tone.js classes `createPeerSynth` instantiates. -/
inductive ResourceKind
  | polySynth
  | sampler
  | volume
  | distortion
  | reverb
  | pingPongDelay
  deriving DecidableEq

/-- The calls of the peer code on the audio engine. -/
inductive PeerCall
  | construct (kind : ResourceKind) (handle : Nat)
  | setWet (handle : Nat) (value : Scalar)
  | generate (handle : Nat)
  | connect (source destination : Nat)
  | disconnect (source destination : Nat)
  | triggerAttack (handle : Nat) (note : String)
  | triggerRelease (handle : Nat) (note : String)
  | setVolume (handle : Nat) (level : Level)
  | dispose (handle : Nat)
  deriving DecidableEq

/-- An entry of `peerSynths` (`peer-audio.js` lines 57-70): the handles, the flags and
stored volumes, and the engine values of the handles: the wet value of each
effect, the volume of the gain stage, and which instrument is connected to it.
`localVolume` may hold `null` (`none`). -/
structure PeerEntry where
  synth : Nat
  sampler : Nat
  volumeNode : Nat
  muted : Bool
  localVolume : Option Scalar
  remoteVolume : Scalar
  distortion : Nat
  reverb : Nat
  delay : Nat
  useSampler : Bool
  distortionWet : Scalar
  reverbWet : Scalar
  delayWet : Scalar
  volume : Level
  synthConnected : Bool
  samplerConnected : Bool
  deriving DecidableEq

/-- An entry of `peerPianos` (`peer-piano-manager.js` lines 82-95): the peer keys that
hold the class `active`, the set `activeNotes`, whether a waveform animation is
running (`waveformAnimationId` is set), the values of the four display sliders,
and the `useSampler` flag. -/
structure PeerPiano where
  activeKeys : List String
  activeNotes : List String
  animating : Bool
  volumeSlider : Scalar
  distortionSlider : Scalar
  reverbSlider : Scalar
  delaySlider : Scalar
  useSampler : Bool
  deriving DecidableEq

/-- The two registries, the handle counter and the calls issued so far. -/
structure PeerState where
  peerSynths : List (String × PeerEntry)
  peerPianos : List (String × PeerPiano)
  nextHandle : Nat
  calls : List PeerCall
  deriving DecidableEq

/-- The value of `registry[id]`. -/
def assocGet {α : Type} (id : String) : List (String × α) → Option α
  | [] => none
  | (k, v) :: rest => if k = id then some v else assocGet id rest

/-- The assignment `registry[id] = value`: an existing property keeps its place, a new
one is added last. -/
def assocSet {α : Type} (id : String) (value : α) : List (String × α) → List (String × α)
  | [] => [(id, value)]
  | (k, v) :: rest => if k = id then (k, value) :: rest else (k, v) :: assocSet id value rest

/-- The statement `delete registry[id]`. -/
def assocDelete {α : Type} (id : String) (l : List (String × α)) : List (String × α) :=
  l.filter (fun kv => kv.1 ≠ id)

/-- The handle of the shared master volume node. -/
def masterVolumeNode : Nat := 0

/-- The state when `createPeerAudioSystem` and `createPeerPianoManager` have run. -/
def PeerState.initial : PeerState :=
  { peerSynths := [], peerPianos := [], nextHandle := 1, calls := [] }

namespace PeerAudio

/-- The constant `DEFAULT_DB` of `peer-audio.js` line 7. -/
def DEFAULT_DB : Scalar := 6

/-- `createPeerSynth(clientId, synthOptions, initialUseSampler)` (`peer-audio.js` lines
19-83). The six objects take the next six handles; nothing tests whether the
registry already has an entry. -/
def createPeerSynth (clientId : String) (initialUseSampler : Bool) (s : PeerState) :
    PeerState :=
  let synth := s.nextHandle
  let sampler := s.nextHandle + 1
  let volumeNode := s.nextHandle + 2
  let peerDistortion := s.nextHandle + 3
  let peerReverb := s.nextHandle + 4
  let peerDelay := s.nextHandle + 5
  let initialInstrument := if initialUseSampler then sampler else synth
  { peerSynths := assocSet clientId
      { synth := synth, sampler := sampler, volumeNode := volumeNode, muted := false,
        localVolume := some DEFAULT_DB, remoteVolume := DEFAULT_DB,
        distortion := peerDistortion, reverb := peerReverb, delay := peerDelay,
        useSampler := initialUseSampler,
        distortionWet := 0, reverbWet := 0, delayWet := 0,
        volume := Level.db 0,
        synthConnected := !initialUseSampler, samplerConnected := initialUseSampler }
      s.peerSynths
    peerPianos := s.peerPianos
    nextHandle := s.nextHandle + 6
    calls := s.calls ++
      [PeerCall.construct ResourceKind.polySynth synth,
       PeerCall.construct ResourceKind.sampler sampler,
       PeerCall.construct ResourceKind.volume volumeNode,
       PeerCall.construct ResourceKind.distortion peerDistortion,
       PeerCall.setWet peerDistortion 0,
       PeerCall.construct ResourceKind.reverb peerReverb,
       PeerCall.setWet peerReverb 0,
       PeerCall.generate peerReverb,
       PeerCall.construct ResourceKind.pingPongDelay peerDelay,
       PeerCall.setWet peerDelay 0,
       PeerCall.connect initialInstrument volumeNode,
       PeerCall.connect volumeNode peerDistortion,
       PeerCall.connect peerDistortion peerReverb,
       PeerCall.connect peerReverb peerDelay,
       PeerCall.connect peerDelay masterVolumeNode] }

/-- The statement `if (!peerSynths[clientId]) createPeerSynth(clientId, …, hint)`, which
`playPeerNote`, `updatePeerVolume` and the presence callback each contain. -/
def createPeerSynthIfMissing (clientId : String) (hint : Bool) (s : PeerState) : PeerState :=
  match assocGet clientId s.peerSynths with
  | some _ => s
  | none => createPeerSynth clientId hint s

/-- `playPeerNote(clientId, note, synthOptions, useSamplerForCreationHint)`
(`peer-audio.js` lines 85-97); an `undefined` hint takes the default `false` of
`createPeerSynth`. -/
def playPeerNote (clientId note : String) (useSamplerForCreationHint : Option Bool)
    (s : PeerState) : PeerState :=
  let s1 := createPeerSynthIfMissing clientId (useSamplerForCreationHint.getD false) s
  match assocGet clientId s1.peerSynths with
  | none => s1
  | some peer =>
    let instrumentToPlay := if peer.useSampler then peer.sampler else peer.synth
    { s1 with calls := s1.calls ++ [PeerCall.triggerAttack instrumentToPlay note] }

/-- `stopPeerNote(clientId, note)` (`peer-audio.js` lines 99-107). -/
def stopPeerNote (clientId note : String) (s : PeerState) : PeerState :=
  match assocGet clientId s.peerSynths with
  | none => s
  | some peer =>
    let instrumentToStop := if peer.useSampler then peer.sampler else peer.synth
    { s with calls := s.calls ++ [PeerCall.triggerRelease instrumentToStop note] }

/-- `updatePeerSynthEffect(clientId, effectName, value)` (`peer-audio.js` lines 109-122):
`peer.effects[effectName]` exists for the three effect names only. -/
def updatePeerSynthEffect (clientId effectName : String) (value : Scalar) (s : PeerState) :
    PeerState :=
  match assocGet clientId s.peerSynths with
  | none => s
  | some peer =>
    if effectName = "distortion" then
      { s with
        peerSynths := assocSet clientId { peer with distortionWet := value } s.peerSynths
        calls := s.calls ++ [PeerCall.setWet peer.distortion value] }
    else if effectName = "reverb" then
      { s with
        peerSynths := assocSet clientId { peer with reverbWet := value } s.peerSynths
        calls := s.calls ++ [PeerCall.setWet peer.reverb value] }
    else if effectName = "delay" then
      { s with
        peerSynths := assocSet clientId { peer with delayWet := value } s.peerSynths
        calls := s.calls ++ [PeerCall.setWet peer.delay value] }
    else s

/-- `updatePeerVolume(clientId, localDbValue, remoteDbValue, synthOptions)`
(`peer-audio.js` lines 124-153). `localDbValue` may be `undefined` (`none`), `null`
(`some none`) or a number; `remoteDbValue` may be `undefined` (`none`). -/
def updatePeerVolume (clientId : String) (localDbValue : Option (Option Scalar))
    (remoteDbValue : Option Scalar) (s : PeerState) : PeerState :=
  if clientId = "" then s
  else
    let s1 := createPeerSynthIfMissing clientId false s
    match assocGet clientId s1.peerSynths with
    | none => s1
    | some peer =>
      let combinedVolume : Level :=
        match remoteDbValue with
        | some v => Level.db v
        | none => Level.undefined
      let peer1 := { peer with
        localVolume := localDbValue.getD peer.localVolume
        remoteVolume := remoteDbValue.getD peer.remoteVolume }
      if peer.muted then
        { s1 with peerSynths := assocSet clientId peer1 s1.peerSynths }
      else
        { s1 with
          peerSynths := assocSet clientId { peer1 with volume := combinedVolume } s1.peerSynths
          calls := s1.calls ++ [PeerCall.setVolume peer.volumeNode combinedVolume] }

/-- `toggleMute(clientId, muteState)` (`peer-audio.js` lines 155-169). -/
def toggleMute (clientId : String) (muteState : Bool) (s : PeerState) : PeerState :=
  match assocGet clientId s.peerSynths with
  | none => s
  | some peer =>
    let level := if muteState then Level.negInfinity else Level.db peer.remoteVolume
    { s with
      peerSynths := assocSet clientId { peer with muted := muteState, volume := level }
        s.peerSynths
      calls := s.calls ++ [PeerCall.setVolume peer.volumeNode level] }

/-- `setUseSampler(clientId, shouldUseSampler)` (`peer-audio.js` lines 171-192). -/
def setUseSampler (clientId : String) (shouldUseSampler : Bool) (s : PeerState) : PeerState :=
  match assocGet clientId s.peerSynths with
  | none => s
  | some peer =>
    if peer.useSampler = shouldUseSampler then s
    else
      let oldInstrument := if peer.useSampler then peer.sampler else peer.synth
      let newInstrument := if shouldUseSampler then peer.sampler else peer.synth
      { s with
        peerSynths := assocSet clientId
          { peer with
            useSampler := shouldUseSampler
            synthConnected := !shouldUseSampler
            samplerConnected := shouldUseSampler }
          s.peerSynths
        calls := s.calls ++
          [PeerCall.disconnect oldInstrument peer.volumeNode,
           PeerCall.connect newInstrument peer.volumeNode] }

end PeerAudio

/-! ## Peers: the UI mirrors -/

namespace PeerPianoManager

/-- The `data-note` values of the keys `createPeerPiano` builds: every pitch class in the
octaves 1 to 6 (`peer-piano-manager.js` lines 46-56). -/
def peerKeyNotes : List String :=
  (List.range 6).flatMap (fun octave =>
    NOTES.map (fun note => note ++ numberToString ((octave : Int) + 1)))

/-- `createPeerPiano(clientId)` (`peer-piano-manager.js` lines 7-96): the sliders start at
0, no key is highlighted. -/
def createPeerPiano (clientId : String) (s : PeerState) : PeerState :=
  { s with
    peerPianos := assocSet clientId
      { activeKeys := [], activeNotes := [], animating := false,
        volumeSlider := 0, distortionSlider := 0, reverbSlider := 0, delaySlider := 0,
        useSampler := true }
      s.peerPianos }

/-- `removePeerPiano(clientId)` (`peer-piano-manager.js` lines 120-125). -/
def removePeerPiano (clientId : String) (s : PeerState) : PeerState :=
  match assocGet clientId s.peerPianos with
  | some _ => { s with peerPianos := assocDelete clientId s.peerPianos }
  | none => s

/-- `hasPeerPiano(clientId)`. -/
def hasPeerPiano (clientId : String) (s : PeerState) : Bool :=
  (assocGet clientId s.peerPianos).isSome

/-- `highlightPeerNote(clientId, note, isOn)` (`peer-piano-manager.js` lines 127-165): the
key is looked up by the text of the two capture groups; whether or not it is
found, the note enters or leaves `activeNotes`, and the waveform animation runs
while the set is not empty. -/
def highlightPeerNote (clientId note : String) (isOn : Bool) (s : PeerState) : PeerState :=
  match assocGet clientId s.peerPianos with
  | none => s
  | some peerPiano =>
    match regexMatch note.data with
    | none => s
    | some (noteName, octave) =>
      let keyNote := String.mk noteName ++ String.mk octave
      let found := decide (keyNote ∈ peerKeyNotes)
      if isOn then
        { s with
          peerPianos := assocSet clientId
            { peerPiano with
              activeKeys :=
                if found ∧ keyNote ∉ peerPiano.activeKeys then peerPiano.activeKeys ++ [keyNote]
                else peerPiano.activeKeys
              activeNotes :=
                if note ∈ peerPiano.activeNotes then peerPiano.activeNotes
                else peerPiano.activeNotes ++ [note]
              animating := true }
            s.peerPianos }
      else
        { s with
          peerPianos := assocSet clientId
            { peerPiano with
              activeKeys :=
                if found then peerPiano.activeKeys.filter (fun n => n ≠ keyNote)
                else peerPiano.activeKeys
              activeNotes := peerPiano.activeNotes.filter (fun n => n ≠ note)
              animating :=
                if (peerPiano.activeNotes.filter (fun n => n ≠ note)).isEmpty then false
                else peerPiano.animating }
            s.peerPianos }

/-- The value `Math.max(0, Math.min(1, value))`. -/
def normalizedValue (value : Scalar) : Scalar := max 0 (min 1 value)

/-- `updatePeerEffectSlider(clientId, effect, value)` (`peer-piano-manager.js` lines
276-286): `effectSliders[effect]` exists for the four slider names only. -/
def updatePeerEffectSlider (clientId effect : String) (value : Scalar) (s : PeerState) :
    PeerState :=
  match assocGet clientId s.peerPianos with
  | none => s
  | some peerPiano =>
    if effect = "volume" then
      { s with
        peerPianos := assocSet clientId
          { peerPiano with volumeSlider := normalizedValue value } s.peerPianos }
    else if effect = "distortion" then
      { s with
        peerPianos := assocSet clientId
          { peerPiano with distortionSlider := normalizedValue value } s.peerPianos }
    else if effect = "reverb" then
      { s with
        peerPianos := assocSet clientId
          { peerPiano with reverbSlider := normalizedValue value } s.peerPianos }
    else if effect = "delay" then
      { s with
        peerPianos := assocSet clientId
          { peerPiano with delaySlider := normalizedValue value } s.peerPianos }
    else s

/-- `updatePeerSampler(clientId, value)` (`peer-piano-manager.js` lines 288-293). -/
def updatePeerSampler (clientId : String) (value : Bool) (s : PeerState) : PeerState :=
  match assocGet clientId s.peerPianos with
  | none => s
  | some peerPiano =>
    { s with
      peerPianos := assocSet clientId { peerPiano with useSampler := value } s.peerPianos }

end PeerPianoManager

/-! ## Peers: inbound messages and presence snapshots -/

/-- The fields of an inbound message the handler reads: `{clientId, type, note,
useSampler, value}`; `useSampler` may be missing. -/
structure RoomMessage where
  clientId : String
  type : String
  note : String
  useSampler : Option Bool
  value : Scalar
  deriving DecidableEq

/-- The presence of one participant: each field may be `undefined`. -/
structure Presence where
  volumeValue : Option Scalar
  useSampler : Option Bool
  distortionValue : Option Scalar
  reverbValue : Option Scalar
  delayValue : Option Scalar
  deriving DecidableEq

/-- The constants `MIN_DB` and `MAX_DB` of `piano-core.js` lines 158-159. -/
def MIN_DB : Scalar := -12

/-- See `MIN_DB`. -/
def MAX_DB : Scalar := 12

/-- `calculateSliderFromVolume(dbValue)` of `piano-core.js` lines 166-168; the floating
point function `Math.sqrt` is a parameter. -/
def calculateSliderFromVolume (sqrt : Scalar → Scalar) (dbValue : Scalar) : Scalar :=
  sqrt ((dbValue - MIN_DB) / (MAX_DB - MIN_DB))

/-- The handler `room.onmessage` of `piano-core.js` lines 593-629, on the peer state;
`localClientId` is `room.clientId`. -/
def onmessage (localClientId : String) (data : RoomMessage) (s : PeerState) : PeerState :=
  let senderId := data.clientId
  if senderId = localClientId then s
  else if data.type = "noteOn" then
    PeerAudio.playPeerNote senderId data.note data.useSampler
      (PeerPianoManager.highlightPeerNote senderId data.note true s)
  else if data.type = "noteOff" then
    PeerAudio.stopPeerNote senderId data.note
      (PeerPianoManager.highlightPeerNote senderId data.note false s)
  else if data.type = "distortionUpdate" then
    PeerPianoManager.updatePeerEffectSlider senderId "distortion" data.value
      (PeerAudio.updatePeerSynthEffect senderId "distortion" data.value s)
  else if data.type = "reverbUpdate" then
    PeerPianoManager.updatePeerEffectSlider senderId "reverb" data.value
      (PeerAudio.updatePeerSynthEffect senderId "reverb" data.value s)
  else if data.type = "delayUpdate" then
    PeerPianoManager.updatePeerEffectSlider senderId "delay" data.value
      (PeerAudio.updatePeerSynthEffect senderId "delay" data.value s)
  else s

/-- The first block of the loop body: a participant without UI mirror gets one, and an
audio entry when it has none (`piano-core.js` lines 637-647). -/
def presenceBootstrap (clientId : String) (peerPresence : Presence) (s : PeerState) :
    PeerState :=
  if PeerPianoManager.hasPeerPiano clientId s then s
  else
    PeerAudio.createPeerSynthIfMissing clientId (peerPresence.useSampler.getD false)
      (PeerPianoManager.createPeerPiano clientId s)

/-- The block for `volumeValue` (`piano-core.js` lines 649-657). -/
def presenceVolume (sqrt : Scalar → Scalar) (clientId : String) (peerPresence : Presence)
    (s : PeerState) : PeerState :=
  match peerPresence.volumeValue with
  | some remoteVolumeValue =>
    PeerPianoManager.updatePeerEffectSlider clientId "volume"
      (calculateSliderFromVolume sqrt remoteVolumeValue)
      (PeerAudio.updatePeerVolume clientId (some none) (some remoteVolumeValue) s)
  | none => s

/-- The block for `useSampler` (`piano-core.js` lines 659-667). -/
def presenceSampler (clientId : String) (peerPresence : Presence) (s : PeerState) :
    PeerState :=
  match peerPresence.useSampler with
  | some useSampler =>
    PeerPianoManager.updatePeerSampler clientId useSampler
      (PeerAudio.setUseSampler clientId useSampler
        (PeerAudio.createPeerSynthIfMissing clientId useSampler s))
  | none => s

/-- One of the three blocks for `distortionValue`, `reverbValue` and `delayValue`
(`piano-core.js` lines 676-689), for the effect name and the field's value. -/
def presenceEffect (clientId effectName : String) (value : Option Scalar) (s : PeerState) :
    PeerState :=
  match value with
  | some v =>
    PeerPianoManager.updatePeerEffectSlider clientId effectName v
      (PeerAudio.updatePeerSynthEffect clientId effectName v s)
  | none => s

/-- The body of the first loop of the presence callback for one participant other than
the local one (`piano-core.js` lines 635-689): the blocks in source order, with
the creation guard of lines 669-674 between the `useSampler` block and the
effect blocks. -/
def presencePeer (sqrt : Scalar → Scalar) (clientId : String) (peerPresence : Presence)
    (s : PeerState) : PeerState :=
  presenceEffect clientId "delay" peerPresence.delayValue
    (presenceEffect clientId "reverb" peerPresence.reverbValue
      (presenceEffect clientId "distortion" peerPresence.distortionValue
        (PeerAudio.createPeerSynthIfMissing clientId (peerPresence.useSampler.getD false)
          (presenceSampler clientId peerPresence
            (presenceVolume sqrt clientId peerPresence
              (presenceBootstrap clientId peerPresence s))))))

/-- The body of the second loop of the presence callback for one key of `peerPianos`
(`piano-core.js` lines 693-708): a participant missing from the snapshot loses
its UI mirror and, when it has an audio entry, its six audio objects and the
entry. -/
def departPeer (presence : List (String × Presence)) (s : PeerState) (clientId : String) :
    PeerState :=
  match assocGet clientId presence with
  | some _ => s
  | none =>
    let s1 := PeerPianoManager.removePeerPiano clientId s
    match assocGet clientId s1.peerSynths with
    | none => s1
    | some peer =>
      { s1 with
        peerSynths := assocDelete clientId s1.peerSynths
        calls := s1.calls ++
          [PeerCall.dispose peer.synth, PeerCall.dispose peer.sampler,
           PeerCall.dispose peer.volumeNode, PeerCall.dispose peer.distortion,
           PeerCall.dispose peer.reverb, PeerCall.dispose peer.delay] }

/-- The first loop of the presence callback: every participant of the snapshot other
than the local one, in property order. -/
def presenceLoop (sqrt : Scalar → Scalar) (localClientId : String)
    (presence : List (String × Presence)) (s : PeerState) : PeerState :=
  presence.foldl
    (fun st entry =>
      if entry.1 = localClientId then st else presencePeer sqrt entry.1 entry.2 st)
    s

/-- The callback given to `room.subscribePresence` (`piano-core.js` lines 631-710), on the
peer state: the first loop, then the second loop over the keys `peerPianos` has
when it starts. -/
def onPresence (sqrt : Scalar → Scalar) (localClientId : String)
    (presence : List (String × Presence)) (s : PeerState) : PeerState :=
  let s1 := presenceLoop sqrt localClientId presence s
  (s1.peerPianos.map Prod.fst).foldl (departPeer presence) s1

/-- The local note state together with the peer state. -/
structure AppState where
  localState : LocalState
  peers : PeerState
  deriving DecidableEq

/-- The delivery of an inbound message: the handler reads and writes the peer state
only. -/
def deliverMessage (localClientId : String) (data : RoomMessage) (s : AppState) : AppState :=
  { s with peers := onmessage localClientId data s.peers }

/-- The delivery of a presence snapshot. -/
def deliverPresence (sqrt : Scalar → Scalar) (localClientId : String)
    (presence : List (String × Presence)) (s : AppState) : AppState :=
  { s with peers := onPresence sqrt localClientId presence s.peers }

/-! ## Peers: what a presence entry does to a peer -/

/-- The entry `createPeerSynth` stores when the handle counter is `n`. -/
def freshEntry (n : Nat) (useSampler : Bool) : PeerEntry :=
  { synth := n, sampler := n + 1, volumeNode := n + 2, muted := false,
    localVolume := some PeerAudio.DEFAULT_DB, remoteVolume := PeerAudio.DEFAULT_DB,
    distortion := n + 3, reverb := n + 4, delay := n + 5,
    useSampler := useSampler,
    distortionWet := 0, reverbWet := 0, delayWet := 0,
    volume := Level.db 0,
    synthConnected := !useSampler, samplerConnected := useSampler }

/-- The entry `createPeerPiano` stores. -/
def freshMirror : PeerPiano :=
  { activeKeys := [], activeNotes := [], animating := false,
    volumeSlider := 0, distortionSlider := 0, reverbSlider := 0, delaySlider := 0,
    useSampler := true }

/-- The six handles of an entry. -/
def PeerEntry.handles (e : PeerEntry) : List Nat :=
  [e.synth, e.sampler, e.volumeNode, e.distortion, e.reverb, e.delay]

/-- An entry after `updatePeerVolume(clientId, null, v)`: the stored volumes, and the
applied volume unless the peer is muted. -/
def volumeApplied (v : Scalar) (e : PeerEntry) : PeerEntry :=
  { e with
    localVolume := none
    remoteVolume := v
    volume := if e.muted then e.volume else Level.db v }

/-- An entry after the `volumeValue` block: nothing changes when the field is undefined
or the id is the empty string. -/
def volumeMerge (clientId : String) (value : Option Scalar) (e : PeerEntry) : PeerEntry :=
  match value with
  | some v => if clientId = "" then e else volumeApplied v e
  | none => e

/-- An entry after `setUseSampler(clientId, u)`. -/
def samplerApplied (u : Bool) (e : PeerEntry) : PeerEntry :=
  if e.useSampler = u then e
  else { e with useSampler := u, synthConnected := !u, samplerConnected := u }

/-- An entry after the `useSampler` block. -/
def samplerMerge (value : Option Bool) (e : PeerEntry) : PeerEntry :=
  match value with
  | some u => samplerApplied u e
  | none => e

/-- An entry after `updatePeerSynthEffect(clientId, effectName, v)`. -/
def effectApplied (effectName : String) (v : Scalar) (e : PeerEntry) : PeerEntry :=
  if effectName = "distortion" then { e with distortionWet := v }
  else if effectName = "reverb" then { e with reverbWet := v }
  else if effectName = "delay" then { e with delayWet := v }
  else e

/-- An entry after one effect block. -/
def effectMerge (effectName : String) (value : Option Scalar) (e : PeerEntry) : PeerEntry :=
  match value with
  | some v => effectApplied effectName v e
  | none => e

/-- An entry after the whole loop body for one participant. -/
def mergeAudio (clientId : String) (p : Presence) (e : PeerEntry) : PeerEntry :=
  effectMerge "delay" p.delayValue
    (effectMerge "reverb" p.reverbValue
      (effectMerge "distortion" p.distortionValue
        (samplerMerge p.useSampler (volumeMerge clientId p.volumeValue e))))

/-- A UI mirror after `updatePeerEffectSlider(clientId, effect, v)`. -/
def sliderApplied (effect : String) (v : Scalar) (u : PeerPiano) : PeerPiano :=
  if effect = "volume" then { u with volumeSlider := PeerPianoManager.normalizedValue v }
  else if effect = "distortion" then
    { u with distortionSlider := PeerPianoManager.normalizedValue v }
  else if effect = "reverb" then { u with reverbSlider := PeerPianoManager.normalizedValue v }
  else if effect = "delay" then { u with delaySlider := PeerPianoManager.normalizedValue v }
  else u

/-- A UI mirror after one slider block. -/
def sliderMerge (effect : String) (value : Option Scalar) (u : PeerPiano) : PeerPiano :=
  match value with
  | some v => sliderApplied effect v u
  | none => u

/-- A UI mirror after `updatePeerSampler(clientId, b)`. -/
def mirrorSamplerApplied (b : Bool) (u : PeerPiano) : PeerPiano := { u with useSampler := b }

/-- A UI mirror after the `useSampler` block. -/
def mirrorSamplerMerge (value : Option Bool) (u : PeerPiano) : PeerPiano :=
  match value with
  | some b => mirrorSamplerApplied b u
  | none => u

/-- A UI mirror after the whole loop body for one participant. -/
def mergeMirror (sqrt : Scalar → Scalar) (p : Presence) (u : PeerPiano) : PeerPiano :=
  sliderMerge "delay" p.delayValue
    (sliderMerge "reverb" p.reverbValue
      (sliderMerge "distortion" p.distortionValue
        (mirrorSamplerMerge p.useSampler
          (sliderMerge "volume" (p.volumeValue.map (calculateSliderFromVolume sqrt)) u))))

/-- The construction and disposal calls. -/
def isLifecycle : PeerCall → Bool
  | PeerCall.construct _ _ => true
  | PeerCall.dispose _ => true
  | _ => false

/-- The disposal calls. -/
def isDispose : PeerCall → Bool
  | PeerCall.dispose _ => true
  | _ => false

/-- The construction calls. -/
def isConstruct : PeerCall → Bool
  | PeerCall.construct _ _ => true
  | _ => false

/-- The second state continues the first: its calls are those of the first followed by
calls among which none disposes, and as many construct as the handle counter
has advanced. -/
def Tracks (s t : PeerState) : Prop :=
  ∃ extra : List PeerCall, t.calls = s.calls ++ extra ∧
    (∀ c ∈ extra, isDispose c = false) ∧
    extra.countP isConstruct + s.nextHandle = t.nextHandle

/-- The update of the value stored under `id`, when there is one. -/
def assocUpdate {α : Type} (id : String) (g : α → α) (l : List (String × α)) :
    List (String × α) :=
  match assocGet id l with
  | some v => assocSet id (g v) l
  | none => l

/-! ## Peers: events and reachable states -/

/-- What can reach the peer state once the page is set up: an inbound message, a presence
snapshot, or a click on the mute button of a peer piano, which calls
`peerAudio.toggleMute(clientId, newMuteState)` (`peer-piano-manager.js` lines
192-207). -/
inductive PeerEvent where
  | message (data : RoomMessage)
  | presence (snapshot : List (String × Presence))
  | mute (clientId : String) (muteState : Bool)

/-- The effect of one event on the peer state. -/
def PeerEvent.apply (sqrt : Scalar → Scalar) (localClientId : String) (s : PeerState) :
    PeerEvent → PeerState
  | PeerEvent.message data => onmessage localClientId data s
  | PeerEvent.presence snapshot => onPresence sqrt localClientId snapshot s
  | PeerEvent.mute clientId muteState => PeerAudio.toggleMute clientId muteState s

/-- The effect of a sequence of events. -/
def runPeerEvents (sqrt : Scalar → Scalar) (localClientId : String)
    (events : List PeerEvent) (s : PeerState) : PeerState :=
  events.foldl (PeerEvent.apply sqrt localClientId) s

/-- The calls that dispose the six objects of an entry, in the order of
`piano-core.js` lines 698-701. -/
def PeerEntry.disposals (e : PeerEntry) : List PeerCall :=
  e.handles.map PeerCall.dispose

/-- The handles held by the entries of the audio registry. -/
def ownedHandles (s : PeerState) : List Nat :=
  s.peerSynths.flatMap (fun kv => kv.2.handles)

/-- No handle is held twice, and every held handle has been issued. -/
def WellFormed (s : PeerState) : Prop :=
  (ownedHandles s).Nodup ∧ ∀ h ∈ ownedHandles s, h < s.nextHandle

/-- The handle has been issued and no entry of the audio registry holds it. -/
def Retired (h : Nat) (s : PeerState) : Prop :=
  h < s.nextHandle ∧ h ∉ ownedHandles s

/-- The presence object `{}`: every field is `undefined`. -/
def Presence.empty : Presence :=
  { volumeValue := none, useSampler := none, distortionValue := none, reverbValue := none,
    delayValue := none }

/-- The second state follows the first in a run: the handle counter has not gone back;
the held handles are held handles of the first state or handles issued in
between, each of these once; and the calls are those of the first state followed
by calls that dispose only handles the first state held or handles issued in
between. -/
def Step (s t : PeerState) : Prop :=
  s.nextHandle ≤ t.nextHandle ∧
  (∃ issued : List Nat, (ownedHandles t).Sublist (ownedHandles s ++ issued) ∧ issued.Nodup ∧
    ∀ h ∈ issued, s.nextHandle ≤ h ∧ h < t.nextHandle) ∧
  ∃ extra : List PeerCall, t.calls = s.calls ++ extra ∧
    ∀ h, PeerCall.dispose h ∈ extra → h ∈ ownedHandles s ∨ s.nextHandle ≤ h

/-- The event keeps `id` in the room: a snapshot is an object (no key twice) that
contains `id`; messages and mute clicks always do. -/
def PeerEvent.Keeps (id : String) : PeerEvent → Prop
  | PeerEvent.presence snapshot => (snapshot.map Prod.fst).Nodup ∧ (assocGet id snapshot).isSome
  | _ => True

/-! ## Peers: gain and routing -/

/-- The gain stage of an entry has the stored remote volume applied whenever the entry is
not muted. -/
def PeerEntry.Synced (e : PeerEntry) : Prop :=
  e.muted = false → e.volume = Level.db e.remoteVolume

/-- Whether `source` is connected to `destination` when the calls have run, first call
first: `source.connect(destination)` makes the connection, and
`source.disconnect(destination)` or the disposal of either end removes it. -/
def isConnected (source destination : Nat) (calls : List PeerCall) : Bool :=
  calls.foldl
    (fun c call =>
      match call with
      | PeerCall.connect a b => if a = source ∧ b = destination then true else c
      | PeerCall.disconnect a b => if a = source ∧ b = destination then false else c
      | PeerCall.dispose h => if h = source ∨ h = destination then false else c
      | _ => c)
    false

/-- A call of one of the four operations of `peer-audio.js` that update a peer:
`updatePeerVolume` with a remote value, `updatePeerSynthEffect`, `setUseSampler`
and `toggleMute`. -/
inductive AudioOp where
  | volume (clientId : String) (localDbValue : Option (Option Scalar)) (remoteDbValue : Scalar)
  | effect (clientId effectName : String) (value : Scalar)
  | sampler (clientId : String) (shouldUseSampler : Bool)
  | mute (clientId : String) (muteState : Bool)

/-- The state after one call. -/
def AudioOp.apply (s : PeerState) : AudioOp → PeerState
  | AudioOp.volume clientId l r => PeerAudio.updatePeerVolume clientId l (some r) s
  | AudioOp.effect clientId effectName value =>
    PeerAudio.updatePeerSynthEffect clientId effectName value s
  | AudioOp.sampler clientId b => PeerAudio.setUseSampler clientId b s
  | AudioOp.mute clientId m => PeerAudio.toggleMute clientId m s

/-- The state after a sequence of calls, first call first. -/
def runAudioOps (ops : List AudioOp) (s : PeerState) : PeerState :=
  ops.foldl AudioOp.apply s

/-- The state `t` continues a state in which `createPeerSynth(id, …)` has just run from
`s0`: the entry of `id` holds the three handles the creation gave its two
instruments and its gain stage; among the calls issued since `s0`, the
instrument connected to that gain stage is the one the instrument flag selects,
and the two connection fields of the entry say the same; and the gain stage of
every other entry is an older handle. -/
def Routed (s0 : PeerState) (id : String) (t : PeerState) : Prop :=
  (∃ (e : PeerEntry) (C : List PeerCall),
    assocGet id t.peerSynths = some e ∧ t.calls = s0.calls ++ C ∧
    e.synth = s0.nextHandle ∧ e.sampler = s0.nextHandle + 1 ∧
    e.volumeNode = s0.nextHandle + 2 ∧
    isConnected e.sampler e.volumeNode C = e.useSampler ∧
    isConnected e.synth e.volumeNode C = !e.useSampler ∧
    e.samplerConnected = e.useSampler ∧ e.synthConnected = !e.useSampler) ∧
  ∀ k ek, k ≠ id → assocGet k t.peerSynths = some ek → ek.volumeNode < s0.nextHandle

/-! ## The local player: key remapping and runs of all operations -/

/-- The value of `String.prototype.length`: the number of UTF-16 code units. -/
def jsLength (str : String) : Nat :=
  (str.data.map (fun c => if c.toNat < 65536 then 1 else 2)).sum

/-- Whether a property name is an array index: the canonical decimal numeral of a number
below `2^32 - 1`. Such properties come first in property order, in ascending
numeric order. -/
def isArrayIndex (key : String) : Bool :=
  !key.data.isEmpty && key.data.all isDigit &&
    (decide (key = "0") || decide (key.data.head? ≠ some '0')) &&
    decide (parseDigits key.data < 4294967295)

/-- The assignment `overrideKeyboardMap[key] = note`, in property order: an existing
property keeps its place; a new array index goes after the smaller array
indices; any other new property goes last. -/
def keyboardMapSet (key note : String) (map : List (String × String)) :
    List (String × String) :=
  if (keyboardMapGet key map).isSome then
    map.map (fun kv => if kv.1 = key then (kv.1, note) else kv)
  else if isArrayIndex key then
    let smaller := map.takeWhile (fun kv =>
      isArrayIndex kv.1 && decide (parseDigits kv.1.data < parseDigits key.data))
    smaller ++ [(key, note)] ++ map.drop smaller.length
  else map ++ [(key, note)]

/-- The `contextmenu` listener of the keyboard (`octave-handling.js` lines 137-190).
`clicked` is the position of the key element the event target lies in (`none`
when it lies in none), `answer` is what `prompt` returns (`none` for `null`), and
`replace` is what `confirm` returns when it is asked. -/
def remapKey (clicked : Option Nat) (answer : Option String) (replace : Bool)
    (s : LocalState) : LocalState :=
  match clicked.bind (fun i => s.keys[i]?) with
  | none => s
  | some clickedKeyElement =>
    match clickedKeyElement.originalNote with
    | none => s
    | some originalPhysicalNote =>
      if originalPhysicalNote = "" then s
      else
        let currentMapping :=
          (assignedKeyboardKey s.overrideKeyboardMap originalPhysicalNote).filter
            (fun key => key ≠ "")
        match answer with
        | none => s
        | some newKeyStr =>
          if newKeyStr = "" then
            match currentMapping with
            | some key =>
              updateKeyLabels
                { s with overrideKeyboardMap := assocDelete key s.overrideKeyboardMap }
            | none => s
          else if jsLength newKeyStr = 1 then
            let newKey := toLowerCase newKeyStr
            let taken (map : List (String × String)) : Bool :=
              match keyboardMapGet newKey map with
              | some existing => existing ≠ "" && existing ≠ originalPhysicalNote
              | none => false
            if taken s.overrideKeyboardMap && !replace then s
            else
              let map1 :=
                match currentMapping with
                | some key => assocDelete key s.overrideKeyboardMap
                | none => s.overrideKeyboardMap
              let map2 := if taken map1 then assocDelete newKey map1 else map1
              updateKeyLabels
                { s with overrideKeyboardMap := keyboardMapSet newKey originalPhysicalNote map2 }
          else s

/-- A call that reaches the local note state: an input call, one of the three operations
of the octave controller (`shiftOctave` with the bounds of the page), a key
remapping, or a click on the sound toggle. -/
inductive PlayerOp
  | input (op : InputOp)
  | shiftOctave (offset : Int)
  | transposeKey (semitones : Int)
  | setCurrentOctaveOffset (offset : Int)
  | remap (clicked : Option Nat) (answer : Option String) (replace : Bool)
  | useSampler (usesSampler : Bool)

/-- The state after one call. -/
def PlayerOp.apply : PlayerOp → LocalState → LocalState
  | PlayerOp.input op, s => op.apply s
  | PlayerOp.shiftOctave offset, s => Piano.shiftOctave MIN_OCTAVE MAX_OCTAVE offset s
  | PlayerOp.transposeKey semitones, s => Piano.transposeKey semitones s
  | PlayerOp.setCurrentOctaveOffset offset, s => Piano.setCurrentOctaveOffset offset s
  | PlayerOp.remap clicked answer replace, s => remapKey clicked answer replace s
  | PlayerOp.useSampler b, s => Piano.setUseSampler b s

/-- The state after a sequence of calls, first call first. -/
def runPlayerOps (ops : List PlayerOp) (s : LocalState) : LocalState :=
  ops.foldl (fun st op => op.apply st) s

/-- The note `N` is in the Active Note Set before each call of the sequence and after the
last one. -/
def StaysActive (N : String) : List PlayerOp → LocalState → Prop
  | [], s => N ∈ s.activeSoundingNotes
  | op :: ops, s => N ∈ s.activeSoundingNotes ∧ StaysActive N ops (op.apply s)

/-- The note `updateKeyLabels` displays on a key of original note `originalNote` at the
given octave offset and transposition (`octave-handling.js` lines 82-90). -/
def displayedNote (offset transposition : Int) (originalNote : String) : String :=
  let parts := splitAtDigits originalNote.data
  let baseOctave : Option Int := parts.2.map (fun ds => (parseDigits ds : Int))
  let newOctaveNum : Option Int := baseOctave.map (fun b => b + offset)
  transposeNote (String.mk parts.1 ++ numberOrNaNToString newOctaveNum) transposition

/-- The `data-original-note` and `data-note` attributes of the keys, in order. -/
def noteView (s : LocalState) : List (Option String × String) :=
  s.keys.map (fun k => (k.originalNote, k.note))

/-- Every key has a non-empty `data-original-note`, and its `data-note` is the note
`updateKeyLabels` displays for it at the current octave offset and
transposition: the state of the keys when `updateKeyLabels` has run. -/
def Labelled (s : LocalState) : Prop :=
  ∀ p ∈ noteView s, p.1.getD "" ≠ "" ∧
    p.2 = displayedNote s.currentOctaveOffset s.currentTransposition (p.1.getD "")

instance (s : LocalState) : Decidable (Labelled s) := by
  unfold Labelled; infer_instance

/-! ## Single calls: `activateKey`, `deactivateKey` -/

theorem activateKey_of_active (i : Nat) (s : LocalState) (k : KeyElement)
    (hk : s.keys[i]? = some k) (h : k.trackedNote ∈ s.activeSoundingNotes) :
    activateKey i s = s := by
  simp [activateKey, hk, h]

theorem activateKey_of_idle (i : Nat) (s : LocalState) (k : KeyElement)
    (hk : s.keys[i]? = some k) (h : k.trackedNote ∉ s.activeSoundingNotes) :
    activateKey i s =
      { s with
        keys := s.keys.set i { k with active := true }
        activeSoundingNotes := s.activeSoundingNotes ++ [k.trackedNote]
        log := s.log ++
          [Effect.triggerAttack s.currentInstrument k.note,
           Effect.send
            { type := "noteOn", note := k.note,
              useSampler := decide (s.currentInstrument = Instrument.sampler) }] } := by
  simp [activateKey, hk, h, addActiveNote]

theorem deactivateKey_of_idle (i : Nat) (s : LocalState) (k : KeyElement)
    (hk : s.keys[i]? = some k) (h : k.trackedNote ∉ s.activeSoundingNotes) :
    deactivateKey i s = s := by
  simp [deactivateKey, hk, h]

theorem deactivateKey_of_active (i : Nat) (s : LocalState) (k : KeyElement)
    (hk : s.keys[i]? = some k) (h : k.trackedNote ∈ s.activeSoundingNotes) :
    deactivateKey i s =
      if s.sustainActive then
        { s with
          keys := s.keys.set i { k with active := false }
          activeSoundingNotes := s.activeSoundingNotes.filter (fun n => n ≠ k.trackedNote)
          sustainedNotes := s.sustainedNotes ++ [k.note] }
      else
        { s with
          keys := s.keys.set i { k with active := false }
          activeSoundingNotes := s.activeSoundingNotes.filter (fun n => n ≠ k.trackedNote)
          log := s.log ++
            [Effect.triggerRelease s.currentInstrument k.note,
             Effect.send
              { type := "noteOff", note := k.note,
                useSampler := decide (s.currentInstrument = Instrument.sampler) }] } := by
  simp [deactivateKey, hk, h, removeActiveNote]

/-! ## List lemmas -/

theorem map_set_of_eq {α β : Type} (f : α → β) (l : List α) (i : Nat) (k k' : α)
    (h : l[i]? = some k) (hf : f k' = f k) : (l.set i k').map f = l.map f := by
  induction l generalizing i with
  | nil => simp
  | cons a t ih =>
    cases i with
    | zero =>
      simp at h
      subst h
      simp [hf]
    | succ j =>
      simp at h
      simp [ih j h]

theorem countP_set_of_eq {α : Type} (p : α → Bool) (l : List α) (i : Nat) (k k' : α)
    (h : l[i]? = some k) (hp : p k' = p k) : (l.set i k').countP p = l.countP p := by
  induction l generalizing i with
  | nil => simp
  | cons a t ih =>
    cases i with
    | zero =>
      simp at h
      subst h
      simp [List.countP_cons, hp]
    | succ j =>
      simp at h
      simp [List.countP_cons, ih j h]

theorem countP_change_one {α : Type} (l : List α) (hnd : l.Nodup) (k0 : α) (hk0 : k0 ∈ l)
    (P Q : α → Bool) (hsame : ∀ k ∈ l, k ≠ k0 → Q k = P k) :
    l.countP Q + (if P k0 then 1 else 0) = l.countP P + (if Q k0 then 1 else 0) := by
  induction l with
  | nil => simp at hk0
  | cons a t ih =>
    rw [List.nodup_cons] at hnd
    by_cases hak : a = k0
    · subst hak
      have htail : t.countP Q = t.countP P := by
        apply List.countP_congr
        intro k hk
        have hne : k ≠ a := fun h => hnd.1 (h ▸ hk)
        rw [hsame k (List.mem_cons_of_mem _ hk) hne]
      simp only [List.countP_cons, htail]
      omega
    · have hk0t : k0 ∈ t := by
        rcases List.mem_cons.1 hk0 with h | h
        · exact absurd h.symm hak
        · exact h
      have ih' := ih hnd.2 hk0t (fun k hk hne => hsame k (List.mem_cons_of_mem _ hk) hne)
      have ha : Q a = P a := hsame a (List.mem_cons_self _ _) hak
      simp only [List.countP_cons, ha]
      omega

/-! ## Counting the held keys -/

theorem trackedNote_setActive (k : KeyElement) (b : Bool) :
    ({ k with active := b } : KeyElement).trackedNote = k.trackedNote := rfl

theorem heldCount_set (S : String) (s : LocalState) (i : Nat) (k : KeyElement) (b : Bool)
    (act : List String) (hk : s.keys[i]? = some k) :
    (s.keys.set i { k with active := b }).countP
        (fun x => decide (x.trackedNote ∈ act) && x.note == S) =
      s.keys.countP (fun x => decide (x.trackedNote ∈ act) && x.note == S) :=
  countP_set_of_eq _ _ _ _ _ hk (by simp [trackedNote_setActive])

theorem tracked_ne_of_ne (s : LocalState) (hd : (s.keys.map KeyElement.trackedNote).Nodup)
    (k x : KeyElement) (hk : k ∈ s.keys) (hx : x ∈ s.keys) (hne : x ≠ k) :
    x.trackedNote ≠ k.trackedNote :=
  fun h => hne (List.inj_on_of_nodup_map hd hx hk h)

theorem countP_held_add (S : String) (s : LocalState) (i : Nat) (k : KeyElement)
    (hk : s.keys[i]? = some k) (hd : (s.keys.map KeyElement.trackedNote).Nodup)
    (h : k.trackedNote ∉ s.activeSoundingNotes) :
    s.keys.countP
        (fun x => decide (x.trackedNote ∈ s.activeSoundingNotes ++ [k.trackedNote]) && x.note == S) =
      heldCount S s + (if k.note = S then 1 else 0) := by
  have hmem : k ∈ s.keys := List.getElem?_mem hk
  have key := countP_change_one s.keys hd.of_map k hmem
    (fun x => decide (x.trackedNote ∈ s.activeSoundingNotes) && x.note == S)
    (fun x => decide (x.trackedNote ∈ s.activeSoundingNotes ++ [k.trackedNote]) && x.note == S)
    (by
      intro x hx hne
      have := tracked_ne_of_ne s hd k x hmem hx hne
      simp [this])
  simp [h] at key
  simpa [heldCount] using key

theorem countP_held_sub (S : String) (s : LocalState) (i : Nat) (k : KeyElement)
    (hk : s.keys[i]? = some k) (hd : (s.keys.map KeyElement.trackedNote).Nodup)
    (h : k.trackedNote ∈ s.activeSoundingNotes) :
    s.keys.countP
        (fun x => decide (x.trackedNote ∈ s.activeSoundingNotes.filter (fun n => n ≠ k.trackedNote))
          && x.note == S) + (if k.note = S then 1 else 0) =
      heldCount S s := by
  have hmem : k ∈ s.keys := List.getElem?_mem hk
  have key := countP_change_one s.keys hd.of_map k hmem
    (fun x => decide (x.trackedNote ∈ s.activeSoundingNotes) && x.note == S)
    (fun x => decide (x.trackedNote ∈ s.activeSoundingNotes.filter (fun n => n ≠ k.trackedNote))
      && x.note == S)
    (by
      intro x hx hne
      have := tracked_ne_of_ne s hd k x hmem hx hne
      simp [this])
  simp [h] at key
  simpa [heldCount] using key

/-! ## The balance invariant of the local reconciler -/

theorem distinctKeys_set (s : LocalState) (i : Nat) (k : KeyElement) (b : Bool)
    (hk : s.keys[i]? = some k) (hd : DistinctKeys s) (s' : LocalState)
    (hs' : s'.keys = s.keys.set i { k with active := b }) : DistinctKeys s' := by
  unfold DistinctKeys at *
  rw [hs', map_set_of_eq _ _ _ _ _ hk (trackedNote_setActive k b),
    map_set_of_eq KeyElement.note _ _ k { k with active := b } hk rfl]
  exact hd

theorem distinctKeys_activateKey (i : Nat) (s : LocalState) (hd : DistinctKeys s) :
    DistinctKeys (activateKey i s) := by
  cases hk : s.keys[i]? with
  | none => simpa [activateKey, hk] using hd
  | some k =>
    by_cases h : k.trackedNote ∈ s.activeSoundingNotes
    · rw [activateKey_of_active i s k hk h]; exact hd
    · exact distinctKeys_set s i k true hk hd _ (by rw [activateKey_of_idle i s k hk h])

theorem distinctKeys_deactivateKey (i : Nat) (s : LocalState) (hd : DistinctKeys s) :
    DistinctKeys (deactivateKey i s) := by
  cases hk : s.keys[i]? with
  | none => simpa [deactivateKey, hk] using hd
  | some k =>
    by_cases h : k.trackedNote ∈ s.activeSoundingNotes
    · refine distinctKeys_set s i k false hk hd _ ?_
      rw [deactivateKey_of_active i s k hk h]
      split <;> rfl
    · rw [deactivateKey_of_idle i s k hk h]; exact hd

theorem foldl_releaseSustained (l : List String) (s : LocalState) :
    l.foldl releaseSustained s =
      { s with
        log := s.log ++ l.flatMap (fun note =>
          [Effect.triggerRelease s.currentInstrument note,
           Effect.send
            { type := "noteOff", note := note,
              useSampler := decide (s.currentInstrument = Instrument.sampler) }]) } := by
  induction l generalizing s with
  | nil => simp
  | cons n t ih =>
    rw [List.foldl_cons, ih]
    simp [releaseSustained]

theorem setSustainState_true (s : LocalState) :
    setSustainState true s = { s with sustainActive := true } := by
  simp [setSustainState]

theorem setSustainState_false (s : LocalState) :
    setSustainState false s =
      { s with
        sustainActive := false
        sustainedNotes := []
        log := s.log ++ s.sustainedNotes.flatMap (fun note =>
          [Effect.triggerRelease s.currentInstrument note,
           Effect.send
            { type := "noteOff", note := note,
              useSampler := decide (s.currentInstrument = Instrument.sampler) }]) } := by
  simp [setSustainState, foldl_releaseSustained]

theorem distinctKeys_setSustainState (b : Bool) (s : LocalState) (hd : DistinctKeys s) :
    DistinctKeys (setSustainState b s) := by
  cases b
  · rw [setSustainState_false]; exact hd
  · rw [setSustainState_true]; exact hd

theorem counts_flatMap_release (S : String) (c : Instrument) (u : Bool) (l : List String) :
    attackCount S (l.flatMap (fun note =>
        [Effect.triggerRelease c note,
         Effect.send { type := "noteOff", note := note, useSampler := u }])) = 0 ∧
    releaseCount S (l.flatMap (fun note =>
        [Effect.triggerRelease c note,
         Effect.send { type := "noteOff", note := note, useSampler := u }])) = l.count S ∧
    noteOnCount S (l.flatMap (fun note =>
        [Effect.triggerRelease c note,
         Effect.send { type := "noteOff", note := note, useSampler := u }])) = 0 ∧
    noteOffCount S (l.flatMap (fun note =>
        [Effect.triggerRelease c note,
         Effect.send { type := "noteOff", note := note, useSampler := u }])) = l.count S := by
  induction l with
  | nil => simp [attackCount, releaseCount, noteOnCount, noteOffCount]
  | cons n t ih =>
    obtain ⟨h1, h2, h3, h4⟩ := ih
    simp only [attackCount, releaseCount, noteOnCount, noteOffCount] at h1 h2 h3 h4 ⊢
    simp only [List.flatMap_cons, List.countP_append, h1, h2, h3, h4, List.count_cons]
    simp [List.countP_cons, isAttackOf, isReleaseOf, isNoteOnOf, isNoteOffOf]
    omega

theorem balanced_activateKey (i : Nat) (s : LocalState) (hd : DistinctKeys s)
    (hb : Balanced s) : Balanced (activateKey i s) := by
  cases hk : s.keys[i]? with
  | none => simpa [activateKey, hk] using hb
  | some k =>
    by_cases h : k.trackedNote ∈ s.activeSoundingNotes
    · rw [activateKey_of_active i s k hk h]; exact hb
    · intro S
      obtain ⟨h1, h2⟩ := hb S
      have hc := countP_held_add S s i k hk hd.1 h
      rw [activateKey_of_idle i s k hk h]
      simp only [heldCount, heldCount_set, hk, hc, attackCount, releaseCount, noteOnCount,
        noteOffCount, List.countP_append] at h1 h2 ⊢
      by_cases hS : k.note = S <;>
        simp [List.countP_cons, isAttackOf, isReleaseOf, isNoteOnOf, isNoteOffOf, hS] <;>
        omega

theorem balanced_deactivateKey (i : Nat) (s : LocalState) (hd : DistinctKeys s)
    (hb : Balanced s) : Balanced (deactivateKey i s) := by
  cases hk : s.keys[i]? with
  | none => simpa [deactivateKey, hk] using hb
  | some k =>
    by_cases h : k.trackedNote ∈ s.activeSoundingNotes
    · intro S
      obtain ⟨h1, h2⟩ := hb S
      have hc := countP_held_sub S s i k hk hd.1 h
      rw [deactivateKey_of_active i s k hk h]
      generalize heldCount S s = H at h1 h2 hc
      cases hsus : s.sustainActive <;>
        simp only [heldCount, heldCount_set, hk, attackCount, releaseCount, noteOnCount,
          noteOffCount, List.countP_append, List.count_append, if_true, if_false,
          Bool.false_eq_true] at h1 h2 ⊢ <;>
        generalize List.countP _ s.keys = X at hc ⊢ <;>
        by_cases hS : k.note = S <;>
        simp [List.countP_cons, List.count_cons, isAttackOf, isReleaseOf, isNoteOnOf,
          isNoteOffOf, hS] at hc ⊢ <;>
        omega
    · rw [deactivateKey_of_idle i s k hk h]; exact hb

theorem balanced_setSustainState (b : Bool) (s : LocalState) (hb : Balanced s) :
    Balanced (setSustainState b s) := by
  cases b
  · intro S
    obtain ⟨h1, h2⟩ := hb S
    obtain ⟨c1, c2, c3, c4⟩ := counts_flatMap_release S s.currentInstrument
      (decide (s.currentInstrument = Instrument.sampler)) s.sustainedNotes
    rw [setSustainState_false]
    simp only [heldCount, attackCount, releaseCount, noteOnCount, noteOffCount,
      List.countP_append] at h1 h2 c1 c2 c3 c4 ⊢
    simp only [c1, c2, c3, c4, List.count_nil]
    omega
  · rw [setSustainState_true]; exact hb

theorem invariant_runLocalOps (ops : List LocalOp) (s : LocalState)
    (hd : DistinctKeys s) (hb : Balanced s) :
    DistinctKeys (runLocalOps ops s) ∧ Balanced (runLocalOps ops s) := by
  induction ops generalizing s with
  | nil => exact ⟨hd, hb⟩
  | cons op t ih =>
    simp only [runLocalOps, List.foldl_cons]
    apply ih
    · cases op with
      | key kop =>
        cases kop with
        | activate i => exact distinctKeys_activateKey i s hd
        | deactivate i => exact distinctKeys_deactivateKey i s hd
      | sustain b => exact distinctKeys_setSustainState b s hd
    · cases op with
      | key kop =>
        cases kop with
        | activate i => exact balanced_activateKey i s hd hb
        | deactivate i => exact balanced_deactivateKey i s hd hb
      | sustain b => exact balanced_setSustainState b s hb

theorem balanced_of_empty (s : LocalState) (hact : s.activeSoundingNotes = [])
    (hsus : s.sustainedNotes = []) (hlog : s.log = []) : Balanced s := by
  intro S
  simp [attackCount, releaseCount, noteOnCount, noteOffCount, heldCount, hact, hsus, hlog]

theorem heldCount_le_one (S : String) (s : LocalState) (hd : DistinctKeys s) :
    heldCount S s ≤ 1 := by
  have h1 : heldCount S s ≤ s.keys.countP (fun x => x.note == S) := by
    unfold heldCount
    apply List.countP_mono_left
    intro x _ hx
    simp only [Bool.and_eq_true] at hx
    exact hx.2
  have h2 : s.keys.countP (fun x => x.note == S) = (s.keys.map KeyElement.note).count S := by
    rw [List.count, List.countP_map]
    rfl
  have h3 := List.nodup_iff_count_le_one.1 hd.2 S
  omega

theorem heldCount_key (s : LocalState) (hd : DistinctKeys s) (k : KeyElement)
    (hk : k ∈ s.keys) :
    heldCount k.note s = if k.trackedNote ∈ s.activeSoundingNotes then 1 else 0 := by
  have key := countP_change_one s.keys hd.2.of_map k hk (fun _ => false)
    (fun x => decide (x.trackedNote ∈ s.activeSoundingNotes) && x.note == k.note)
    (by
      intro x hx hne
      have hn : x.note ≠ k.note := fun h => hne (List.inj_on_of_nodup_map hd.2 hx hk h)
      simp [hn])
  simp only [Bool.false_eq_true, if_false, Nat.add_zero, List.countP_false] at key
  unfold heldCount
  by_cases h : k.trackedNote ∈ s.activeSoundingNotes
  · rw [if_pos (by simp [h])] at key
    rw [if_pos h, key]
    rfl
  · rw [if_neg (by simp [h])] at key
    rw [if_neg h, key]
    rfl

theorem runKeyOps_eq_runLocalOps (ops : List KeyOp) (s : LocalState) :
    runKeyOps ops s = runLocalOps (ops.map LocalOp.key) s := by
  induction ops generalizing s with
  | nil => rfl
  | cons op t ih =>
    simp only [runKeyOps, runLocalOps, List.foldl_cons, List.map_cons] at ih ⊢
    rw [ih]
    rfl

theorem sustain_off_activateKey (i : Nat) (s : LocalState) :
    (activateKey i s).sustainActive = s.sustainActive ∧
      (activateKey i s).sustainedNotes = s.sustainedNotes := by
  cases hk : s.keys[i]? with
  | none => simp [activateKey, hk]
  | some k =>
    by_cases h : k.trackedNote ∈ s.activeSoundingNotes
    · rw [activateKey_of_active i s k hk h]; exact ⟨rfl, rfl⟩
    · rw [activateKey_of_idle i s k hk h]; exact ⟨rfl, rfl⟩

theorem sustain_off_deactivateKey (i : Nat) (s : LocalState) (hoff : s.sustainActive = false) :
    (deactivateKey i s).sustainActive = false ∧
      (deactivateKey i s).sustainedNotes = s.sustainedNotes := by
  cases hk : s.keys[i]? with
  | none => simp [deactivateKey, hk, hoff]
  | some k =>
    by_cases h : k.trackedNote ∈ s.activeSoundingNotes
    · rw [deactivateKey_of_active i s k hk h]; simp [hoff]
    · rw [deactivateKey_of_idle i s k hk h]; exact ⟨hoff, rfl⟩

theorem sustain_off_runKeyOps (ops : List KeyOp) (s : LocalState)
    (hoff : s.sustainActive = false) :
    (runKeyOps ops s).sustainActive = false ∧
      (runKeyOps ops s).sustainedNotes = s.sustainedNotes := by
  induction ops generalizing s with
  | nil => exact ⟨hoff, rfl⟩
  | cons op t ih =>
    simp only [runKeyOps, List.foldl_cons] at ih ⊢
    cases op with
    | activate i =>
      have h := sustain_off_activateKey i s
      have h' := ih (activateKey i s) (h.1.trans hoff)
      exact ⟨h'.1, h'.2.trans h.2⟩
    | deactivate i =>
      have h := sustain_off_deactivateKey i s hoff
      have h' := ih (deactivateKey i s) h.1
      exact ⟨h'.1, h'.2.trans h.2⟩

/-! ## Claims on sequences of calls -/

/-- C1: from a state with no active note, sustain off, an empty deferred list and
an empty log, on a keyboard whose keys are told apart by their original and by
their displayed notes (such as the keyboard `setupPiano` builds), after any
sequence of `activateKey` / `deactivateKey` calls and for every key: the number
of `triggerAttack` calls for the key's sounding note minus the number of
`triggerRelease` calls for it is 0 or 1, and it is 1 exactly when the key's
original note is in the Active Note Set. -/
theorem attack_release_balance_keyOps (s0 : LocalState) (hd : DistinctKeys s0)
    (hact : s0.activeSoundingNotes = []) (hoff : s0.sustainActive = false)
    (hsus : s0.sustainedNotes = []) (hlog : s0.log = [])
    (ops : List KeyOp) (k : KeyElement) (hk : k ∈ (runKeyOps ops s0).keys) :
    (((attackCount k.note (runKeyOps ops s0).log : Int)
        - releaseCount k.note (runKeyOps ops s0).log = 0) ∨
      ((attackCount k.note (runKeyOps ops s0).log : Int)
        - releaseCount k.note (runKeyOps ops s0).log = 1)) ∧
    (((attackCount k.note (runKeyOps ops s0).log : Int)
        - releaseCount k.note (runKeyOps ops s0).log = 1) ↔
      k.trackedNote ∈ (runKeyOps ops s0).activeSoundingNotes) := by
  have hinv := invariant_runLocalOps (ops.map LocalOp.key) s0 hd
    (balanced_of_empty s0 hact hsus hlog)
  rw [← runKeyOps_eq_runLocalOps] at hinv
  have hq := sustain_off_runKeyOps ops s0 hoff
  have hb := (hinv.2 k.note).1
  rw [hq.2, hsus, heldCount_key _ hinv.1 k hk] at hb
  by_cases h : k.trackedNote ∈ (runKeyOps ops s0).activeSoundingNotes
  · simp only [h, if_true, List.count_nil] at hb
    simp only [h, iff_true]
    omega
  · simp only [h, if_false, List.count_nil] at hb
    simp only [h, iff_false]
    omega

/-- Witness for C1: the keyboard of `setupPiano`, one press of its first key. -/
theorem attack_release_balance_keyOps_witness :
    (((attackCount "C3" (runKeyOps [KeyOp.activate 0] initialState).log : Int)
        - releaseCount "C3" (runKeyOps [KeyOp.activate 0] initialState).log = 0) ∨
      ((attackCount "C3" (runKeyOps [KeyOp.activate 0] initialState).log : Int)
        - releaseCount "C3" (runKeyOps [KeyOp.activate 0] initialState).log = 1)) ∧
    (((attackCount "C3" (runKeyOps [KeyOp.activate 0] initialState).log : Int)
        - releaseCount "C3" (runKeyOps [KeyOp.activate 0] initialState).log = 1) ↔
      "C3" ∈ (runKeyOps [KeyOp.activate 0] initialState).activeSoundingNotes) :=
  attack_release_balance_keyOps initialState (by decide) (by decide) (by decide) (by decide)
    (by decide) [KeyOp.activate 0]
    { originalNote := some "C3", note := "C3", active := true, keyLabel := "A\r\nC3" }
    (@List.getElem?_mem KeyElement _ 0 _ (by decide))

/-- C2, counterexample: on the keyboard of `setupPiano`, sustain on, then the first key
pressed, released and pressed again: `triggerAttack("C3")` has been called twice and
`triggerRelease("C3")` never, and two `noteOn` messages for `"C3"` face no `noteOff`. -/
theorem attack_excess_under_sustain :
    ¬ (attackCount "C3" (runLocalOps
          [LocalOp.sustain true, LocalOp.key (KeyOp.activate 0),
           LocalOp.key (KeyOp.deactivate 0), LocalOp.key (KeyOp.activate 0)]
          initialState).log
        ≤ releaseCount "C3" (runLocalOps
          [LocalOp.sustain true, LocalOp.key (KeyOp.activate 0),
           LocalOp.key (KeyOp.deactivate 0), LocalOp.key (KeyOp.activate 0)]
          initialState).log + 1) ∧
    ¬ (noteOnCount "C3" (runLocalOps
          [LocalOp.sustain true, LocalOp.key (KeyOp.activate 0),
           LocalOp.key (KeyOp.deactivate 0), LocalOp.key (KeyOp.activate 0)]
          initialState).log
        ≤ noteOffCount "C3" (runLocalOps
          [LocalOp.sustain true, LocalOp.key (KeyOp.activate 0),
           LocalOp.key (KeyOp.deactivate 0), LocalOp.key (KeyOp.activate 0)]
          initialState).log + 1) := by
  decide

/-- C2, amended: from a state with no active note, an empty deferred list and an empty
log, on a keyboard with distinct keys, after any sequence of `activateKey`,
`deactivateKey` and `setSustainState` calls and for every note `S`: the
`triggerAttack(S)` calls are the `triggerRelease(S)` calls, plus the held keys that
sound `S` (at most one), plus the entries of `S` in the deferred list; the same
holds of the `noteOn` and `noteOff` messages. So the excess of attacks over
releases is at most 1 whenever `S` is not in the deferred list. -/
theorem attack_release_balance_localOps (s0 : LocalState) (hd : DistinctKeys s0)
    (hact : s0.activeSoundingNotes = []) (hsus : s0.sustainedNotes = [])
    (hlog : s0.log = []) (ops : List LocalOp) (S : String) :
    attackCount S (runLocalOps ops s0).log =
      releaseCount S (runLocalOps ops s0).log + heldCount S (runLocalOps ops s0)
        + (runLocalOps ops s0).sustainedNotes.count S ∧
    noteOnCount S (runLocalOps ops s0).log =
      noteOffCount S (runLocalOps ops s0).log + heldCount S (runLocalOps ops s0)
        + (runLocalOps ops s0).sustainedNotes.count S ∧
    heldCount S (runLocalOps ops s0) ≤ 1 ∧
    (S ∉ (runLocalOps ops s0).sustainedNotes →
      attackCount S (runLocalOps ops s0).log ≤ releaseCount S (runLocalOps ops s0).log + 1 ∧
      noteOnCount S (runLocalOps ops s0).log ≤ noteOffCount S (runLocalOps ops s0).log + 1) := by
  have hinv := invariant_runLocalOps ops s0 hd (balanced_of_empty s0 hact hsus hlog)
  have hle := heldCount_le_one S _ hinv.1
  obtain ⟨h1, h2⟩ := hinv.2 S
  refine ⟨h1, h2, hle, ?_⟩
  intro hS
  rw [List.count_eq_zero_of_not_mem hS] at h1 h2
  omega

/-- Witness for the amended C2: the keyboard of `setupPiano`; a key pressed and released
under sustain, and sustain released. -/
theorem attack_release_balance_localOps_witness :
    attackCount "C3" (runLocalOps [LocalOp.sustain true, LocalOp.key (KeyOp.activate 0),
        LocalOp.key (KeyOp.deactivate 0), LocalOp.sustain false] initialState).log ≤
      releaseCount "C3" (runLocalOps [LocalOp.sustain true, LocalOp.key (KeyOp.activate 0),
        LocalOp.key (KeyOp.deactivate 0), LocalOp.sustain false] initialState).log + 1 ∧
    noteOnCount "C3" (runLocalOps [LocalOp.sustain true, LocalOp.key (KeyOp.activate 0),
        LocalOp.key (KeyOp.deactivate 0), LocalOp.sustain false] initialState).log ≤
      noteOffCount "C3" (runLocalOps [LocalOp.sustain true, LocalOp.key (KeyOp.activate 0),
        LocalOp.key (KeyOp.deactivate 0), LocalOp.sustain false] initialState).log + 1 :=
  (attack_release_balance_localOps initialState (by decide) (by decide) (by decide)
    (by decide) [LocalOp.sustain true, LocalOp.key (KeyOp.activate 0),
        LocalOp.key (KeyOp.deactivate 0), LocalOp.sustain false] "C3").2.2.2 (by decide)

/-! ## Claims on single calls -/

theorem getElem?_set_self_some {α : Type} (l : List α) (i : Nat) (k k' : α)
    (h : l[i]? = some k) : (l.set i k')[i]? = some k' := by
  have hlt : i < l.length := by
    by_contra hge
    rw [List.getElem?_eq_none (by omega)] at h
    cases h
  simp [List.getElem?_set, hlt]

theorem activateKey_idem (i : Nat) (s : LocalState) :
    activateKey i (activateKey i s) = activateKey i s := by
  cases hk : s.keys[i]? with
  | none => simp [activateKey, hk]
  | some k =>
    by_cases h : k.trackedNote ∈ s.activeSoundingNotes
    · rw [activateKey_of_active i s k hk h, activateKey_of_active i s k hk h]
    · rw [activateKey_of_idle i s k hk h]
      exact activateKey_of_active i _ { k with active := true }
        (getElem?_set_self_some _ _ _ _ hk) (by simp [trackedNote_setActive])

/-- C8: for a key with original note `N` and displayed note `S`, when `N` is in the
Active Note Set `activateKey` returns the state unchanged (log included);
otherwise it appends exactly `triggerAttack(S)` and the message
`{type: 'noteOn', note: S, useSampler: currentInstrument === sampler}` to the log,
appends `N` to the Active Note Set, marks the key active and changes nothing
else. A second `activateKey` on the same key changes nothing. -/
theorem activateKey_spec (i : Nat) (s : LocalState) (k : KeyElement)
    (hk : s.keys[i]? = some k) :
    (k.trackedNote ∈ s.activeSoundingNotes → activateKey i s = s) ∧
    (k.trackedNote ∉ s.activeSoundingNotes →
      (activateKey i s).log = s.log ++
        [Effect.triggerAttack s.currentInstrument k.note,
         Effect.send
          { type := "noteOn", note := k.note,
            useSampler := decide (s.currentInstrument = Instrument.sampler) }] ∧
      (activateKey i s).activeSoundingNotes = s.activeSoundingNotes ++ [k.trackedNote] ∧
      (∀ n, n ∈ (activateKey i s).activeSoundingNotes ↔
        n ∈ s.activeSoundingNotes ∨ n = k.trackedNote) ∧
      (activateKey i s).keys = s.keys.set i { k with active := true } ∧
      (activateKey i s).sustainActive = s.sustainActive ∧
      (activateKey i s).sustainedNotes = s.sustainedNotes ∧
      (activateKey i s).currentOctaveOffset = s.currentOctaveOffset ∧
      (activateKey i s).currentTransposition = s.currentTransposition ∧
      (activateKey i s).currentInstrument = s.currentInstrument) ∧
    activateKey i (activateKey i s) = activateKey i s := by
  refine ⟨activateKey_of_active i s k hk, ?_, activateKey_idem i s⟩
  intro h
  rw [activateKey_of_idle i s k hk h]
  simp

/-- Witness for C8: the first key of the keyboard of `setupPiano`, idle and then held. -/
theorem activateKey_spec_witness :
    (activateKey 0 initialState).log =
      [Effect.triggerAttack Instrument.sampler "C3",
       Effect.send { type := "noteOn", note := "C3", useSampler := true }] ∧
    activateKey 0 (activateKey 0 initialState) = activateKey 0 initialState ∧
    activateKey 0 (setSustainState true (activateKey 0 initialState)) =
      setSustainState true (activateKey 0 initialState) :=
  ⟨((activateKey_spec 0 initialState
      { originalNote := some "C3", note := "C3", active := false, keyLabel := "A\r\nC3" }
      (by decide)).2.1 (by decide)).1,
   (activateKey_spec 0 initialState
      { originalNote := some "C3", note := "C3", active := false, keyLabel := "A\r\nC3" }
      (by decide)).2.2,
   (activateKey_spec 0 (setSustainState true (activateKey 0 initialState))
      { originalNote := some "C3", note := "C3", active := true, keyLabel := "A\r\nC3" }
      (by decide)).1 (by decide)⟩

/-- C9: for a key with original note `N` and displayed note `S`, when `N` is not in the
Active Note Set `deactivateKey` returns the state unchanged; otherwise it removes
`N` from the set and, with sustain inactive, appends exactly `triggerRelease(S)`
and one `noteOff` message for `S` to the log and leaves the deferred list as it
was; with sustain active it appends `S` to the end of the deferred list and
leaves the log as it was. -/
theorem deactivateKey_spec (i : Nat) (s : LocalState) (k : KeyElement)
    (hk : s.keys[i]? = some k) :
    (k.trackedNote ∉ s.activeSoundingNotes → deactivateKey i s = s) ∧
    (k.trackedNote ∈ s.activeSoundingNotes →
      k.trackedNote ∉ (deactivateKey i s).activeSoundingNotes ∧
      (∀ n, n ∈ (deactivateKey i s).activeSoundingNotes ↔
        n ∈ s.activeSoundingNotes ∧ n ≠ k.trackedNote) ∧
      (deactivateKey i s).keys = s.keys.set i { k with active := false } ∧
      (deactivateKey i s).sustainActive = s.sustainActive ∧
      (s.sustainActive = false →
        (deactivateKey i s).log = s.log ++
          [Effect.triggerRelease s.currentInstrument k.note,
           Effect.send
            { type := "noteOff", note := k.note,
              useSampler := decide (s.currentInstrument = Instrument.sampler) }] ∧
        (deactivateKey i s).sustainedNotes = s.sustainedNotes) ∧
      (s.sustainActive = true →
        (deactivateKey i s).sustainedNotes = s.sustainedNotes ++ [k.note] ∧
        (deactivateKey i s).log = s.log)) := by
  refine ⟨deactivateKey_of_idle i s k hk, ?_⟩
  intro h
  rw [deactivateKey_of_active i s k hk h]
  cases hs : s.sustainActive <;> simp

/-- Witness for C9: the first key of the keyboard of `setupPiano`: idle; held with
sustain off; held with sustain on. -/
theorem deactivateKey_spec_witness :
    deactivateKey 0 initialState = initialState ∧
    ((deactivateKey 0 (activateKey 0 initialState)).log =
      (activateKey 0 initialState).log ++
        [Effect.triggerRelease Instrument.sampler "C3",
         Effect.send { type := "noteOff", note := "C3", useSampler := true }] ∧
    (deactivateKey 0 (activateKey 0 initialState)).sustainedNotes = []) ∧
    ((deactivateKey 0 (setSustainState true (activateKey 0 initialState))).sustainedNotes =
      [] ++ ["C3"] ∧
    (deactivateKey 0 (setSustainState true (activateKey 0 initialState))).log =
      (setSustainState true (activateKey 0 initialState)).log) :=
  ⟨(deactivateKey_spec 0 initialState
      { originalNote := some "C3", note := "C3", active := false, keyLabel := "A\r\nC3" }
      (by decide)).1 (by decide),
   ((deactivateKey_spec 0 (activateKey 0 initialState)
      { originalNote := some "C3", note := "C3", active := true, keyLabel := "A\r\nC3" }
      (by decide)).2 (by decide)).2.2.2.2.1 (by decide),
   ((deactivateKey_spec 0 (setSustainState true (activateKey 0 initialState))
      { originalNote := some "C3", note := "C3", active := true, keyLabel := "A\r\nC3" }
      (by decide)).2 (by decide)).2.2.2.2.2 (by decide)⟩

/-- C10: for a key with sounding note `X` whose original note is not in the Active
Note Set, and an empty deferred list: `setSustainState(true)` adds nothing to the
log; `activateKey` then adds `triggerAttack(X)` and a `noteOn`; `deactivateKey`
adds nothing to the log and defers `X`; `setSustainState(false)` adds exactly
`triggerRelease(X)` and one `noteOff` message for `X` and empties the deferred
list. Over the four calls `triggerRelease(X)` and the `noteOff` for `X` each occur
exactly once more than before. -/
theorem sustain_law (i : Nat) (s : LocalState) (k : KeyElement)
    (hk : s.keys[i]? = some k) (hidle : k.trackedNote ∉ s.activeSoundingNotes)
    (hsus : s.sustainedNotes = []) :
    (setSustainState true s).log = s.log ∧
    (activateKey i (setSustainState true s)).log = s.log ++
      [Effect.triggerAttack s.currentInstrument k.note,
       Effect.send
        { type := "noteOn", note := k.note,
          useSampler := decide (s.currentInstrument = Instrument.sampler) }] ∧
    (deactivateKey i (activateKey i (setSustainState true s))).log =
      (activateKey i (setSustainState true s)).log ∧
    (deactivateKey i (activateKey i (setSustainState true s))).sustainedNotes = [k.note] ∧
    (setSustainState false
        (deactivateKey i (activateKey i (setSustainState true s)))).log =
      (deactivateKey i (activateKey i (setSustainState true s))).log ++
        [Effect.triggerRelease s.currentInstrument k.note,
         Effect.send
          { type := "noteOff", note := k.note,
            useSampler := decide (s.currentInstrument = Instrument.sampler) }] ∧
    (setSustainState false
        (deactivateKey i (activateKey i (setSustainState true s)))).sustainedNotes = [] ∧
    releaseCount k.note (setSustainState false
        (deactivateKey i (activateKey i (setSustainState true s)))).log =
      releaseCount k.note s.log + 1 ∧
    noteOffCount k.note (setSustainState false
        (deactivateKey i (activateKey i (setSustainState true s)))).log =
      noteOffCount k.note s.log + 1 := by
  have hset := getElem?_set_self_some s.keys i k { k with active := true } hk
  have ht : ({ k with active := true } : KeyElement).trackedNote = k.trackedNote := rfl
  simp [setSustainState, activateKey, deactivateKey, addActiveNote, removeActiveNote, hk,
    hidle, hset, ht, hsus, releaseSustained, releaseCount, noteOffCount, List.countP_append,
    List.countP_cons, isReleaseOf, isNoteOffOf]

/-- Witness for C10: the first key of the keyboard of `setupPiano`. -/
theorem sustain_law_witness :
    (setSustainState false
        (deactivateKey 0 (activateKey 0 (setSustainState true initialState)))).log =
      (deactivateKey 0 (activateKey 0 (setSustainState true initialState))).log ++
        [Effect.triggerRelease Instrument.sampler "C3",
         Effect.send { type := "noteOff", note := "C3", useSampler := true }] :=
  (sustain_law 0 initialState
    { originalNote := some "C3", note := "C3", active := false, keyLabel := "A\r\nC3" }
    (by decide) (by decide) (by decide)).2.2.2.2.1

/-! ## Claims on the transform controls -/

theorem foldl_releaseOne (l : List String) (s : LocalState) :
    l.foldl releaseOne s =
      { s with
        keys := l.foldl (fun ks note => clearActiveClass note ks) s.keys
        log := s.log ++ l.flatMap (fun note =>
          [Effect.triggerRelease s.currentSynth note,
           Effect.send
            { type := "noteOff", note := note,
              useSampler := decide (some s.currentSynth = windowSampler) }]) } := by
  induction l generalizing s with
  | nil => simp
  | cons n t ih =>
    rw [List.foldl_cons, ih]
    simp [releaseOne]

theorem releaseAllActiveNotes_eq (s : LocalState) :
    releaseAllActiveNotes s =
      { s with
        activeSoundingNotes := []
        keys := s.activeSoundingNotes.foldl (fun ks note => clearActiveClass note ks) s.keys
        log := s.log ++ s.activeSoundingNotes.flatMap (fun note =>
          [Effect.triggerRelease s.currentSynth note,
           Effect.send
            { type := "noteOff", note := note,
              useSampler := decide (some s.currentSynth = windowSampler) }]) } := by
  simp [releaseAllActiveNotes, foldl_releaseOne]

theorem shiftOctave_accept (lo hi d : Int) (s : LocalState)
    (h : lo ≤ s.currentOctaveOffset + d ∧ s.currentOctaveOffset + d ≤ hi) :
    shiftOctave lo hi d s =
      updateKeyLabels
        { releaseAllActiveNotes s with currentOctaveOffset := s.currentOctaveOffset + d } := by
  simp [shiftOctave, h]

theorem shiftOctave_reject (lo hi d : Int) (s : LocalState)
    (h : ¬ (lo ≤ s.currentOctaveOffset + d ∧ s.currentOctaveOffset + d ≤ hi)) :
    shiftOctave lo hi d s = s := by
  unfold shiftOctave
  simp only [ge_iff_le]
  rw [if_neg h]

theorem transposeKey_accept (d : Int) (s : LocalState)
    (h : -12 ≤ s.currentTransposition + d ∧ s.currentTransposition + d ≤ 12) :
    transposeKey d s =
      updateKeyLabels
        { releaseAllActiveNotes s with currentTransposition := s.currentTransposition + d } := by
  simp [transposeKey, h]

theorem transposeKey_reject (d : Int) (s : LocalState)
    (h : ¬ (-12 ≤ s.currentTransposition + d ∧ s.currentTransposition + d ≤ 12)) :
    transposeKey d s = s := by
  unfold transposeKey
  simp only [ge_iff_le]
  rw [if_neg h]

/-- C6: `shiftOctave(d)` sets the octave offset to `currentOctaveOffset + d` and leaves
the Active Note Set empty when the new offset lies in `[MIN_OCTAVE, MAX_OCTAVE]`,
and otherwise returns the state unchanged (offset, transposition, Active Note
Set, keys and their labels, and the log: no `triggerRelease`, no message);
`transposeKey(d)` does the same for the transposition and the range `[-12, 12]`.
With the range `[-2, 2]`, three `shiftOctave(+1)` calls from offset 0 end at
offset 2. -/
theorem shiftOctave_transposeKey_bounds (lo hi d : Int) (s : LocalState) :
    (lo ≤ s.currentOctaveOffset + d ∧ s.currentOctaveOffset + d ≤ hi →
      (shiftOctave lo hi d s).currentOctaveOffset = s.currentOctaveOffset + d ∧
      (shiftOctave lo hi d s).currentTransposition = s.currentTransposition ∧
      (shiftOctave lo hi d s).activeSoundingNotes = []) ∧
    (¬ (lo ≤ s.currentOctaveOffset + d ∧ s.currentOctaveOffset + d ≤ hi) →
      shiftOctave lo hi d s = s) ∧
    (-12 ≤ s.currentTransposition + d ∧ s.currentTransposition + d ≤ 12 →
      (transposeKey d s).currentTransposition = s.currentTransposition + d ∧
      (transposeKey d s).currentOctaveOffset = s.currentOctaveOffset ∧
      (transposeKey d s).activeSoundingNotes = []) ∧
    (¬ (-12 ≤ s.currentTransposition + d ∧ s.currentTransposition + d ≤ 12) →
      transposeKey d s = s) ∧
    (s.currentOctaveOffset = 0 →
      (shiftOctave (-2) 2 1 (shiftOctave (-2) 2 1
        (shiftOctave (-2) 2 1 s))).currentOctaveOffset = 2) := by
  refine ⟨?_, shiftOctave_reject lo hi d s, ?_, transposeKey_reject d s, ?_⟩
  · intro h
    rw [shiftOctave_accept lo hi d s h]
    simp [updateKeyLabels, releaseAllActiveNotes_eq]
  · intro h
    rw [transposeKey_accept d s h]
    simp [updateKeyLabels, releaseAllActiveNotes_eq]
  · intro h0
    have e1 : (shiftOctave (-2) 2 1 s).currentOctaveOffset = 1 := by
      rw [shiftOctave_accept (-2) 2 1 s (by omega)]
      simp [updateKeyLabels, releaseAllActiveNotes_eq, h0]
    have e2 : (shiftOctave (-2) 2 1 (shiftOctave (-2) 2 1 s)).currentOctaveOffset = 2 := by
      rw [shiftOctave_accept (-2) 2 1 _ (by omega)]
      simp [updateKeyLabels, releaseAllActiveNotes_eq, e1]
    rw [shiftOctave_reject (-2) 2 1 _ (by omega)]
    exact e2

/-- Witness for C6: on the keyboard of `setupPiano` with its first key held, an accepted
and a rejected call of each operation, and the three upward shifts. -/
theorem shiftOctave_transposeKey_bounds_witness :
    ((shiftOctave MIN_OCTAVE MAX_OCTAVE 1 (activateKey 0 initialState)).currentOctaveOffset
        = 0 + 1 ∧
      (shiftOctave MIN_OCTAVE MAX_OCTAVE 1 (activateKey 0 initialState)).currentTransposition
        = 0 ∧
      (shiftOctave MIN_OCTAVE MAX_OCTAVE 1 (activateKey 0 initialState)).activeSoundingNotes
        = []) ∧
    shiftOctave MIN_OCTAVE MAX_OCTAVE 3 (activateKey 0 initialState)
      = activateKey 0 initialState ∧
    ((transposeKey (-12) (activateKey 0 initialState)).currentTransposition = 0 + -12 ∧
      (transposeKey (-12) (activateKey 0 initialState)).currentOctaveOffset = 0 ∧
      (transposeKey (-12) (activateKey 0 initialState)).activeSoundingNotes = []) ∧
    transposeKey 13 (activateKey 0 initialState) = activateKey 0 initialState ∧
    (shiftOctave (-2) 2 1 (shiftOctave (-2) 2 1
        (shiftOctave (-2) 2 1 initialState))).currentOctaveOffset = 2 :=
  ⟨(shiftOctave_transposeKey_bounds MIN_OCTAVE MAX_OCTAVE 1 (activateKey 0 initialState)).1
      (by decide),
   (shiftOctave_transposeKey_bounds MIN_OCTAVE MAX_OCTAVE 3 (activateKey 0 initialState)).2.1
      (by decide),
   (shiftOctave_transposeKey_bounds MIN_OCTAVE MAX_OCTAVE (-12)
      (activateKey 0 initialState)).2.2.1 (by decide),
   (shiftOctave_transposeKey_bounds MIN_OCTAVE MAX_OCTAVE 13
      (activateKey 0 initialState)).2.2.2.1 (by decide),
   (shiftOctave_transposeKey_bounds MIN_OCTAVE MAX_OCTAVE 0 initialState).2.2.2.2 (by decide)⟩

/-! ## Decimal numerals -/

theorem isDigit_digitChar (d : Nat) (h : d < 10) : isDigit (Nat.digitChar d) = true := by
  interval_cases d <;> decide

theorem toNat_digitChar (d : Nat) (h : d < 10) : (Nat.digitChar d).toNat - 48 = d := by
  interval_cases d <;> decide

theorem toDigitsCore_all_digits (fuel n : Nat) (ds : List Char)
    (hds : ∀ c ∈ ds, isDigit c = true) :
    ∀ c ∈ Nat.toDigitsCore 10 fuel n ds, isDigit c = true := by
  induction fuel generalizing n ds with
  | zero => simpa [Nat.toDigitsCore] using hds
  | succ f ih =>
    have hcons : ∀ c ∈ Nat.digitChar (n % 10) :: ds, isDigit c = true := by
      intro c hc
      rcases List.mem_cons.1 hc with h | h
      · rw [h]; exact isDigit_digitChar _ (Nat.mod_lt _ (by decide))
      · exact hds c h
    simp only [Nat.toDigitsCore]
    split
    · exact hcons
    · exact ih _ _ hcons

theorem toDigitsCore_ne_nil (fuel n : Nat) (ds : List Char) (h : ds ≠ [] ∨ 0 < fuel) :
    Nat.toDigitsCore 10 fuel n ds ≠ [] := by
  induction fuel generalizing n ds with
  | zero =>
    rcases h with h | h
    · simpa [Nat.toDigitsCore] using h
    · omega
  | succ f ih =>
    simp only [Nat.toDigitsCore]
    split
    · simp
    · exact ih _ _ (Or.inl (by simp))

theorem parseDigits_toDigitsCore (fuel n : Nat) (ds : List Char) (h : n < fuel) :
    (Nat.toDigitsCore 10 fuel n ds).foldl (fun acc c => 10 * acc + (c.toNat - 48)) 0 =
      ds.foldl (fun acc c => 10 * acc + (c.toNat - 48)) n := by
  induction fuel generalizing n ds with
  | zero => omega
  | succ f ih =>
    have hd := toNat_digitChar (n % 10) (Nat.mod_lt _ (by decide))
    simp only [Nat.toDigitsCore]
    split
    · next h0 =>
      have : 10 * 0 + ((Nat.digitChar (n % 10)).toNat - 48) = n := by
        rw [hd]; omega
      simp only [List.foldl_cons, this]
    · next h0 =>
      rw [ih (n / 10) _ (by omega)]
      have : 10 * (n / 10) + ((Nat.digitChar (n % 10)).toNat - 48) = n := by
        rw [hd]; omega
      simp only [List.foldl_cons, this]

theorem repr_data (n : Nat) : (Nat.repr n).data = Nat.toDigitsCore 10 (n + 1) n [] := rfl

theorem repr_all_digits (n : Nat) : ∀ c ∈ (Nat.repr n).data, isDigit c = true := by
  rw [repr_data]
  exact toDigitsCore_all_digits _ _ _ (by simp)

theorem repr_ne_nil (n : Nat) : (Nat.repr n).data ≠ [] := by
  rw [repr_data]
  exact toDigitsCore_ne_nil _ _ _ (Or.inr (by omega))

theorem parseDigits_repr (n : Nat) : parseDigits (Nat.repr n).data = n := by
  rw [repr_data, parseDigits, parseDigits_toDigitsCore _ _ _ (by omega)]
  rfl

/-! ## The two loops of `transposeNote` -/

theorem carryLoop_of_lt (fuel : Nat) (idx oct : Int) (h : idx < 12) :
    carryLoop fuel (idx, oct) = (idx, oct) := by
  cases fuel with
  | zero => rfl
  | succ f => simp [carryLoop, h]

theorem carryLoop_eq (fuel : Nat) (idx oct : Int) (h0 : 0 ≤ idx) (hf : idx / 12 ≤ fuel) :
    carryLoop fuel (idx, oct) = (idx % 12, oct + idx / 12) := by
  induction fuel generalizing idx oct with
  | zero =>
    have h1 : idx / 12 = 0 := by omega
    have h2 : idx % 12 = idx := by omega
    simp [carryLoop, h1, h2]
  | succ f ih =>
    by_cases h : idx ≥ 12
    · have e := ih (idx - 12) (oct + 1) (by omega) (by omega)
      simp only [carryLoop, h, if_true, e]
      have h1 : (idx - 12) % 12 = idx % 12 := by omega
      have h2 : (idx - 12) / 12 = idx / 12 - 1 := by omega
      rw [h1, h2]
      congr 1
      omega
    · have h1 : idx / 12 = 0 := by omega
      have h2 : idx % 12 = idx := by omega
      simp [carryLoop, h, h1, h2]

theorem borrowLoop_eq (fuel : Nat) (idx oct : Int) (h12 : idx < 12) (hf : -idx ≤ fuel) :
    borrowLoop fuel (idx, oct) = (idx % 12, oct + idx / 12) := by
  induction fuel generalizing idx oct with
  | zero =>
    have h1 : idx / 12 = 0 := by omega
    have h2 : idx % 12 = idx := by omega
    simp [borrowLoop, h1, h2]
  | succ f ih =>
    by_cases h : idx < 0
    · have e := ih (idx + 12) (oct - 1) (by omega) (by omega)
      simp only [borrowLoop, h, if_true, e]
      have h1 : (idx + 12) % 12 = idx % 12 := by omega
      have h2 : (idx + 12) / 12 = idx / 12 + 1 := by omega
      rw [h1, h2]
      congr 1
      omega
    · have h1 : idx / 12 = 0 := by omega
      have h2 : idx % 12 = idx := by omega
      simp [borrowLoop, h, h1, h2]

theorem loops_normalise (n oct : Int) :
    borrowLoop n.natAbs (carryLoop n.natAbs (n, oct)) = (n % 12, oct + n / 12) := by
  by_cases h : 0 ≤ n
  · rw [carryLoop_eq _ _ _ h (by omega)]
    rw [borrowLoop_eq _ _ _ (by omega) (by omega)]
    have h1 : n % 12 % 12 = n % 12 := by omega
    have h2 : n % 12 / 12 = 0 := by omega
    rw [h1, h2]
    simp
  · rw [carryLoop_of_lt _ _ _ (by omega)]
    exact borrowLoop_eq _ _ _ (by omega) (by omega)

/-! ## The match on a well-formed note -/

theorem takeWhile_all {α : Type} (p : α → Bool) (l : List α) (h : ∀ x ∈ l, p x = true) :
    l.takeWhile p = l := by
  induction l with
  | nil => rfl
  | cons a t ih =>
    have ha := h a (List.mem_cons_self _ _)
    simp [List.takeWhile_cons, ha, ih (fun x hx => h x (List.mem_cons_of_mem _ hx))]

theorem regexMatch_natural (c : Char) (hc : isPitchLetter c = true) (ds : List Char)
    (hne : ds ≠ []) (hall : ∀ d ∈ ds, isDigit d = true) :
    regexMatch (c :: ds) = some ([c], ds) := by
  cases ds with
  | nil => exact absurd rfl hne
  | cons d t =>
    have hd : d ≠ '#' := by
      intro h
      have := hall d (List.mem_cons_self _ _)
      rw [h] at this
      exact absurd this (by decide)
    simp [regexMatch, matchHere, hc, hd, takeWhile_all isDigit (d :: t) hall]

theorem regexMatch_sharp (c : Char) (hc : isPitchLetter c = true) (ds : List Char)
    (hne : ds ≠ []) (hall : ∀ d ∈ ds, isDigit d = true) :
    regexMatch (c :: '#' :: ds) = some ([c, '#'], ds) := by
  cases ds with
  | nil => exact absurd rfl hne
  | cons d t =>
    simp [regexMatch, matchHere, hc, takeWhile_all isDigit (d :: t) hall]

theorem regexMatch_note (i : Nat) (hi : i < 12) (ds : List Char)
    (hne : ds ≠ []) (hall : ∀ d ∈ ds, isDigit d = true) :
    regexMatch ((NOTES.getD i "").data ++ ds) = some ((NOTES.getD i "").data, ds) := by
  interval_cases i
  · exact regexMatch_natural 'C' (by decide) ds hne hall
  · exact regexMatch_sharp 'C' (by decide) ds hne hall
  · exact regexMatch_natural 'D' (by decide) ds hne hall
  · exact regexMatch_sharp 'D' (by decide) ds hne hall
  · exact regexMatch_natural 'E' (by decide) ds hne hall
  · exact regexMatch_natural 'F' (by decide) ds hne hall
  · exact regexMatch_sharp 'F' (by decide) ds hne hall
  · exact regexMatch_natural 'G' (by decide) ds hne hall
  · exact regexMatch_sharp 'G' (by decide) ds hne hall
  · exact regexMatch_natural 'A' (by decide) ds hne hall
  · exact regexMatch_sharp 'A' (by decide) ds hne hall
  · exact regexMatch_natural 'B' (by decide) ds hne hall

theorem notesIndexOf_getD (i : Nat) (hi : i < 12) :
    notesIndexOf (String.mk (NOTES.getD i "").data) = (i : Int) := by
  interval_cases i <;> decide

theorem transposeNote_note (i : Nat) (hi : i < 12) (o : Nat) (s : Int) :
    transposeNote (NOTES.getD i "" ++ Nat.repr o) s =
      NOTES.getD (((i : Int) + s) % 12).toNat "undefined" ++
        numberToString ((o : Int) + ((i : Int) + s) / 12) := by
  unfold transposeNote
  rw [String.data_append, regexMatch_note i hi _ (repr_ne_nil o) (repr_all_digits o)]
  simp only [parseDigits_repr, notesIndexOf_getD i hi, loops_normalise]
  rw [if_neg (by omega)]

theorem numberToString_natCast (n : Nat) : numberToString (n : Int) = Nat.repr n := rfl

theorem notes_getD_default (k : Nat) (hk : k < 12) :
    NOTES.getD k "undefined" = NOTES.getD k "" := by
  interval_cases k <;> rfl

/-! ## Strings without a note -/

theorem takeWhile_head {α : Type} (p : α → Bool) (l : List α)
    (h : (l.takeWhile p).isEmpty = false) : ∃ a t, l = a :: t ∧ p a = true := by
  cases l with
  | nil => simp at h
  | cons a t =>
    refine ⟨a, t, rfl, ?_⟩
    by_contra hp
    simp [List.takeWhile_cons, hp] at h

theorem matchHere_some (cs : List Char) (m : List Char × List Char)
    (h : matchHere cs = some m) :
    ∃ c d : Char, isPitchLetter c = true ∧ isDigit d = true ∧
      (List.IsPrefix [c, d] cs ∨ List.IsPrefix [c, '#', d] cs) := by
  cases cs with
  | nil => simp [matchHere] at h
  | cons c rest =>
    by_cases hc : isPitchLetter c = true
    · cases rest with
      | nil => simp [matchHere, hc] at h
      | cons d rest2 =>
        by_cases hd : d = '#'
        · subst hd
          cases he : (rest2.takeWhile isDigit).isEmpty with
          | true => simp [matchHere, hc, he] at h
          | false =>
            obtain ⟨a, t, hat, ha⟩ := takeWhile_head isDigit rest2 he
            exact ⟨c, a, hc, ha, Or.inr ⟨t, by simp [hat]⟩⟩
        · cases he : ((d :: rest2).takeWhile isDigit).isEmpty with
          | true => simp [matchHere, hc, hd, he] at h
          | false =>
            obtain ⟨a, t, hat, ha⟩ := takeWhile_head isDigit (d :: rest2) he
            simp only [List.cons.injEq] at hat
            exact ⟨c, d, hc, hat.1 ▸ ha, Or.inl ⟨rest2, by simp⟩⟩
    · simp [matchHere, hc] at h

theorem regexMatch_some (cs : List Char) (m : List Char × List Char)
    (h : regexMatch cs = some m) : ContainsNote cs := by
  induction cs with
  | nil => simp [regexMatch] at h
  | cons c rest ih =>
    cases hm : matchHere (c :: rest) with
    | some m' =>
      obtain ⟨a, d, ha, hd, hp⟩ := matchHere_some _ _ hm
      exact ⟨a, d, ha, hd, hp.imp List.IsPrefix.isInfix List.IsPrefix.isInfix⟩
    | none =>
      simp only [regexMatch, hm] at h
      obtain ⟨a, d, ha, hd, hp⟩ := ih h
      exact ⟨a, d, ha, hd,
        hp.imp (fun x => x.trans (List.suffix_cons c rest).isInfix)
          (fun x => x.trans (List.suffix_cons c rest).isInfix)⟩

theorem matchHere_of_prefix (c d : Char) (hc : isPitchLetter c = true)
    (hd : isDigit d = true) (cs : List Char)
    (h : List.IsPrefix [c, d] cs ∨ List.IsPrefix [c, '#', d] cs) :
    (matchHere cs).isSome = true := by
  have hne : d ≠ '#' := by
    intro e
    rw [e] at hd
    exact absurd hd (by decide)
  rcases h with ⟨t, ht⟩ | ⟨t, ht⟩
  · subst ht
    simp [matchHere, hc, hne, List.takeWhile_cons, hd]
  · subst ht
    simp [matchHere, hc, List.takeWhile_cons, hd]

theorem regexMatch_of_containsNote (cs : List Char) (h : ContainsNote cs) :
    (regexMatch cs).isSome = true := by
  obtain ⟨c, d, hc, hd, h⟩ := h
  induction cs with
  | nil =>
    rcases h with h | h <;> simp at h
  | cons a rest ih =>
    rw [List.infix_cons_iff, List.infix_cons_iff] at h
    have hcases : (List.IsPrefix [c, d] (a :: rest) ∨ List.IsPrefix [c, '#', d] (a :: rest)) ∨
        (List.IsInfix [c, d] rest ∨ List.IsInfix [c, '#', d] rest) := by
      rcases h with (h | h) | (h | h)
      · exact Or.inl (Or.inl h)
      · exact Or.inr (Or.inl h)
      · exact Or.inl (Or.inr h)
      · exact Or.inr (Or.inr h)
    cases hm : matchHere (a :: rest) with
    | some m => simp [regexMatch, hm]
    | none =>
      rcases hcases with hp | hi
      · have := matchHere_of_prefix c d hc hd _ hp
        rw [hm] at this
        simp at this
      · simpa [regexMatch, hm] using ih hi

/-- C5, counterexample: `"xC3"` and `"C3x"` are not notes of the grammar (a character
that is neither a pitch letter, a sharp nor a digit stands before or after the
note), yet `transposeNote` does not return them unchanged: the expression has
no anchors and the embedded note is returned. -/
theorem transposeNote_rewrites_embedded_note :
    isPitchLetter 'x' = false ∧ isDigit 'x' = false ∧
    transposeNote "xC3" 0 = "C3" ∧ transposeNote "xC3" 0 ≠ "xC3" ∧
    transposeNote "C3x" 12 = "C4" ∧ transposeNote "C3x" 12 ≠ "C3x" := by
  decide

/-- C5, amended: for every string that contains no note of the grammar anywhere (no
letter `A`..`G` directly followed by a digit, or by `#` and a digit) and every
integer `s`, `transposeNote` returns the input unchanged. -/
theorem transposeNote_unparsable (note : String) (s : Int) (h : ¬ ContainsNote note.data) :
    transposeNote note s = note := by
  unfold transposeNote
  cases hm : regexMatch note.data with
  | none => rfl
  | some m => exact absurd (regexMatch_some _ _ hm) h

/-- Witness for the amended C5: `"C-1"`, the text of a note whose octave fell below 0,
contains no note of the grammar and is returned unchanged. -/
theorem transposeNote_unparsable_witness : transposeNote "C-1" 5 = "C-1" :=
  transposeNote_unparsable "C-1" 5
    (fun h => absurd (regexMatch_of_containsNote _ h) (by decide))

/-! ## Forced release and the offset setter at concrete inputs -/

/-- C3, evaluated: at octave offset 1 the first key (original note `C3`) is pressed and
`triggerAttack("C4")` is issued; the next `shiftOctave(+1)` is accepted and
force-releases the string held in the Active Note Set, the original note `C3`:
it issues `triggerRelease("C3")` and a `noteOff` for `"C3"`, and nothing ever
releases `"C4"`. -/
theorem forced_release_uses_original_note :
    (shiftOctave MIN_OCTAVE MAX_OCTAVE 1 initialState).currentOctaveOffset = 1 ∧
    (activateKey 0 (shiftOctave MIN_OCTAVE MAX_OCTAVE 1 initialState)).log =
      [Effect.triggerAttack Instrument.sampler "C4",
       Effect.send { type := "noteOn", note := "C4", useSampler := true }] ∧
    (activateKey 0 (shiftOctave MIN_OCTAVE MAX_OCTAVE 1 initialState)).activeSoundingNotes
      = ["C3"] ∧
    (shiftOctave MIN_OCTAVE MAX_OCTAVE 1
        (activateKey 0 (shiftOctave MIN_OCTAVE MAX_OCTAVE 1 initialState))).log =
      [Effect.triggerAttack Instrument.sampler "C4",
       Effect.send { type := "noteOn", note := "C4", useSampler := true },
       Effect.triggerRelease Instrument.sampler "C3",
       Effect.send { type := "noteOff", note := "C3", useSampler := false }] ∧
    (shiftOctave MIN_OCTAVE MAX_OCTAVE 1
        (activateKey 0 (shiftOctave MIN_OCTAVE MAX_OCTAVE 1 initialState))).currentOctaveOffset
      = 2 ∧
    releaseCount "C4" (shiftOctave MIN_OCTAVE MAX_OCTAVE 1
        (activateKey 0 (shiftOctave MIN_OCTAVE MAX_OCTAVE 1 initialState))).log = 0 ∧
    noteOffCount "C4" (shiftOctave MIN_OCTAVE MAX_OCTAVE 1
        (activateKey 0 (shiftOctave MIN_OCTAVE MAX_OCTAVE 1 initialState))).log = 0 := by
  decide

/-- C7, evaluated: with `MIN_OCTAVE = -2 ≤ 0 ≤ 2 = MAX_OCTAVE`, the controller operation
`setCurrentOctaveOffset(5)` sets the octave offset to 5, outside the range, and
afterwards both `shiftOctave(-1)` and `shiftOctave(+1)` are rejected, so the
offset stays at 5. -/
theorem setCurrentOctaveOffset_unbounded :
    MIN_OCTAVE ≤ 0 ∧ 0 ≤ MAX_OCTAVE ∧
    (setCurrentOctaveOffset 5 initialState).currentOctaveOffset = 5 ∧
    ¬ ((setCurrentOctaveOffset 5 initialState).currentOctaveOffset ≤ MAX_OCTAVE) ∧
    (shiftOctave MIN_OCTAVE MAX_OCTAVE (-1)
      (setCurrentOctaveOffset 5 initialState)).currentOctaveOffset = 5 ∧
    (shiftOctave MIN_OCTAVE MAX_OCTAVE 1
      (setCurrentOctaveOffset 5 initialState)).currentOctaveOffset = 5 := by
  decide

/-! ## The displayed notes of the keyboard -/

theorem notes_no_digit (j : Nat) (hj : j < 12) :
    ∀ c ∈ (NOTES.getD j "").data, (!isDigit c) = true := by
  interval_cases j <;> decide

theorem notes_data_ne_nil (j : Nat) (hj : j < 12) : (NOTES.getD j "").data ≠ [] := by
  interval_cases j <;> decide

theorem splitAtDigits_note (j : Nat) (hj : j < 12) (ds : List Char) (hne : ds ≠ [])
    (hall : ∀ d ∈ ds, isDigit d = true) :
    splitAtDigits ((NOTES.getD j "").data ++ ds) = ((NOTES.getD j "").data, some ds) := by
  cases ds with
  | nil => exact absurd rfl hne
  | cons d t =>
    have hd : isDigit d = true := hall d (List.mem_cons_self _ _)
    have ht := takeWhile_all isDigit t (fun x hx => hall x (List.mem_cons_of_mem _ hx))
    unfold splitAtDigits
    rw [List.takeWhile_append_of_pos (notes_no_digit j hj),
      List.dropWhile_append_of_pos (notes_no_digit j hj)]
    simp [List.takeWhile_cons, List.dropWhile_cons, hd, ht]

theorem note_name_ne_empty (j : Nat) (hj : j < 12) (b : Nat) :
    NOTES.getD j "" ++ Nat.repr b ≠ "" := by
  intro h
  have hdata := congrArg String.data h
  rw [String.data_append] at hdata
  have := notes_data_ne_nil j hj
  cases hn : (NOTES.getD j "").data with
  | nil => exact this hn
  | cons a t => rw [hn] at hdata; simp at hdata

/-- The note `updateKeyLabels` displays on a key whose original note is the pitch class
at index `j` in octave `b`, while the shifted octave `b + currentOctaveOffset` is
not negative: the original note moved by `12 * currentOctaveOffset +
currentTransposition` semitones. -/
theorem updateKeyLabel_note (s : LocalState) (k : KeyElement) (j b : Nat) (hj : j < 12)
    (hk : k.originalNote = some (NOTES.getD j "" ++ Nat.repr b))
    (hpos : 0 ≤ (b : Int) + s.currentOctaveOffset) :
    (updateKeyLabel s k).note =
      NOTES.getD (((j : Int) + s.currentTransposition) % 12).toNat "" ++
        numberToString ((b : Int) + s.currentOctaveOffset
          + ((j : Int) + s.currentTransposition) / 12) ∧
    (updateKeyLabel s k).originalNote = k.originalNote := by
  have hor : orElse k.originalNote k.note = NOTES.getD j "" ++ Nat.repr b := by
    rw [hk]
    unfold orElse
    simp only []
    rw [if_neg (note_name_ne_empty j hj b)]
  obtain ⟨n, hn⟩ : ∃ n : Nat, (b : Int) + s.currentOctaveOffset = (n : Int) :=
    ⟨((b : Int) + s.currentOctaveOffset).toNat, by omega⟩
  have hsplit := splitAtDigits_note j hj (Nat.repr b).data (repr_ne_nil b) (repr_all_digits b)
  refine ⟨?_, ?_⟩
  · simp only [updateKeyLabel, hor, String.data_append, hsplit, Option.map_some',
      parseDigits_repr, hn, numberOrNaNToString, numberToString_natCast]
    have := transposeNote_note j hj n s.currentTransposition
    rw [notes_getD_default _ (by omega)] at this
    simpa [numberToString_natCast] using this
  · simp only [updateKeyLabel]
    rw [hor, hk]

theorem note_text_injective (a b : Nat) (ha : a < 12) (hb : b < 12) (m n : Nat)
    (h : NOTES.getD a "" ++ Nat.repr m = NOTES.getD b "" ++ Nat.repr n) : a = b ∧ m = n := by
  have hm := congrArg (fun x : String => regexMatch x.data) h
  simp only [String.data_append] at hm
  rw [regexMatch_note a ha _ (repr_ne_nil m) (repr_all_digits m),
    regexMatch_note b hb _ (repr_ne_nil n) (repr_all_digits n)] at hm
  simp only [Option.some.injEq, Prod.mk.injEq] at hm
  obtain ⟨hname, hdig⟩ := hm
  refine ⟨?_, ?_⟩
  · have hidx := congrArg (fun x => notesIndexOf (String.mk x)) hname
    simp only [notesIndexOf_getD a ha, notesIndexOf_getD b hb] at hidx
    exact_mod_cast hidx
  · have := congrArg parseDigits hdig
    rwa [parseDigits_repr, parseDigits_repr] at this

theorem initialKeys_originalNotes :
    initialKeys.map KeyElement.originalNote =
      (List.range 24).map (fun m => some (NOTES.getD (m % 12) "" ++ Nat.repr (m / 12 + 3))) := by
  decide

theorem standard_length (s : LocalState) (hstd : StandardKeyboard s) : s.keys.length = 24 := by
  have := congrArg List.length hstd
  simpa [initialKeys_originalNotes] using this

theorem standard_getElem? (s : LocalState) (hstd : StandardKeyboard s) (i : Nat)
    (k : KeyElement) (hk : s.keys[i]? = some k) :
    i < 24 ∧ k.originalNote = some (NOTES.getD (i % 12) "" ++ Nat.repr (i / 12 + 3)) := by
  have h1 := congrArg (fun l => l[i]?) hstd
  simp only [List.getElem?_map, hk, initialKeys_originalNotes, Option.map_some'] at h1
  by_cases hi : i < 24
  · rw [List.getElem?_range hi] at h1
    simp only [Option.map_some', Option.some.injEq] at h1
    exact ⟨hi, h1⟩
  · rw [List.getElem?_eq_none (by simp; omega)] at h1
    simp at h1

/-- The displayed notes after `updateKeyLabels` on the standard keyboard, while the
octave offset is at least -2 and the transposition at least -12: key `m` (pitch
class `m mod 12`, octave `m / 12 + 3`) shows its original note moved by
`12 * currentOctaveOffset + currentTransposition` semitones. -/
theorem updateKeyLabels_notes (s : LocalState) (hstd : StandardKeyboard s)
    (ho : -2 ≤ s.currentOctaveOffset) :
    (updateKeyLabels s).keys.map KeyElement.note =
      (List.range 24).map (fun m =>
        NOTES.getD ((((m % 12 : Nat) : Int) + s.currentTransposition) % 12).toNat "" ++
          numberToString (((m / 12 + 3 : Nat) : Int) + s.currentOctaveOffset
            + (((m % 12 : Nat) : Int) + s.currentTransposition) / 12)) ∧
    (updateKeyLabels s).keys.map KeyElement.originalNote =
      s.keys.map KeyElement.originalNote := by
  have hlen := standard_length s hstd
  refine ⟨?_, ?_⟩
  · apply List.ext_getElem?
    intro i
    simp only [updateKeyLabels, List.getElem?_map]
    cases hk : s.keys[i]? with
    | none =>
      have hi : ¬ i < 24 := by
        intro hi
        rw [List.getElem?_eq_getElem (by omega)] at hk
        cases hk
      rw [List.getElem?_eq_none (by simp; omega)]
      rfl
    | some k =>
      obtain ⟨hi, hor⟩ := standard_getElem? s hstd i k hk
      rw [List.getElem?_range hi]
      simp only [Option.map_some', Option.some.injEq]
      exact (updateKeyLabel_note s k (i % 12) (i / 12 + 3) (Nat.mod_lt _ (by decide)) hor
        (by omega)).1
  · apply List.ext_getElem?
    intro i
    simp only [updateKeyLabels, List.getElem?_map]
    cases hk : s.keys[i]? with
    | none => rfl
    | some k =>
      obtain ⟨hi, hor⟩ := standard_getElem? s hstd i k hk
      simp only [Option.map_some', Option.some.injEq]
      exact (updateKeyLabel_note s k (i % 12) (i / 12 + 3) (Nat.mod_lt _ (by decide)) hor
        (by omega)).2

theorem standard_trackedNotes (s : LocalState) (hstd : StandardKeyboard s) :
    s.keys.map KeyElement.trackedNote =
      (List.range 24).map (fun m => NOTES.getD (m % 12) "" ++ Nat.repr (m / 12 + 3)) := by
  have hlen := standard_length s hstd
  apply List.ext_getElem?
  intro i
  simp only [List.getElem?_map]
  cases hk : s.keys[i]? with
  | none =>
    have hi : ¬ i < 24 := by
      intro hi
      rw [List.getElem?_eq_getElem (by omega)] at hk
      cases hk
    rw [List.getElem?_eq_none (by simp; omega)]
    rfl
  | some k =>
    obtain ⟨hi, hor⟩ := standard_getElem? s hstd i k hk
    rw [List.getElem?_range hi]
    simp only [Option.map_some', Option.some.injEq, KeyElement.trackedNote, hor, orElse]
    rw [if_neg (note_name_ne_empty _ (Nat.mod_lt _ (by decide)) _)]

/-- On the standard keyboard, relabelled for an octave offset of at least -2 and a
transposition of at least -12, the keys are told apart both by their original
and by their displayed notes. -/
theorem distinctKeys_updateKeyLabels (s : LocalState) (hstd : StandardKeyboard s)
    (ho : -2 ≤ s.currentOctaveOffset) (ht : -12 ≤ s.currentTransposition) :
    DistinctKeys (updateKeyLabels s) ∧ StandardKeyboard (updateKeyLabels s) := by
  obtain ⟨hnotes, horig⟩ := updateKeyLabels_notes s hstd ho
  have hstd' : StandardKeyboard (updateKeyLabels s) := by
    unfold StandardKeyboard
    rw [horig]
    exact hstd
  refine ⟨⟨?_, ?_⟩, hstd'⟩
  · rw [standard_trackedNotes _ hstd']
    apply List.Nodup.map_on _ (List.nodup_range 24)
    intro m hm m' hm' h
    rw [List.mem_range] at hm hm'
    have := note_text_injective _ _ (Nat.mod_lt _ (by decide)) (Nat.mod_lt _ (by decide)) _ _ h
    omega
  · rw [hnotes]
    apply List.Nodup.map_on _ (List.nodup_range 24)
    intro m hm m' hm' h
    rw [List.mem_range] at hm hm'
    obtain ⟨a, ha⟩ : ∃ a : Nat, ((m / 12 + 3 : Nat) : Int) + s.currentOctaveOffset
        + (((m % 12 : Nat) : Int) + s.currentTransposition) / 12 = (a : Int) :=
      ⟨_, (Int.toNat_of_nonneg (by omega)).symm⟩
    obtain ⟨b, hb⟩ : ∃ b : Nat, ((m' / 12 + 3 : Nat) : Int) + s.currentOctaveOffset
        + (((m' % 12 : Nat) : Int) + s.currentTransposition) / 12 = (b : Int) :=
      ⟨_, (Int.toNat_of_nonneg (by omega)).symm⟩
    simp only [ha, hb, numberToString_natCast] at h
    have := note_text_injective _ _ (by omega) (by omega) _ _ h
    omega

theorem standard_initialState : StandardKeyboard initialState := rfl

theorem standard_releaseAllActiveNotes (s : LocalState) (hstd : StandardKeyboard s) :
    StandardKeyboard (releaseAllActiveNotes s) := by
  have hclear : ∀ (note : String) (ks : List KeyElement),
      (clearActiveClass note ks).map KeyElement.originalNote =
        ks.map KeyElement.originalNote := by
    intro note ks
    induction ks with
    | nil => rfl
    | cons k t ih =>
      simp only [clearActiveClass]
      split
      · rfl
      · simp only [List.map_cons, ih]
  have hfold : ∀ (l : List String) (ks : List KeyElement),
      (l.foldl (fun ks note => clearActiveClass note ks) ks).map KeyElement.originalNote =
        ks.map KeyElement.originalNote := by
    intro l
    induction l with
    | nil => intro ks; rfl
    | cons n t ih => intro ks; rw [List.foldl_cons, ih, hclear]
  unfold StandardKeyboard
  rw [releaseAllActiveNotes_eq]
  simp only [hfold]
  exact hstd

/-- Every accepted `shiftOctave` with `MIN_OCTAVE ≥ -2`, and every accepted
`transposeKey`, leaves the standard keyboard with distinct keys. -/
theorem distinctKeys_shiftOctave (lo hi d : Int) (s : LocalState) (hlo : -2 ≤ lo)
    (hstd : StandardKeyboard s) (ht : -12 ≤ s.currentTransposition)
    (h : lo ≤ s.currentOctaveOffset + d ∧ s.currentOctaveOffset + d ≤ hi) :
    DistinctKeys (shiftOctave lo hi d s) ∧ StandardKeyboard (shiftOctave lo hi d s) := by
  rw [shiftOctave_accept lo hi d s h]
  exact distinctKeys_updateKeyLabels _ (standard_releaseAllActiveNotes s hstd)
    (by show -2 ≤ s.currentOctaveOffset + d; omega)
    (by rw [releaseAllActiveNotes_eq]; exact ht)

theorem distinctKeys_transposeKey (d : Int) (s : LocalState)
    (hstd : StandardKeyboard s) (ho : -2 ≤ s.currentOctaveOffset)
    (h : -12 ≤ s.currentTransposition + d ∧ s.currentTransposition + d ≤ 12) :
    DistinctKeys (transposeKey d s) ∧ StandardKeyboard (transposeKey d s) := by
  rw [transposeKey_accept d s h]
  exact distinctKeys_updateKeyLabels _ (standard_releaseAllActiveNotes s hstd)
    (by rw [releaseAllActiveNotes_eq]; exact ho)
    (by show -12 ≤ s.currentTransposition + d; omega)

/-! ## The keyboard handlers as pointer calls -/

theorem queryOriginalNote_some (note : String) (keys : List KeyElement) (i : Nat)
    (k : KeyElement) (h : queryOriginalNote note keys = some (i, k)) :
    keys[i]? = some k ∧ k.originalNote = some note := by
  induction keys generalizing i with
  | nil => simp [queryOriginalNote] at h
  | cons a t ih =>
    by_cases ha : a.originalNote = some note
    · simp only [queryOriginalNote, ha, if_true, Option.some.injEq, Prod.mk.injEq] at h
      obtain ⟨hi, hk⟩ := h
      subst hi
      subst hk
      exact ⟨by simp, ha⟩
    · simp only [queryOriginalNote, ha, if_false, Option.map_eq_some'] at h
      obtain ⟨r, hr, hir⟩ := h
      simp only [Prod.mk.injEq] at hir
      obtain ⟨hi, hk⟩ := hir
      subst hi
      subst hk
      have := ih r.1 hr
      simpa using this

theorem trackedNote_of_originalNote (k : KeyElement) (note : String)
    (h : k.originalNote = some note) (hne : note ≠ "") : k.trackedNote = note := by
  simp [KeyElement.trackedNote, orElse, h, hne]

/-- The `keydown` listener does nothing, or what `setSustainState(true)` does, or what
`activateKey` does on the key element it looked up. -/
theorem keydown_cases (e : KeyboardEvent) (s : LocalState) :
    keydown e s = s ∨ keydown e s = setSustainState true s ∨
      ∃ i, keydown e s = activateKey i s := by
  unfold keydown
  split
  · exact Or.inl rfl
  · split
    · exact Or.inr (Or.inl rfl)
    · split
      · exact Or.inl rfl
      · split
        · exact Or.inl rfl
        · next originalMappedNote _ =>
          split
          · exact Or.inl rfl
          · next hne =>
            split
            · exact Or.inl rfl
            · next i keyElement hq =>
              obtain ⟨hk, ho⟩ := queryOriginalNote_some _ _ _ _ hq
              have ht := trackedNote_of_originalNote keyElement originalMappedNote ho hne
              refine Or.inr (Or.inr ⟨i, ?_⟩)
              simp only [activateKey, hk, ht]

/-- The `keyup` listener does nothing, or what `setSustainState(false)` does, or what
`deactivateKey` does on the key element it looked up. -/
theorem keyup_cases (e : KeyboardEvent) (s : LocalState) :
    keyup e s = s ∨ keyup e s = setSustainState false s ∨
      ∃ i, keyup e s = deactivateKey i s := by
  unfold keyup
  split
  · exact Or.inl rfl
  · split
    · exact Or.inr (Or.inl rfl)
    · split
      · exact Or.inl rfl
      · next originalMappedNote _ =>
        split
        · exact Or.inl rfl
        · next hne =>
          split
          · exact Or.inl rfl
          · next i keyElement hq =>
            obtain ⟨hk, ho⟩ := queryOriginalNote_some _ _ _ _ hq
            have ht := trackedNote_of_originalNote keyElement originalMappedNote ho hne
            refine Or.inr (Or.inr ⟨i, ?_⟩)
            simp only [deactivateKey, hk, ht]

theorem inputOp_as_localOp (op : InputOp) (s : LocalState) :
    op.apply s = s ∨ ∃ lop : LocalOp, op.apply s = lop.apply s := by
  cases op with
  | pointer lop => exact Or.inr ⟨lop, rfl⟩
  | keydown e =>
    rcases keydown_cases e s with h | h | ⟨i, h⟩
    · exact Or.inl h
    · exact Or.inr ⟨LocalOp.sustain true, h⟩
    · exact Or.inr ⟨LocalOp.key (KeyOp.activate i), h⟩
  | keyup e =>
    rcases keyup_cases e s with h | h | ⟨i, h⟩
    · exact Or.inl h
    · exact Or.inr ⟨LocalOp.sustain false, h⟩
    · exact Or.inr ⟨LocalOp.key (KeyOp.deactivate i), h⟩

theorem invariant_runInputOps (ops : List InputOp) (s : LocalState)
    (hd : DistinctKeys s) (hb : Balanced s) :
    DistinctKeys (runInputOps ops s) ∧ Balanced (runInputOps ops s) := by
  induction ops generalizing s with
  | nil => exact ⟨hd, hb⟩
  | cons op t ih =>
    simp only [runInputOps, List.foldl_cons]
    rcases inputOp_as_localOp op s with h | ⟨lop, h⟩
    · rw [h]; exact ih s hd hb
    · rw [h]
      have := invariant_runLocalOps [lop] s hd hb
      exact ih _ this.1 this.2

/-! ## The deferred list -/

/-- C11, counterexample: on the keyboard of `setupPiano`, sustain on and the first key
pressed and released twice: the deferred list is `["C3", "C3"]`, the same
sounding note twice, and turning sustain off then issues two
`triggerRelease("C3")` and two `noteOff` messages for `"C3"`. -/
theorem deferred_list_repeats_note :
    (runInputOps
      [InputOp.pointer (LocalOp.sustain true),
       InputOp.pointer (LocalOp.key (KeyOp.activate 0)),
       InputOp.pointer (LocalOp.key (KeyOp.deactivate 0)),
       InputOp.pointer (LocalOp.key (KeyOp.activate 0)),
       InputOp.pointer (LocalOp.key (KeyOp.deactivate 0))] initialState).sustainedNotes
      = ["C3", "C3"] ∧
    ¬ (runInputOps
      [InputOp.pointer (LocalOp.sustain true),
       InputOp.pointer (LocalOp.key (KeyOp.activate 0)),
       InputOp.pointer (LocalOp.key (KeyOp.deactivate 0)),
       InputOp.pointer (LocalOp.key (KeyOp.activate 0)),
       InputOp.pointer (LocalOp.key (KeyOp.deactivate 0))] initialState).sustainedNotes.Nodup ∧
    releaseCount "C3" (runInputOps
      [InputOp.pointer (LocalOp.sustain true),
       InputOp.pointer (LocalOp.key (KeyOp.activate 0)),
       InputOp.pointer (LocalOp.key (KeyOp.deactivate 0)),
       InputOp.pointer (LocalOp.key (KeyOp.activate 0)),
       InputOp.pointer (LocalOp.key (KeyOp.deactivate 0)),
       InputOp.pointer (LocalOp.sustain false)] initialState).log = 2 ∧
    noteOffCount "C3" (runInputOps
      [InputOp.pointer (LocalOp.sustain true),
       InputOp.pointer (LocalOp.key (KeyOp.activate 0)),
       InputOp.pointer (LocalOp.key (KeyOp.deactivate 0)),
       InputOp.pointer (LocalOp.key (KeyOp.activate 0)),
       InputOp.pointer (LocalOp.key (KeyOp.deactivate 0)),
       InputOp.pointer (LocalOp.sustain false)] initialState).log = 2 := by
  decide

/-- C11, amended: in every state reached from a state with nothing active, an empty
deferred list and an empty log (keys distinct) by `activateKey`, `deactivateKey`,
the keyboard handlers and `setSustainState`, the entries of a sounding note `S`
in the deferred list are exactly its attacks that are neither released nor held
by a key (so `S` occurs once for every deferred release, possibly several
times); and turning sustain off gives every entry of the list exactly one
`triggerRelease` and one `noteOff`, adds no attack and no `noteOn`, and empties
the list. -/
theorem deferred_entries_released_once (s0 : LocalState) (hd : DistinctKeys s0)
    (hact : s0.activeSoundingNotes = []) (hsus : s0.sustainedNotes = [])
    (hlog : s0.log = []) (ops : List InputOp) (S : String) :
    attackCount S (runInputOps ops s0).log =
      releaseCount S (runInputOps ops s0).log + heldCount S (runInputOps ops s0)
        + (runInputOps ops s0).sustainedNotes.count S ∧
    releaseCount S (setSustainState false (runInputOps ops s0)).log =
      releaseCount S (runInputOps ops s0).log
        + (runInputOps ops s0).sustainedNotes.count S ∧
    noteOffCount S (setSustainState false (runInputOps ops s0)).log =
      noteOffCount S (runInputOps ops s0).log
        + (runInputOps ops s0).sustainedNotes.count S ∧
    attackCount S (setSustainState false (runInputOps ops s0)).log =
      attackCount S (runInputOps ops s0).log ∧
    noteOnCount S (setSustainState false (runInputOps ops s0)).log =
      noteOnCount S (runInputOps ops s0).log ∧
    (setSustainState false (runInputOps ops s0)).sustainedNotes = [] := by
  have hinv := invariant_runInputOps ops s0 hd (balanced_of_empty s0 hact hsus hlog)
  obtain ⟨c1, c2, c3, c4⟩ := counts_flatMap_release S (runInputOps ops s0).currentInstrument
    (decide ((runInputOps ops s0).currentInstrument = Instrument.sampler))
    (runInputOps ops s0).sustainedNotes
  refine ⟨(hinv.2 S).1, ?_, ?_, ?_, ?_, ?_⟩ <;> rw [setSustainState_false]
  · simp only [releaseCount, List.countP_append] at c2 ⊢
    rw [c2]
  · simp only [noteOffCount, List.countP_append] at c4 ⊢
    rw [c4]
  · simp only [attackCount, List.countP_append] at c1 ⊢
    rw [c1]
    rfl
  · simp only [noteOnCount, List.countP_append] at c3 ⊢
    rw [c3]
    rfl

/-- Witness for the amended C11: the keyboard of `setupPiano`; the space bar held, the
key `a` pressed and released twice. -/
theorem deferred_entries_released_once_witness :
    releaseCount "C3" (setSustainState false (runInputOps
      [InputOp.keydown { targetTagName := "BODY", key := " ", repeated := false },
       InputOp.keydown { targetTagName := "BODY", key := "a", repeated := false },
       InputOp.keyup { targetTagName := "BODY", key := "a", repeated := false },
       InputOp.keydown { targetTagName := "BODY", key := "A", repeated := false },
       InputOp.keyup { targetTagName := "BODY", key := "A", repeated := false }]
      initialState)).log =
    releaseCount "C3" (runInputOps
      [InputOp.keydown { targetTagName := "BODY", key := " ", repeated := false },
       InputOp.keydown { targetTagName := "BODY", key := "a", repeated := false },
       InputOp.keyup { targetTagName := "BODY", key := "a", repeated := false },
       InputOp.keydown { targetTagName := "BODY", key := "A", repeated := false },
       InputOp.keyup { targetTagName := "BODY", key := "A", repeated := false }]
      initialState).log
    + (runInputOps
      [InputOp.keydown { targetTagName := "BODY", key := " ", repeated := false },
       InputOp.keydown { targetTagName := "BODY", key := "a", repeated := false },
       InputOp.keyup { targetTagName := "BODY", key := "a", repeated := false },
       InputOp.keydown { targetTagName := "BODY", key := "A", repeated := false },
       InputOp.keyup { targetTagName := "BODY", key := "A", repeated := false }]
      initialState).sustainedNotes.count "C3" :=
  (deferred_entries_released_once initialState (by decide) (by decide) (by decide)
    (by decide) _ "C3").2.1

/-! ## The octave shift scenario -/

/-- C12: from the state of `setupPiano` with the key of original note `C3` held (offset 0,
transposition 0, sustain off), `releaseAllActiveNotes` inside `shiftOctave(+1)`
issues `triggerRelease("C3")` and a `noteOff` for `"C3"` while the offset is
still 0; `shiftOctave(+1)` ends with that log, offset 1 and an empty Active Note
Set; `activateKey` on the same key then issues `triggerAttack("C4")` and a
`noteOn` for `"C4"`. In general, for a key whose original note is the pitch
class of index `j` in octave `b` (the shifted octave `b + currentOctaveOffset`
not negative), the note `updateKeyLabels` displays is a pitch class `p` in an
octave `q` with `12 q + p = 12 b + j + 12 * currentOctaveOffset +
currentTransposition`. -/
theorem shiftOctave_scenario (s : LocalState) (i : Nat) (k : KeyElement) (j b : Nat)
    (hi : s.keys[i]? = some k) (hj : j < 12)
    (hk : k.originalNote = some (NOTES.getD j "" ++ Nat.repr b))
    (hpos : 0 ≤ (b : Int) + s.currentOctaveOffset) :
    ((activateKey 0 initialState).currentOctaveOffset = 0 ∧
      (activateKey 0 initialState).currentTransposition = 0 ∧
      (activateKey 0 initialState).sustainActive = false ∧
      (activateKey 0 initialState).activeSoundingNotes = ["C3"] ∧
      (releaseAllActiveNotes (activateKey 0 initialState)).log =
        (activateKey 0 initialState).log ++
          [Effect.triggerRelease Instrument.sampler "C3",
           Effect.send { type := "noteOff", note := "C3", useSampler := false }] ∧
      (releaseAllActiveNotes (activateKey 0 initialState)).currentOctaveOffset = 0 ∧
      shiftOctave MIN_OCTAVE MAX_OCTAVE 1 (activateKey 0 initialState) =
        updateKeyLabels
          { releaseAllActiveNotes (activateKey 0 initialState) with
            currentOctaveOffset := 1 } ∧
      (shiftOctave MIN_OCTAVE MAX_OCTAVE 1 (activateKey 0 initialState)).log =
        (activateKey 0 initialState).log ++
          [Effect.triggerRelease Instrument.sampler "C3",
           Effect.send { type := "noteOff", note := "C3", useSampler := false }] ∧
      (shiftOctave MIN_OCTAVE MAX_OCTAVE 1 (activateKey 0 initialState)).currentOctaveOffset
        = 1 ∧
      (shiftOctave MIN_OCTAVE MAX_OCTAVE 1 (activateKey 0 initialState)).activeSoundingNotes
        = [] ∧
      (activateKey 0
          (shiftOctave MIN_OCTAVE MAX_OCTAVE 1 (activateKey 0 initialState))).log =
        (shiftOctave MIN_OCTAVE MAX_OCTAVE 1 (activateKey 0 initialState)).log ++
          [Effect.triggerAttack Instrument.sampler "C4",
           Effect.send { type := "noteOn", note := "C4", useSampler := true }]) ∧
    ∃ (k' : KeyElement) (p : Nat) (q : Int),
      (updateKeyLabels s).keys[i]? = some k' ∧ p < 12 ∧
      k'.note = NOTES.getD p "" ++ numberToString q ∧
      12 * q + (p : Int) =
        12 * (b : Int) + (j : Int) + (12 * s.currentOctaveOffset + s.currentTransposition) := by
  refine ⟨by decide, updateKeyLabel s k, ?_⟩
  refine ⟨(((j : Int) + s.currentTransposition) % 12).toNat,
    (b : Int) + s.currentOctaveOffset + ((j : Int) + s.currentTransposition) / 12, ?_, ?_,
    (updateKeyLabel_note s k j b hj hk hpos).1, ?_⟩
  · simp [updateKeyLabels, hi]
  · omega
  · omega

/-- Witness for C12: the key `A#4` of the keyboard of `setupPiano` (position 22) at octave
offset -2 and transposition 3 displays `C#3`. -/
theorem shiftOctave_scenario_witness :
    ∃ (k' : KeyElement) (p : Nat) (q : Int),
      (updateKeyLabels
        { initialState with currentOctaveOffset := -2, currentTransposition := 3 }).keys[22]?
        = some k' ∧ p < 12 ∧
      k'.note = NOTES.getD p "" ++ numberToString q ∧
      12 * q + (p : Int) = 12 * ((4 : Nat) : Int) + ((10 : Nat) : Int) + (12 * -2 + 3) :=
  (shiftOctave_scenario
    { initialState with currentOctaveOffset := -2, currentTransposition := 3 } 22
    { originalNote := some "A#4", note := "A#4", active := false, keyLabel := "]\r\nA#4" }
    10 4 (by decide) (by decide) (by decide) (by decide)).2

/-! ## Registries as maps -/

theorem assocGet_assocSet_self {α : Type} (id : String) (v : α) (l : List (String × α)) :
    assocGet id (assocSet id v l) = some v := by
  induction l with
  | nil => simp [assocSet, assocGet]
  | cons a t ih =>
    obtain ⟨k, w⟩ := a
    by_cases h : k = id
    · simp [assocSet, assocGet, h]
    · simp [assocSet, assocGet, h, ih]

theorem assocGet_assocSet_ne {α : Type} (id id' : String) (v : α) (l : List (String × α))
    (h : id' ≠ id) : assocGet id' (assocSet id v l) = assocGet id' l := by
  induction l with
  | nil => simp [assocSet, assocGet, h.symm]
  | cons a t ih =>
    obtain ⟨k, w⟩ := a
    by_cases hk : k = id
    · subst hk
      simp [assocSet, assocGet, h.symm]
    · by_cases hk' : k = id'
      · subst hk'
        simp [assocSet, assocGet, hk]
      · simp [assocSet, assocGet, hk, hk', ih]

theorem assocSet_assocSet {α : Type} (id : String) (v w : α) (l : List (String × α)) :
    assocSet id w (assocSet id v l) = assocSet id w l := by
  induction l with
  | nil => simp [assocSet]
  | cons a t ih =>
    obtain ⟨k, u⟩ := a
    by_cases h : k = id
    · simp [assocSet, h]
    · simp [assocSet, h, ih]

theorem assocSet_eq_self {α : Type} (id : String) (v : α) (l : List (String × α))
    (h : assocGet id l = some v) : assocSet id v l = l := by
  induction l with
  | nil => simp [assocGet] at h
  | cons a t ih =>
    obtain ⟨k, u⟩ := a
    by_cases hk : k = id
    · simp only [assocGet, hk, if_true, Option.some.injEq] at h
      simp [assocSet, hk, h]
    · simp only [assocGet, hk, if_false] at h
      simp [assocSet, hk, ih h]

theorem assocSet_of_none {α : Type} (id : String) (v : α) (l : List (String × α))
    (h : assocGet id l = none) : assocSet id v l = l ++ [(id, v)] := by
  induction l with
  | nil => rfl
  | cons a t ih =>
    obtain ⟨k, u⟩ := a
    by_cases hk : k = id
    · simp [assocGet, hk] at h
    · simp only [assocGet, hk, if_false] at h
      simp [assocSet, hk, ih h]

theorem assocGet_assocDelete_self {α : Type} (id : String) (l : List (String × α)) :
    assocGet id (assocDelete id l) = none := by
  induction l with
  | nil => rfl
  | cons a t ih =>
    obtain ⟨k, u⟩ := a
    by_cases hk : k = id
    · simpa [assocDelete, hk] using ih
    · simpa [assocDelete, hk, assocGet] using ih

theorem assocGet_assocDelete_ne {α : Type} (id id' : String) (l : List (String × α))
    (h : id' ≠ id) : assocGet id' (assocDelete id l) = assocGet id' l := by
  induction l with
  | nil => rfl
  | cons a t ih =>
    obtain ⟨k, u⟩ := a
    by_cases hk : k = id
    · subst hk
      have hne : ¬ k = id' := fun e => h e.symm
      simpa [assocDelete, assocGet, hne] using ih
    · by_cases hk' : k = id'
      · subst hk'
        simp [assocDelete, assocGet, hk]
      · simpa [assocDelete, assocGet, hk, hk'] using ih

theorem assocGet_eq_none_iff {α : Type} (id : String) (l : List (String × α)) :
    assocGet id l = none ↔ id ∉ l.map Prod.fst := by
  induction l with
  | nil => simp [assocGet]
  | cons a t ih =>
    obtain ⟨k, u⟩ := a
    by_cases hk : k = id
    · simp [assocGet, hk]
    · have hne : ¬ id = k := fun e => hk e.symm
      simp [assocGet, hk, hne, ih]

theorem assocDelete_of_none {α : Type} (id : String) (l : List (String × α))
    (h : assocGet id l = none) : assocDelete id l = l := by
  rw [assocGet_eq_none_iff] at h
  unfold assocDelete
  rw [List.filter_eq_self]
  intro kv hkv
  have : kv.1 ≠ id := fun e => h (e ▸ List.mem_map_of_mem Prod.fst hkv)
  simp [this]

/-! ## What each peer operation does to the registries -/

theorem assocUpdate_assocSet {α : Type} (id : String) (g : α → α) (v : α)
    (l : List (String × α)) : assocUpdate id g (assocSet id v l) = assocSet id (g v) l := by
  simp [assocUpdate, assocGet_assocSet_self, assocSet_assocSet]

theorem assocUpdate_of_some {α : Type} (id : String) (g : α → α) (v : α)
    (l : List (String × α)) (h : assocGet id l = some v) :
    assocUpdate id g l = assocSet id (g v) l := by
  simp [assocUpdate, h]

theorem assocUpdate_of_none {α : Type} (id : String) (g : α → α)
    (l : List (String × α)) (h : assocGet id l = none) : assocUpdate id g l = l := by
  simp [assocUpdate, h]

theorem assocGet_assocUpdate_ne {α : Type} (id id' : String) (g : α → α)
    (l : List (String × α)) (h : id' ≠ id) :
    assocGet id' (assocUpdate id g l) = assocGet id' l := by
  unfold assocUpdate
  split
  · exact assocGet_assocSet_ne id id' _ l h
  · rfl

namespace PeerAudio

theorem createPeerSynth_eq (id : String) (h : Bool) (s : PeerState) :
    (createPeerSynth id h s).peerSynths = assocSet id (freshEntry s.nextHandle h) s.peerSynths ∧
    (createPeerSynth id h s).peerPianos = s.peerPianos ∧
    (createPeerSynth id h s).nextHandle = s.nextHandle + 6 :=
  ⟨rfl, rfl, rfl⟩

theorem createPeerSynthIfMissing_peerSynths (id : String) (h : Bool) (s : PeerState) :
    (createPeerSynthIfMissing id h s).peerSynths =
      assocSet id ((assocGet id s.peerSynths).getD (freshEntry s.nextHandle h)) s.peerSynths := by
  unfold createPeerSynthIfMissing
  cases he : assocGet id s.peerSynths with
  | none => rfl
  | some e => simp [assocSet_eq_self id e _ he]

theorem createPeerSynthIfMissing_peerPianos (id : String) (h : Bool) (s : PeerState) :
    (createPeerSynthIfMissing id h s).peerPianos = s.peerPianos := by
  unfold createPeerSynthIfMissing
  split <;> rfl

theorem createPeerSynthIfMissing_nextHandle (id : String) (h : Bool) (s : PeerState) :
    (createPeerSynthIfMissing id h s).nextHandle =
      if (assocGet id s.peerSynths).isSome then s.nextHandle else s.nextHandle + 6 := by
  unfold createPeerSynthIfMissing
  cases he : assocGet id s.peerSynths <;> simp [createPeerSynth]

theorem updatePeerVolume_peerSynths (id : String) (v : Scalar) (s : PeerState) :
    (updatePeerVolume id (some none) (some v) s).peerSynths =
      if id = "" then s.peerSynths
      else assocSet id
        (volumeApplied v ((assocGet id s.peerSynths).getD (freshEntry s.nextHandle false)))
        s.peerSynths := by
  unfold updatePeerVolume
  by_cases hid : id = ""
  · simp [hid]
  · simp only [hid, if_false]
    rw [createPeerSynthIfMissing_peerSynths, assocGet_assocSet_self]
    cases hm : ((assocGet id s.peerSynths).getD (freshEntry s.nextHandle false)).muted <;>
      simp [hm, volumeApplied, assocSet_assocSet, createPeerSynthIfMissing_peerSynths]

theorem updatePeerVolume_peerPianos (id : String) (lv : Option (Option Scalar))
    (rv : Option Scalar) (s : PeerState) :
    (updatePeerVolume id lv rv s).peerPianos = s.peerPianos := by
  unfold updatePeerVolume
  split
  · rfl
  · simp only []
    split
    · exact createPeerSynthIfMissing_peerPianos _ _ _
    · split <;> exact createPeerSynthIfMissing_peerPianos _ _ _

theorem updatePeerVolume_nextHandle (id : String) (lv : Option (Option Scalar))
    (rv : Option Scalar) (s : PeerState) :
    (updatePeerVolume id lv rv s).nextHandle =
      if id = "" ∨ (assocGet id s.peerSynths).isSome then s.nextHandle
      else s.nextHandle + 6 := by
  unfold updatePeerVolume
  by_cases hid : id = ""
  · simp [hid]
  · simp only [hid, if_false, false_or]
    split
    · exact createPeerSynthIfMissing_nextHandle _ _ _
    · split <;> exact createPeerSynthIfMissing_nextHandle _ _ _

theorem setUseSampler_peerSynths (id : String) (u : Bool) (s : PeerState) :
    (setUseSampler id u s).peerSynths = assocUpdate id (samplerApplied u) s.peerSynths := by
  unfold setUseSampler assocUpdate
  cases he : assocGet id s.peerSynths with
  | none => rfl
  | some e =>
    by_cases hu : e.useSampler = u
    · simp [hu, samplerApplied, assocSet_eq_self id e _ he]
    · simp [hu, samplerApplied]

theorem setUseSampler_frame (id : String) (u : Bool) (s : PeerState) :
    (setUseSampler id u s).peerPianos = s.peerPianos ∧
    (setUseSampler id u s).nextHandle = s.nextHandle := by
  unfold setUseSampler
  split
  · exact ⟨rfl, rfl⟩
  · split <;> exact ⟨rfl, rfl⟩

theorem updatePeerSynthEffect_peerSynths (id name : String) (v : Scalar) (s : PeerState) :
    (updatePeerSynthEffect id name v s).peerSynths =
      assocUpdate id (effectApplied name v) s.peerSynths := by
  unfold updatePeerSynthEffect assocUpdate
  cases he : assocGet id s.peerSynths with
  | none => rfl
  | some e =>
    by_cases h1 : name = "distortion"
    · simp [h1, effectApplied]
    · by_cases h2 : name = "reverb"
      · simp [h2, effectApplied]
      · by_cases h3 : name = "delay"
        · simp [h3, effectApplied]
        · simp [h1, h2, h3, effectApplied, assocSet_eq_self id e _ he]

theorem updatePeerSynthEffect_frame (id name : String) (v : Scalar) (s : PeerState) :
    (updatePeerSynthEffect id name v s).peerPianos = s.peerPianos ∧
    (updatePeerSynthEffect id name v s).nextHandle = s.nextHandle := by
  unfold updatePeerSynthEffect
  split
  · exact ⟨rfl, rfl⟩
  · split
    · exact ⟨rfl, rfl⟩
    · split
      · exact ⟨rfl, rfl⟩
      · split <;> exact ⟨rfl, rfl⟩

end PeerAudio

namespace PeerPianoManager

theorem createPeerPiano_eq (id : String) (s : PeerState) :
    (createPeerPiano id s).peerPianos = assocSet id freshMirror s.peerPianos ∧
    (createPeerPiano id s).peerSynths = s.peerSynths ∧
    (createPeerPiano id s).nextHandle = s.nextHandle ∧
    (createPeerPiano id s).calls = s.calls :=
  ⟨rfl, rfl, rfl, rfl⟩

theorem updatePeerEffectSlider_peerPianos (id effect : String) (v : Scalar) (s : PeerState) :
    (updatePeerEffectSlider id effect v s).peerPianos =
      assocUpdate id (sliderApplied effect v) s.peerPianos := by
  unfold updatePeerEffectSlider assocUpdate
  cases he : assocGet id s.peerPianos with
  | none => rfl
  | some e =>
    by_cases h0 : effect = "volume"
    · simp [h0, sliderApplied]
    · by_cases h1 : effect = "distortion"
      · simp [h1, sliderApplied]
      · by_cases h2 : effect = "reverb"
        · simp [h2, sliderApplied]
        · by_cases h3 : effect = "delay"
          · simp [h3, sliderApplied]
          · simp [h0, h1, h2, h3, sliderApplied, assocSet_eq_self id e _ he]

theorem updatePeerEffectSlider_frame (id effect : String) (v : Scalar) (s : PeerState) :
    (updatePeerEffectSlider id effect v s).peerSynths = s.peerSynths ∧
    (updatePeerEffectSlider id effect v s).nextHandle = s.nextHandle ∧
    (updatePeerEffectSlider id effect v s).calls = s.calls := by
  unfold updatePeerEffectSlider
  split
  · exact ⟨rfl, rfl, rfl⟩
  · split
    · exact ⟨rfl, rfl, rfl⟩
    · split
      · exact ⟨rfl, rfl, rfl⟩
      · split
        · exact ⟨rfl, rfl, rfl⟩
        · split <;> exact ⟨rfl, rfl, rfl⟩

theorem updatePeerSampler_peerPianos (id : String) (b : Bool) (s : PeerState) :
    (updatePeerSampler id b s).peerPianos =
      assocUpdate id (mirrorSamplerApplied b) s.peerPianos := by
  unfold updatePeerSampler assocUpdate
  cases he : assocGet id s.peerPianos <;> rfl

theorem updatePeerSampler_frame (id : String) (b : Bool) (s : PeerState) :
    (updatePeerSampler id b s).peerSynths = s.peerSynths ∧
    (updatePeerSampler id b s).nextHandle = s.nextHandle ∧
    (updatePeerSampler id b s).calls = s.calls := by
  unfold updatePeerSampler
  split <;> exact ⟨rfl, rfl, rfl⟩

end PeerPianoManager

/-! ## The loop body of the presence callback on its participant -/

theorem presenceBootstrap_eq (id : String) (p : Presence) (s : PeerState) :
    (presenceBootstrap id p s).peerSynths =
      (if (assocGet id s.peerPianos).isSome then s.peerSynths
       else assocSet id
        ((assocGet id s.peerSynths).getD (freshEntry s.nextHandle (p.useSampler.getD false)))
        s.peerSynths) ∧
    (presenceBootstrap id p s).peerPianos =
      assocSet id ((assocGet id s.peerPianos).getD freshMirror) s.peerPianos ∧
    (presenceBootstrap id p s).nextHandle =
      (if (assocGet id s.peerPianos).isSome ∨ (assocGet id s.peerSynths).isSome
       then s.nextHandle else s.nextHandle + 6) := by
  unfold presenceBootstrap PeerPianoManager.hasPeerPiano
  cases hu : assocGet id s.peerPianos with
  | some u => simp [assocSet_eq_self id u _ hu]
  | none =>
    simp only [Option.isSome_none, Bool.false_eq_true, if_false, false_or, Option.getD_none]
    refine ⟨?_, ?_, ?_⟩
    · rw [PeerAudio.createPeerSynthIfMissing_peerSynths]
      rfl
    · rw [PeerAudio.createPeerSynthIfMissing_peerPianos]
      rfl
    · rw [PeerAudio.createPeerSynthIfMissing_nextHandle]
      rfl

theorem presenceVolume_eq (sqrt : Scalar → Scalar) (id : String) (p : Presence)
    (s : PeerState) :
    (presenceVolume sqrt id p s).peerSynths =
      (match p.volumeValue with
       | some v =>
         if id = "" then s.peerSynths
         else assocSet id
           (volumeApplied v ((assocGet id s.peerSynths).getD (freshEntry s.nextHandle false)))
           s.peerSynths
       | none => s.peerSynths) ∧
    (presenceVolume sqrt id p s).peerPianos =
      assocUpdate id (sliderMerge "volume" (p.volumeValue.map (calculateSliderFromVolume sqrt)))
        s.peerPianos ∧
    (presenceVolume sqrt id p s).nextHandle =
      (match p.volumeValue with
       | some _ =>
         if id = "" ∨ (assocGet id s.peerSynths).isSome then s.nextHandle
         else s.nextHandle + 6
       | none => s.nextHandle) := by
  unfold presenceVolume
  cases hv : p.volumeValue with
  | none =>
    refine ⟨rfl, ?_, rfl⟩
    unfold assocUpdate
    cases hu : assocGet id s.peerPianos with
    | none => rfl
    | some u => simp [sliderMerge, assocSet_eq_self id u _ hu]
  | some v =>
    simp only []
    refine ⟨?_, ?_, ?_⟩
    · rw [(PeerPianoManager.updatePeerEffectSlider_frame _ _ _ _).1,
        PeerAudio.updatePeerVolume_peerSynths]
    · rw [PeerPianoManager.updatePeerEffectSlider_peerPianos,
        PeerAudio.updatePeerVolume_peerPianos]
      rfl
    · rw [(PeerPianoManager.updatePeerEffectSlider_frame _ _ _ _).2.1,
        PeerAudio.updatePeerVolume_nextHandle]

theorem presenceSampler_eq (id : String) (p : Presence) (s : PeerState) :
    (presenceSampler id p s).peerSynths =
      (match p.useSampler with
       | some u =>
         assocSet id
           (samplerApplied u ((assocGet id s.peerSynths).getD (freshEntry s.nextHandle u)))
           s.peerSynths
       | none => s.peerSynths) ∧
    (presenceSampler id p s).peerPianos =
      assocUpdate id (mirrorSamplerMerge p.useSampler) s.peerPianos ∧
    (presenceSampler id p s).nextHandle =
      (match p.useSampler with
       | some _ =>
         if (assocGet id s.peerSynths).isSome then s.nextHandle else s.nextHandle + 6
       | none => s.nextHandle) := by
  unfold presenceSampler
  cases hv : p.useSampler with
  | none =>
    refine ⟨rfl, ?_, rfl⟩
    unfold assocUpdate
    cases hu : assocGet id s.peerPianos with
    | none => rfl
    | some u => simp [mirrorSamplerMerge, assocSet_eq_self id u _ hu]
  | some b =>
    simp only []
    refine ⟨?_, ?_, ?_⟩
    · rw [(PeerPianoManager.updatePeerSampler_frame _ _ _).1,
        PeerAudio.setUseSampler_peerSynths, PeerAudio.createPeerSynthIfMissing_peerSynths,
        assocUpdate_assocSet]
    · rw [PeerPianoManager.updatePeerSampler_peerPianos,
        (PeerAudio.setUseSampler_frame _ _ _).1,
        PeerAudio.createPeerSynthIfMissing_peerPianos]
      rfl
    · rw [(PeerPianoManager.updatePeerSampler_frame _ _ _).2.1,
        (PeerAudio.setUseSampler_frame _ _ _).2,
        PeerAudio.createPeerSynthIfMissing_nextHandle]

theorem presenceEffect_eq (id name : String) (value : Option Scalar) (s : PeerState) :
    (presenceEffect id name value s).peerSynths =
      assocUpdate id (effectMerge name value) s.peerSynths ∧
    (presenceEffect id name value s).peerPianos =
      assocUpdate id (sliderMerge name value) s.peerPianos ∧
    (presenceEffect id name value s).nextHandle = s.nextHandle := by
  unfold presenceEffect
  cases value with
  | none =>
    refine ⟨?_, ?_, rfl⟩
    · unfold assocUpdate
      cases he : assocGet id s.peerSynths with
      | none => rfl
      | some e => simp [effectMerge, assocSet_eq_self id e _ he]
    · unfold assocUpdate
      cases hu : assocGet id s.peerPianos with
      | none => rfl
      | some u => simp [sliderMerge, assocSet_eq_self id u _ hu]
  | some v =>
    simp only []
    refine ⟨?_, ?_, ?_⟩
    · rw [(PeerPianoManager.updatePeerEffectSlider_frame _ _ _ _).1,
        PeerAudio.updatePeerSynthEffect_peerSynths]
      rfl
    · rw [PeerPianoManager.updatePeerEffectSlider_peerPianos,
        (PeerAudio.updatePeerSynthEffect_frame _ _ _ _).1]
      rfl
    · rw [(PeerPianoManager.updatePeerEffectSlider_frame _ _ _ _).2.1,
        (PeerAudio.updatePeerSynthEffect_frame _ _ _ _).2]

theorem presenceVolume_holds (sqrt : Scalar → Scalar) (id : String) (p : Presence)
    (t : PeerState) (l : List (String × PeerEntry)) (e : PeerEntry)
    (h : t.peerSynths = assocSet id e l) :
    (presenceVolume sqrt id p t).peerSynths = assocSet id (volumeMerge id p.volumeValue e) l ∧
    (presenceVolume sqrt id p t).nextHandle = t.nextHandle := by
  obtain ⟨h1, _, h3⟩ := presenceVolume_eq sqrt id p t
  rw [h1, h3, h]
  cases p.volumeValue with
  | none => exact ⟨rfl, rfl⟩
  | some v =>
    by_cases hid : id = ""
    · simp [hid, volumeMerge]
    · simp [hid, volumeMerge, assocGet_assocSet_self, assocSet_assocSet]

theorem presenceSampler_holds (id : String) (p : Presence)
    (t : PeerState) (l : List (String × PeerEntry)) (e : PeerEntry)
    (h : t.peerSynths = assocSet id e l) :
    (presenceSampler id p t).peerSynths = assocSet id (samplerMerge p.useSampler e) l ∧
    (presenceSampler id p t).nextHandle = t.nextHandle := by
  obtain ⟨h1, _, h3⟩ := presenceSampler_eq id p t
  rw [h1, h3, h]
  cases p.useSampler with
  | none => exact ⟨rfl, rfl⟩
  | some u => simp [samplerMerge, assocGet_assocSet_self, assocSet_assocSet]

theorem createPeerSynthIfMissing_holds (id : String) (hint : Bool)
    (t : PeerState) (l : List (String × PeerEntry)) (e : PeerEntry)
    (h : t.peerSynths = assocSet id e l) :
    (PeerAudio.createPeerSynthIfMissing id hint t).peerSynths = assocSet id e l ∧
    (PeerAudio.createPeerSynthIfMissing id hint t).nextHandle = t.nextHandle := by
  rw [PeerAudio.createPeerSynthIfMissing_peerSynths,
    PeerAudio.createPeerSynthIfMissing_nextHandle, h]
  simp [assocGet_assocSet_self, assocSet_assocSet]

theorem presenceEffect_holds (id name : String) (value : Option Scalar)
    (t : PeerState) (l : List (String × PeerEntry)) (e : PeerEntry)
    (h : t.peerSynths = assocSet id e l) :
    (presenceEffect id name value t).peerSynths = assocSet id (effectMerge name value e) l ∧
    (presenceEffect id name value t).nextHandle = t.nextHandle := by
  obtain ⟨h1, _, h3⟩ := presenceEffect_eq id name value t
  rw [h1, h3, h, assocUpdate_assocSet]
  exact ⟨rfl, rfl⟩

/-- The blocks after the creation guard of lines 669-674. -/
theorem presenceTail_holds (id : String) (p : Presence) (hint : Bool)
    (t : PeerState) (l : List (String × PeerEntry)) (e : PeerEntry)
    (h : t.peerSynths = assocSet id e l) :
    (presenceEffect id "delay" p.delayValue
      (presenceEffect id "reverb" p.reverbValue
        (presenceEffect id "distortion" p.distortionValue
          (PeerAudio.createPeerSynthIfMissing id hint t)))).peerSynths =
      assocSet id
        (effectMerge "delay" p.delayValue
          (effectMerge "reverb" p.reverbValue
            (effectMerge "distortion" p.distortionValue e))) l ∧
    (presenceEffect id "delay" p.delayValue
      (presenceEffect id "reverb" p.reverbValue
        (presenceEffect id "distortion" p.distortionValue
          (PeerAudio.createPeerSynthIfMissing id hint t)))).nextHandle = t.nextHandle := by
  have a := createPeerSynthIfMissing_holds id hint t l e h
  have b := presenceEffect_holds id "distortion" p.distortionValue _ l e a.1
  have c := presenceEffect_holds id "reverb" p.reverbValue _ l _ b.1
  have d := presenceEffect_holds id "delay" p.delayValue _ l _ c.1
  exact ⟨d.1, by rw [d.2, c.2, b.2, a.2]⟩

theorem samplerApplied_fresh (n : Nat) (u : Bool) :
    samplerApplied u (freshEntry n u) = samplerApplied u (freshEntry n false) := by
  cases u <;> simp [samplerApplied, freshEntry]

theorem mergeAudio_fresh (id : String) (p : Presence) (n : Nat) :
    mergeAudio id p (freshEntry n (p.useSampler.getD false)) =
      mergeAudio id p (freshEntry n false) := by
  unfold mergeAudio
  congr 3
  cases hu : p.useSampler with
  | none => rfl
  | some u =>
    cases u
    · rfl
    · cases hv : p.volumeValue with
      | none => simp [samplerMerge, volumeMerge, samplerApplied, freshEntry]
      | some v =>
        by_cases hid : id = ""
        · simp [samplerMerge, volumeMerge, samplerApplied, freshEntry, hid]
        · simp [samplerMerge, volumeMerge, samplerApplied, freshEntry, hid, volumeApplied]

/-- The loop body on the audio registry: the participant's entry, or a fresh one when it
has none, merged with the presence fields; nothing else changes. -/
theorem presencePeer_peerSynths (sqrt : Scalar → Scalar) (id : String) (p : Presence)
    (s : PeerState) :
    (presencePeer sqrt id p s).peerSynths =
      assocSet id
        (mergeAudio id p ((assocGet id s.peerSynths).getD (freshEntry s.nextHandle false)))
        s.peerSynths ∧
    (presencePeer sqrt id p s).nextHandle =
      (if (assocGet id s.peerSynths).isSome then s.nextHandle else s.nextHandle + 6) := by
  unfold presencePeer
  obtain ⟨b1, _, b3⟩ := presenceBootstrap_eq id p s
  cases he : assocGet id s.peerSynths with
  | some e =>
    have h0 : (presenceBootstrap id p s).peerSynths = assocSet id e s.peerSynths := by
      rw [b1, he]
      simp [assocSet_eq_self id e _ he]
    have n0 : (presenceBootstrap id p s).nextHandle = s.nextHandle := by
      rw [b3, he]; simp
    have v := presenceVolume_holds sqrt id p _ _ _ h0
    have u := presenceSampler_holds id p _ _ _ v.1
    have t := presenceTail_holds id p (p.useSampler.getD false) _ _ _ u.1
    exact ⟨t.1, by rw [t.2, u.2, v.2, n0]; rfl⟩
  | none =>
    cases hu : assocGet id s.peerPianos with
    | none =>
      have h0 : (presenceBootstrap id p s).peerSynths =
          assocSet id (freshEntry s.nextHandle (p.useSampler.getD false)) s.peerSynths := by
        rw [b1, he, hu]; rfl
      have n0 : (presenceBootstrap id p s).nextHandle = s.nextHandle + 6 := by
        rw [b3, he, hu]; rfl
      have v := presenceVolume_holds sqrt id p _ _ _ h0
      have u := presenceSampler_holds id p _ _ _ v.1
      have t := presenceTail_holds id p (p.useSampler.getD false) _ _ _ u.1
      refine ⟨?_, by rw [t.2, u.2, v.2, n0]; rfl⟩
      rw [t.1]
      exact congrArg (fun x => assocSet id x s.peerSynths) (mergeAudio_fresh id p s.nextHandle)
    | some m =>
      have h0 : (presenceBootstrap id p s).peerSynths = s.peerSynths := by
        rw [b1, hu]; rfl
      have n0 : (presenceBootstrap id p s).nextHandle = s.nextHandle := by
        rw [b3, hu]; rfl
      obtain ⟨v1, _, v3⟩ := presenceVolume_eq sqrt id p (presenceBootstrap id p s)
      rw [h0, n0, he] at v1 v3
      by_cases hcreate : ∃ v, p.volumeValue = some v ∧ id ≠ ""
      · obtain ⟨v, hv, hid⟩ := hcreate
        have hv1 : (presenceVolume sqrt id p (presenceBootstrap id p s)).peerSynths =
            assocSet id (volumeMerge id p.volumeValue (freshEntry s.nextHandle false))
              s.peerSynths := by
          rw [v1, hv]; simp [hid, volumeMerge]
        have hv3 : (presenceVolume sqrt id p (presenceBootstrap id p s)).nextHandle =
            s.nextHandle + 6 := by
          rw [v3, hv]; simp [hid]
        have u := presenceSampler_holds id p _ _ _ hv1
        have t := presenceTail_holds id p (p.useSampler.getD false) _ _ _ u.1
        exact ⟨t.1, by rw [t.2, u.2, hv3]; rfl⟩
      · have hvm : ∀ x, volumeMerge id p.volumeValue x = x := by
          intro x
          cases hv : p.volumeValue with
          | none => rfl
          | some v =>
            have hid : id = "" := by
              by_contra hne
              exact hcreate ⟨v, hv, hne⟩
            simp [volumeMerge, hid]
        have hv1 : (presenceVolume sqrt id p (presenceBootstrap id p s)).peerSynths =
            s.peerSynths := by
          rw [v1]
          cases hv : p.volumeValue with
          | none => rfl
          | some v =>
            have hid : id = "" := by
              by_contra hne
              exact hcreate ⟨v, hv, hne⟩
            simp [hid]
        have hv3 : (presenceVolume sqrt id p (presenceBootstrap id p s)).nextHandle =
            s.nextHandle := by
          rw [v3]
          cases hv : p.volumeValue with
          | none => rfl
          | some v =>
            have hid : id = "" := by
              by_contra hne
              exact hcreate ⟨v, hv, hne⟩
            simp [hid]
        obtain ⟨u1, _, u3⟩ := presenceSampler_eq id p
          (presenceVolume sqrt id p (presenceBootstrap id p s))
        rw [hv1, hv3, he] at u1 u3
        cases hus : p.useSampler with
        | some b =>
          have hu1 : (presenceSampler id p
              (presenceVolume sqrt id p (presenceBootstrap id p s))).peerSynths =
              assocSet id (samplerApplied b (freshEntry s.nextHandle false)) s.peerSynths := by
            rw [u1, hus]
            simp only [Option.getD_none]
            rw [samplerApplied_fresh]
          have hu3 : (presenceSampler id p
              (presenceVolume sqrt id p (presenceBootstrap id p s))).nextHandle =
              s.nextHandle + 6 := by
            rw [u3, hus]; rfl
          have t := presenceTail_holds id p b _ _ _ hu1
          simp only [Option.getD_some]
          refine ⟨?_, by rw [t.2, hu3]; rfl⟩
          rw [t.1]
          simp [mergeAudio, hus, samplerMerge, hvm]
        | none =>
          have hu1 : (presenceSampler id p
              (presenceVolume sqrt id p (presenceBootstrap id p s))).peerSynths =
              s.peerSynths := by
            rw [u1, hus]
          have hu3 : (presenceSampler id p
              (presenceVolume sqrt id p (presenceBootstrap id p s))).nextHandle =
              s.nextHandle := by
            rw [u3, hus]
          have c1 := PeerAudio.createPeerSynthIfMissing_peerSynths id false
            (presenceSampler id p (presenceVolume sqrt id p (presenceBootstrap id p s)))
          have c3 := PeerAudio.createPeerSynthIfMissing_nextHandle id false
            (presenceSampler id p (presenceVolume sqrt id p (presenceBootstrap id p s)))
          rw [hu1, hu3, he] at c1 c3
          simp only [Option.getD_none, Option.isSome_none, Bool.false_eq_true, if_false] at c1 c3
          have b := presenceEffect_holds id "distortion" p.distortionValue _ _ _ c1
          have c := presenceEffect_holds id "reverb" p.reverbValue _ _ _ b.1
          have d := presenceEffect_holds id "delay" p.delayValue _ _ _ c.1
          simp only [Option.getD_none]
          refine ⟨?_, by rw [d.2, c.2, b.2, c3]; rfl⟩
          rw [d.1]
          simp [mergeAudio, hus, samplerMerge, hvm]

/-- The loop body on the UI mirrors: the participant's mirror, or a fresh one when it has
none, with the sliders and the flag set from the presence fields. -/
theorem presencePeer_peerPianos (sqrt : Scalar → Scalar) (id : String) (p : Presence)
    (s : PeerState) :
    (presencePeer sqrt id p s).peerPianos =
      assocSet id (mergeMirror sqrt p ((assocGet id s.peerPianos).getD freshMirror))
        s.peerPianos := by
  unfold presencePeer
  rw [(presenceEffect_eq _ _ _ _).2.1, (presenceEffect_eq _ _ _ _).2.1,
    (presenceEffect_eq _ _ _ _).2.1, PeerAudio.createPeerSynthIfMissing_peerPianos,
    (presenceSampler_eq _ _ _).2.1, (presenceVolume_eq _ _ _ _).2.1,
    (presenceBootstrap_eq _ _ _).2.1, assocUpdate_assocSet, assocUpdate_assocSet,
    assocUpdate_assocSet, assocUpdate_assocSet, assocUpdate_assocSet]
  rfl

/-! ## The calls of the peer operations -/

theorem tracks_refl (s : PeerState) : Tracks s s :=
  ⟨[], by simp, by simp, by simp⟩

theorem tracks_trans {s t u : PeerState} (h1 : Tracks s t) (h2 : Tracks t u) : Tracks s u := by
  obtain ⟨e1, c1, d1, n1⟩ := h1
  obtain ⟨e2, c2, d2, n2⟩ := h2
  refine ⟨e1 ++ e2, by rw [c2, c1, List.append_assoc], ?_, ?_⟩
  · intro c hc
    rcases List.mem_append.1 hc with h | h
    · exact d1 c h
    · exact d2 c h
  · rw [List.countP_append]
    omega

theorem tracks_of_calls {s t : PeerState} (extra : List PeerCall)
    (hc : t.calls = s.calls ++ extra) (hn : t.nextHandle = s.nextHandle)
    (hq : ∀ c ∈ extra, isLifecycle c = false) : Tracks s t := by
  refine ⟨extra, hc, ?_, ?_⟩
  · intro c h
    have := hq c h
    cases c <;> simp_all [isLifecycle, isDispose]
  · have h0 : extra.countP isConstruct = 0 := by
      rw [List.countP_eq_zero]
      intro c h
      have := hq c h
      cases c <;> simp_all [isLifecycle, isConstruct]
    omega

namespace PeerAudio

theorem createPeerSynth_tracks (id : String) (h : Bool) (s : PeerState) :
    Tracks s (createPeerSynth id h s) :=
  ⟨_, rfl, by simp [isDispose],
    by simp [createPeerSynth, isConstruct, List.countP_cons, Nat.add_comm]⟩

theorem createPeerSynthIfMissing_tracks (id : String) (h : Bool) (s : PeerState) :
    Tracks s (createPeerSynthIfMissing id h s) := by
  unfold createPeerSynthIfMissing
  split
  · exact tracks_refl _
  · exact createPeerSynth_tracks _ _ _

theorem playPeerNote_tracks (id note : String) (hint : Option Bool) (s : PeerState) :
    Tracks s (playPeerNote id note hint s) := by
  unfold playPeerNote
  refine tracks_trans (createPeerSynthIfMissing_tracks id (hint.getD false) s) ?_
  simp only []
  split
  · exact tracks_refl _
  · exact tracks_of_calls _ rfl rfl (by simp [isLifecycle])

theorem stopPeerNote_tracks (id note : String) (s : PeerState) :
    Tracks s (stopPeerNote id note s) := by
  unfold stopPeerNote
  split
  · exact tracks_refl _
  · exact tracks_of_calls _ rfl rfl (by simp [isLifecycle])

theorem updatePeerSynthEffect_tracks (id name : String) (v : Scalar) (s : PeerState) :
    Tracks s (updatePeerSynthEffect id name v s) := by
  unfold updatePeerSynthEffect
  split
  · exact tracks_refl _
  · split
    · exact tracks_of_calls _ rfl rfl (by simp [isLifecycle])
    · split
      · exact tracks_of_calls _ rfl rfl (by simp [isLifecycle])
      · split
        · exact tracks_of_calls _ rfl rfl (by simp [isLifecycle])
        · exact tracks_refl _

theorem updatePeerVolume_tracks (id : String) (lv : Option (Option Scalar))
    (rv : Option Scalar) (s : PeerState) : Tracks s (updatePeerVolume id lv rv s) := by
  unfold updatePeerVolume
  split
  · exact tracks_refl _
  · refine tracks_trans (createPeerSynthIfMissing_tracks id false s) ?_
    simp only []
    split
    · exact tracks_refl _
    · split
      · exact tracks_of_calls [] (by simp) rfl (by simp)
      · exact tracks_of_calls _ rfl rfl (by simp [isLifecycle])

theorem toggleMute_tracks (id : String) (m : Bool) (s : PeerState) :
    Tracks s (toggleMute id m s) := by
  unfold toggleMute
  split
  · exact tracks_refl _
  · exact tracks_of_calls _ rfl rfl (by simp [isLifecycle])

theorem setUseSampler_tracks (id : String) (u : Bool) (s : PeerState) :
    Tracks s (setUseSampler id u s) := by
  unfold setUseSampler
  split
  · exact tracks_refl _
  · split
    · exact tracks_refl _
    · exact tracks_of_calls _ rfl rfl (by simp [isLifecycle])

end PeerAudio

namespace PeerPianoManager

theorem highlightPeerNote_frame (id note : String) (isOn : Bool) (s : PeerState) :
    (highlightPeerNote id note isOn s).peerSynths = s.peerSynths ∧
    (highlightPeerNote id note isOn s).nextHandle = s.nextHandle ∧
    (highlightPeerNote id note isOn s).calls = s.calls := by
  unfold highlightPeerNote
  split
  · exact ⟨rfl, rfl, rfl⟩
  · split
    · exact ⟨rfl, rfl, rfl⟩
    · split <;> exact ⟨rfl, rfl, rfl⟩

theorem removePeerPiano_eq (id : String) (s : PeerState) :
    removePeerPiano id s = { s with peerPianos := assocDelete id s.peerPianos } := by
  unfold removePeerPiano
  cases h : assocGet id s.peerPianos with
  | none => simp [assocDelete_of_none id _ h]
  | some u => rfl

end PeerPianoManager

theorem tracks_of_frame {s t u : PeerState} (h : Tracks s t)
    (hn : u.nextHandle = t.nextHandle) (hc : u.calls = t.calls) : Tracks s u := by
  obtain ⟨e, c, d, n⟩ := h
  exact ⟨e, by rw [hc, c], d, by rw [hn]; exact n⟩

theorem presencePeer_tracks (sqrt : Scalar → Scalar) (id : String) (p : Presence)
    (s : PeerState) : Tracks s (presencePeer sqrt id p s) := by
  have eff : ∀ (name : String) (v : Option Scalar) (t : PeerState),
      Tracks t (presenceEffect id name v t) := by
    intro name v t
    unfold presenceEffect
    cases v with
    | none => exact tracks_refl _
    | some x =>
      exact tracks_of_frame (PeerAudio.updatePeerSynthEffect_tracks id name x t)
        (PeerPianoManager.updatePeerEffectSlider_frame _ _ _ _).2.1
        (PeerPianoManager.updatePeerEffectSlider_frame _ _ _ _).2.2
  have boot : Tracks s (presenceBootstrap id p s) := by
    unfold presenceBootstrap
    split
    · exact tracks_refl _
    · exact tracks_trans (tracks_of_calls [] (by simp [PeerPianoManager.createPeerPiano]) rfl
        (by simp)) (PeerAudio.createPeerSynthIfMissing_tracks _ _ _)
  have vol : ∀ t, Tracks t (presenceVolume sqrt id p t) := by
    intro t
    unfold presenceVolume
    cases p.volumeValue with
    | none => exact tracks_refl _
    | some x =>
      exact tracks_of_frame (PeerAudio.updatePeerVolume_tracks id _ _ t)
        (PeerPianoManager.updatePeerEffectSlider_frame _ _ _ _).2.1
        (PeerPianoManager.updatePeerEffectSlider_frame _ _ _ _).2.2
  have smp : ∀ t, Tracks t (presenceSampler id p t) := by
    intro t
    unfold presenceSampler
    cases p.useSampler with
    | none => exact tracks_refl _
    | some x =>
      exact tracks_of_frame
        (tracks_trans (PeerAudio.createPeerSynthIfMissing_tracks id x t)
          (PeerAudio.setUseSampler_tracks id x _))
        (PeerPianoManager.updatePeerSampler_frame _ _ _).2.1
        (PeerPianoManager.updatePeerSampler_frame _ _ _).2.2
  unfold presencePeer
  exact tracks_trans boot (tracks_trans (vol _) (tracks_trans (smp _)
    (tracks_trans (PeerAudio.createPeerSynthIfMissing_tracks _ _ _)
      (tracks_trans (eff _ _ _) (tracks_trans (eff _ _ _) (eff _ _ _))))))

theorem onmessage_tracks (localId : String) (data : RoomMessage) (s : PeerState) :
    Tracks s (onmessage localId data s) := by
  have eff : ∀ (name : String), Tracks s
      (PeerPianoManager.updatePeerEffectSlider data.clientId name data.value
        (PeerAudio.updatePeerSynthEffect data.clientId name data.value s)) := by
    intro name
    exact tracks_of_frame (PeerAudio.updatePeerSynthEffect_tracks _ name _ s)
      (PeerPianoManager.updatePeerEffectSlider_frame _ _ _ _).2.1
      (PeerPianoManager.updatePeerEffectSlider_frame _ _ _ _).2.2
  have hl : ∀ b, Tracks s (PeerPianoManager.highlightPeerNote data.clientId data.note b s) :=
    fun b => tracks_of_frame (tracks_refl s)
      (PeerPianoManager.highlightPeerNote_frame _ _ _ _).2.1
      (PeerPianoManager.highlightPeerNote_frame _ _ _ _).2.2
  unfold onmessage
  simp only []
  split
  · exact tracks_refl _
  · split
    · exact tracks_trans (hl true) (PeerAudio.playPeerNote_tracks _ _ _ _)
    · split
      · exact tracks_trans (hl false) (PeerAudio.stopPeerNote_tracks _ _ _)
      · split
        · exact eff _
        · split
          · exact eff _
          · split
            · exact eff _
            · exact tracks_refl _

/-! ## The two loops of the presence callback -/

theorem presencePeer_get_ne (sqrt : Scalar → Scalar) (id id' : String) (p : Presence)
    (s : PeerState) (h : id' ≠ id) :
    assocGet id' (presencePeer sqrt id p s).peerSynths = assocGet id' s.peerSynths ∧
    assocGet id' (presencePeer sqrt id p s).peerPianos = assocGet id' s.peerPianos := by
  rw [(presencePeer_peerSynths sqrt id p s).1, presencePeer_peerPianos sqrt id p s]
  exact ⟨assocGet_assocSet_ne _ _ _ _ h, assocGet_assocSet_ne _ _ _ _ h⟩

theorem presenceLoop_nil (sqrt : Scalar → Scalar) (localId : String) (s : PeerState) :
    presenceLoop sqrt localId [] s = s := rfl

theorem presenceLoop_cons (sqrt : Scalar → Scalar) (localId : String)
    (kv : String × Presence) (L : List (String × Presence)) (s : PeerState) :
    presenceLoop sqrt localId (kv :: L) s =
      presenceLoop sqrt localId L
        (if kv.1 = localId then s else presencePeer sqrt kv.1 kv.2 s) := rfl

theorem presenceLoop_tracks (sqrt : Scalar → Scalar) (localId : String)
    (L : List (String × Presence)) (s : PeerState) :
    Tracks s (presenceLoop sqrt localId L s) := by
  induction L generalizing s with
  | nil => exact tracks_refl _
  | cons kv L ih =>
    rw [presenceLoop_cons]
    refine tracks_trans ?_ (ih _)
    split
    · exact tracks_refl _
    · exact presencePeer_tracks _ _ _ _

theorem presenceLoop_frame (sqrt : Scalar → Scalar) (localId : String)
    (L : List (String × Presence)) (s : PeerState) (id : String)
    (h : id = localId ∨ ∀ kv ∈ L, kv.1 ≠ id) :
    assocGet id (presenceLoop sqrt localId L s).peerSynths = assocGet id s.peerSynths ∧
    assocGet id (presenceLoop sqrt localId L s).peerPianos = assocGet id s.peerPianos := by
  induction L generalizing s with
  | nil => exact ⟨rfl, rfl⟩
  | cons kv L ih =>
    rw [presenceLoop_cons]
    have h' : id = localId ∨ ∀ kv ∈ L, kv.1 ≠ id := by
      rcases h with h | h
      · exact Or.inl h
      · exact Or.inr (fun kv hkv => h kv (List.mem_cons_of_mem _ hkv))
    have hstep := ih (if kv.1 = localId then s else presencePeer sqrt kv.1 kv.2 s) h'
    rw [hstep.1, hstep.2]
    by_cases hk : kv.1 = localId
    · rw [if_pos hk]
      exact ⟨rfl, rfl⟩
    · rw [if_neg hk]
      have hne : id ≠ kv.1 := by
        rcases h with h | h
        · rw [h]
          exact fun e => hk e.symm
        · exact fun e => h kv (List.mem_cons_self _ _) e.symm
      exact presencePeer_get_ne sqrt kv.1 id kv.2 s hne

theorem presenceLoop_entry (sqrt : Scalar → Scalar) (localId : String)
    (L : List (String × Presence)) (s : PeerState) (id : String) (p : Presence)
    (hnd : (L.map Prod.fst).Nodup) (hmem : (id, p) ∈ L) (hid : id ≠ localId) :
    ∃ n, s.nextHandle ≤ n ∧
      assocGet id (presenceLoop sqrt localId L s).peerSynths =
        some (mergeAudio id p ((assocGet id s.peerSynths).getD (freshEntry n false))) ∧
      assocGet id (presenceLoop sqrt localId L s).peerPianos =
        some (mergeMirror sqrt p ((assocGet id s.peerPianos).getD freshMirror)) := by
  induction L generalizing s with
  | nil => cases hmem
  | cons kv L ih =>
    rw [presenceLoop_cons]
    rw [List.map_cons, List.nodup_cons] at hnd
    rcases List.mem_cons.1 hmem with hkv | hin
    · subst hkv
      have hfr := presenceLoop_frame sqrt localId L (presencePeer sqrt id p s) id
        (Or.inr (fun kv hkv e => hnd.1 (by
          have := List.mem_map_of_mem Prod.fst hkv
          rw [e] at this
          exact this)))
      refine ⟨s.nextHandle, Nat.le_refl _, ?_, ?_⟩
      · simp only [if_neg hid]
        rw [hfr.1, (presencePeer_peerSynths sqrt id p s).1, assocGet_assocSet_self]
      · simp only [if_neg hid]
        rw [hfr.2, presencePeer_peerPianos sqrt id p s, assocGet_assocSet_self]
    · have hne : id ≠ kv.1 := by
        intro e
        apply hnd.1
        rw [← e]
        exact List.mem_map_of_mem Prod.fst hin
      obtain ⟨n, hn, h1, h2⟩ :=
        ih (if kv.1 = localId then s else presencePeer sqrt kv.1 kv.2 s) hnd.2 hin
      by_cases hk : kv.1 = localId
      · rw [if_pos hk] at hn h1 h2 ⊢
        exact ⟨n, hn, h1, h2⟩
      · rw [if_neg hk] at hn h1 h2 ⊢
        have hfr := presencePeer_get_ne sqrt kv.1 id kv.2 s hne
        rw [hfr.1] at h1
        rw [hfr.2] at h2
        refine ⟨n, ?_, h1, h2⟩
        have := (presencePeer_peerSynths sqrt kv.1 kv.2 s).2
        split at this <;> omega

/-! ### The second loop -/

theorem departPeer_present (P : List (String × Presence)) (s : PeerState) (id : String)
    (h : (assocGet id P).isSome) : departPeer P s id = s := by
  unfold departPeer
  cases hp : assocGet id P with
  | none => rw [hp] at h; cases h
  | some p => rfl

theorem departPeer_absent (P : List (String × Presence)) (s : PeerState) (id : String)
    (h : assocGet id P = none) :
    departPeer P s id =
      { peerSynths := assocDelete id s.peerSynths
        peerPianos := assocDelete id s.peerPianos
        nextHandle := s.nextHandle
        calls := s.calls ++
          ((assocGet id s.peerSynths).map PeerEntry.disposals).getD [] } := by
  unfold departPeer
  rw [h, PeerPianoManager.removePeerPiano_eq]
  cases he : assocGet id s.peerSynths with
  | none => simp [he, assocDelete_of_none id _ he]
  | some e => simp [he, PeerEntry.disposals, PeerEntry.handles]

theorem departLoop_nil (P : List (String × Presence)) (s : PeerState) :
    List.foldl (departPeer P) s [] = s := rfl

theorem departLoop_fixed (P : List (String × Presence)) (K : List String) (s : PeerState)
    (h : ∀ k ∈ K, (assocGet k P).isSome) : K.foldl (departPeer P) s = s := by
  induction K generalizing s with
  | nil => rfl
  | cons k K ih =>
    rw [List.foldl_cons, departPeer_present P s k (h k (List.mem_cons_self _ _))]
    exact ih s (fun k' hk' => h k' (List.mem_cons_of_mem _ hk'))

theorem departPeer_get_ne (P : List (String × Presence)) (s : PeerState) (k id : String)
    (h : id ≠ k ∨ (assocGet id P).isSome) :
    assocGet id (departPeer P s k).peerSynths = assocGet id s.peerSynths ∧
    assocGet id (departPeer P s k).peerPianos = assocGet id s.peerPianos := by
  cases hp : assocGet k P with
  | some p => rw [departPeer_present P s k (by rw [hp]; rfl)]; exact ⟨rfl, rfl⟩
  | none =>
    have hne : id ≠ k := by
      rcases h with h | h
      · exact h
      · intro e
        rw [e, hp] at h
        cases h
    rw [departPeer_absent P s k hp]
    exact ⟨assocGet_assocDelete_ne _ _ _ hne, assocGet_assocDelete_ne _ _ _ hne⟩

theorem departLoop_get_ne (P : List (String × Presence)) (K : List String) (s : PeerState)
    (id : String) (h : id ∉ K ∨ (assocGet id P).isSome) :
    assocGet id (K.foldl (departPeer P) s).peerSynths = assocGet id s.peerSynths ∧
    assocGet id (K.foldl (departPeer P) s).peerPianos = assocGet id s.peerPianos := by
  induction K generalizing s with
  | nil => exact ⟨rfl, rfl⟩
  | cons k K ih =>
    rw [List.foldl_cons]
    have h' : id ∉ K ∨ (assocGet id P).isSome := by
      rcases h with h | h
      · exact Or.inl (fun hm => h (List.mem_cons_of_mem _ hm))
      · exact Or.inr h
    have hk : id ≠ k ∨ (assocGet id P).isSome := by
      rcases h with h | h
      · exact Or.inl (fun e => h (by rw [e]; exact List.mem_cons_self _ _))
      · exact Or.inr h
    rw [(ih (departPeer P s k) h').1, (ih (departPeer P s k) h').2]
    exact departPeer_get_ne P s k id hk

theorem departPeer_none (P : List (String × Presence)) (s : PeerState) (k id : String) :
    (assocGet id s.peerSynths = none → assocGet id (departPeer P s k).peerSynths = none) ∧
    (assocGet id s.peerPianos = none → assocGet id (departPeer P s k).peerPianos = none) := by
  by_cases hid : id = k
  · subst hid
    cases hp : assocGet id P with
    | some p => rw [departPeer_present P s id (by rw [hp]; rfl)]; exact ⟨fun h => h, fun h => h⟩
    | none =>
      rw [departPeer_absent P s id hp]
      exact ⟨fun _ => assocGet_assocDelete_self _ _, fun _ => assocGet_assocDelete_self _ _⟩
  · have := departPeer_get_ne P s k id (Or.inl hid)
    rw [this.1, this.2]
    exact ⟨fun h => h, fun h => h⟩

theorem departLoop_none (P : List (String × Presence)) (K : List String) (s : PeerState)
    (id : String) :
    (assocGet id s.peerSynths = none →
      assocGet id (K.foldl (departPeer P) s).peerSynths = none) ∧
    (assocGet id s.peerPianos = none →
      assocGet id (K.foldl (departPeer P) s).peerPianos = none) := by
  induction K generalizing s with
  | nil => exact ⟨fun h => h, fun h => h⟩
  | cons k K ih =>
    rw [List.foldl_cons]
    exact ⟨fun h => (ih (departPeer P s k)).1 ((departPeer_none P s k id).1 h),
      fun h => (ih (departPeer P s k)).2 ((departPeer_none P s k id).2 h)⟩

theorem departLoop_removes (P : List (String × Presence)) (K : List String) (s : PeerState)
    (id : String) (hK : id ∈ K) (hP : assocGet id P = none) :
    assocGet id (K.foldl (departPeer P) s).peerSynths = none ∧
    assocGet id (K.foldl (departPeer P) s).peerPianos = none := by
  induction K generalizing s with
  | nil => cases hK
  | cons k K ih =>
    rw [List.foldl_cons]
    by_cases hid : id = k
    · subst hid
      have h1 : assocGet id (departPeer P s id).peerSynths = none := by
        rw [departPeer_absent P s id hP]
        exact assocGet_assocDelete_self _ _
      have h2 : assocGet id (departPeer P s id).peerPianos = none := by
        rw [departPeer_absent P s id hP]
        exact assocGet_assocDelete_self _ _
      exact ⟨(departLoop_none P K _ id).1 h1, (departLoop_none P K _ id).2 h2⟩
    · rcases List.mem_cons.1 hK with h | h
      · exact absurd h hid
      · exact ih _ h

/-! ## The message handler on a participant without entries -/

theorem assocGet_mem {α : Type} (id : String) (v : α) (l : List (String × α))
    (h : assocGet id l = some v) : (id, v) ∈ l := by
  induction l with
  | nil => cases h
  | cons a t ih =>
    obtain ⟨k, w⟩ := a
    unfold assocGet at h
    by_cases hk : k = id
    · rw [if_pos hk] at h
      cases h
      rw [hk]
      exact List.mem_cons_self _ _
    · rw [if_neg hk] at h
      exact List.mem_cons_of_mem _ (ih h)

theorem onmessage_self (localId : String) (data : RoomMessage) (s : PeerState)
    (h : data.clientId = localId) : onmessage localId data s = s := by
  unfold onmessage
  simp [h]

theorem highlightPeerNote_of_none (id note : String) (isOn : Bool) (s : PeerState)
    (h : assocGet id s.peerPianos = none) :
    PeerPianoManager.highlightPeerNote id note isOn s = s := by
  unfold PeerPianoManager.highlightPeerNote
  rw [h]

theorem updatePeerEffectSlider_of_none (id effect : String) (v : Scalar) (s : PeerState)
    (h : assocGet id s.peerPianos = none) :
    PeerPianoManager.updatePeerEffectSlider id effect v s = s := by
  unfold PeerPianoManager.updatePeerEffectSlider
  rw [h]

theorem updatePeerSynthEffect_of_none (id effect : String) (v : Scalar) (s : PeerState)
    (h : assocGet id s.peerSynths = none) :
    PeerAudio.updatePeerSynthEffect id effect v s = s := by
  unfold PeerAudio.updatePeerSynthEffect
  rw [h]

theorem stopPeerNote_of_none (id note : String) (s : PeerState)
    (h : assocGet id s.peerSynths = none) : PeerAudio.stopPeerNote id note s = s := by
  unfold PeerAudio.stopPeerNote
  rw [h]

theorem onmessage_quiet (localId : String) (data : RoomMessage) (s : PeerState)
    (ha : assocGet data.clientId s.peerSynths = none)
    (hu : assocGet data.clientId s.peerPianos = none)
    (ht : data.type ≠ "noteOn") : onmessage localId data s = s := by
  unfold onmessage
  simp only []
  rw [if_neg ht]
  rw [highlightPeerNote_of_none _ _ _ _ hu, stopPeerNote_of_none _ _ _ ha,
    updatePeerSynthEffect_of_none _ _ _ _ ha, updatePeerSynthEffect_of_none _ _ _ _ ha,
    updatePeerSynthEffect_of_none _ _ _ _ ha, updatePeerEffectSlider_of_none _ _ _ _ hu,
    updatePeerEffectSlider_of_none _ _ _ _ hu, updatePeerEffectSlider_of_none _ _ _ _ hu]
  simp

theorem playPeerNote_of_none (id note : String) (hint : Option Bool) (s : PeerState)
    (h : assocGet id s.peerSynths = none) :
    PeerAudio.playPeerNote id note hint s =
      { peerSynths := s.peerSynths ++ [(id, freshEntry s.nextHandle (hint.getD false))]
        peerPianos := s.peerPianos
        nextHandle := s.nextHandle + 6
        calls := (PeerAudio.createPeerSynth id (hint.getD false) s).calls ++
          [PeerCall.triggerAttack
            (if hint.getD false then s.nextHandle + 1 else s.nextHandle) note] } := by
  have hc : PeerAudio.createPeerSynthIfMissing id (hint.getD false) s =
      PeerAudio.createPeerSynth id (hint.getD false) s := by
    unfold PeerAudio.createPeerSynthIfMissing
    rw [h]
  have hs : (PeerAudio.createPeerSynth id (hint.getD false) s).peerSynths =
      s.peerSynths ++ [(id, freshEntry s.nextHandle (hint.getD false))] := by
    rw [(PeerAudio.createPeerSynth_eq id _ s).1, assocSet_of_none id _ _ h]
  have hg : assocGet id (PeerAudio.createPeerSynth id (hint.getD false) s).peerSynths =
      some (freshEntry s.nextHandle (hint.getD false)) := by
    rw [(PeerAudio.createPeerSynth_eq id _ s).1, assocGet_assocSet_self]
  unfold PeerAudio.playPeerNote
  simp only [hc, hg]
  rw [hs]
  rfl

theorem playPeerNote_of_some (id note : String) (hint : Option Bool) (s : PeerState)
    (e : PeerEntry) (h : assocGet id s.peerSynths = some e) :
    PeerAudio.playPeerNote id note hint s =
      { s with calls := s.calls ++
          [PeerCall.triggerAttack (if e.useSampler then e.sampler else e.synth) note] } := by
  have hc : PeerAudio.createPeerSynthIfMissing id (hint.getD false) s = s := by
    unfold PeerAudio.createPeerSynthIfMissing
    rw [h]
  unfold PeerAudio.playPeerNote
  simp only [hc, h]

theorem onmessage_noteOn_of_none (localId : String) (data : RoomMessage) (s : PeerState)
    (hid : data.clientId ≠ localId) (ht : data.type = "noteOn")
    (ha : assocGet data.clientId s.peerSynths = none) :
    (onmessage localId data s).peerSynths =
      s.peerSynths ++
        [(data.clientId, freshEntry s.nextHandle (data.useSampler.getD false))] ∧
    (onmessage localId data s).nextHandle = s.nextHandle + 6 ∧
    (onmessage localId data s).calls =
      (PeerAudio.createPeerSynth data.clientId (data.useSampler.getD false) s).calls ++
        [PeerCall.triggerAttack
          (if data.useSampler.getD false then s.nextHandle + 1 else s.nextHandle)
          data.note] ∧
    (onmessage localId data s).peerPianos =
      (PeerPianoManager.highlightPeerNote data.clientId data.note true s).peerPianos := by
  have hf := PeerPianoManager.highlightPeerNote_frame data.clientId data.note true s
  have ha' : assocGet data.clientId
      (PeerPianoManager.highlightPeerNote data.clientId data.note true s).peerSynths = none := by
    rw [hf.1]
    exact ha
  unfold onmessage
  simp only [if_neg hid, if_pos ht]
  rw [playPeerNote_of_none _ _ _ _ ha']
  simp only [hf.1, hf.2.1]
  refine ⟨trivial, trivial, ?_, trivial⟩
  simp [PeerAudio.createPeerSynth, hf.2.2, hf.2.1]

/-! ## Creation twice -/

/-- C14, counterexample: `createPeerSynth("p", …, false)` called twice from the first
state. The second call finds the entry the first one stored and replaces it:
the handles of the entry are `1..6` after the first call and `7..12` after the
second, and twelve objects have been constructed. -/
theorem createPeerSynth_twice_constructs_twice :
    (assocGet "p" (PeerAudio.createPeerSynth "p" false PeerState.initial).peerSynths).map
        PeerEntry.handles = some [1, 2, 3, 4, 5, 6] ∧
    (assocGet "p" (PeerAudio.createPeerSynth "p" false
        (PeerAudio.createPeerSynth "p" false PeerState.initial)).peerSynths).map
        PeerEntry.handles = some [7, 8, 9, 10, 11, 12] ∧
    (PeerAudio.createPeerSynth "p" false
        (PeerAudio.createPeerSynth "p" false PeerState.initial)).calls.countP isConstruct
      = 12 := by
  decide

/-- C14, amended: creation is idempotent where it stands behind the test
`if (!peerSynths[id])`, as it does in `playPeerNote`, `updatePeerVolume` and the
presence callback. With an entry for `id` in the registry the guarded creation
returns the state unchanged (entry, handle counter and calls), and a note played
for `id` only adds its `triggerAttack`; guarded creation twice is guarded
creation once. `createPeerSynth` itself has no such test: called for an id that
has an entry it constructs six new objects and stores a new entry with the
creation defaults over the old one. -/
theorem createPeerSynthIfMissing_idempotent (id note : String) (hint hint' : Bool)
    (hint'' : Option Bool) (s : PeerState) (e : PeerEntry)
    (h : assocGet id s.peerSynths = some e) :
    PeerAudio.createPeerSynthIfMissing id hint s = s ∧
    PeerAudio.playPeerNote id note hint'' s =
      { s with calls := s.calls ++
          [PeerCall.triggerAttack (if e.useSampler then e.sampler else e.synth) note] } ∧
    (∀ t : PeerState,
      PeerAudio.createPeerSynthIfMissing id hint' (PeerAudio.createPeerSynthIfMissing id hint t)
        = PeerAudio.createPeerSynthIfMissing id hint t) ∧
    assocGet id (PeerAudio.createPeerSynth id hint s).peerSynths =
      some (freshEntry s.nextHandle hint) ∧
    (PeerAudio.createPeerSynth id hint s).nextHandle = s.nextHandle + 6 ∧
    ((PeerAudio.createPeerSynth id hint s).calls.drop s.calls.length).countP isConstruct = 6 := by
  refine ⟨?_, playPeerNote_of_some id note hint'' s e h, ?_, ?_, rfl, ?_⟩
  · unfold PeerAudio.createPeerSynthIfMissing
    rw [h]
  · intro t
    cases ht : assocGet id t.peerSynths with
    | some e' =>
      have : PeerAudio.createPeerSynthIfMissing id hint t = t := by
        unfold PeerAudio.createPeerSynthIfMissing
        rw [ht]
      rw [this]
      unfold PeerAudio.createPeerSynthIfMissing
      rw [ht]
    | none =>
      have : PeerAudio.createPeerSynthIfMissing id hint t = PeerAudio.createPeerSynth id hint t := by
        unfold PeerAudio.createPeerSynthIfMissing
        rw [ht]
      rw [this]
      have hg : assocGet id (PeerAudio.createPeerSynth id hint t).peerSynths =
          some (freshEntry t.nextHandle hint) := by
        rw [(PeerAudio.createPeerSynth_eq id _ t).1, assocGet_assocSet_self]
      unfold PeerAudio.createPeerSynthIfMissing
      rw [hg]
  · rw [(PeerAudio.createPeerSynth_eq id _ s).1, assocGet_assocSet_self]
  · simp [PeerAudio.createPeerSynth, isConstruct, List.countP_cons]

theorem createPeerSynthIfMissing_idempotent_witness :
    PeerAudio.createPeerSynthIfMissing "p" true
        (PeerAudio.createPeerSynth "p" false PeerState.initial)
      = PeerAudio.createPeerSynth "p" false PeerState.initial :=
  (createPeerSynthIfMissing_idempotent "p" "C4" true false none
    (PeerAudio.createPeerSynth "p" false PeerState.initial) (freshEntry 1 false)
    (by decide)).1

/-! ## The presence callback on one participant -/

theorem onPresence_eq (sqrt : Scalar → Scalar) (localId : String)
    (P : List (String × Presence)) (s : PeerState) :
    onPresence sqrt localId P s =
      ((presenceLoop sqrt localId P s).peerPianos.map Prod.fst).foldl (departPeer P)
        (presenceLoop sqrt localId P s) := rfl

theorem not_mem_keys_of_none {α : Type} (id : String) (l : List (String × α))
    (h : assocGet id l = none) : ∀ kv ∈ l, kv.1 ≠ id := by
  intro kv hkv e
  exact (assocGet_eq_none_iff id l).1 h (by
    rw [← e]
    exact List.mem_map_of_mem Prod.fst hkv)

theorem mem_keys_of_some {α : Type} (id : String) (v : α) (l : List (String × α))
    (h : assocGet id l = some v) : id ∈ l.map Prod.fst :=
  List.mem_map_of_mem Prod.fst (assocGet_mem id v l h)

theorem onPresence_departs (sqrt : Scalar → Scalar) (localId : String)
    (P : List (String × Presence)) (s : PeerState) (id : String) (u : PeerPiano)
    (hP : assocGet id P = none) (hu : assocGet id s.peerPianos = some u) :
    assocGet id (onPresence sqrt localId P s).peerSynths = none ∧
    assocGet id (onPresence sqrt localId P s).peerPianos = none := by
  rw [onPresence_eq]
  have hfr := presenceLoop_frame sqrt localId P s id (Or.inr (not_mem_keys_of_none id P hP))
  refine departLoop_removes P _ _ id ?_ hP
  exact mem_keys_of_some id u _ (by rw [hfr.2]; exact hu)

theorem onPresence_keeps (sqrt : Scalar → Scalar) (localId : String)
    (P : List (String × Presence)) (s : PeerState) (id : String)
    (hP : assocGet id P = none) (hu : assocGet id s.peerPianos = none) :
    assocGet id (onPresence sqrt localId P s).peerSynths = assocGet id s.peerSynths ∧
    assocGet id (onPresence sqrt localId P s).peerPianos = none := by
  rw [onPresence_eq]
  have hfr := presenceLoop_frame sqrt localId P s id (Or.inr (not_mem_keys_of_none id P hP))
  have hk : id ∉ (presenceLoop sqrt localId P s).peerPianos.map Prod.fst :=
    (assocGet_eq_none_iff id _).1 (by rw [hfr.2]; exact hu)
  have := departLoop_get_ne P _ (presenceLoop sqrt localId P s) id (Or.inl hk)
  rw [this.1, this.2, hfr.1, hfr.2]
  exact ⟨rfl, hu⟩

theorem onPresence_local_none (sqrt : Scalar → Scalar) (localId : String)
    (P : List (String × Presence)) (s : PeerState) :
    (assocGet localId s.peerSynths = none →
      assocGet localId (onPresence sqrt localId P s).peerSynths = none) ∧
    (assocGet localId s.peerPianos = none →
      assocGet localId (onPresence sqrt localId P s).peerPianos = none) := by
  rw [onPresence_eq]
  have hfr := presenceLoop_frame sqrt localId P s localId (Or.inl rfl)
  constructor
  · intro h
    exact (departLoop_none P _ _ localId).1 (by rw [hfr.1]; exact h)
  · intro h
    exact (departLoop_none P _ _ localId).2 (by rw [hfr.2]; exact h)

theorem onPresence_entry (sqrt : Scalar → Scalar) (localId : String)
    (P : List (String × Presence)) (s : PeerState) (id : String) (p : Presence)
    (hnd : (P.map Prod.fst).Nodup) (hP : assocGet id P = some p) (hid : id ≠ localId) :
    ∃ n, s.nextHandle ≤ n ∧
      assocGet id (onPresence sqrt localId P s).peerSynths =
        some (mergeAudio id p ((assocGet id s.peerSynths).getD (freshEntry n false))) ∧
      assocGet id (onPresence sqrt localId P s).peerPianos =
        some (mergeMirror sqrt p ((assocGet id s.peerPianos).getD freshMirror)) := by
  obtain ⟨n, hn, h1, h2⟩ :=
    presenceLoop_entry sqrt localId P s id p hnd (assocGet_mem id p P hP) hid
  rw [onPresence_eq]
  have := departLoop_get_ne P ((presenceLoop sqrt localId P s).peerPianos.map Prod.fst)
    (presenceLoop sqrt localId P s) id (Or.inr (by rw [hP]; rfl))
  exact ⟨n, hn, by rw [this.1, h1], by rw [this.2, h2]⟩

theorem departPeer_tracks (P : List (String × Presence)) (s : PeerState) (k : String) :
    (departPeer P s k).nextHandle = s.nextHandle ∧
    ∃ extra, (departPeer P s k).calls = s.calls ++ extra ∧
      ∀ c ∈ extra, isConstruct c = false := by
  cases hp : assocGet k P with
  | some p =>
    rw [departPeer_present P s k (by rw [hp]; rfl)]
    exact ⟨rfl, [], by simp, by simp⟩
  | none =>
    rw [departPeer_absent P s k hp]
    refine ⟨rfl, _, rfl, ?_⟩
    intro c h
    cases he : assocGet k s.peerSynths with
    | none => rw [he] at h; cases h
    | some e =>
      rw [he] at h
      simp [PeerEntry.disposals, PeerEntry.handles] at h
      rcases h with h | h | h | h | h | h <;> rw [h] <;> rfl

theorem departLoop_tracks (P : List (String × Presence)) (K : List String) (s : PeerState) :
    (K.foldl (departPeer P) s).nextHandle = s.nextHandle ∧
    ∃ extra, (K.foldl (departPeer P) s).calls = s.calls ++ extra ∧
      ∀ c ∈ extra, isConstruct c = false := by
  induction K generalizing s with
  | nil => exact ⟨rfl, [], by simp, by simp⟩
  | cons k K ih =>
    rw [List.foldl_cons]
    obtain ⟨hn, extra, hc, hq⟩ := ih (departPeer P s k)
    obtain ⟨hn1, extra1, hc1, hq1⟩ := departPeer_tracks P s k
    refine ⟨by rw [hn, hn1], extra1 ++ extra, by rw [hc, hc1, List.append_assoc], ?_⟩
    intro c hcm
    rcases List.mem_append.1 hcm with h | h
    · exact hq1 c h
    · exact hq c h

/-! ## Messages of the local participant -/

theorem playPeerNote_peerPianos (id note : String) (hint : Option Bool) (s : PeerState) :
    (PeerAudio.playPeerNote id note hint s).peerPianos = s.peerPianos := by
  cases h : assocGet id s.peerSynths with
  | none => rw [playPeerNote_of_none id note hint s h]
  | some e => rw [playPeerNote_of_some id note hint s e h]

/-- C18: a message whose `clientId` is the local one, whatever its type and payload,
leaves the whole state as it is: both peer registries, the handle counter, the
calls issued to the audio engine and the local note state. The presence
callback creates no audio entry and no UI mirror under the local id: where the
registries have none before a snapshot they have none after it. -/
theorem self_messages_ignored (sqrt : Scalar → Scalar) (localId : String)
    (data : RoomMessage) (P : List (String × Presence)) (s : AppState)
    (h : data.clientId = localId) :
    deliverMessage localId data s = s ∧
    (assocGet localId s.peers.peerSynths = none →
      assocGet localId (deliverPresence sqrt localId P s).peers.peerSynths = none) ∧
    (assocGet localId s.peers.peerPianos = none →
      assocGet localId (deliverPresence sqrt localId P s).peers.peerPianos = none) := by
  refine ⟨?_, (onPresence_local_none sqrt localId P s.peers).1,
    (onPresence_local_none sqrt localId P s.peers).2⟩
  unfold deliverMessage
  rw [onmessage_self localId data s.peers h]

theorem self_messages_ignored_witness :
    deliverMessage "me"
        { clientId := "me", type := "noteOn", note := "C4", useSampler := some true,
          value := 0 }
        { localState := initialState, peers := PeerState.initial }
      = { localState := initialState, peers := PeerState.initial } ∧
    assocGet "me" (deliverPresence (fun x => x) "me"
        [("me", { volumeValue := some 3, useSampler := some true, distortionValue := none,
                  reverbValue := none, delayValue := none }),
         ("p", { volumeValue := none, useSampler := none, distortionValue := none,
                 reverbValue := none, delayValue := none })]
        { localState := initialState, peers := PeerState.initial }).peers.peerSynths = none :=
  ⟨(self_messages_ignored (fun x => x) "me"
      { clientId := "me", type := "noteOn", note := "C4", useSampler := some true, value := 0 }
      [] { localState := initialState, peers := PeerState.initial } rfl).1,
   (self_messages_ignored (fun x => x) "me"
      { clientId := "me", type := "noteOn", note := "C4", useSampler := some true, value := 0 }
      [("me", { volumeValue := some 3, useSampler := some true, distortionValue := none,
                reverbValue := none, delayValue := none }),
       ("p", { volumeValue := none, useSampler := none, distortionValue := none,
               reverbValue := none, delayValue := none })]
      { localState := initialState, peers := PeerState.initial } rfl).2.1 rfl⟩

/-! ## Entries made by a message alone -/

/-- C16: a participant without UI mirror that is absent from the snapshot keeps its
audio entry. After a `noteOn` message from `id` (not the local id, no UI mirror
in `peerPianos`) the audio registry has an entry for `id`; a snapshot without
`id` processed next leaves that entry in the registry, because the second loop
of the callback visits the keys of `peerPianos` only. -/
theorem message_only_entry_survives_snapshot (sqrt : Scalar → Scalar) (localId : String)
    (data : RoomMessage) (P : List (String × Presence)) (s : PeerState)
    (hid : data.clientId ≠ localId) (ht : data.type = "noteOn")
    (hu : assocGet data.clientId s.peerPianos = none)
    (hP : assocGet data.clientId P = none) :
    (assocGet data.clientId (onmessage localId data s).peerSynths).isSome ∧
    assocGet data.clientId (onPresence sqrt localId P (onmessage localId data s)).peerSynths =
      assocGet data.clientId (onmessage localId data s).peerSynths := by
  have hm : onmessage localId data s =
      PeerAudio.playPeerNote data.clientId data.note data.useSampler s := by
    unfold onmessage
    simp only [if_neg hid, if_pos ht]
    rw [highlightPeerNote_of_none _ _ _ _ hu]
  have hu' : assocGet data.clientId (onmessage localId data s).peerPianos = none := by
    rw [hm, playPeerNote_peerPianos]
    exact hu
  refine ⟨?_, (onPresence_keeps sqrt localId P _ data.clientId hP hu').1⟩
  rw [hm]
  cases h : assocGet data.clientId s.peerSynths with
  | none =>
    rw [playPeerNote_of_none _ _ _ _ h]
    simp only []
    rw [← assocSet_of_none _ _ _ h, assocGet_assocSet_self]
    rfl
  | some e =>
    rw [playPeerNote_of_some _ _ _ _ e h]
    simp only []
    rw [h]
    rfl

theorem message_only_entry_survives_snapshot_witness :
    (assocGet "p" (onPresence (fun x => x) "me" []
        (onmessage "me"
          { clientId := "p", type := "noteOn", note := "C4", useSampler := none, value := 0 }
          PeerState.initial)).peerSynths).map PeerEntry.handles
      = some [1, 2, 3, 4, 5, 6] := by
  have h := (message_only_entry_survives_snapshot (fun x => x) "me"
    { clientId := "p", type := "noteOn", note := "C4", useSampler := none, value := 0 }
    [] PeerState.initial (by decide) rfl rfl rfl).2
  rw [h]
  decide

/-! ## Messages after a departure -/

/-- C17, counterexample: the participant `"p"` is in a first snapshot and absent from a
second one, so its UI mirror and its audio entry are removed and its six objects
disposed; a `noteOn` message from `"p"` handled afterwards stores a new audio
entry for `"p"` (handles `7..12`) and issues sixteen calls to the audio
engine, six constructions and the `triggerAttack` among them. -/
theorem late_noteOn_recreates_entry :
    assocGet "p" (runPeerEvents (fun x => x) "me"
      [PeerEvent.presence [("p", Presence.empty)],
       PeerEvent.presence []] PeerState.initial).peerSynths = none ∧
    assocGet "p" (runPeerEvents (fun x => x) "me"
      [PeerEvent.presence [("p", Presence.empty)],
       PeerEvent.presence []] PeerState.initial).peerPianos = none ∧
    (runPeerEvents (fun x => x) "me"
      [PeerEvent.presence [("p", Presence.empty)],
       PeerEvent.presence []] PeerState.initial).calls.countP isDispose = 6 ∧
    (assocGet "p" (runPeerEvents (fun x => x) "me"
      [PeerEvent.presence [("p", Presence.empty)],
       PeerEvent.presence [],
       PeerEvent.message (RoomMessage.mk "p" "noteOn" "C4" none 0)] PeerState.initial).peerSynths).map
        PeerEntry.handles = some [7, 8, 9, 10, 11, 12] ∧
    (runPeerEvents (fun x => x) "me"
      [PeerEvent.presence [("p", Presence.empty)],
       PeerEvent.presence [],
       PeerEvent.message (RoomMessage.mk "p" "noteOn" "C4" none 0)] PeerState.initial).calls.length =
      (runPeerEvents (fun x => x) "me"
        [PeerEvent.presence [("p", Presence.empty)],
         PeerEvent.presence []] PeerState.initial).calls.length + 16 ∧
    (runPeerEvents (fun x => x) "me"
      [PeerEvent.presence [("p", Presence.empty)],
       PeerEvent.presence [],
       PeerEvent.message (RoomMessage.mk "p" "noteOn" "C4" none 0)] PeerState.initial).calls.getLast? =
      some (PeerCall.triggerAttack 7 "C4") := by
  decide

/-- C17, amended: let `id` have a UI mirror and be absent from the snapshot `P`, so
that processing `P` removes its UI mirror and its audio entry. A message from
`id` handled next whose type is not `noteOn` (`noteOff`, `distortionUpdate`,
`reverbUpdate`, `delayUpdate`, or any other) returns the state unchanged:
both registries, the handle counter and the calls. A `noteOn` message from
`id` (not the local id) leaves the UI registry unchanged and creates no UI
mirror, but stores a new audio entry for `id` at the end of the audio registry,
made of six newly constructed objects, and attacks the note on it. -/
theorem late_message_after_departure (sqrt : Scalar → Scalar) (localId : String)
    (P : List (String × Presence)) (s0 : PeerState) (u : PeerPiano) (data : RoomMessage)
    (hP : assocGet data.clientId P = none)
    (hu : assocGet data.clientId s0.peerPianos = some u) :
    assocGet data.clientId (onPresence sqrt localId P s0).peerSynths = none ∧
    assocGet data.clientId (onPresence sqrt localId P s0).peerPianos = none ∧
    (data.type ≠ "noteOn" →
      onmessage localId data (onPresence sqrt localId P s0) = onPresence sqrt localId P s0) ∧
    (data.type = "noteOn" → data.clientId ≠ localId →
      (onmessage localId data (onPresence sqrt localId P s0)).peerPianos =
        (onPresence sqrt localId P s0).peerPianos ∧
      (onmessage localId data (onPresence sqrt localId P s0)).peerSynths =
        (onPresence sqrt localId P s0).peerSynths ++
          [(data.clientId,
            freshEntry (onPresence sqrt localId P s0).nextHandle
              (data.useSampler.getD false))] ∧
      (onmessage localId data (onPresence sqrt localId P s0)).nextHandle =
        (onPresence sqrt localId P s0).nextHandle + 6 ∧
      (onmessage localId data (onPresence sqrt localId P s0)).calls =
        (PeerAudio.createPeerSynth data.clientId (data.useSampler.getD false)
          (onPresence sqrt localId P s0)).calls ++
          [PeerCall.triggerAttack
            (if data.useSampler.getD false then (onPresence sqrt localId P s0).nextHandle + 1
             else (onPresence sqrt localId P s0).nextHandle)
            data.note]) := by
  obtain ⟨ha, hu'⟩ := onPresence_departs sqrt localId P s0 data.clientId u hP hu
  refine ⟨ha, hu', fun ht => onmessage_quiet localId data _ ha hu' ht, ?_⟩
  intro ht hid
  obtain ⟨h1, h2, h3, h4⟩ := onmessage_noteOn_of_none localId data _ hid ht ha
  refine ⟨?_, h1, h2, h3⟩
  rw [h4, highlightPeerNote_of_none _ _ _ _ hu']

theorem late_message_after_departure_witness :
    onmessage "me"
        { clientId := "p", type := "noteOff", note := "C4", useSampler := none, value := 0 }
        (onPresence (fun x => x) "me" []
          (onPresence (fun x => x) "me"
            [("p", Presence.empty)] PeerState.initial))
      = onPresence (fun x => x) "me" []
          (onPresence (fun x => x) "me"
            [("p", Presence.empty)] PeerState.initial) :=
  (late_message_after_departure (fun x => x) "me" []
    (onPresence (fun x => x) "me"
      [("p", Presence.empty)] PeerState.initial)
    freshMirror
    { clientId := "p", type := "noteOff", note := "C4", useSampler := none, value := 0 }
    rfl (by decide)).2.2.1 (by decide)

/-! ## What the loop body leaves of an entry -/

theorem effectMerge_fields (name : String) (value : Option Scalar) (e : PeerEntry) :
    (effectMerge name value e).handles = e.handles ∧
    (effectMerge name value e).muted = e.muted ∧
    (effectMerge name value e).localVolume = e.localVolume ∧
    (effectMerge name value e).remoteVolume = e.remoteVolume ∧
    (effectMerge name value e).volume = e.volume ∧
    (effectMerge name value e).useSampler = e.useSampler ∧
    (effectMerge name value e).synthConnected = e.synthConnected ∧
    (effectMerge name value e).samplerConnected = e.samplerConnected := by
  unfold effectMerge
  cases value with
  | none => exact ⟨rfl, rfl, rfl, rfl, rfl, rfl, rfl, rfl⟩
  | some v =>
    simp only [effectApplied]
    split
    · exact ⟨rfl, rfl, rfl, rfl, rfl, rfl, rfl, rfl⟩
    · split
      · exact ⟨rfl, rfl, rfl, rfl, rfl, rfl, rfl, rfl⟩
      · split <;> exact ⟨rfl, rfl, rfl, rfl, rfl, rfl, rfl, rfl⟩

theorem effectMerge_wets (name : String) (value : Option Scalar) (e : PeerEntry) :
    (effectMerge name value e).distortionWet =
      (if name = "distortion" then value.getD e.distortionWet else e.distortionWet) ∧
    (effectMerge name value e).reverbWet =
      (if name = "reverb" then value.getD e.reverbWet else e.reverbWet) ∧
    (effectMerge name value e).delayWet =
      (if name = "delay" then value.getD e.delayWet else e.delayWet) := by
  unfold effectMerge
  cases value with
  | none => simp
  | some v =>
    simp only [effectApplied, Option.getD_some]
    by_cases h1 : name = "distortion"
    · subst h1
      simp
    · by_cases h2 : name = "reverb"
      · subst h2
        simp
      · by_cases h3 : name = "delay"
        · subst h3
          simp
        · simp [h1, h2, h3]

theorem samplerMerge_fields (value : Option Bool) (e : PeerEntry) :
    (samplerMerge value e).handles = e.handles ∧
    (samplerMerge value e).muted = e.muted ∧
    (samplerMerge value e).localVolume = e.localVolume ∧
    (samplerMerge value e).remoteVolume = e.remoteVolume ∧
    (samplerMerge value e).volume = e.volume ∧
    (samplerMerge value e).useSampler = value.getD e.useSampler ∧
    (samplerMerge value e).distortionWet = e.distortionWet ∧
    (samplerMerge value e).reverbWet = e.reverbWet ∧
    (samplerMerge value e).delayWet = e.delayWet := by
  unfold samplerMerge
  cases value with
  | none => exact ⟨rfl, rfl, rfl, rfl, rfl, rfl, rfl, rfl, rfl⟩
  | some b =>
    simp only [samplerApplied, Option.getD_some]
    split
    · rename_i h
      exact ⟨rfl, rfl, rfl, rfl, rfl, h, rfl, rfl, rfl⟩
    · exact ⟨rfl, rfl, rfl, rfl, rfl, rfl, rfl, rfl, rfl⟩

theorem volumeMerge_fields (id : String) (value : Option Scalar) (e : PeerEntry) :
    (volumeMerge id value e).handles = e.handles ∧
    (volumeMerge id value e).muted = e.muted ∧
    (volumeMerge id value e).remoteVolume =
      (if id = "" then e.remoteVolume else value.getD e.remoteVolume) ∧
    (volumeMerge id value e).useSampler = e.useSampler ∧
    (volumeMerge id value e).distortionWet = e.distortionWet ∧
    (volumeMerge id value e).reverbWet = e.reverbWet ∧
    (volumeMerge id value e).delayWet = e.delayWet := by
  unfold volumeMerge
  cases value with
  | none => simp
  | some v =>
    by_cases h : id = ""
    · simp [h]
    · simp [h, volumeApplied, PeerEntry.handles]

theorem mergeAudio_fields (id : String) (p : Presence) (e : PeerEntry) :
    (mergeAudio id p e).handles = e.handles ∧
    (mergeAudio id p e).muted = e.muted ∧
    (mergeAudio id p e).remoteVolume =
      (if id = "" then e.remoteVolume else p.volumeValue.getD e.remoteVolume) ∧
    (mergeAudio id p e).useSampler = p.useSampler.getD e.useSampler ∧
    (mergeAudio id p e).distortionWet = p.distortionValue.getD e.distortionWet ∧
    (mergeAudio id p e).reverbWet = p.reverbValue.getD e.reverbWet ∧
    (mergeAudio id p e).delayWet = p.delayValue.getD e.delayWet := by
  unfold mergeAudio
  have hv := volumeMerge_fields id p.volumeValue e
  have hs := samplerMerge_fields p.useSampler (volumeMerge id p.volumeValue e)
  have h1 := effectMerge_fields "distortion" p.distortionValue
    (samplerMerge p.useSampler (volumeMerge id p.volumeValue e))
  have w1 := effectMerge_wets "distortion" p.distortionValue
    (samplerMerge p.useSampler (volumeMerge id p.volumeValue e))
  have h2 := effectMerge_fields "reverb" p.reverbValue
    (effectMerge "distortion" p.distortionValue
      (samplerMerge p.useSampler (volumeMerge id p.volumeValue e)))
  have w2 := effectMerge_wets "reverb" p.reverbValue
    (effectMerge "distortion" p.distortionValue
      (samplerMerge p.useSampler (volumeMerge id p.volumeValue e)))
  have h3 := effectMerge_fields "delay" p.delayValue
    (effectMerge "reverb" p.reverbValue
      (effectMerge "distortion" p.distortionValue
        (samplerMerge p.useSampler (volumeMerge id p.volumeValue e))))
  have w3 := effectMerge_wets "delay" p.delayValue
    (effectMerge "reverb" p.reverbValue
      (effectMerge "distortion" p.distortionValue
        (samplerMerge p.useSampler (volumeMerge id p.volumeValue e))))
  simp only [String.reduceEq, if_true, if_false, reduceIte] at w1 w2 w3
  refine ⟨?_, ?_, ?_, ?_, ?_, ?_, ?_⟩
  · rw [h3.1, h2.1, h1.1, hs.1, hv.1]
  · rw [h3.2.1, h2.2.1, h1.2.1, hs.2.1, hv.2.1]
  · rw [h3.2.2.2.1, h2.2.2.2.1, h1.2.2.2.1, hs.2.2.2.1, hv.2.2.1]
  · rw [h3.2.2.2.2.2.1, h2.2.2.2.2.2.1, h1.2.2.2.2.2.1, hs.2.2.2.2.2.1, hv.2.2.2.1]
  · rw [w3.1, w2.1, w1.1, hs.2.2.2.2.2.2.1, hv.2.2.2.2.1]
  · rw [w3.2.1, w2.2.1, w1.2.1, hs.2.2.2.2.2.2.2.1, hv.2.2.2.2.2.1]
  · rw [w3.2.2, w2.2.2, w1.2.2, hs.2.2.2.2.2.2.2.2, hv.2.2.2.2.2.2]

theorem presencePeer_no_construct (sqrt : Scalar → Scalar) (id : String) (p : Presence)
    (t : PeerState) (e : PeerEntry) (h : assocGet id t.peerSynths = some e) :
    (presencePeer sqrt id p t).nextHandle = t.nextHandle ∧
    ∃ extra, (presencePeer sqrt id p t).calls = t.calls ++ extra ∧
      extra.countP isConstruct = 0 ∧ extra.countP isDispose = 0 := by
  have hn := (presencePeer_peerSynths sqrt id p t).2
  rw [h] at hn
  simp only [Option.isSome_some, if_true] at hn
  obtain ⟨extra, hc, hd, hk⟩ := presencePeer_tracks sqrt id p t
  refine ⟨hn, extra, hc, by omega, ?_⟩
  rw [List.countP_eq_zero]
  intro c hcm
  rw [hd c hcm]
  exact Bool.false_ne_true

/-! ## The fields of a snapshot -/

/-- C19: after a snapshot `P` (an object: no key twice) has been processed, every
participant `id` of `P` other than the local one (and not the empty string, for
which `updatePeerVolume` returns at once) has a UI mirror and an audio entry.
Let `e0` be the audio entry `id` had before the snapshot, or else the entry
`createPeerSynth` makes (stored volumes `DEFAULT_DB`, synthesized instrument,
wet values 0). The entry after the snapshot has the handles and the mute flag
of `e0`; its stored remote volume, its instrument flag and its three wet values
are the fields `volumeValue`, `useSampler`, `distortionValue`, `reverbValue`
and `delayValue` of `P[id]` where they are defined, and those of `e0` where
they are undefined. -/
theorem presence_fields_applied (sqrt : Scalar → Scalar) (localId : String)
    (P : List (String × Presence)) (s : PeerState) (id : String) (p : Presence)
    (hnd : (P.map Prod.fst).Nodup) (hP : assocGet id P = some p) (hid : id ≠ localId)
    (hne : id ≠ "") :
    ∃ (e e0 : PeerEntry) (u : PeerPiano) (n : Nat),
      assocGet id (onPresence sqrt localId P s).peerSynths = some e ∧
      assocGet id (onPresence sqrt localId P s).peerPianos = some u ∧
      s.nextHandle ≤ n ∧
      e0 = (assocGet id s.peerSynths).getD (freshEntry n false) ∧
      u = mergeMirror sqrt p ((assocGet id s.peerPianos).getD freshMirror) ∧
      e.handles = e0.handles ∧
      e.muted = e0.muted ∧
      e.remoteVolume = p.volumeValue.getD e0.remoteVolume ∧
      e.useSampler = p.useSampler.getD e0.useSampler ∧
      e.distortionWet = p.distortionValue.getD e0.distortionWet ∧
      e.reverbWet = p.reverbValue.getD e0.reverbWet ∧
      e.delayWet = p.delayValue.getD e0.delayWet := by
  obtain ⟨n, hn, he, hu⟩ := onPresence_entry sqrt localId P s id p hnd hP hid
  have hf := mergeAudio_fields id p ((assocGet id s.peerSynths).getD (freshEntry n false))
  rw [if_neg hne] at hf
  exact ⟨_, _, _, n, he, hu, hn, rfl, rfl, hf.1, hf.2.1, hf.2.2.1, hf.2.2.2.1, hf.2.2.2.2.1,
    hf.2.2.2.2.2.1, hf.2.2.2.2.2.2⟩

theorem presence_fields_applied_witness :
    ∃ (e e0 : PeerEntry) (u : PeerPiano) (n : Nat),
      assocGet "p" (onPresence (fun x => x) "me"
        [("q", Presence.empty),
         ("p", { Presence.empty with volumeValue := some 3, reverbValue := some 1 })]
        PeerState.initial).peerSynths = some e ∧
      assocGet "p" (onPresence (fun x => x) "me"
        [("q", Presence.empty),
         ("p", { Presence.empty with volumeValue := some 3, reverbValue := some 1 })]
        PeerState.initial).peerPianos = some u ∧
      PeerState.initial.nextHandle ≤ n ∧
      e0 = (assocGet "p" PeerState.initial.peerSynths).getD (freshEntry n false) ∧
      u = mergeMirror (fun x => x)
        { Presence.empty with volumeValue := some 3, reverbValue := some 1 }
        ((assocGet "p" PeerState.initial.peerPianos).getD freshMirror) ∧
      e.handles = e0.handles ∧
      e.muted = e0.muted ∧
      e.remoteVolume =
        Option.getD (some (3 : Scalar)) e0.remoteVolume ∧
      e.useSampler = Option.getD none e0.useSampler ∧
      e.distortionWet = Option.getD none e0.distortionWet ∧
      e.reverbWet = Option.getD (some (1 : Scalar)) e0.reverbWet ∧
      e.delayWet = Option.getD none e0.delayWet :=
  presence_fields_applied (fun x => x) "me"
    [("q", Presence.empty),
     ("p", { Presence.empty with volumeValue := some 3, reverbValue := some 1 })]
    PeerState.initial "p"
    { Presence.empty with volumeValue := some 3, reverbValue := some 1 }
    (by decide) (by decide) (by decide) (by decide)

/-! ## A snapshot processed twice -/

theorem volumeMerge_idem (id : String) (value : Option Scalar) (e : PeerEntry) :
    volumeMerge id value (volumeMerge id value e) = volumeMerge id value e := by
  unfold volumeMerge
  cases value with
  | none => rfl
  | some v =>
    by_cases h : id = ""
    · simp [h]
    · simp only [if_neg h, volumeApplied]
      cases hm : e.muted <;> simp

theorem samplerMerge_idem (value : Option Bool) (e : PeerEntry) :
    samplerMerge value (samplerMerge value e) = samplerMerge value e := by
  unfold samplerMerge
  cases value with
  | none => rfl
  | some b =>
    simp only [samplerApplied]
    by_cases h : e.useSampler = b
    · simp [h]
    · simp [h]

theorem effectMerge_idem (name : String) (value : Option Scalar) (e : PeerEntry) :
    effectMerge name value (effectMerge name value e) = effectMerge name value e := by
  unfold effectMerge
  cases value with
  | none => rfl
  | some v =>
    simp only [effectApplied]
    split
    · rfl
    · split
      · rfl
      · split <;> rfl

theorem effectApplied_volumeMerge (name id : String) (v : Scalar) (value : Option Scalar)
    (e : PeerEntry) :
    volumeMerge id value (effectApplied name v e) = effectApplied name v (volumeMerge id value e) := by
  unfold volumeMerge effectApplied
  cases value with
  | none => rfl
  | some w =>
    by_cases h : id = ""
    · simp [h]
    · simp only [if_neg h, volumeApplied]
      split
      · rfl
      · split
        · rfl
        · split <;> rfl

theorem effectApplied_samplerMerge (name : String) (v : Scalar) (value : Option Bool)
    (e : PeerEntry) :
    samplerMerge value (effectApplied name v e) = effectApplied name v (samplerMerge value e) := by
  unfold samplerMerge effectApplied
  cases value with
  | none => rfl
  | some b =>
    simp only [samplerApplied]
    by_cases hb : e.useSampler = b
    · split
      · simp [hb]
      · split
        · simp [hb]
        · split <;> simp [hb]
    · split
      · simp [hb]
      · split
        · simp [hb]
        · split <;> simp [hb]

theorem samplerApplied_volumeMerge (id : String) (b : Bool) (value : Option Scalar)
    (e : PeerEntry) :
    volumeMerge id value (samplerApplied b e) = samplerApplied b (volumeMerge id value e) := by
  unfold volumeMerge samplerApplied
  cases value with
  | none => rfl
  | some w =>
    by_cases h : id = ""
    · simp [h]
    · simp only [if_neg h, volumeApplied]
      by_cases hb : e.useSampler = b <;> simp [hb]

theorem effectMerge_volumeMerge (name id : String) (w : Option Scalar)
    (value : Option Scalar) (e : PeerEntry) :
    volumeMerge id value (effectMerge name w e) = effectMerge name w (volumeMerge id value e) := by
  cases w with
  | none => rfl
  | some x => exact effectApplied_volumeMerge name id x value e

theorem effectMerge_samplerMerge (name : String) (w : Option Scalar) (value : Option Bool)
    (e : PeerEntry) :
    samplerMerge value (effectMerge name w e) = effectMerge name w (samplerMerge value e) := by
  cases w with
  | none => rfl
  | some x => exact effectApplied_samplerMerge name x value e

theorem samplerMerge_volumeMerge (id : String) (b : Option Bool) (value : Option Scalar)
    (e : PeerEntry) :
    volumeMerge id value (samplerMerge b e) = samplerMerge b (volumeMerge id value e) := by
  cases b with
  | none => rfl
  | some x => exact samplerApplied_volumeMerge id x value e

theorem effectMerge_comm (a b : String) (x y : Option Scalar) (e : PeerEntry) (h : a ≠ b) :
    effectMerge a x (effectMerge b y e) = effectMerge b y (effectMerge a x e) := by
  cases x with
  | none => rfl
  | some v =>
    cases y with
    | none => rfl
    | some w =>
      simp only [effectMerge, effectApplied]
      by_cases a1 : a = "distortion"
      · have b1 : b ≠ "distortion" := fun hb => h (by rw [a1, hb])
        simp only [a1, b1, if_true, if_false]
        split
        · rfl
        · split <;> rfl
      · by_cases a2 : a = "reverb"
        · have b2 : b ≠ "reverb" := fun hb => h (by rw [a2, hb])
          simp only [a2, b2, if_true, if_false, String.reduceEq]
          split
          · rfl
          · split <;> rfl
        · by_cases a3 : a = "delay"
          · have b3 : b ≠ "delay" := fun hb => h (by rw [a3, hb])
            simp only [a3, b3, if_true, if_false, String.reduceEq]
            split
            · rfl
            · split <;> rfl
          · simp only [a1, a2, a3, if_false]

theorem mergeAudio_idem (id : String) (p : Presence) (e : PeerEntry) :
    mergeAudio id p (mergeAudio id p e) = mergeAudio id p e := by
  unfold mergeAudio
  rw [effectMerge_volumeMerge, effectMerge_volumeMerge, effectMerge_volumeMerge,
    samplerMerge_volumeMerge, volumeMerge_idem,
    effectMerge_samplerMerge, effectMerge_samplerMerge, effectMerge_samplerMerge,
    samplerMerge_idem,
    effectMerge_comm "distortion" "delay" _ _ _ (by decide),
    effectMerge_comm "distortion" "reverb" _ _ _ (by decide),
    effectMerge_idem,
    effectMerge_comm "reverb" "delay" _ _ _ (by decide),
    effectMerge_idem, effectMerge_idem]

theorem mergeMirror_idem (sqrt : Scalar → Scalar) (p : Presence) (u : PeerPiano) :
    mergeMirror sqrt p (mergeMirror sqrt p u) = mergeMirror sqrt p u := by
  obtain ⟨v, b, d, r, dl⟩ := p
  cases v <;> cases b <;> cases d <;> cases r <;> cases dl <;>
    simp [mergeMirror, sliderMerge, sliderApplied, mirrorSamplerMerge, mirrorSamplerApplied]

theorem presencePeer_settled (sqrt : Scalar → Scalar) (id : String) (p : Presence)
    (t : PeerState) (e : PeerEntry) (u : PeerPiano)
    (he : assocGet id t.peerSynths = some e) (hfe : mergeAudio id p e = e)
    (hu : assocGet id t.peerPianos = some u) (hfu : mergeMirror sqrt p u = u) :
    (presencePeer sqrt id p t).peerSynths = t.peerSynths ∧
    (presencePeer sqrt id p t).peerPianos = t.peerPianos := by
  rw [(presencePeer_peerSynths sqrt id p t).1, presencePeer_peerPianos sqrt id p t, he, hu]
  simp only [Option.getD_some]
  rw [hfe, hfu, assocSet_eq_self _ _ _ he, assocSet_eq_self _ _ _ hu]
  exact ⟨rfl, rfl⟩

theorem presenceLoop_settled (sqrt : Scalar → Scalar) (localId : String)
    (L : List (String × Presence)) (A : List (String × PeerEntry))
    (B : List (String × PeerPiano))
    (h : ∀ kv ∈ L, kv.1 ≠ localId → ∃ e u, assocGet kv.1 A = some e ∧
      mergeAudio kv.1 kv.2 e = e ∧ assocGet kv.1 B = some u ∧ mergeMirror sqrt kv.2 u = u)
    (t : PeerState) (hA : t.peerSynths = A) (hB : t.peerPianos = B) :
    (presenceLoop sqrt localId L t).peerSynths = A ∧
    (presenceLoop sqrt localId L t).peerPianos = B ∧
    (presenceLoop sqrt localId L t).nextHandle = t.nextHandle ∧
    ∃ extra, (presenceLoop sqrt localId L t).calls = t.calls ++ extra ∧
      extra.countP isConstruct = 0 ∧ extra.countP isDispose = 0 := by
  induction L generalizing t with
  | nil => exact ⟨hA, hB, rfl, [], by simp [presenceLoop_nil], rfl, rfl⟩
  | cons kv L ih =>
    rw [presenceLoop_cons]
    have hL : ∀ kv ∈ L, kv.1 ≠ localId → ∃ e u, assocGet kv.1 A = some e ∧
        mergeAudio kv.1 kv.2 e = e ∧ assocGet kv.1 B = some u ∧ mergeMirror sqrt kv.2 u = u :=
      fun kv' hm => h kv' (List.mem_cons_of_mem _ hm)
    by_cases hk : kv.1 = localId
    · rw [if_pos hk]
      exact ih hL t hA hB
    · rw [if_neg hk]
      obtain ⟨e, u, he, hfe, hu, hfu⟩ := h kv (List.mem_cons_self _ _) hk
      rw [← hA] at he
      rw [← hB] at hu
      obtain ⟨h1, h2⟩ := presencePeer_settled sqrt kv.1 kv.2 t e u he hfe hu hfu
      obtain ⟨hn, extra1, hc1, hk1, hd1⟩ := presencePeer_no_construct sqrt kv.1 kv.2 t e he
      obtain ⟨i1, i2, i3, extra, hc, hk2, hd2⟩ :=
        ih hL (presencePeer sqrt kv.1 kv.2 t) (by rw [h1, hA]) (by rw [h2, hB])
      refine ⟨i1, i2, by rw [i3, hn], extra1 ++ extra, by rw [hc, hc1, List.append_assoc], ?_, ?_⟩
      · rw [List.countP_append, hk1, hk2]
      · rw [List.countP_append, hd1, hd2]

theorem assocGet_isSome_of_mem {α : Type} (kv : String × α) (l : List (String × α))
    (h : kv ∈ l) : (assocGet kv.1 l).isSome := by
  cases hg : assocGet kv.1 l with
  | some v => rfl
  | none => exact absurd rfl (not_mem_keys_of_none kv.1 l hg kv h)

theorem assocGet_of_mem_nodup {α : Type} (id : String) (v : α) (l : List (String × α))
    (hnd : (l.map Prod.fst).Nodup) (h : (id, v) ∈ l) : assocGet id l = some v := by
  induction l with
  | nil => cases h
  | cons a t ih =>
    obtain ⟨k, w⟩ := a
    rw [List.map_cons, List.nodup_cons] at hnd
    unfold assocGet
    rcases List.mem_cons.1 h with h | h
    · cases h
      simp
    · have hk : k ≠ id := by
        intro e
        apply hnd.1
        rw [e]
        have hm := List.mem_map_of_mem Prod.fst h
        exact hm
      rw [if_neg hk]
      exact ih hnd.2 h

theorem onPresence_keys (sqrt : Scalar → Scalar) (localId : String)
    (P : List (String × Presence)) (s : PeerState) :
    ∀ k ∈ (onPresence sqrt localId P s).peerPianos.map Prod.fst, (assocGet k P).isSome := by
  intro k hk
  cases hP : assocGet k P with
  | some p => rfl
  | none =>
    exfalso
    have hn : assocGet k (onPresence sqrt localId P s).peerPianos = none := by
      cases hu : assocGet k s.peerPianos with
      | some u => exact (onPresence_departs sqrt localId P s k u hP hu).2
      | none => exact (onPresence_keeps sqrt localId P s k hP hu).2
    exact (assocGet_eq_none_iff k _).1 hn hk

theorem onPresence_tracks (sqrt : Scalar → Scalar) (localId : String)
    (P : List (String × Presence)) (s : PeerState) :
    s.nextHandle ≤ (onPresence sqrt localId P s).nextHandle := by
  rw [onPresence_eq, (departLoop_tracks P _ _).1]
  obtain ⟨extra, _, _, h⟩ := presenceLoop_tracks sqrt localId P s
  omega

theorem onPresence_settled (sqrt : Scalar → Scalar) (localId : String)
    (P : List (String × Presence)) (s : PeerState) (hnd : (P.map Prod.fst).Nodup) :
    ∀ kv ∈ P, kv.1 ≠ localId → ∃ e u,
      assocGet kv.1 (onPresence sqrt localId P s).peerSynths = some e ∧
      mergeAudio kv.1 kv.2 e = e ∧
      assocGet kv.1 (onPresence sqrt localId P s).peerPianos = some u ∧
      mergeMirror sqrt kv.2 u = u := by
  intro kv hkv hid
  have hP : assocGet kv.1 P = some kv.2 := assocGet_of_mem_nodup kv.1 kv.2 P hnd hkv
  obtain ⟨n, _, he, hu⟩ := onPresence_entry sqrt localId P s kv.1 kv.2 hnd hP hid
  exact ⟨_, _, he, mergeAudio_idem _ _ _, hu, mergeMirror_idem _ _ _⟩

theorem onPresence_twice (sqrt : Scalar → Scalar) (localId : String)
    (P : List (String × Presence)) (s : PeerState) (hnd : (P.map Prod.fst).Nodup) :
    (onPresence sqrt localId P (onPresence sqrt localId P s)).peerSynths =
      (onPresence sqrt localId P s).peerSynths ∧
    (onPresence sqrt localId P (onPresence sqrt localId P s)).peerPianos =
      (onPresence sqrt localId P s).peerPianos ∧
    (onPresence sqrt localId P (onPresence sqrt localId P s)).nextHandle =
      (onPresence sqrt localId P s).nextHandle ∧
    ∃ extra, (onPresence sqrt localId P (onPresence sqrt localId P s)).calls =
        (onPresence sqrt localId P s).calls ++ extra ∧
      extra.countP isConstruct = 0 ∧ extra.countP isDispose = 0 := by
  obtain ⟨h1, h2, h3, extra, hc, hk, hd⟩ :=
    presenceLoop_settled sqrt localId P _ _ (onPresence_settled sqrt localId P s hnd)
      (onPresence sqrt localId P s) rfl rfl
  have hfix : onPresence sqrt localId P (onPresence sqrt localId P s) =
      presenceLoop sqrt localId P (onPresence sqrt localId P s) := by
    rw [onPresence_eq sqrt localId P (onPresence sqrt localId P s)]
    apply departLoop_fixed
    rw [h2]
    exact onPresence_keys sqrt localId P s
  rw [hfix]
  exact ⟨h1, h2, h3, extra, hc, hk, hd⟩

/-! ## An effect message after the presence value -/

theorem mergeMirror_sliders (sqrt : Scalar → Scalar) (p : Presence) (u : PeerPiano) :
    (mergeMirror sqrt p u).distortionSlider =
      (p.distortionValue.map PeerPianoManager.normalizedValue).getD u.distortionSlider ∧
    (mergeMirror sqrt p u).reverbSlider =
      (p.reverbValue.map PeerPianoManager.normalizedValue).getD u.reverbSlider ∧
    (mergeMirror sqrt p u).delaySlider =
      (p.delayValue.map PeerPianoManager.normalizedValue).getD u.delaySlider := by
  obtain ⟨v, b, d, r, dl⟩ := p
  cases v <;> cases b <;> cases d <;> cases r <;> cases dl <;>
    simp [mergeMirror, sliderMerge, sliderApplied, mirrorSamplerMerge, mirrorSamplerApplied]

theorem updatePeerSynthEffect_calls (id name : String) (v : Scalar) (s : PeerState)
    (e : PeerEntry) (h : assocGet id s.peerSynths = some e) :
    (PeerAudio.updatePeerSynthEffect id name v s).calls =
      s.calls ++
        (if name = "distortion" then [PeerCall.setWet e.distortion v]
         else if name = "reverb" then [PeerCall.setWet e.reverb v]
         else if name = "delay" then [PeerCall.setWet e.delay v]
         else []) := by
  unfold PeerAudio.updatePeerSynthEffect
  rw [h]
  simp only []
  split
  · rfl
  · split
    · rfl
    · split
      · rfl
      · simp

theorem effect_update_replay (name : String) (id : String) (v : Scalar) (t : PeerState)
    (e : PeerEntry) (u : PeerPiano)
    (he : assocGet id t.peerSynths = some e) (hfe : effectApplied name v e = e)
    (hu : assocGet id t.peerPianos = some u) (hfu : sliderApplied name v u = u) :
    (PeerPianoManager.updatePeerEffectSlider id name v
      (PeerAudio.updatePeerSynthEffect id name v t)).peerSynths = t.peerSynths ∧
    (PeerPianoManager.updatePeerEffectSlider id name v
      (PeerAudio.updatePeerSynthEffect id name v t)).peerPianos = t.peerPianos ∧
    (PeerPianoManager.updatePeerEffectSlider id name v
      (PeerAudio.updatePeerSynthEffect id name v t)).nextHandle = t.nextHandle ∧
    (PeerPianoManager.updatePeerEffectSlider id name v
      (PeerAudio.updatePeerSynthEffect id name v t)).calls =
      t.calls ++
        (if name = "distortion" then [PeerCall.setWet e.distortion v]
         else if name = "reverb" then [PeerCall.setWet e.reverb v]
         else if name = "delay" then [PeerCall.setWet e.delay v]
         else []) := by
  have f1 := PeerPianoManager.updatePeerEffectSlider_frame id name v
    (PeerAudio.updatePeerSynthEffect id name v t)
  have f2 := PeerAudio.updatePeerSynthEffect_frame id name v t
  refine ⟨?_, ?_, ?_, ?_⟩
  · rw [f1.1, PeerAudio.updatePeerSynthEffect_peerSynths, assocUpdate_of_some _ _ _ _ he, hfe,
      assocSet_eq_self _ _ _ he]
  · rw [PeerPianoManager.updatePeerEffectSlider_peerPianos, f2.1,
      assocUpdate_of_some _ _ _ _ hu, hfu, assocSet_eq_self _ _ _ hu]
  · rw [f1.2.1, f2.2]
  · rw [f1.2.2, updatePeerSynthEffect_calls id name v t e he]

theorem effectApplied_fixed (v : Scalar) (e : PeerEntry) :
    (e.distortionWet = v → effectApplied "distortion" v e = e) ∧
    (e.reverbWet = v → effectApplied "reverb" v e = e) ∧
    (e.delayWet = v → effectApplied "delay" v e = e) := by
  refine ⟨?_, ?_, ?_⟩ <;> intro h <;> subst h <;> simp [effectApplied]

theorem sliderApplied_fixed (v : Scalar) (u : PeerPiano) :
    (u.distortionSlider = PeerPianoManager.normalizedValue v →
      sliderApplied "distortion" v u = u) ∧
    (u.reverbSlider = PeerPianoManager.normalizedValue v → sliderApplied "reverb" v u = u) ∧
    (u.delaySlider = PeerPianoManager.normalizedValue v → sliderApplied "delay" v u = u) := by
  refine ⟨?_, ?_, ?_⟩ <;> intro h <;> simp [sliderApplied, ← h]

theorem onmessage_effect_replay (localId : String) (data : RoomMessage) (t : PeerState)
    (e : PeerEntry) (u : PeerPiano) (hid : data.clientId ≠ localId)
    (he : assocGet data.clientId t.peerSynths = some e)
    (hu : assocGet data.clientId t.peerPianos = some u)
    (hcase :
      data.type = "distortionUpdate" ∧ e.distortionWet = data.value ∧
        u.distortionSlider = PeerPianoManager.normalizedValue data.value ∨
      data.type = "reverbUpdate" ∧ e.reverbWet = data.value ∧
        u.reverbSlider = PeerPianoManager.normalizedValue data.value ∨
      data.type = "delayUpdate" ∧ e.delayWet = data.value ∧
        u.delaySlider = PeerPianoManager.normalizedValue data.value) :
    (onmessage localId data t).peerSynths = t.peerSynths ∧
    (onmessage localId data t).peerPianos = t.peerPianos ∧
    (onmessage localId data t).nextHandle = t.nextHandle ∧
    ∃ h, h ∈ [e.distortion, e.reverb, e.delay] ∧
      (onmessage localId data t).calls = t.calls ++ [PeerCall.setWet h data.value] := by
  rcases hcase with ⟨ht, hw, hs⟩ | ⟨ht, hw, hs⟩ | ⟨ht, hw, hs⟩
  · obtain ⟨r1, r2, r3, r4⟩ := effect_update_replay "distortion" data.clientId data.value t e u
      he ((effectApplied_fixed data.value e).1 hw) hu ((sliderApplied_fixed data.value u).1 hs)
    have hom : onmessage localId data t =
        PeerPianoManager.updatePeerEffectSlider data.clientId "distortion" data.value
          (PeerAudio.updatePeerSynthEffect data.clientId "distortion" data.value t) := by
      unfold onmessage
      simp [hid, ht]
    rw [hom]
    exact ⟨r1, r2, r3, e.distortion, by simp, by rw [r4]; simp⟩
  · obtain ⟨r1, r2, r3, r4⟩ := effect_update_replay "reverb" data.clientId data.value t e u
      he ((effectApplied_fixed data.value e).2.1 hw) hu
      ((sliderApplied_fixed data.value u).2.1 hs)
    have hom : onmessage localId data t =
        PeerPianoManager.updatePeerEffectSlider data.clientId "reverb" data.value
          (PeerAudio.updatePeerSynthEffect data.clientId "reverb" data.value t) := by
      unfold onmessage
      simp [hid, ht]
    rw [hom]
    exact ⟨r1, r2, r3, e.reverb, by simp, by rw [r4]; simp⟩
  · obtain ⟨r1, r2, r3, r4⟩ := effect_update_replay "delay" data.clientId data.value t e u
      he ((effectApplied_fixed data.value e).2.2 hw) hu
      ((sliderApplied_fixed data.value u).2.2 hs)
    have hom : onmessage localId data t =
        PeerPianoManager.updatePeerEffectSlider data.clientId "delay" data.value
          (PeerAudio.updatePeerSynthEffect data.clientId "delay" data.value t) := by
      unfold onmessage
      simp [hid, ht]
    rw [hom]
    exact ⟨r1, r2, r3, e.delay, by simp, by rw [r4]; simp⟩

/-- C20: a snapshot `P` (an object: no key twice) processed twice in succession, from
any peer state. The second processing leaves both registries as the first one
left them, entry by entry and field by field (handles, wet values, stored
volumes, mute and instrument flags, the values of the UI mirrors), leaves the
handle counter where it is, and the calls it issues contain no construction and
no disposal. Likewise, after `P` has been processed, a `distortionUpdate`,
`reverbUpdate` or `delayUpdate` message from a participant `id` of `P` (not
the local one) whose value is the value `P[id]` defines for that effect
leaves both registries and the handle counter unchanged; its one call sets the
wet value of the effect to the value it already has. -/
theorem presence_idempotent (sqrt : Scalar → Scalar) (localId : String)
    (P : List (String × Presence)) (s : PeerState) (hnd : (P.map Prod.fst).Nodup) :
    ((onPresence sqrt localId P (onPresence sqrt localId P s)).peerSynths =
        (onPresence sqrt localId P s).peerSynths ∧
      (onPresence sqrt localId P (onPresence sqrt localId P s)).peerPianos =
        (onPresence sqrt localId P s).peerPianos ∧
      (onPresence sqrt localId P (onPresence sqrt localId P s)).nextHandle =
        (onPresence sqrt localId P s).nextHandle ∧
      ∃ extra, (onPresence sqrt localId P (onPresence sqrt localId P s)).calls =
          (onPresence sqrt localId P s).calls ++ extra ∧
        extra.countP isConstruct = 0 ∧ extra.countP isDispose = 0) ∧
    ∀ (data : RoomMessage) (p : Presence),
      assocGet data.clientId P = some p → data.clientId ≠ localId →
      (data.type = "distortionUpdate" ∧ p.distortionValue = some data.value ∨
        data.type = "reverbUpdate" ∧ p.reverbValue = some data.value ∨
        data.type = "delayUpdate" ∧ p.delayValue = some data.value) →
      (onmessage localId data (onPresence sqrt localId P s)).peerSynths =
        (onPresence sqrt localId P s).peerSynths ∧
      (onmessage localId data (onPresence sqrt localId P s)).peerPianos =
        (onPresence sqrt localId P s).peerPianos ∧
      (onmessage localId data (onPresence sqrt localId P s)).nextHandle =
        (onPresence sqrt localId P s).nextHandle ∧
      ∃ e h, assocGet data.clientId (onPresence sqrt localId P s).peerSynths = some e ∧
        h ∈ [e.distortion, e.reverb, e.delay] ∧
        (onmessage localId data (onPresence sqrt localId P s)).calls =
          (onPresence sqrt localId P s).calls ++ [PeerCall.setWet h data.value] := by
  refine ⟨onPresence_twice sqrt localId P s hnd, ?_⟩
  intro data p hP hid hcase
  obtain ⟨n, _, he, hu⟩ := onPresence_entry sqrt localId P s data.clientId p hnd hP hid
  have hf := mergeAudio_fields data.clientId p
    ((assocGet data.clientId s.peerSynths).getD (freshEntry n false))
  have hm := mergeMirror_sliders sqrt p ((assocGet data.clientId s.peerPianos).getD freshMirror)
  obtain ⟨r1, r2, r3, h, hh, r4⟩ := onmessage_effect_replay localId data _ _ _ hid he hu (by
    rcases hcase with ⟨ht, hv⟩ | ⟨ht, hv⟩ | ⟨ht, hv⟩
    · exact Or.inl ⟨ht, by rw [hf.2.2.2.2.1, hv]; rfl, by rw [hm.1, hv]; rfl⟩
    · exact Or.inr (Or.inl ⟨ht, by rw [hf.2.2.2.2.2.1, hv]; rfl, by rw [hm.2.1, hv]; rfl⟩)
    · exact Or.inr (Or.inr ⟨ht, by rw [hf.2.2.2.2.2.2, hv]; rfl, by rw [hm.2.2, hv]; rfl⟩))
  exact ⟨r1, r2, r3, _, h, he, hh, r4⟩

theorem presence_idempotent_witness :
    (onPresence (fun x => x) "me"
        [("p", { Presence.empty with volumeValue := some 3, delayValue := some 1 }),
         ("q", Presence.empty)]
        (onPresence (fun x => x) "me"
          [("p", { Presence.empty with volumeValue := some 3, delayValue := some 1 }),
           ("q", Presence.empty)]
          PeerState.initial)).peerSynths =
      (onPresence (fun x => x) "me"
        [("p", { Presence.empty with volumeValue := some 3, delayValue := some 1 }),
         ("q", Presence.empty)]
        PeerState.initial).peerSynths :=
  (presence_idempotent (fun x => x) "me"
    [("p", { Presence.empty with volumeValue := some 3, delayValue := some 1 }),
     ("q", Presence.empty)]
    PeerState.initial (by decide)).1.1

/-! ## Handles: held, issued, retired -/

theorem owned_assocSet_of_some (id : String) (e e' : PeerEntry) (l : List (String × PeerEntry))
    (h : assocGet id l = some e) (hh : e'.handles = e.handles) :
    (assocSet id e' l).flatMap (fun kv => kv.2.handles) =
      l.flatMap (fun kv => kv.2.handles) := by
  induction l with
  | nil => cases h
  | cons a t ih =>
    obtain ⟨k, w⟩ := a
    unfold assocGet at h
    unfold assocSet
    by_cases hk : k = id
    · rw [if_pos hk] at h
      cases h
      rw [if_pos hk, List.flatMap_cons, List.flatMap_cons]
      simp only [hh]
    · rw [if_neg hk] at h
      rw [if_neg hk, List.flatMap_cons, List.flatMap_cons, ih h]

theorem owned_assocSet_of_none (id : String) (e' : PeerEntry) (l : List (String × PeerEntry))
    (h : assocGet id l = none) :
    (assocSet id e' l).flatMap (fun kv => kv.2.handles) =
      l.flatMap (fun kv => kv.2.handles) ++ e'.handles := by
  rw [assocSet_of_none id e' l h, List.flatMap_append]
  simp

theorem owned_assocUpdate (id : String) (g : PeerEntry → PeerEntry)
    (l : List (String × PeerEntry)) (hg : ∀ e, (g e).handles = e.handles) :
    (assocUpdate id g l).flatMap (fun kv => kv.2.handles) =
      l.flatMap (fun kv => kv.2.handles) := by
  cases h : assocGet id l with
  | none => rw [assocUpdate_of_none id g l h]
  | some e => rw [assocUpdate_of_some id g e l h, owned_assocSet_of_some id e _ l h (hg e)]

theorem owned_assocDelete_sublist (id : String) (l : List (String × PeerEntry)) :
    ((assocDelete id l).flatMap (fun kv => kv.2.handles)).Sublist
      (l.flatMap (fun kv => kv.2.handles)) := by
  unfold assocDelete
  induction l with
  | nil => exact List.Sublist.refl _
  | cons a t ih =>
    rw [List.filter_cons]
    split
    · rw [List.flatMap_cons, List.flatMap_cons]
      exact List.Sublist.append (List.Sublist.refl _) ih
    · rw [List.flatMap_cons]
      exact List.Sublist.trans ih (List.sublist_append_right _ _)

theorem mem_owned_of_get (id : String) (e : PeerEntry) (l : List (String × PeerEntry))
    (h : assocGet id l = some e) (x : Nat) (hx : x ∈ e.handles) :
    x ∈ l.flatMap (fun kv => kv.2.handles) :=
  List.mem_flatMap.2 ⟨(id, e), assocGet_mem id e l h, hx⟩

theorem handles_nodup_of_get (id : String) (e : PeerEntry) (l : List (String × PeerEntry))
    (hn : (l.flatMap (fun kv => kv.2.handles)).Nodup) (h : assocGet id l = some e) :
    e.handles.Nodup :=
  (List.nodup_flatMap.1 hn).1 (id, e) (assocGet_mem id e l h)

theorem not_mem_owned_assocDelete (id : String) (e : PeerEntry)
    (l : List (String × PeerEntry)) (hn : (l.flatMap (fun kv => kv.2.handles)).Nodup)
    (h : assocGet id l = some e) (x : Nat) (hx : x ∈ e.handles) :
    x ∉ (assocDelete id l).flatMap (fun kv => kv.2.handles) := by
  induction l with
  | nil => cases h
  | cons a t ih =>
    obtain ⟨k, w⟩ := a
    rw [List.flatMap_cons, List.nodup_append] at hn
    obtain ⟨hw, ht, hdis⟩ := hn
    unfold assocGet at h
    unfold assocDelete
    rw [List.filter_cons]
    by_cases hk : k = id
    · rw [if_pos hk] at h
      cases h
      simp only [hk, ne_eq, not_true_eq_false, decide_False, Bool.false_eq_true, if_false]
      intro hm
      exact hdis hx ((owned_assocDelete_sublist id t).subset hm)
    · rw [if_neg hk] at h
      simp only [ne_eq, hk, not_false_eq_true, decide_True, if_true]
      rw [List.flatMap_cons, List.mem_append]
      rintro (hm | hm)
      · exact hdis hm (mem_owned_of_get id e t h x hx)
      · exact ih ht h hm

theorem step_refl (s : PeerState) : Step s s :=
  ⟨Nat.le_refl _, ⟨[], by simp, List.nodup_nil, by simp⟩, [], by simp, by simp⟩

theorem step_trans {s t u : PeerState} (h1 : Step s t) (h2 : Step t u) : Step s u := by
  obtain ⟨n1, ⟨F1, s1, d1, b1⟩, e1, c1, q1⟩ := h1
  obtain ⟨n2, ⟨F2, s2, d2, b2⟩, e2, c2, q2⟩ := h2
  refine ⟨Nat.le_trans n1 n2, ⟨F1 ++ F2, ?_, ?_, ?_⟩, e1 ++ e2, ?_, ?_⟩
  · rw [← List.append_assoc]
    exact List.Sublist.trans s2 (List.Sublist.append s1 (List.Sublist.refl _))
  · rw [List.nodup_append]
    refine ⟨d1, d2, ?_⟩
    intro x hx1 hx2
    have := (b1 x hx1).2
    have := (b2 x hx2).1
    omega
  · intro x hx
    rcases List.mem_append.1 hx with hx | hx
    · have := b1 x hx
      omega
    · have := b2 x hx
      omega
  · rw [c2, c1, List.append_assoc]
  · intro x hx
    rcases List.mem_append.1 hx with hx | hx
    · exact q1 x hx
    · rcases q2 x hx with hq | hq
      · rcases List.mem_append.1 (s1.subset hq) with hm | hm
        · exact Or.inl hm
        · exact Or.inr (b1 x hm).1
      · exact Or.inr (Nat.le_trans n1 hq)

theorem step_wellFormed {s t : PeerState} (h : Step s t) (hw : WellFormed s) :
    WellFormed t := by
  obtain ⟨n1, ⟨F, s1, d1, b1⟩, _⟩ := h
  obtain ⟨hn, hb⟩ := hw
  constructor
  · refine List.Nodup.sublist s1 ?_
    rw [List.nodup_append]
    refine ⟨hn, d1, ?_⟩
    intro x hx1 hx2
    have := hb x hx1
    have := (b1 x hx2).1
    omega
  · intro x hx
    rcases List.mem_append.1 (s1.subset hx) with hm | hm
    · have := hb x hm
      omega
    · exact (b1 x hm).2

theorem step_retired {s t : PeerState} (h : Step s t) (x : Nat) (hr : Retired x s) :
    Retired x t ∧ ∃ extra, t.calls = s.calls ++ extra ∧ extra.count (PeerCall.dispose x) = 0 := by
  obtain ⟨n1, ⟨F, s1, d1, b1⟩, extra, c1, q1⟩ := h
  obtain ⟨hlt, hno⟩ := hr
  refine ⟨⟨Nat.lt_of_lt_of_le hlt n1, ?_⟩, extra, c1, ?_⟩
  · intro hx
    rcases List.mem_append.1 (s1.subset hx) with hm | hm
    · exact hno hm
    · have := (b1 x hm).1
      omega
  · rw [List.count_eq_zero]
    intro hx
    rcases q1 x hx with hq | hq
    · exact hno hq
    · omega

theorem step_of_tracks {s t : PeerState} (ht : Tracks s t)
    (ho : ownedHandles t = ownedHandles s ∧ t.nextHandle = s.nextHandle ∨
      ownedHandles t = ownedHandles s ++ (freshEntry s.nextHandle false).handles ∧
        t.nextHandle = s.nextHandle + 6) : Step s t := by
  obtain ⟨extra, hc, hd, _⟩ := ht
  have hq : ∀ h, PeerCall.dispose h ∈ extra → h ∈ ownedHandles s ∨ s.nextHandle ≤ h := by
    intro h hm
    have := hd _ hm
    simp [isDispose] at this
  rcases ho with ⟨h1, h2⟩ | ⟨h1, h2⟩
  · exact ⟨by omega, ⟨[], by rw [h1]; simp, List.nodup_nil, by simp⟩, extra, hc, hq⟩
  · refine ⟨by omega, ⟨(freshEntry s.nextHandle false).handles, by rw [h1], ?_, ?_⟩,
      extra, hc, hq⟩
    · simp [freshEntry, PeerEntry.handles]
    · intro h hm
      simp [freshEntry, PeerEntry.handles] at hm
      omega

theorem presencePeer_step (sqrt : Scalar → Scalar) (id : String) (p : Presence)
    (s : PeerState) : Step s (presencePeer sqrt id p s) := by
  refine step_of_tracks (presencePeer_tracks sqrt id p s) ?_
  obtain ⟨h1, h2⟩ := presencePeer_peerSynths sqrt id p s
  unfold ownedHandles
  rw [h1, h2]
  cases he : assocGet id s.peerSynths with
  | some e =>
    left
    exact ⟨owned_assocSet_of_some id e _ _ he (mergeAudio_fields id p e).1, rfl⟩
  | none =>
    right
    refine ⟨?_, rfl⟩
    rw [owned_assocSet_of_none id _ _ he, Option.getD_none, (mergeAudio_fields id p _).1]

theorem toggleMute_step (id : String) (m : Bool) (s : PeerState) :
    Step s (PeerAudio.toggleMute id m s) := by
  refine step_of_tracks (PeerAudio.toggleMute_tracks id m s) (Or.inl ?_)
  unfold PeerAudio.toggleMute
  cases he : assocGet id s.peerSynths with
  | none => exact ⟨rfl, rfl⟩
  | some e => exact ⟨owned_assocSet_of_some id e _ _ he rfl, rfl⟩

theorem stopPeerNote_frame (id note : String) (s : PeerState) :
    (PeerAudio.stopPeerNote id note s).peerSynths = s.peerSynths ∧
    (PeerAudio.stopPeerNote id note s).peerPianos = s.peerPianos ∧
    (PeerAudio.stopPeerNote id note s).nextHandle = s.nextHandle := by
  unfold PeerAudio.stopPeerNote
  split <;> exact ⟨rfl, rfl, rfl⟩

theorem effectApplied_handles (name : String) (v : Scalar) (e : PeerEntry) :
    (effectApplied name v e).handles = e.handles :=
  (effectMerge_fields name (some v) e).1

theorem onmessage_step (localId : String) (data : RoomMessage) (s : PeerState) :
    Step s (onmessage localId data s) := by
  refine step_of_tracks (onmessage_tracks localId data s) ?_
  have eff : ∀ name : String,
      ownedHandles (PeerPianoManager.updatePeerEffectSlider data.clientId name data.value
        (PeerAudio.updatePeerSynthEffect data.clientId name data.value s)) = ownedHandles s ∧
      (PeerPianoManager.updatePeerEffectSlider data.clientId name data.value
        (PeerAudio.updatePeerSynthEffect data.clientId name data.value s)).nextHandle =
        s.nextHandle := by
    intro name
    have f1 := PeerPianoManager.updatePeerEffectSlider_frame data.clientId name data.value
      (PeerAudio.updatePeerSynthEffect data.clientId name data.value s)
    have f2 := PeerAudio.updatePeerSynthEffect_frame data.clientId name data.value s
    unfold ownedHandles
    rw [f1.1, f1.2.1, f2.2, PeerAudio.updatePeerSynthEffect_peerSynths]
    exact ⟨owned_assocUpdate _ _ _ (effectApplied_handles name data.value), rfl⟩
  unfold onmessage
  simp only []
  split
  · exact Or.inl ⟨rfl, rfl⟩
  · split
    · have hf := PeerPianoManager.highlightPeerNote_frame data.clientId data.note true s
      cases he : assocGet data.clientId s.peerSynths with
      | none =>
        right
        rw [playPeerNote_of_none _ _ _ _ (by rw [hf.1]; exact he)]
        unfold ownedHandles
        simp only [hf.1, hf.2.1, List.flatMap_append]
        simp [freshEntry, PeerEntry.handles]
      | some e =>
        left
        rw [playPeerNote_of_some _ _ _ _ e (by rw [hf.1]; exact he)]
        unfold ownedHandles
        simp only [hf.1, hf.2.1]
        exact ⟨trivial, trivial⟩
    · split
      · have hf := PeerPianoManager.highlightPeerNote_frame data.clientId data.note false s
        have hs := stopPeerNote_frame data.clientId data.note
          (PeerPianoManager.highlightPeerNote data.clientId data.note false s)
        left
        unfold ownedHandles
        rw [hs.1, hs.2.2, hf.1, hf.2.1]
        exact ⟨rfl, rfl⟩
      · split
        · exact Or.inl (eff _)
        · split
          · exact Or.inl (eff _)
          · split
            · exact Or.inl (eff _)
            · exact Or.inl ⟨rfl, rfl⟩

theorem departPeer_step (P : List (String × Presence)) (s : PeerState) (k : String) :
    Step s (departPeer P s k) := by
  cases hp : assocGet k P with
  | some p =>
    rw [departPeer_present P s k (by rw [hp]; rfl)]
    exact step_refl s
  | none =>
    rw [departPeer_absent P s k hp]
    refine ⟨Nat.le_refl _, ⟨[], ?_, List.nodup_nil, by simp⟩, _, rfl, ?_⟩
    · rw [List.append_nil]
      exact owned_assocDelete_sublist k s.peerSynths
    · intro h hm
      cases he : assocGet k s.peerSynths with
      | none => rw [he] at hm; cases hm
      | some e =>
        rw [he] at hm
        simp only [Option.map_some', Option.getD_some, PeerEntry.disposals, List.mem_map] at hm
        obtain ⟨x, hx, hxe⟩ := hm
        cases hxe
        exact Or.inl (mem_owned_of_get k e s.peerSynths he h hx)

theorem presenceLoop_step (sqrt : Scalar → Scalar) (localId : String)
    (L : List (String × Presence)) (s : PeerState) :
    Step s (presenceLoop sqrt localId L s) := by
  induction L generalizing s with
  | nil => exact step_refl _
  | cons kv L ih =>
    rw [presenceLoop_cons]
    refine step_trans ?_ (ih _)
    split
    · exact step_refl _
    · exact presencePeer_step _ _ _ _

theorem departLoop_step (P : List (String × Presence)) (K : List String) (s : PeerState) :
    Step s (K.foldl (departPeer P) s) := by
  induction K generalizing s with
  | nil => exact step_refl _
  | cons k K ih =>
    rw [List.foldl_cons]
    exact step_trans (departPeer_step P s k) (ih _)

theorem onPresence_step (sqrt : Scalar → Scalar) (localId : String)
    (P : List (String × Presence)) (s : PeerState) :
    Step s (onPresence sqrt localId P s) := by
  rw [onPresence_eq]
  exact step_trans (presenceLoop_step sqrt localId P s) (departLoop_step P _ _)

theorem event_step (sqrt : Scalar → Scalar) (localId : String) (ev : PeerEvent)
    (s : PeerState) : Step s (PeerEvent.apply sqrt localId s ev) := by
  cases ev with
  | message data => exact onmessage_step localId data s
  | presence snapshot => exact onPresence_step sqrt localId snapshot s
  | mute id m => exact toggleMute_step id m s

theorem runPeerEvents_step (sqrt : Scalar → Scalar) (localId : String)
    (events : List PeerEvent) (s : PeerState) :
    Step s (runPeerEvents sqrt localId events s) := by
  induction events generalizing s with
  | nil => exact step_refl _
  | cons ev events ih =>
    unfold runPeerEvents
    rw [List.foldl_cons]
    exact step_trans (event_step sqrt localId ev s) (ih _)

theorem wellFormed_initial : WellFormed PeerState.initial :=
  ⟨List.nodup_nil, by intro h hm; cases hm⟩

theorem wellFormed_reachable (sqrt : Scalar → Scalar) (localId : String)
    (events : List PeerEvent) :
    WellFormed (runPeerEvents sqrt localId events PeerState.initial) :=
  step_wellFormed (runPeerEvents_step sqrt localId events PeerState.initial) wellFormed_initial

/-! ## The objects of a departed participant -/

theorem count_dispose_disposals (e : PeerEntry) (x : Nat) :
    e.disposals.count (PeerCall.dispose x) = e.handles.count x := by
  unfold PeerEntry.disposals
  exact List.count_map_of_injective e.handles PeerCall.dispose
    (fun a b h => PeerCall.dispose.inj h) x

theorem departLoop_disposes_once (P : List (String × Presence)) (K : List String)
    (s : PeerState) (id : String) (e : PeerEntry) (x : Nat)
    (hw : WellFormed s) (he : assocGet id s.peerSynths = some e) (hx : x ∈ e.handles)
    (hK : id ∈ K) (hP : assocGet id P = none) :
    ∃ extra, (K.foldl (departPeer P) s).calls = s.calls ++ extra ∧
      extra.count (PeerCall.dispose x) = 1 ∧ Retired x (K.foldl (departPeer P) s) := by
  induction K generalizing s with
  | nil => cases hK
  | cons k K ih =>
    rw [List.foldl_cons]
    by_cases hk : k = id
    · subst hk
      have hr : Retired x (departPeer P s k) := by
        rw [departPeer_absent P s k hP]
        exact ⟨hw.2 x (mem_owned_of_get k e _ he x hx),
          not_mem_owned_assocDelete k e _ hw.1 he x hx⟩
      obtain ⟨hfin, extra, hc, h0⟩ := step_retired (departLoop_step P K (departPeer P s k)) x hr
      refine ⟨e.disposals ++ extra, ?_, ?_, hfin⟩
      · rw [hc, departPeer_absent P s k hP, he]
        simp [List.append_assoc]
      · rw [List.count_append, h0, count_dispose_disposals,
          List.count_eq_one_of_mem (handles_nodup_of_get k e _ hw.1 he) hx]
    · have hK' : id ∈ K := by
        rcases List.mem_cons.1 hK with h | h
        · exact absurd h.symm hk
        · exact h
      have hw' : WellFormed (departPeer P s k) := step_wellFormed (departPeer_step P s k) hw
      cases hp : assocGet k P with
      | some p =>
        rw [departPeer_present P s k (by rw [hp]; rfl)]
        exact ih s hw he hK'
      | none =>
        have he' : assocGet id (departPeer P s k).peerSynths = some e := by
          rw [(departPeer_get_ne P s k id (Or.inl (fun h => hk h.symm))).1]
          exact he
        obtain ⟨extra, hc, h1, hfin⟩ := ih (departPeer P s k) hw' he' hK'
        refine ⟨((assocGet k s.peerSynths).map PeerEntry.disposals).getD [] ++ extra, ?_, ?_,
          hfin⟩
        · rw [hc, departPeer_absent P s k hp, List.append_assoc]
        · rw [List.count_append, h1]
          have h0 : (((assocGet k s.peerSynths).map PeerEntry.disposals).getD []).count
              (PeerCall.dispose x) = 0 := by
            cases hek : assocGet k s.peerSynths with
            | none => rfl
            | some ek =>
              simp only [Option.map_some', Option.getD_some]
              rw [count_dispose_disposals, List.count_eq_zero]
              intro hxk
              have hin : x ∈ (assocDelete k s.peerSynths).flatMap (fun kv => kv.2.handles) := by
                rw [departPeer_absent P s k hp] at he'
                exact mem_owned_of_get id e _ he' x hx
              exact not_mem_owned_assocDelete k ek _ hw.1 hek x hxk hin
          rw [h0]

theorem onPresence_disposes_once (sqrt : Scalar → Scalar) (localId : String)
    (P : List (String × Presence)) (s : PeerState) (id : String) (u : PeerPiano)
    (e : PeerEntry) (x : Nat) (hw : WellFormed s)
    (hu : assocGet id s.peerPianos = some u) (he : assocGet id s.peerSynths = some e)
    (hx : x ∈ e.handles) (hP : assocGet id P = none) :
    ∃ extra, (onPresence sqrt localId P s).calls = s.calls ++ extra ∧
      extra.count (PeerCall.dispose x) = 1 ∧ Retired x (onPresence sqrt localId P s) := by
  have hfr := presenceLoop_frame sqrt localId P s id (Or.inr (not_mem_keys_of_none id P hP))
  have hw1 : WellFormed (presenceLoop sqrt localId P s) :=
    step_wellFormed (presenceLoop_step sqrt localId P s) hw
  obtain ⟨extra1, hc1, hd1, _⟩ := presenceLoop_tracks sqrt localId P s
  obtain ⟨extra, hc, h1, hfin⟩ := departLoop_disposes_once P
    ((presenceLoop sqrt localId P s).peerPianos.map Prod.fst) (presenceLoop sqrt localId P s)
    id e x hw1 (by rw [hfr.1]; exact he) hx
    (mem_keys_of_some id u _ (by rw [hfr.2]; exact hu)) hP
  rw [onPresence_eq]
  refine ⟨extra1 ++ extra, by rw [hc, hc1, List.append_assoc], ?_, hfin⟩
  rw [List.count_append, h1]
  have h0 : extra1.count (PeerCall.dispose x) = 0 := by
    rw [List.count_eq_zero]
    intro hm
    have := hd1 _ hm
    simp [isDispose] at this
  rw [h0]

/-- C15: let `s` be a state the page reaches from its first state by inbound messages,
presence snapshots and mute clicks (for instance just after a snapshot `S1`),
in which `id` has a UI mirror and an audio entry `e`, and let `S2` be a snapshot
without `id`. Processing `S2` removes the UI mirror of `id` and its audio entry,
and the calls it issues dispose each of the six handles of `e` (the two
instruments, the gain stage and the three effect stages) exactly once. Whatever
events follow, `S2` again or any other snapshot among them, none of their calls
disposes a handle of `e`. -/
theorem departure_disposes_once (sqrt : Scalar → Scalar) (localId : String)
    (events : List PeerEvent) (S2 : List (String × Presence)) (id : String)
    (u : PeerPiano) (e : PeerEntry)
    (hu : assocGet id (runPeerEvents sqrt localId events PeerState.initial).peerPianos = some u)
    (he : assocGet id (runPeerEvents sqrt localId events PeerState.initial).peerSynths = some e)
    (hS : assocGet id S2 = none) :
    assocGet id (onPresence sqrt localId S2
      (runPeerEvents sqrt localId events PeerState.initial)).peerPianos = none ∧
    assocGet id (onPresence sqrt localId S2
      (runPeerEvents sqrt localId events PeerState.initial)).peerSynths = none ∧
    (∃ extra, (onPresence sqrt localId S2
        (runPeerEvents sqrt localId events PeerState.initial)).calls =
        (runPeerEvents sqrt localId events PeerState.initial).calls ++ extra ∧
      ∀ x ∈ e.handles, extra.count (PeerCall.dispose x) = 1) ∧
    ∀ later : List PeerEvent, ∃ extra,
      (runPeerEvents sqrt localId later (onPresence sqrt localId S2
        (runPeerEvents sqrt localId events PeerState.initial))).calls =
        (onPresence sqrt localId S2
          (runPeerEvents sqrt localId events PeerState.initial)).calls ++ extra ∧
      ∀ x ∈ e.handles, extra.count (PeerCall.dispose x) = 0 := by
  have hw := wellFormed_reachable sqrt localId events
  obtain ⟨h1, h2⟩ := onPresence_departs sqrt localId S2 _ id u hS hu
  obtain ⟨ext0, hc0, _⟩ := (onPresence_step sqrt localId S2
    (runPeerEvents sqrt localId events PeerState.initial)).2.2
  refine ⟨h2, h1, ⟨ext0, hc0, ?_⟩, ?_⟩
  · intro x hx
    obtain ⟨extra, hc, hcount, _⟩ :=
      onPresence_disposes_once sqrt localId S2 _ id u e x hw hu he hx hS
    rw [hc0] at hc
    rw [List.append_cancel_left hc]
    exact hcount
  · intro later
    obtain ⟨ext1, hc1, _⟩ := (runPeerEvents_step sqrt localId later (onPresence sqrt localId S2
      (runPeerEvents sqrt localId events PeerState.initial))).2.2
    refine ⟨ext1, hc1, ?_⟩
    intro x hx
    obtain ⟨_, _, _, hret⟩ :=
      onPresence_disposes_once sqrt localId S2 _ id u e x hw hu he hx hS
    obtain ⟨_, extra, hc, hcount⟩ := step_retired (runPeerEvents_step sqrt localId later _) x hret
    rw [hc1] at hc
    rw [List.append_cancel_left hc]
    exact hcount

theorem departure_disposes_once_witness :
    (assocGet "p" (onPresence (fun x => x) "me" [("q", Presence.empty)]
      (runPeerEvents (fun x => x) "me"
        [PeerEvent.presence [("p", Presence.empty), ("q", Presence.empty)]]
        PeerState.initial)).peerPianos = none ∧
    assocGet "p" (onPresence (fun x => x) "me" [("q", Presence.empty)]
      (runPeerEvents (fun x => x) "me"
        [PeerEvent.presence [("p", Presence.empty), ("q", Presence.empty)]]
        PeerState.initial)).peerSynths = none) ∧
    (onPresence (fun x => x) "me" [("q", Presence.empty)]
      (runPeerEvents (fun x => x) "me"
        [PeerEvent.presence [("p", Presence.empty), ("q", Presence.empty)]]
        PeerState.initial)).calls.countP isDispose = 6 :=
  ⟨⟨(departure_disposes_once (fun x => x) "me"
      [PeerEvent.presence [("p", Presence.empty), ("q", Presence.empty)]]
      [("q", Presence.empty)] "p" freshMirror (freshEntry 1 false)
      (by decide) (by decide) (by decide)).1,
    (departure_disposes_once (fun x => x) "me"
      [PeerEvent.presence [("p", Presence.empty), ("q", Presence.empty)]]
      [("q", Presence.empty)] "p" freshMirror (freshEntry 1 false)
      (by decide) (by decide) (by decide)).2.1⟩,
   by decide⟩

/-! ## The handles of an entry while its participant stays -/

theorem assocGet_append_of_some {α : Type} (id k : String) (v w : α) (l : List (String × α))
    (h : assocGet id l = some v) : assocGet id (l ++ [(k, w)]) = some v := by
  induction l with
  | nil => cases h
  | cons a t ih =>
    obtain ⟨k', v'⟩ := a
    unfold assocGet at h
    rw [List.cons_append]
    unfold assocGet
    by_cases hk : k' = id
    · rw [if_pos hk] at h ⊢
      exact h
    · rw [if_neg hk] at h ⊢
      exact ih h

theorem handles_kept_assocUpdate (id k : String) (g : PeerEntry → PeerEntry)
    (l : List (String × PeerEntry)) (e : PeerEntry) (hg : ∀ e, (g e).handles = e.handles)
    (h : assocGet id l = some e) :
    ∃ e', assocGet id (assocUpdate k g l) = some e' ∧ e'.handles = e.handles := by
  by_cases hk : id = k
  · subst hk
    rw [assocUpdate_of_some id g e l h, assocGet_assocSet_self]
    exact ⟨_, rfl, hg e⟩
  · rw [assocGet_assocUpdate_ne k id g l hk]
    exact ⟨e, h, rfl⟩

theorem handles_kept_onmessage (localId : String) (data : RoomMessage) (s : PeerState)
    (id : String) (e : PeerEntry) (h : assocGet id s.peerSynths = some e) :
    ∃ e', assocGet id (onmessage localId data s).peerSynths = some e' ∧
      e'.handles = e.handles := by
  have eff : ∀ name : String,
      ∃ e', assocGet id (PeerPianoManager.updatePeerEffectSlider data.clientId name data.value
        (PeerAudio.updatePeerSynthEffect data.clientId name data.value s)).peerSynths = some e' ∧
        e'.handles = e.handles := by
    intro name
    rw [(PeerPianoManager.updatePeerEffectSlider_frame data.clientId name data.value _).1,
      PeerAudio.updatePeerSynthEffect_peerSynths]
    exact handles_kept_assocUpdate id _ _ _ e (effectApplied_handles name data.value) h
  unfold onmessage
  simp only []
  split
  · exact ⟨e, h, rfl⟩
  · split
    · have hf := PeerPianoManager.highlightPeerNote_frame data.clientId data.note true s
      cases he : assocGet data.clientId s.peerSynths with
      | none =>
        rw [playPeerNote_of_none _ _ _ _ (by rw [hf.1]; exact he)]
        simp only [hf.1]
        exact ⟨e, assocGet_append_of_some id _ e _ _ h, rfl⟩
      | some e1 =>
        rw [playPeerNote_of_some _ _ _ _ e1 (by rw [hf.1]; exact he)]
        simp only [hf.1]
        exact ⟨e, h, rfl⟩
    · split
      · rw [(stopPeerNote_frame _ _ _).1,
          (PeerPianoManager.highlightPeerNote_frame data.clientId data.note false s).1]
        exact ⟨e, h, rfl⟩
      · split
        · exact eff _
        · split
          · exact eff _
          · split
            · exact eff _
            · exact ⟨e, h, rfl⟩

theorem handles_kept_toggleMute (k : String) (m : Bool) (s : PeerState)
    (id : String) (e : PeerEntry) (h : assocGet id s.peerSynths = some e) :
    ∃ e', assocGet id (PeerAudio.toggleMute k m s).peerSynths = some e' ∧
      e'.handles = e.handles := by
  unfold PeerAudio.toggleMute
  cases hk : assocGet k s.peerSynths with
  | none => exact ⟨e, h, rfl⟩
  | some ek =>
    simp only []
    by_cases hid : id = k
    · subst hid
      rw [assocGet_assocSet_self]
      rw [h] at hk
      cases hk
      exact ⟨_, rfl, rfl⟩
    · rw [assocGet_assocSet_ne k id _ _ hid]
      exact ⟨e, h, rfl⟩

theorem handles_kept_onPresence (sqrt : Scalar → Scalar) (localId : String)
    (P : List (String × Presence)) (s : PeerState) (id : String) (e : PeerEntry)
    (hnd : (P.map Prod.fst).Nodup) (hP : (assocGet id P).isSome)
    (h : assocGet id s.peerSynths = some e) :
    ∃ e', assocGet id (onPresence sqrt localId P s).peerSynths = some e' ∧
      e'.handles = e.handles := by
  by_cases hid : id = localId
  · rw [onPresence_eq, (departLoop_get_ne P _ _ id (Or.inr hP)).1,
      (presenceLoop_frame sqrt localId P s id (Or.inl hid)).1]
    exact ⟨e, h, rfl⟩
  · cases hp : assocGet id P with
    | none => rw [hp] at hP; cases hP
    | some p =>
      obtain ⟨n, _, he, _⟩ := onPresence_entry sqrt localId P s id p hnd hp hid
      rw [h, Option.getD_some] at he
      exact ⟨_, he, (mergeAudio_fields id p e).1⟩

theorem handles_kept_run (sqrt : Scalar → Scalar) (localId : String)
    (events : List PeerEvent) (s : PeerState) (id : String) (e : PeerEntry)
    (hk : ∀ ev ∈ events, PeerEvent.Keeps id ev)
    (h : assocGet id s.peerSynths = some e) :
    ∃ e', assocGet id (runPeerEvents sqrt localId events s).peerSynths = some e' ∧
      e'.handles = e.handles := by
  induction events generalizing s e with
  | nil => exact ⟨e, h, rfl⟩
  | cons ev events ih =>
    unfold runPeerEvents
    rw [List.foldl_cons]
    have hev : ∃ e1, assocGet id (PeerEvent.apply sqrt localId s ev).peerSynths = some e1 ∧
        e1.handles = e.handles := by
      have hkeep := hk ev (List.mem_cons_self _ _)
      cases ev with
      | message data => exact handles_kept_onmessage localId data s id e h
      | presence snapshot =>
        exact handles_kept_onPresence sqrt localId snapshot s id e hkeep.1 hkeep.2 h
      | mute k m => exact handles_kept_toggleMute k m s id e h
    obtain ⟨e1, h1, hh1⟩ := hev
    obtain ⟨e', h2, hh2⟩ := ih (PeerEvent.apply sqrt localId s ev) e1
      (fun ev' hm => hk ev' (List.mem_cons_of_mem _ hm)) h1
    exact ⟨e', h2, by rw [hh2, hh1]⟩

/-! ## A peer first heard, then seen -/

/-- C13: a `noteOn` message from `id`, which is not the local id and has no entry in the
audio registry, stores the entry `createPeerSynth` makes from the next six
handles with the message's `useSampler` as hint (`false` when the field is
undefined), and the last call issued is the `triggerAttack` of the note on the
hinted instrument of that entry. Whatever events follow in which `id` stays
(messages, mute clicks, and snapshots that contain `id`, with or without a
`useSampler` field), the entry of `id` holds the six handles the message
created; and the loop body of the presence callback, run for `id` on any state
that has an entry for `id`, leaves the handle counter where it is and issues no
construction and no disposal. -/
theorem noteOn_creates_peer_once (sqrt : Scalar → Scalar) (localId : String)
    (data : RoomMessage) (s : PeerState)
    (hid : data.clientId ≠ localId) (ht : data.type = "noteOn")
    (ha : assocGet data.clientId s.peerSynths = none) :
    assocGet data.clientId (onmessage localId data s).peerSynths =
      some (freshEntry s.nextHandle (data.useSampler.getD false)) ∧
    (onmessage localId data s).calls =
      (PeerAudio.createPeerSynth data.clientId (data.useSampler.getD false) s).calls ++
        [PeerCall.triggerAttack
          (if data.useSampler.getD false then s.nextHandle + 1 else s.nextHandle)
          data.note] ∧
    (∀ later : List PeerEvent, (∀ ev ∈ later, PeerEvent.Keeps data.clientId ev) →
      ∃ e, assocGet data.clientId
          (runPeerEvents sqrt localId later (onmessage localId data s)).peerSynths = some e ∧
        e.handles = [s.nextHandle, s.nextHandle + 1, s.nextHandle + 2, s.nextHandle + 3,
          s.nextHandle + 4, s.nextHandle + 5]) ∧
    (∀ (p : Presence) (t : PeerState) (e : PeerEntry),
      assocGet data.clientId t.peerSynths = some e →
      (presencePeer sqrt data.clientId p t).nextHandle = t.nextHandle ∧
      ∃ extra, (presencePeer sqrt data.clientId p t).calls = t.calls ++ extra ∧
        extra.countP isConstruct = 0 ∧ extra.countP isDispose = 0) := by
  obtain ⟨h1, h2, h3, h4⟩ := onmessage_noteOn_of_none localId data s hid ht ha
  have hg : assocGet data.clientId (onmessage localId data s).peerSynths =
      some (freshEntry s.nextHandle (data.useSampler.getD false)) := by
    rw [h1, ← assocSet_of_none _ _ _ ha, assocGet_assocSet_self]
  refine ⟨hg, h3, ?_, fun p t e h => presencePeer_no_construct sqrt _ p t e h⟩
  intro later hk
  obtain ⟨e, he, hh⟩ := handles_kept_run sqrt localId later _ data.clientId _ hk hg
  exact ⟨e, he, by rw [hh]; rfl⟩

theorem noteOn_creates_peer_once_witness :
    assocGet "p" (onmessage "me" (RoomMessage.mk "p" "noteOn" "C4" (some true) 0)
        PeerState.initial).peerSynths = some (freshEntry 1 true) ∧
    (onmessage "me" (RoomMessage.mk "p" "noteOn" "C4" (some true) 0)
        PeerState.initial).calls.getLast? = some (PeerCall.triggerAttack 2 "C4") :=
  ⟨(noteOn_creates_peer_once (fun x => x) "me" (RoomMessage.mk "p" "noteOn" "C4" (some true) 0)
      PeerState.initial (by decide) rfl rfl).1,
   by
    rw [(noteOn_creates_peer_once (fun x => x) "me"
      (RoomMessage.mk "p" "noteOn" "C4" (some true) 0)
      PeerState.initial (by decide) rfl rfl).2.1]
    decide⟩

/-! ## The volume of a peer -/

theorem updatePeerVolume_of_some (id : String) (l : Option (Option Scalar))
    (r : Option Scalar) (s : PeerState) (e : PeerEntry)
    (hid : id ≠ "") (he : assocGet id s.peerSynths = some e) :
    PeerAudio.updatePeerVolume id l r s =
      if e.muted then
        { s with
          peerSynths := assocSet id
            { e with localVolume := l.getD e.localVolume
                     remoteVolume := r.getD e.remoteVolume } s.peerSynths }
      else
        { s with
          peerSynths := assocSet id
            { e with localVolume := l.getD e.localVolume
                     remoteVolume := r.getD e.remoteVolume
                     volume := (match r with
                       | some v => Level.db v
                       | none => Level.undefined) } s.peerSynths
          calls := s.calls ++
            [PeerCall.setVolume e.volumeNode (match r with
              | some v => Level.db v
              | none => Level.undefined)] } := by
  have hc : PeerAudio.createPeerSynthIfMissing id false s = s := by
    unfold PeerAudio.createPeerSynthIfMissing
    rw [he]
  unfold PeerAudio.updatePeerVolume
  simp only [if_neg hid, hc, he]

/-- C21: for an id (not the empty string, on which `updatePeerVolume` returns at once)
that has an entry `e`, a local value `l` (a number or `null`) and a remote value
`r`, `updatePeerVolume(id, l, r)` stores `l` as local and `r` as remote volume.
When `e` is not muted, the one call issued sets the volume of the gain stage of
`e` to `r`, which is then the stored remote volume; when `e` is muted, no call
is issued and the applied volume stays what it was. Nothing else of the entry
changes, and the entries of other ids, the UI mirrors and the handle counter
are unchanged. -/
theorem updatePeerVolume_spec (id : String) (l : Option Scalar) (r : Scalar)
    (s : PeerState) (e : PeerEntry)
    (hid : id ≠ "") (he : assocGet id s.peerSynths = some e) :
    assocGet id (PeerAudio.updatePeerVolume id (some l) (some r) s).peerSynths =
      some { e with
        localVolume := l
        remoteVolume := r
        volume := if e.muted then e.volume else Level.db r } ∧
    (e.muted = false →
      (PeerAudio.updatePeerVolume id (some l) (some r) s).calls =
        s.calls ++ [PeerCall.setVolume e.volumeNode (Level.db r)]) ∧
    (e.muted = true →
      (PeerAudio.updatePeerVolume id (some l) (some r) s).calls = s.calls) ∧
    (∀ k, k ≠ id →
      assocGet k (PeerAudio.updatePeerVolume id (some l) (some r) s).peerSynths =
        assocGet k s.peerSynths) ∧
    (PeerAudio.updatePeerVolume id (some l) (some r) s).peerPianos = s.peerPianos ∧
    (PeerAudio.updatePeerVolume id (some l) (some r) s).nextHandle = s.nextHandle := by
  rw [updatePeerVolume_of_some id (some l) (some r) s e hid he]
  by_cases hm : e.muted = true
  · rw [if_pos hm, if_pos hm]
    refine ⟨by rw [assocGet_assocSet_self]; rfl, ?_, fun _ => rfl, ?_, rfl, rfl⟩
    · intro h
      rw [hm] at h
      cases h
    · intro k hk
      exact assocGet_assocSet_ne id k _ _ hk
  · rw [if_neg hm, if_neg hm]
    refine ⟨by rw [assocGet_assocSet_self]; rfl, fun _ => rfl, fun h => absurd h hm, ?_, rfl,
      rfl⟩
    intro k hk
    exact assocGet_assocSet_ne id k _ _ hk

theorem updatePeerVolume_spec_witness :
    (assocGet "p" (PeerAudio.updatePeerVolume "p" (some none) (some 3)
      (PeerAudio.createPeerSynth "p" false PeerState.initial)).peerSynths).map
        (fun e => (e.localVolume, e.remoteVolume, e.volume)) =
      some (none, 3, Level.db 3) := by
  rw [(updatePeerVolume_spec "p" none 3 (PeerAudio.createPeerSynth "p" false PeerState.initial)
    (freshEntry 1 false) (by decide) (by decide)).1]
  decide

/-! ## Mute -/

theorem toggleMute_of_some (id : String) (m : Bool) (s : PeerState) (e : PeerEntry)
    (he : assocGet id s.peerSynths = some e) :
    PeerAudio.toggleMute id m s =
      { s with
        peerSynths := assocSet id
          { e with muted := m
                   volume := if m then Level.negInfinity else Level.db e.remoteVolume }
          s.peerSynths
        calls := s.calls ++
          [PeerCall.setVolume e.volumeNode
            (if m then Level.negInfinity else Level.db e.remoteVolume)] } := by
  unfold PeerAudio.toggleMute
  rw [he]

/-- C22: for an id that has an entry `e`, `toggleMute(id, true)` sets the mute flag and
applies `-Infinity` to the gain stage; `toggleMute(id, false)` clears the flag and
applies the stored remote volume. In both cases every other field of the entry
(stored local and remote volume, wet values, instrument flag, handles) is what
it was, and the entries of other ids are unchanged. Mute, then
`updatePeerVolume` with a remote value `r` (id not the empty string), then
unmute: the applied volume is `r`. -/
theorem toggleMute_spec (id : String) (s : PeerState) (e : PeerEntry)
    (he : assocGet id s.peerSynths = some e) :
    assocGet id (PeerAudio.toggleMute id true s).peerSynths =
      some { e with muted := true, volume := Level.negInfinity } ∧
    (PeerAudio.toggleMute id true s).calls =
      s.calls ++ [PeerCall.setVolume e.volumeNode Level.negInfinity] ∧
    assocGet id (PeerAudio.toggleMute id false s).peerSynths =
      some { e with muted := false, volume := Level.db e.remoteVolume } ∧
    (PeerAudio.toggleMute id false s).calls =
      s.calls ++ [PeerCall.setVolume e.volumeNode (Level.db e.remoteVolume)] ∧
    (∀ (m : Bool) (k : String), k ≠ id →
      assocGet k (PeerAudio.toggleMute id m s).peerSynths = assocGet k s.peerSynths) ∧
    (∀ (l : Option (Option Scalar)) (r : Scalar), id ≠ "" →
      assocGet id (PeerAudio.toggleMute id false
        (PeerAudio.updatePeerVolume id l (some r)
          (PeerAudio.toggleMute id true s))).peerSynths =
        some { e with
          muted := false
          localVolume := l.getD e.localVolume
          remoteVolume := r
          volume := Level.db r }) := by
  refine ⟨?_, ?_, ?_, ?_, ?_, ?_⟩
  · rw [toggleMute_of_some id true s e he]
    simp [assocGet_assocSet_self]
  · rw [toggleMute_of_some id true s e he]
    simp
  · rw [toggleMute_of_some id false s e he]
    simp [assocGet_assocSet_self]
  · rw [toggleMute_of_some id false s e he]
    simp
  · intro m k hk
    rw [toggleMute_of_some id m s e he]
    exact assocGet_assocSet_ne id k _ _ hk
  · intro l r hid
    have h1 : assocGet id (PeerAudio.toggleMute id true s).peerSynths =
        some { e with muted := true, volume := Level.negInfinity } := by
      rw [toggleMute_of_some id true s e he]
      simp [assocGet_assocSet_self]
    have h2 := updatePeerVolume_of_some id l (some r) _ _ hid h1
    simp only [if_true] at h2
    have h3 : assocGet id (PeerAudio.updatePeerVolume id l (some r)
        (PeerAudio.toggleMute id true s)).peerSynths =
        some { e with muted := true, volume := Level.negInfinity,
                      localVolume := l.getD e.localVolume, remoteVolume := r } := by
      rw [h2]
      simp [assocGet_assocSet_self]
    rw [toggleMute_of_some id false _ _ h3]
    simp [assocGet_assocSet_self]

theorem toggleMute_spec_witness :
    (assocGet "p" (PeerAudio.toggleMute "p" false
      (PeerAudio.updatePeerVolume "p" (some none) (some 3)
        (PeerAudio.toggleMute "p" true
          (PeerAudio.createPeerSynth "p" false PeerState.initial)))).peerSynths).map
        (fun e => (e.muted, e.volume)) = some (false, Level.db 3) := by
  rw [(toggleMute_spec "p" (PeerAudio.createPeerSynth "p" false PeerState.initial)
    (freshEntry 1 false) (by decide)).2.2.2.2.2 (some none) 3 (by decide)]
  decide

/-! ## The wet value of an effect -/

theorem updatePeerSynthEffect_of_some (id name : String) (v : Scalar) (s : PeerState)
    (e : PeerEntry) (he : assocGet id s.peerSynths = some e) :
    (PeerAudio.updatePeerSynthEffect id name v s).peerSynths =
      assocSet id (effectApplied name v e) s.peerSynths := by
  rw [PeerAudio.updatePeerSynthEffect_peerSynths, assocUpdate_of_some id _ e _ he]

theorem updatePeerSynthEffect_other_name (id name : String) (v : Scalar) (s : PeerState)
    (h1 : name ≠ "distortion") (h2 : name ≠ "reverb") (h3 : name ≠ "delay") :
    PeerAudio.updatePeerSynthEffect id name v s = s := by
  unfold PeerAudio.updatePeerSynthEffect
  cases assocGet id s.peerSynths with
  | none => rfl
  | some e => simp [h1, h2, h3]

/-- C24: for an id that has an entry `e` and an effect name among `distortion`, `reverb`
and `delay`, `updatePeerSynthEffect(id, name, v)` sets the wet value of that
effect of `e` to `v` by one call on the effect's handle; the other two wet
values, the stored and applied volumes, the mute and instrument flags and the
handles of `e` are what they were, and so are the entries of other ids, the UI
mirrors and the handle counter. A second call with the same arguments leaves
the registry as the first one left it and repeats the same call. With any other
effect name the state is returned unchanged. -/
theorem updatePeerSynthEffect_spec (id : String) (v : Scalar) (s : PeerState) (e : PeerEntry)
    (he : assocGet id s.peerSynths = some e) :
    (assocGet id (PeerAudio.updatePeerSynthEffect id "distortion" v s).peerSynths =
        some { e with distortionWet := v } ∧
      (PeerAudio.updatePeerSynthEffect id "distortion" v s).calls =
        s.calls ++ [PeerCall.setWet e.distortion v]) ∧
    (assocGet id (PeerAudio.updatePeerSynthEffect id "reverb" v s).peerSynths =
        some { e with reverbWet := v } ∧
      (PeerAudio.updatePeerSynthEffect id "reverb" v s).calls =
        s.calls ++ [PeerCall.setWet e.reverb v]) ∧
    (assocGet id (PeerAudio.updatePeerSynthEffect id "delay" v s).peerSynths =
        some { e with delayWet := v } ∧
      (PeerAudio.updatePeerSynthEffect id "delay" v s).calls =
        s.calls ++ [PeerCall.setWet e.delay v]) ∧
    (∀ name : String,
      (∀ k, k ≠ id →
        assocGet k (PeerAudio.updatePeerSynthEffect id name v s).peerSynths =
          assocGet k s.peerSynths) ∧
      (PeerAudio.updatePeerSynthEffect id name v s).peerPianos = s.peerPianos ∧
      (PeerAudio.updatePeerSynthEffect id name v s).nextHandle = s.nextHandle ∧
      (PeerAudio.updatePeerSynthEffect id name v
        (PeerAudio.updatePeerSynthEffect id name v s)).peerSynths =
        (PeerAudio.updatePeerSynthEffect id name v s).peerSynths ∧
      (PeerAudio.updatePeerSynthEffect id name v
        (PeerAudio.updatePeerSynthEffect id name v s)).calls =
        (PeerAudio.updatePeerSynthEffect id name v s).calls ++
          (PeerAudio.updatePeerSynthEffect id name v s).calls.drop s.calls.length ∧
      (name ≠ "distortion" → name ≠ "reverb" → name ≠ "delay" →
        PeerAudio.updatePeerSynthEffect id name v s = s)) := by
  have hget : ∀ name : String,
      assocGet id (PeerAudio.updatePeerSynthEffect id name v s).peerSynths =
        some (effectApplied name v e) := by
    intro name
    rw [updatePeerSynthEffect_of_some id name v s e he, assocGet_assocSet_self]
  have hcalls := updatePeerSynthEffect_calls id
  refine ⟨⟨?_, ?_⟩, ⟨?_, ?_⟩, ⟨?_, ?_⟩, ?_⟩
  · rw [hget]
    simp [effectApplied]
  · rw [hcalls "distortion" v s e he]
    simp
  · rw [hget]
    simp [effectApplied]
  · rw [hcalls "reverb" v s e he]
    simp
  · rw [hget]
    simp [effectApplied]
  · rw [hcalls "delay" v s e he]
    simp
  · intro name
    refine ⟨?_, (PeerAudio.updatePeerSynthEffect_frame id name v s).1,
      (PeerAudio.updatePeerSynthEffect_frame id name v s).2, ?_, ?_,
      updatePeerSynthEffect_other_name id name v s⟩
    · intro k hk
      rw [updatePeerSynthEffect_of_some id name v s e he]
      exact assocGet_assocSet_ne id k _ _ hk
    · rw [updatePeerSynthEffect_of_some id name v _ _ (hget name),
        updatePeerSynthEffect_of_some id name v s e he, assocSet_assocSet]
      congr 1
      exact (effectMerge_idem name (some v) e)
    · rw [hcalls name v _ _ (hget name), hcalls name v s e he]
      have hh := effectApplied_handles name v e
      simp only [PeerEntry.handles, List.cons.injEq, and_true] at hh
      simp only [List.drop_left, hh.2.2.2.1, hh.2.2.2.2.1, hh.2.2.2.2.2]

theorem updatePeerSynthEffect_spec_witness :
    (assocGet "p" (PeerAudio.updatePeerSynthEffect "p" "reverb" 1
      (PeerAudio.createPeerSynth "p" false PeerState.initial)).peerSynths).map
        (fun e => (e.distortionWet, e.reverbWet, e.delayWet)) = some (0, 1, 0) := by
  rw [(updatePeerSynthEffect_spec "p" 1 (PeerAudio.createPeerSynth "p" false PeerState.initial)
    (freshEntry 1 false) (by decide)).2.1.1]
  decide

/-! ## Updates for an id without entry -/

/-- C25, counterexample: `updatePeerVolume("p", null, 3)` on the first state, where `"p"`
has no entry: afterwards the audio registry has an entry for `"p"` with handles
`1..6`, six objects have been constructed, and the remote volume 3 is stored
and applied. -/
theorem updatePeerVolume_creates_entry :
    assocGet "p" PeerState.initial.peerSynths = none ∧
    (assocGet "p" (PeerAudio.updatePeerVolume "p" (some none) (some 3)
      PeerState.initial).peerSynths).map
        (fun e => (e.handles, e.remoteVolume, e.volume)) =
      some ([1, 2, 3, 4, 5, 6], 3, Level.db 3) ∧
    (PeerAudio.updatePeerVolume "p" (some none) (some 3)
      PeerState.initial).calls.countP isConstruct = 6 := by
  decide

/-- C25, amended: for an id without entry in the audio registry, the effect update
`updatePeerSynthEffect` and the mute update `toggleMute` return the state
unchanged: no entry, no object, no call. The volume update `updatePeerVolume`
returns the state unchanged only for the empty id; for any other id without
entry it first creates the entry as `createPeerSynth(id, …, false)` does (six
objects from the next six handles, synthesized instrument) and then stores and
applies the volumes on it. -/
theorem updates_for_unknown_id (id name : String) (v : Scalar) (m : Bool)
    (l : Option (Option Scalar)) (r : Scalar) (s : PeerState)
    (he : assocGet id s.peerSynths = none) :
    PeerAudio.updatePeerSynthEffect id name v s = s ∧
    PeerAudio.toggleMute id m s = s ∧
    (id = "" → PeerAudio.updatePeerVolume id l (some r) s = s) ∧
    (id ≠ "" →
      (PeerAudio.updatePeerVolume id l (some r) s).peerSynths =
        s.peerSynths ++
          [(id, { freshEntry s.nextHandle false with
            localVolume := l.getD (some PeerAudio.DEFAULT_DB)
            remoteVolume := r
            volume := Level.db r })] ∧
      (PeerAudio.updatePeerVolume id l (some r) s).nextHandle = s.nextHandle + 6 ∧
      (PeerAudio.updatePeerVolume id l (some r) s).calls =
        (PeerAudio.createPeerSynth id false s).calls ++
          [PeerCall.setVolume (s.nextHandle + 2) (Level.db r)]) := by
  refine ⟨updatePeerSynthEffect_of_none id name v s he, ?_, ?_, ?_⟩
  · unfold PeerAudio.toggleMute
    rw [he]
  · intro hid
    unfold PeerAudio.updatePeerVolume
    rw [if_pos hid]
  · intro hid
    have hc : PeerAudio.createPeerSynthIfMissing id false s =
        PeerAudio.createPeerSynth id false s := by
      unfold PeerAudio.createPeerSynthIfMissing
      rw [he]
    have hg : assocGet id (PeerAudio.createPeerSynth id false s).peerSynths =
        some (freshEntry s.nextHandle false) := by
      rw [(PeerAudio.createPeerSynth_eq id _ s).1, assocGet_assocSet_self]
    unfold PeerAudio.updatePeerVolume
    simp only [if_neg hid, hc, hg]
    refine ⟨?_, rfl, rfl⟩
    simp only [freshEntry, Bool.false_eq_true, if_false]
    rw [(PeerAudio.createPeerSynth_eq id _ s).1, assocSet_assocSet, assocSet_of_none id _ _ he]
    rfl

theorem updates_for_unknown_id_witness :
    PeerAudio.updatePeerSynthEffect "p" "reverb" 1 PeerState.initial = PeerState.initial ∧
    PeerAudio.toggleMute "p" true PeerState.initial = PeerState.initial :=
  ⟨(updates_for_unknown_id "p" "reverb" 1 true none 0 PeerState.initial rfl).1,
   (updates_for_unknown_id "p" "reverb" 1 true none 0 PeerState.initial rfl).2.1⟩

/-! ## Mute and the applied volume -/

theorem updatePeerVolume_get_ne (k id : String) (l : Option (Option Scalar))
    (r : Option Scalar) (s : PeerState) (h : id ≠ k) :
    assocGet id (PeerAudio.updatePeerVolume k l r s).peerSynths = assocGet id s.peerSynths := by
  by_cases hk : k = ""
  · unfold PeerAudio.updatePeerVolume
    rw [if_pos hk]
  · cases he : assocGet k s.peerSynths with
    | some e =>
      rw [updatePeerVolume_of_some k l r s e hk he]
      split <;> exact assocGet_assocSet_ne k id _ _ h
    | none =>
      have hc : PeerAudio.createPeerSynthIfMissing k false s =
          PeerAudio.createPeerSynth k false s := by
        unfold PeerAudio.createPeerSynthIfMissing
        rw [he]
      have hg : assocGet k (PeerAudio.createPeerSynth k false s).peerSynths =
          some (freshEntry s.nextHandle false) := by
        rw [(PeerAudio.createPeerSynth_eq k _ s).1, assocGet_assocSet_self]
      unfold PeerAudio.updatePeerVolume
      simp only [if_neg hk, hc, hg]
      split
      · simp only []
        rw [assocGet_assocSet_ne k id _ _ h, (PeerAudio.createPeerSynth_eq k _ s).1,
          assocGet_assocSet_ne k id _ _ h]
      · simp only []
        rw [assocGet_assocSet_ne k id _ _ h, (PeerAudio.createPeerSynth_eq k _ s).1,
          assocGet_assocSet_ne k id _ _ h]

theorem synced_audioOp (op : AudioOp) (s : PeerState) (id : String) (e : PeerEntry)
    (he : assocGet id s.peerSynths = some e) (hs : e.Synced) :
    ∃ e', assocGet id (op.apply s).peerSynths = some e' ∧ e'.Synced ∧
      e'.handles = e.handles := by
  cases op with
  | volume k l r =>
    by_cases hk : id = k
    · subst hk
      by_cases hid : id = ""
      · refine ⟨e, ?_, hs, rfl⟩
        show assocGet id (PeerAudio.updatePeerVolume id l (some r) s).peerSynths = some e
        unfold PeerAudio.updatePeerVolume
        rw [if_pos hid]
        exact he
      · show ∃ e', assocGet id (PeerAudio.updatePeerVolume id l (some r) s).peerSynths =
            some e' ∧ e'.Synced ∧ e'.handles = e.handles
        rw [updatePeerVolume_of_some id l (some r) s e hid he]
        by_cases hm : e.muted = true
        · rw [if_pos hm]
          refine ⟨_, assocGet_assocSet_self _ _ _, ?_, rfl⟩
          intro h
          rw [hm] at h
          cases h
        · rw [if_neg hm]
          exact ⟨_, assocGet_assocSet_self _ _ _, fun _ => rfl, rfl⟩
    · refine ⟨e, ?_, hs, rfl⟩
      show assocGet id (PeerAudio.updatePeerVolume k l (some r) s).peerSynths = some e
      rw [updatePeerVolume_get_ne k id l (some r) s hk]
      exact he
  | effect k name v =>
    show ∃ e', assocGet id (PeerAudio.updatePeerSynthEffect k name v s).peerSynths = some e' ∧
      e'.Synced ∧ e'.handles = e.handles
    rw [PeerAudio.updatePeerSynthEffect_peerSynths]
    by_cases hk : id = k
    · subst hk
      rw [assocUpdate_of_some id _ e _ he, assocGet_assocSet_self]
      have hf := effectMerge_fields name (some v) e
      refine ⟨_, rfl, ?_, hf.1⟩
      intro hm
      have h1 : (effectApplied name v e).muted = e.muted := hf.2.1
      have h2 : (effectApplied name v e).remoteVolume = e.remoteVolume := hf.2.2.2.1
      have h3 : (effectApplied name v e).volume = e.volume := hf.2.2.2.2.1
      rw [h3, h2]
      exact hs (by rw [← h1]; exact hm)
    · rw [assocGet_assocUpdate_ne k id _ _ hk]
      exact ⟨e, he, hs, rfl⟩
  | sampler k b =>
    show ∃ e', assocGet id (PeerAudio.setUseSampler k b s).peerSynths = some e' ∧
      e'.Synced ∧ e'.handles = e.handles
    rw [PeerAudio.setUseSampler_peerSynths]
    by_cases hk : id = k
    · subst hk
      rw [assocUpdate_of_some id _ e _ he, assocGet_assocSet_self]
      have hf := samplerMerge_fields (some b) e
      refine ⟨_, rfl, ?_, hf.1⟩
      intro hm
      have h1 : (samplerApplied b e).muted = e.muted := hf.2.1
      have h2 : (samplerApplied b e).remoteVolume = e.remoteVolume := hf.2.2.2.1
      have h3 : (samplerApplied b e).volume = e.volume := hf.2.2.2.2.1
      rw [h3, h2]
      exact hs (by rw [← h1]; exact hm)
    · rw [assocGet_assocUpdate_ne k id _ _ hk]
      exact ⟨e, he, hs, rfl⟩
  | mute k m =>
    show ∃ e', assocGet id (PeerAudio.toggleMute k m s).peerSynths = some e' ∧
      e'.Synced ∧ e'.handles = e.handles
    by_cases hk : id = k
    · subst hk
      rw [toggleMute_of_some id m s e he]
      refine ⟨_, assocGet_assocSet_self _ _ _, ?_, rfl⟩
      intro hm
      simp only at hm
      subst hm
      rfl
    · obtain ⟨e', h1, h2⟩ := handles_kept_toggleMute k m s id e he
      cases hq : assocGet k s.peerSynths with
      | none =>
        refine ⟨e, ?_, hs, rfl⟩
        unfold PeerAudio.toggleMute
        rw [hq]
        exact he
      | some ek =>
        rw [toggleMute_of_some k m s ek hq]
        exact ⟨e, by rw [assocGet_assocSet_ne k id _ _ hk]; exact he, hs, rfl⟩

theorem synced_runAudioOps (ops : List AudioOp) (s : PeerState) (id : String) (e : PeerEntry)
    (he : assocGet id s.peerSynths = some e) (hs : e.Synced) :
    ∃ e', assocGet id (runAudioOps ops s).peerSynths = some e' ∧ e'.Synced ∧
      e'.handles = e.handles := by
  induction ops generalizing s e with
  | nil => exact ⟨e, he, hs, rfl⟩
  | cons op ops ih =>
    obtain ⟨e1, h1, hs1, hh1⟩ := synced_audioOp op s id e he hs
    obtain ⟨e2, h2, hs2, hh2⟩ := ih (op.apply s) e1 h1 hs1
    exact ⟨e2, h2, hs2, by rw [hh2, hh1]⟩

/-- C30: a peer that has just been created is not muted, the volume of its gain stage is
0 (`new Tone.Volume(0)`) and its stored remote volume is `DEFAULT_DB`, which is
6; `toggleMute(id, true)` followed by `toggleMute(id, false)` leaves the volume
of the gain stage at 6, not at the 0 it had before muting. From the first
update that applies the stored remote volume on (an `updatePeerVolume` on a
peer that is not muted, or any `toggleMute`), the applied volume of a peer that
is not muted is its stored remote volume, through every sequence of
`updatePeerVolume`, `updatePeerSynthEffect`, `setUseSampler` and `toggleMute`
calls, and muting then unmuting restores the applied volume. -/
theorem fresh_peer_unmute_changes_gain (id : String) (hint : Bool) (s : PeerState) :
    (∃ e, assocGet id (PeerAudio.createPeerSynth id hint s).peerSynths = some e ∧
      e.muted = false ∧ e.volume = Level.db 0 ∧ e.remoteVolume = 6 ∧
      ∃ e', assocGet id (PeerAudio.toggleMute id false (PeerAudio.toggleMute id true
          (PeerAudio.createPeerSynth id hint s))).peerSynths = some e' ∧
        e'.muted = false ∧ e'.volume = Level.db 6 ∧ e'.volume ≠ e.volume) ∧
    ∀ (t : PeerState) (e : PeerEntry), assocGet id t.peerSynths = some e → e.Synced →
      ∀ ops : List AudioOp, ∃ e1, assocGet id (runAudioOps ops t).peerSynths = some e1 ∧
        (e1.muted = false → e1.volume = Level.db e1.remoteVolume) ∧
        ∃ e2, assocGet id (PeerAudio.toggleMute id false (PeerAudio.toggleMute id true
            (runAudioOps ops t))).peerSynths = some e2 ∧
          (e1.muted = false → e2.volume = e1.volume) := by
  constructor
  · have hg : assocGet id (PeerAudio.createPeerSynth id hint s).peerSynths =
        some (freshEntry s.nextHandle hint) := by
      rw [(PeerAudio.createPeerSynth_eq id _ s).1, assocGet_assocSet_self]
    refine ⟨_, hg, rfl, rfl, rfl, ?_⟩
    have h1 := toggleMute_of_some id true _ _ hg
    have hg1 : assocGet id (PeerAudio.toggleMute id true
        (PeerAudio.createPeerSynth id hint s)).peerSynths =
        some { freshEntry s.nextHandle hint with muted := true, volume := Level.negInfinity } := by
      rw [h1]
      simp [assocGet_assocSet_self]
    have h2 := toggleMute_of_some id false _ _ hg1
    refine ⟨_, by rw [h2]; exact assocGet_assocSet_self _ _ _, rfl, ?_, ?_⟩
    · simp [freshEntry, PeerAudio.DEFAULT_DB]
    · simp [freshEntry, PeerAudio.DEFAULT_DB]
  · intro t e he hs ops
    obtain ⟨e1, h1, hs1, _⟩ := synced_runAudioOps ops t id e he hs
    refine ⟨e1, h1, hs1, ?_⟩
    have ha := toggleMute_of_some id true _ _ h1
    have hg1 : assocGet id (PeerAudio.toggleMute id true (runAudioOps ops t)).peerSynths =
        some { e1 with muted := true, volume := Level.negInfinity } := by
      rw [ha]
      simp [assocGet_assocSet_self]
    have hb := toggleMute_of_some id false _ _ hg1
    refine ⟨_, by rw [hb]; exact assocGet_assocSet_self _ _ _, ?_⟩
    intro hm
    simp only [Bool.false_eq_true, if_false]
    exact (hs1 hm).symm

theorem fresh_peer_unmute_changes_gain_witness :
    ∃ e1, assocGet "p" (runAudioOps [AudioOp.effect "p" "reverb" 1, AudioOp.sampler "p" true]
        (PeerAudio.updatePeerVolume "p" (some none) (some 3)
          (PeerAudio.createPeerSynth "p" false PeerState.initial))).peerSynths = some e1 ∧
      (e1.muted = false → e1.volume = Level.db e1.remoteVolume) ∧
      ∃ e2, assocGet "p" (PeerAudio.toggleMute "p" false (PeerAudio.toggleMute "p" true
          (runAudioOps [AudioOp.effect "p" "reverb" 1, AudioOp.sampler "p" true]
            (PeerAudio.updatePeerVolume "p" (some none) (some 3)
              (PeerAudio.createPeerSynth "p" false PeerState.initial))))).peerSynths = some e2 ∧
        (e1.muted = false → e2.volume = e1.volume) :=
  (fresh_peer_unmute_changes_gain "p" false PeerState.initial).2
    (PeerAudio.updatePeerVolume "p" (some none) (some 3)
      (PeerAudio.createPeerSynth "p" false PeerState.initial))
    { freshEntry 1 false with localVolume := none, remoteVolume := 3, volume := Level.db 3 }
    (by decide) (fun _ => rfl)
    [AudioOp.effect "p" "reverb" 1, AudioOp.sampler "p" true]

/-! ## The instrument of a peer -/

theorem setUseSampler_of_same (id : String) (b : Bool) (s : PeerState) (e : PeerEntry)
    (he : assocGet id s.peerSynths = some e) (hb : e.useSampler = b) :
    PeerAudio.setUseSampler id b s = s := by
  unfold PeerAudio.setUseSampler
  rw [he]
  simp [hb]

theorem setUseSampler_of_other (id : String) (b : Bool) (s : PeerState) (e : PeerEntry)
    (he : assocGet id s.peerSynths = some e) (hb : e.useSampler ≠ b) :
    PeerAudio.setUseSampler id b s =
      { s with
        peerSynths := assocSet id
          { e with useSampler := b, synthConnected := !b, samplerConnected := b } s.peerSynths
        calls := s.calls ++
          [PeerCall.disconnect (if e.useSampler then e.sampler else e.synth) e.volumeNode,
           PeerCall.connect (if b then e.sampler else e.synth) e.volumeNode] } := by
  unfold PeerAudio.setUseSampler
  rw [he]
  simp [hb]

theorem setUseSampler_of_none (id : String) (b : Bool) (s : PeerState)
    (he : assocGet id s.peerSynths = none) : PeerAudio.setUseSampler id b s = s := by
  unfold PeerAudio.setUseSampler
  rw [he]

theorem stopPeerNote_of_some (id note : String) (s : PeerState) (e : PeerEntry)
    (he : assocGet id s.peerSynths = some e) :
    PeerAudio.stopPeerNote id note s =
      { s with calls := s.calls ++
          [PeerCall.triggerRelease (if e.useSampler then e.sampler else e.synth) note] } := by
  unfold PeerAudio.stopPeerNote
  rw [he]

/-- C29: let `id` have an entry `e` whose two instruments are different objects. A note
played for `id`, then the instrument flag of `id` changed by `setUseSampler`
(as the presence callback does), then the note stopped: the calls issued are the
`triggerAttack` on the instrument the flag selected at first, the `disconnect`
of that instrument, the `connect` of the other one, and the `triggerRelease` on
that other one. The instrument that received the attack receives no
`triggerRelease` for the note. The same on the events themselves, from the
first state: a `noteOn` for `C4` from `"p"` (attack on handle 1, the
synthesized instrument), a snapshot with `useSampler: true` for `"p"`, and the
`noteOff` for `C4` (release on handle 2, the sample-based instrument). -/
theorem release_goes_to_new_instrument (id note : String) (hint : Option Bool)
    (s : PeerState) (e : PeerEntry)
    (he : assocGet id s.peerSynths = some e) (hne : e.synth ≠ e.sampler) :
    (PeerAudio.stopPeerNote id note
      (PeerAudio.setUseSampler id (!e.useSampler)
        (PeerAudio.playPeerNote id note hint s))).calls =
      s.calls ++
        [PeerCall.triggerAttack (if e.useSampler then e.sampler else e.synth) note,
         PeerCall.disconnect (if e.useSampler then e.sampler else e.synth) e.volumeNode,
         PeerCall.connect (if e.useSampler then e.synth else e.sampler) e.volumeNode,
         PeerCall.triggerRelease (if e.useSampler then e.synth else e.sampler) note] ∧
    (if e.useSampler then e.synth else e.sampler) ≠
      (if e.useSampler then e.sampler else e.synth) ∧
    PeerCall.triggerRelease (if e.useSampler then e.sampler else e.synth) note ∉
      (PeerAudio.stopPeerNote id note
        (PeerAudio.setUseSampler id (!e.useSampler)
          (PeerAudio.playPeerNote id note hint s))).calls.drop s.calls.length ∧
    ((onmessage "me" (RoomMessage.mk "p" "noteOff" "C4" none 0)
        (onPresence (fun x => x) "me" [("p", { Presence.empty with useSampler := some true })]
          (onmessage "me" (RoomMessage.mk "p" "noteOn" "C4" none 0)
            PeerState.initial))).calls.filter
        (fun c => decide (c = PeerCall.triggerAttack 1 "C4" ∨ c = PeerCall.triggerAttack 2 "C4" ∨
          c = PeerCall.triggerRelease 1 "C4" ∨ c = PeerCall.triggerRelease 2 "C4" ∨
          c = PeerCall.disconnect 1 3 ∨ c = PeerCall.connect 2 3))) =
      [PeerCall.triggerAttack 1 "C4", PeerCall.disconnect 1 3, PeerCall.connect 2 3,
       PeerCall.triggerRelease 2 "C4"] := by
  have h1 := playPeerNote_of_some id note hint s e he
  have he1 : assocGet id (PeerAudio.playPeerNote id note hint s).peerSynths = some e := by
    rw [h1]
    exact he
  have hb : e.useSampler ≠ !e.useSampler := by
    cases e.useSampler <;> decide
  have h2 := setUseSampler_of_other id (!e.useSampler) _ e he1 hb
  have he2 : assocGet id (PeerAudio.setUseSampler id (!e.useSampler)
      (PeerAudio.playPeerNote id note hint s)).peerSynths =
      some { e with useSampler := !e.useSampler, synthConnected := !(!e.useSampler),
                    samplerConnected := !e.useSampler } := by
    rw [h2]
    exact assocGet_assocSet_self _ _ _
  have h3 := stopPeerNote_of_some id note _ _ he2
  have hcalls : (PeerAudio.stopPeerNote id note
      (PeerAudio.setUseSampler id (!e.useSampler)
        (PeerAudio.playPeerNote id note hint s))).calls =
      s.calls ++
        [PeerCall.triggerAttack (if e.useSampler then e.sampler else e.synth) note,
         PeerCall.disconnect (if e.useSampler then e.sampler else e.synth) e.volumeNode,
         PeerCall.connect (if e.useSampler then e.synth else e.sampler) e.volumeNode,
         PeerCall.triggerRelease (if e.useSampler then e.synth else e.sampler) note] := by
    rw [h3, h2, h1]
    cases e.useSampler <;> simp
  refine ⟨hcalls, ?_, ?_, by decide⟩
  · cases e.useSampler
    · simp only [Bool.false_eq_true, if_false]
      exact fun h => hne h.symm
    · simp only [if_true]
      exact hne
  · rw [hcalls, List.drop_left]
    cases hu : e.useSampler
    · simp only [Bool.false_eq_true, if_false, List.mem_cons, not_or]
      refine ⟨by simp, by simp, by simp, ?_, by simp⟩
      simp only [PeerCall.triggerRelease.injEq, and_true]
      exact hne
    · simp only [if_true, List.mem_cons, not_or]
      refine ⟨by simp, by simp, by simp, ?_, by simp⟩
      simp only [PeerCall.triggerRelease.injEq, and_true]
      exact fun h => hne h.symm

theorem release_goes_to_new_instrument_witness :
    (PeerAudio.stopPeerNote "p" "C4"
      (PeerAudio.setUseSampler "p" true
        (PeerAudio.playPeerNote "p" "C4" none
          (PeerAudio.createPeerSynth "p" false PeerState.initial)))).calls.drop 15 =
      [PeerCall.triggerAttack 1 "C4", PeerCall.disconnect 1 3, PeerCall.connect 2 3,
       PeerCall.triggerRelease 2 "C4"] := by
  have h := (release_goes_to_new_instrument "p" "C4" none
    (PeerAudio.createPeerSynth "p" false PeerState.initial) (freshEntry 1 false)
    (by decide) (by decide)).1
  have h' : (PeerAudio.stopPeerNote "p" "C4"
      (PeerAudio.setUseSampler "p" true
        (PeerAudio.playPeerNote "p" "C4" none
          (PeerAudio.createPeerSynth "p" false PeerState.initial)))).calls =
      (PeerAudio.createPeerSynth "p" false PeerState.initial).calls ++
        [PeerCall.triggerAttack 1 "C4", PeerCall.disconnect 1 3, PeerCall.connect 2 3,
         PeerCall.triggerRelease 2 "C4"] := h
  rw [h']
  decide

/-! ## Which instrument reaches the gain stage -/

theorem isConnected_append_pair (a b x y v : Nat) (calls : List PeerCall) :
    isConnected a b (calls ++ [PeerCall.disconnect x v, PeerCall.connect y v]) =
      if y = a ∧ v = b then true
      else if x = a ∧ v = b then false
      else isConnected a b calls := by
  unfold isConnected
  rw [List.foldl_append]
  rfl

theorem isConnected_create (n : Nat) (hint : Bool) :
    isConnected (n + 1) (n + 2)
        ((PeerAudio.createPeerSynth "" hint
          { peerSynths := [], peerPianos := [], nextHandle := n, calls := [] }).calls) = hint ∧
    isConnected n (n + 2)
        ((PeerAudio.createPeerSynth "" hint
          { peerSynths := [], peerPianos := [], nextHandle := n, calls := [] }).calls) =
      !hint := by
  cases hint <;> simp [isConnected, PeerAudio.createPeerSynth, masterVolumeNode]

theorem createPeerSynth_calls (id : String) (hint : Bool) (s : PeerState) :
    (PeerAudio.createPeerSynth id hint s).calls =
      s.calls ++ (PeerAudio.createPeerSynth "" hint
        { peerSynths := [], peerPianos := [], nextHandle := s.nextHandle, calls := [] }).calls := by
  simp [PeerAudio.createPeerSynth]

theorem volumeNode_lt_of_wellFormed (s : PeerState) (hw : WellFormed s) (k : String)
    (ek : PeerEntry) (h : assocGet k s.peerSynths = some ek) : ek.volumeNode < s.nextHandle :=
  hw.2 _ (mem_owned_of_get k ek _ h ek.volumeNode (by simp [PeerEntry.handles]))

theorem setUseSampler_fields (k : String) (b : Bool) (t : PeerState) (ek : PeerEntry)
    (hq : assocGet k t.peerSynths = some ek) (hb : ek.useSampler ≠ b) :
    (PeerAudio.setUseSampler k b t).peerSynths =
      assocSet k { ek with useSampler := b, synthConnected := !b, samplerConnected := b }
        t.peerSynths ∧
    (PeerAudio.setUseSampler k b t).calls =
      t.calls ++
        [PeerCall.disconnect (if ek.useSampler then ek.sampler else ek.synth) ek.volumeNode,
         PeerCall.connect (if b then ek.sampler else ek.synth) ek.volumeNode] := by
  rw [setUseSampler_of_other k b t ek hq hb]
  exact ⟨rfl, rfl⟩

theorem routed_create (s0 : PeerState) (hw : WellFormed s0) (id : String) (hint : Bool) :
    Routed s0 id (PeerAudio.createPeerSynth id hint s0) := by
  constructor
  · refine ⟨freshEntry s0.nextHandle hint, _, ?_, createPeerSynth_calls id hint s0, rfl, rfl,
      rfl, (isConnected_create s0.nextHandle hint).1, (isConnected_create s0.nextHandle hint).2,
      rfl, rfl⟩
    rw [(PeerAudio.createPeerSynth_eq id _ s0).1, assocGet_assocSet_self]
  · intro k ek hk hget
    rw [(PeerAudio.createPeerSynth_eq id _ s0).1, assocGet_assocSet_ne id k _ _ hk] at hget
    exact volumeNode_lt_of_wellFormed s0 hw k ek hget

theorem routed_setUseSampler (s0 : PeerState) (id k : String) (b : Bool) (t : PeerState)
    (h : Routed s0 id t) : Routed s0 id (PeerAudio.setUseSampler k b t) := by
  obtain ⟨⟨e, C, he, hc, h1, h2, h3, h4, h5, h6, h7⟩, hother⟩ := h
  cases hq : assocGet k t.peerSynths with
  | none =>
    rw [setUseSampler_of_none k b t hq]
    exact ⟨⟨e, C, he, hc, h1, h2, h3, h4, h5, h6, h7⟩, hother⟩
  | some ek =>
    by_cases hb : ek.useSampler = b
    · rw [setUseSampler_of_same k b t ek hq hb]
      exact ⟨⟨e, C, he, hc, h1, h2, h3, h4, h5, h6, h7⟩, hother⟩
    · obtain ⟨hps, hcs⟩ := setUseSampler_fields k b t ek hq hb
      by_cases hk : k = id
      · subst hk
        rw [he] at hq
        cases hq
        constructor
        · refine ⟨{ e with useSampler := b, synthConnected := !b, samplerConnected := b },
            C ++ [PeerCall.disconnect (if e.useSampler then e.sampler else e.synth)
              e.volumeNode, PeerCall.connect (if b then e.sampler else e.synth) e.volumeNode],
            ?_, ?_, h1, h2, h3, ?_, ?_, rfl, rfl⟩
          · rw [hps]
            exact assocGet_assocSet_self _ _ _
          · rw [hcs, hc, List.append_assoc]
          · show isConnected e.sampler e.volumeNode _ = b
            rw [isConnected_append_pair, h4]
            have hne : e.synth ≠ e.sampler := by omega
            cases hu : e.useSampler <;> cases hb' : b <;> simp_all
          · show isConnected e.synth e.volumeNode _ = !b
            rw [isConnected_append_pair, h5]
            have hne : e.synth ≠ e.sampler := by omega
            cases hu : e.useSampler <;> cases hb' : b <;> simp_all
        · intro k' ek' hk' hget
          rw [hps, assocGet_assocSet_ne k k' _ _ hk'] at hget
          exact hother k' ek' hk' hget
      · have hv : ek.volumeNode < s0.nextHandle := hother k ek hk hq
        have hvne : ¬ ek.volumeNode = e.volumeNode := by omega
        constructor
        · refine ⟨e, C ++ [PeerCall.disconnect (if ek.useSampler then ek.sampler else ek.synth)
              ek.volumeNode, PeerCall.connect (if b then ek.sampler else ek.synth)
              ek.volumeNode], ?_, ?_, h1, h2, h3, ?_, ?_, h6, h7⟩
          · rw [hps, assocGet_assocSet_ne k id _ _ (fun h => hk h.symm)]
            exact he
          · rw [hcs, hc, List.append_assoc]
          · rw [isConnected_append_pair, h4]
            simp [hvne]
          · rw [isConnected_append_pair, h5]
            simp [hvne]
        · intro k' ek' hk' hget
          rw [hps] at hget
          by_cases hkk : k' = k
          · subst hkk
            rw [assocGet_assocSet_self] at hget
            cases hget
            exact hv
          · rw [assocGet_assocSet_ne k k' _ _ hkk] at hget
            exact hother k' ek' hk' hget

theorem routed_run (s0 : PeerState) (id : String) (ops : List (String × Bool))
    (t : PeerState) (h : Routed s0 id t) :
    Routed s0 id (ops.foldl (fun st op => PeerAudio.setUseSampler op.1 op.2 st) t) := by
  induction ops generalizing t with
  | nil => exact h
  | cons op ops ih =>
    rw [List.foldl_cons]
    exact ih _ (routed_setUseSampler s0 id op.1 op.2 t h)

/-- C23: from any state in which no handle is held twice and every held handle has been
issued, `createPeerSynth(id, …, hint)` followed by any sequence of
`setUseSampler` calls (for `id` or for other ids) leads to a state in which,
by the `connect` and `disconnect` calls issued since the creation, exactly one
of the two instruments of `id` is connected to its gain stage: the sample-based
one when the `useSampler` flag of the entry is true, the synthesized one when
it is false. In that state `setUseSampler(id, b)` with `b` the current flag
returns the state unchanged (no call at all); with `b` the other value it sets
the flag to `b` and issues exactly two calls, the `disconnect` of the current
instrument from the gain stage and the `connect` of the other one, hence no
`triggerRelease`. -/
theorem setUseSampler_routing (s0 : PeerState) (hw : WellFormed s0) (id : String)
    (hint : Bool) (ops : List (String × Bool)) :
    ∃ e, assocGet id (ops.foldl (fun st op => PeerAudio.setUseSampler op.1 op.2 st)
        (PeerAudio.createPeerSynth id hint s0)).peerSynths = some e ∧
      e.synth ≠ e.sampler ∧
      isConnected e.sampler e.volumeNode
        ((ops.foldl (fun st op => PeerAudio.setUseSampler op.1 op.2 st)
          (PeerAudio.createPeerSynth id hint s0)).calls.drop s0.calls.length) = e.useSampler ∧
      isConnected e.synth e.volumeNode
        ((ops.foldl (fun st op => PeerAudio.setUseSampler op.1 op.2 st)
          (PeerAudio.createPeerSynth id hint s0)).calls.drop s0.calls.length) = !e.useSampler ∧
      e.samplerConnected = e.useSampler ∧ e.synthConnected = !e.useSampler ∧
      PeerAudio.setUseSampler id e.useSampler
        (ops.foldl (fun st op => PeerAudio.setUseSampler op.1 op.2 st)
          (PeerAudio.createPeerSynth id hint s0)) =
        ops.foldl (fun st op => PeerAudio.setUseSampler op.1 op.2 st)
          (PeerAudio.createPeerSynth id hint s0) ∧
      (PeerAudio.setUseSampler id (!e.useSampler)
        (ops.foldl (fun st op => PeerAudio.setUseSampler op.1 op.2 st)
          (PeerAudio.createPeerSynth id hint s0))).calls =
        (ops.foldl (fun st op => PeerAudio.setUseSampler op.1 op.2 st)
          (PeerAudio.createPeerSynth id hint s0)).calls ++
          [PeerCall.disconnect (if e.useSampler then e.sampler else e.synth) e.volumeNode,
           PeerCall.connect (if e.useSampler then e.synth else e.sampler) e.volumeNode] ∧
      assocGet id (PeerAudio.setUseSampler id (!e.useSampler)
        (ops.foldl (fun st op => PeerAudio.setUseSampler op.1 op.2 st)
          (PeerAudio.createPeerSynth id hint s0))).peerSynths =
        some { e with useSampler := !e.useSampler, synthConnected := e.useSampler,
                      samplerConnected := !e.useSampler } := by
  obtain ⟨⟨e, C, he, hc, h1, h2, h3, h4, h5, h6, h7⟩, _⟩ :=
    routed_run s0 id ops _ (routed_create s0 hw id hint)
  have hb : e.useSampler ≠ !e.useSampler := by
    cases e.useSampler <;> decide
  obtain ⟨hps, hcs⟩ := setUseSampler_fields id (!e.useSampler) _ e he hb
  refine ⟨e, he, by omega, ?_, ?_, h6, h7, setUseSampler_of_same id _ _ e he rfl, ?_, ?_⟩
  · rw [hc, List.drop_left]
    exact h4
  · rw [hc, List.drop_left]
    exact h5
  · rw [hcs]
    cases e.useSampler <;> rfl
  · rw [hps, assocGet_assocSet_self]
    cases e.useSampler <;> rfl

theorem setUseSampler_routing_witness :
    ∃ e, assocGet "p" (PeerAudio.setUseSampler "p" false (PeerAudio.setUseSampler "q" true
        (PeerAudio.setUseSampler "p" true
          (PeerAudio.createPeerSynth "p" false PeerState.initial)))).peerSynths = some e ∧
      e.synth ≠ e.sampler ∧
      isConnected e.sampler e.volumeNode
        ((PeerAudio.setUseSampler "p" false (PeerAudio.setUseSampler "q" true
          (PeerAudio.setUseSampler "p" true
            (PeerAudio.createPeerSynth "p" false PeerState.initial)))).calls.drop 0) =
        e.useSampler :=
  match setUseSampler_routing PeerState.initial wellFormed_initial "p" false
      [("p", true), ("q", true), ("p", false)] with
  | ⟨e, h1, h2, h3, _⟩ => ⟨e, h1, h2, h3⟩

/-! ## The instrument flag of outbound messages -/

theorem sends_flag_localOp (lop : LocalOp) (s : LocalState) :
    (lop.apply s).currentInstrument = s.currentInstrument ∧
    ∃ extra, (lop.apply s).log = s.log ++ extra ∧
      ∀ m, Effect.send m ∈ extra →
        m.useSampler = decide (s.currentInstrument = Instrument.sampler) := by
  cases lop with
  | key op =>
    cases op with
    | activate i =>
      show (activateKey i s).currentInstrument = _ ∧ ∃ extra, (activateKey i s).log = _ ∧ _
      cases hk : s.keys[i]? with
      | none =>
        have : activateKey i s = s := by simp [activateKey, hk]
        rw [this]
        exact ⟨rfl, [], by simp, by simp⟩
      | some k =>
        by_cases h : k.trackedNote ∈ s.activeSoundingNotes
        · rw [activateKey_of_active i s k hk h]
          exact ⟨rfl, [], by simp, by simp⟩
        · rw [activateKey_of_idle i s k hk h]
          refine ⟨rfl, _, rfl, ?_⟩
          intro m hm
          simp at hm
          rw [hm]
    | deactivate i =>
      show (deactivateKey i s).currentInstrument = _ ∧ ∃ extra, (deactivateKey i s).log = _ ∧ _
      cases hk : s.keys[i]? with
      | none =>
        have : deactivateKey i s = s := by simp [deactivateKey, hk]
        rw [this]
        exact ⟨rfl, [], by simp, by simp⟩
      | some k =>
        by_cases h : k.trackedNote ∈ s.activeSoundingNotes
        · rw [deactivateKey_of_active i s k hk h]
          cases s.sustainActive
          · refine ⟨rfl, _, rfl, ?_⟩
            intro m hm
            simp at hm
            rw [hm]
          · exact ⟨rfl, [], by simp, by simp⟩
        · rw [deactivateKey_of_idle i s k hk h]
          exact ⟨rfl, [], by simp, by simp⟩
  | sustain b =>
    show (setSustainState b s).currentInstrument = _ ∧ ∃ extra, (setSustainState b s).log = _ ∧ _
    cases b
    · rw [setSustainState_false]
      refine ⟨rfl, _, rfl, ?_⟩
      intro m hm
      simp only [List.mem_flatMap, List.mem_cons, Effect.send.injEq, List.mem_singleton,
        false_or, List.not_mem_nil, or_false, reduceCtorEq] at hm
      obtain ⟨note, _, rfl⟩ := hm
      rfl
    · rw [setSustainState_true]
      exact ⟨rfl, [], by simp, by simp⟩

theorem sends_flag_inputOp (op : InputOp) (s : LocalState) :
    (op.apply s).currentInstrument = s.currentInstrument ∧
    ∃ extra, (op.apply s).log = s.log ++ extra ∧
      ∀ m, Effect.send m ∈ extra →
        m.useSampler = decide (s.currentInstrument = Instrument.sampler) := by
  rcases inputOp_as_localOp op s with h | ⟨lop, h⟩
  · rw [h]
    exact ⟨rfl, [], by simp, by simp⟩
  · rw [h]
    exact sends_flag_localOp lop s

/-- C26: the `noteOff` messages of the forced release carry `useSampler: false` whatever
the current instrument is. `releaseAllActiveNotes` sends, for every note of
the Active Note Set, one `noteOff` whose flag is `currentSynth ===
window.sampler`; no source file assigns `window.sampler`, so the flag is
`false`. On the page as `setupPiano` leaves it (the sample-based instrument is
current), the first key pressed and the octave then shifted up give the messages
`noteOn` with `useSampler: true` and `noteOff` with `useSampler: false`. On
every other path (`activateKey`, `deactivateKey`, the `keydown` and `keyup`
listeners, `setSustainState`) each message sent carries `useSampler` true
exactly when the current instrument is the sample-based one. -/
theorem forced_release_flag_is_false (s : LocalState) :
    (releaseAllActiveNotes s).log =
      s.log ++ s.activeSoundingNotes.flatMap (fun note =>
        [Effect.triggerRelease s.currentSynth note,
         Effect.send { type := "noteOff", note := note, useSampler := false }]) ∧
    (activateKey 0 initialState).currentInstrument = Instrument.sampler ∧
    (shiftOctave MIN_OCTAVE MAX_OCTAVE 1 (activateKey 0 initialState)).currentInstrument =
      Instrument.sampler ∧
    (shiftOctave MIN_OCTAVE MAX_OCTAVE 1 (activateKey 0 initialState)).log =
      [Effect.triggerAttack Instrument.sampler "C3",
       Effect.send { type := "noteOn", note := "C3", useSampler := true },
       Effect.triggerRelease Instrument.sampler "C3",
       Effect.send { type := "noteOff", note := "C3", useSampler := false }] ∧
    ∀ op : InputOp,
      (op.apply s).currentInstrument = s.currentInstrument ∧
      ∃ extra, (op.apply s).log = s.log ++ extra ∧
        ∀ m, Effect.send m ∈ extra →
          m.useSampler = decide (s.currentInstrument = Instrument.sampler) := by
  refine ⟨?_, by decide, by decide, by decide, fun op => sends_flag_inputOp op s⟩
  rw [releaseAllActiveNotes_eq]
  simp [windowSampler]

theorem forced_release_flag_is_false_witness :
    ∀ m, Effect.send m ∈
        [Effect.triggerAttack Instrument.sampler "C3",
         Effect.send { type := "noteOn", note := "C3", useSampler := true }] →
      m.useSampler = decide (initialState.currentInstrument = Instrument.sampler) := by
  obtain ⟨_, extra, hlog, hflag⟩ :=
    (forced_release_flag_is_false initialState).2.2.2.2
      (InputOp.keydown { targetTagName := "BODY", key := "a", repeated := false })
  have hx : extra = [Effect.triggerAttack Instrument.sampler "C3",
      Effect.send { type := "noteOn", note := "C3", useSampler := true }] := by
    have h0 : (InputOp.apply
        (InputOp.keydown { targetTagName := "BODY", key := "a", repeated := false })
        initialState).log = [] ++ [Effect.triggerAttack Instrument.sampler "C3",
          Effect.send { type := "noteOn", note := "C3", useSampler := true }] := by decide
    rw [hlog] at h0
    exact List.append_cancel_left h0
  rw [← hx]
  exact hflag

/-! ## The keyboard path and the pointer path -/

/-- C27: a keyboard event whose target is no text field and whose key is not the space
bar, a key that `overrideKeyboardMap` sends (in lower case) to an original note
`N`, and the key element `document.querySelector` finds for `N`, at position
`i`. The `keyup` listener returns the state `deactivateKey` returns on that
key element, in the branch that releases as in the branch that defers under
sustain; the `keydown` listener returns the state `activateKey` returns on it
when the event is no auto-repeat, and the state unchanged when it is one. State
covers the log of audio calls and outbound messages. -/
theorem keyboard_path_is_pointer_path (e : KeyboardEvent) (s : LocalState) (N : String)
    (i : Nat) (k : KeyElement)
    (ht : e.targetTagName ≠ "INPUT" ∧ e.targetTagName ≠ "TEXTAREA") (hs : e.key ≠ " ")
    (hm : keyboardMapGet (toLowerCase e.key) s.overrideKeyboardMap = some N) (hN : N ≠ "")
    (hq : queryOriginalNote N s.keys = some (i, k)) :
    s.keys[i]? = some k ∧ k.originalNote = some N ∧
    (e.repeated = false → keydown e s = activateKey i s) ∧
    (e.repeated = true → keydown e s = s) ∧
    keyup e s = deactivateKey i s := by
  obtain ⟨hk, ho⟩ := queryOriginalNote_some _ _ _ _ hq
  have htr := trackedNote_of_originalNote k N ho hN
  refine ⟨hk, ho, ?_, ?_, ?_⟩
  · intro hr
    unfold keydown
    simp only [ht.1, ht.2, or_self, if_false, hs, false_and, hr, Bool.false_eq_true, hm, hN, hq]
    simp only [activateKey, hk, htr]
  · intro hr
    unfold keydown
    simp only [ht.1, ht.2, or_self, if_false, hs, false_and, hr, if_true]
  · unfold keyup
    simp only [ht.1, ht.2, or_self, if_false, hs, false_and, hm, hN, hq]
    simp only [deactivateKey, hk, htr]

theorem keyboard_path_is_pointer_path_witness :
    keyup { targetTagName := "BODY", key := "W", repeated := false }
        (keydown { targetTagName := "BODY", key := "W", repeated := false } initialState) =
      deactivateKey 1
        (keydown { targetTagName := "BODY", key := "W", repeated := false } initialState) :=
  (keyboard_path_is_pointer_path { targetTagName := "BODY", key := "W", repeated := false }
    (keydown { targetTagName := "BODY", key := "W", repeated := false } initialState)
    "C#3" 1
    { originalNote := some "C#3", note := "C#3", active := true, keyLabel := "W\r\nC#3" }
    (by decide) (by decide) (by decide) (by decide) (by decide)).2.2.2.2

/-! ## The displayed note of a held key -/

theorem updateKeyLabel_displayed (s : LocalState) (k : KeyElement) :
    (updateKeyLabel s k).note =
      displayedNote s.currentOctaveOffset s.currentTransposition k.trackedNote ∧
    (updateKeyLabel s k).originalNote = some k.trackedNote := ⟨rfl, rfl⟩

theorem labelled_initialState : Labelled initialState := by decide

theorem trackedNote_of_getD (k : KeyElement) (h : k.originalNote.getD "" ≠ "") :
    k.originalNote = some k.trackedNote ∧ k.trackedNote = k.originalNote.getD "" := by
  cases ho : k.originalNote with
  | none => rw [ho] at h; exact absurd rfl h
  | some N =>
    rw [ho] at h
    have hN : N ≠ "" := h
    rw [trackedNote_of_originalNote k N ho hN]
    exact ⟨rfl, rfl⟩

theorem labelled_congr (s t : LocalState) (hv : noteView t = noteView s)
    (ho : t.currentOctaveOffset = s.currentOctaveOffset)
    (htr : t.currentTransposition = s.currentTransposition) (hl : Labelled s) :
    Labelled t := by
  unfold Labelled
  rw [hv, ho, htr]
  exact hl

theorem noteView_set (s : LocalState) (i : Nat) (k k' : KeyElement)
    (hk : s.keys[i]? = some k) (h1 : k'.originalNote = k.originalNote)
    (h2 : k'.note = k.note) :
    (s.keys.set i k').map (fun k => (k.originalNote, k.note)) = noteView s :=
  map_set_of_eq (fun k => (k.originalNote, k.note)) s.keys i k k' hk (by simp [h1, h2])

theorem clearActiveClass_view (note : String) (ks : List KeyElement) :
    (clearActiveClass note ks).map (fun k => (k.originalNote, k.note)) =
      ks.map (fun k => (k.originalNote, k.note)) := by
  induction ks with
  | nil => rfl
  | cons k t ih =>
    simp only [clearActiveClass]
    split
    · rfl
    · simp only [List.map_cons, ih]

theorem foldl_clearActiveClass_view (l : List String) (ks : List KeyElement) :
    (l.foldl (fun ks note => clearActiveClass note ks) ks).map
        (fun k => (k.originalNote, k.note)) =
      ks.map (fun k => (k.originalNote, k.note)) := by
  induction l generalizing ks with
  | nil => rfl
  | cons n t ih => rw [List.foldl_cons, ih, clearActiveClass_view]

theorem releaseAllActiveNotes_view (s : LocalState) :
    noteView (releaseAllActiveNotes s) = noteView s ∧
    (releaseAllActiveNotes s).activeSoundingNotes = [] ∧
    (releaseAllActiveNotes s).currentOctaveOffset = s.currentOctaveOffset ∧
    (releaseAllActiveNotes s).currentTransposition = s.currentTransposition := by
  rw [releaseAllActiveNotes_eq]
  exact ⟨foldl_clearActiveClass_view _ _, rfl, rfl, rfl⟩

theorem labelled_updateKeyLabels (s : LocalState)
    (hk : ∀ p ∈ noteView s, p.1.getD "" ≠ "") : Labelled (updateKeyLabels s) := by
  intro p hp
  simp only [noteView, updateKeyLabels, List.map_map, List.mem_map, Function.comp] at hp
  obtain ⟨k, hkm, rfl⟩ := hp
  have hne : k.originalNote.getD "" ≠ "" :=
    hk (k.originalNote, k.note) (List.mem_map_of_mem (fun k => (k.originalNote, k.note)) hkm)
  obtain ⟨h1, h2⟩ := trackedNote_of_getD k hne
  obtain ⟨d1, d2⟩ := updateKeyLabel_displayed s k
  simp only [d1, d2, Option.getD_some]
  exact ⟨by rw [h2]; exact hne, rfl⟩

theorem noteView_updateKeyLabels (s : LocalState) (map : List (String × String))
    (hl : Labelled s) :
    noteView (updateKeyLabels { s with overrideKeyboardMap := map }) = noteView s := by
  simp only [noteView, updateKeyLabels, List.map_map]
  apply List.map_congr_left
  intro k hkm
  have hp := hl (k.originalNote, k.note)
    (List.mem_map_of_mem (fun k => (k.originalNote, k.note)) hkm)
  obtain ⟨h1, h2⟩ := trackedNote_of_getD k hp.1
  obtain ⟨d1, d2⟩ := updateKeyLabel_displayed { s with overrideKeyboardMap := map } k
  have h3 : k.note = displayedNote s.currentOctaveOffset s.currentTransposition
      (k.originalNote.getD "") := hp.2
  simp only [Function.comp, d1, d2]
  rw [← h1, h3, h2]

theorem keyed_of_labelled (s t : LocalState) (hv : noteView t = noteView s)
    (hl : Labelled s) : ∀ p ∈ noteView t, p.1.getD "" ≠ "" := by
  rw [hv]
  exact fun p hp => (hl p hp).1

theorem relabel_step (s x : LocalState) (hl : Labelled s)
    (hk : x.keys = (releaseAllActiveNotes s).keys)
    (ha : x.activeSoundingNotes = (releaseAllActiveNotes s).activeSoundingNotes) :
    Labelled (updateKeyLabels x) ∧ (updateKeyLabels x).activeSoundingNotes = [] := by
  have hv : noteView x = noteView s := by
    unfold noteView
    rw [hk]
    exact (releaseAllActiveNotes_view s).1
  refine ⟨labelled_updateKeyLabels _ (keyed_of_labelled s _ hv hl), ?_⟩
  show x.activeSoundingNotes = []
  rw [ha]
  exact (releaseAllActiveNotes_view s).2.1

theorem localOp_view (lop : LocalOp) (s : LocalState) :
    noteView (lop.apply s) = noteView s ∧
    (lop.apply s).currentOctaveOffset = s.currentOctaveOffset ∧
    (lop.apply s).currentTransposition = s.currentTransposition := by
  cases lop with
  | key op =>
    cases op with
    | activate i =>
      show noteView (activateKey i s) = _ ∧ (activateKey i s).currentOctaveOffset = _ ∧
        (activateKey i s).currentTransposition = _
      cases hk : s.keys[i]? with
      | none =>
        have : activateKey i s = s := by simp [activateKey, hk]
        rw [this]
        exact ⟨rfl, rfl, rfl⟩
      | some k =>
        by_cases h : k.trackedNote ∈ s.activeSoundingNotes
        · rw [activateKey_of_active i s k hk h]
          exact ⟨rfl, rfl, rfl⟩
        · rw [activateKey_of_idle i s k hk h]
          exact ⟨noteView_set s i k _ hk rfl rfl, rfl, rfl⟩
    | deactivate i =>
      show noteView (deactivateKey i s) = _ ∧ (deactivateKey i s).currentOctaveOffset = _ ∧
        (deactivateKey i s).currentTransposition = _
      cases hk : s.keys[i]? with
      | none =>
        have : deactivateKey i s = s := by simp [deactivateKey, hk]
        rw [this]
        exact ⟨rfl, rfl, rfl⟩
      | some k =>
        by_cases h : k.trackedNote ∈ s.activeSoundingNotes
        · rw [deactivateKey_of_active i s k hk h]
          cases s.sustainActive
          · exact ⟨noteView_set s i k _ hk rfl rfl, rfl, rfl⟩
          · exact ⟨noteView_set s i k _ hk rfl rfl, rfl, rfl⟩
        · rw [deactivateKey_of_idle i s k hk h]
          exact ⟨rfl, rfl, rfl⟩
  | sustain b =>
    show noteView (setSustainState b s) = _ ∧ (setSustainState b s).currentOctaveOffset = _ ∧
      (setSustainState b s).currentTransposition = _
    cases b
    · rw [setSustainState_false]
      exact ⟨rfl, rfl, rfl⟩
    · rw [setSustainState_true]
      exact ⟨rfl, rfl, rfl⟩

theorem remapKey_cases (clicked : Option Nat) (answer : Option String) (replace : Bool)
    (s : LocalState) :
    remapKey clicked answer replace s = s ∨
      ∃ map, remapKey clicked answer replace s =
        updateKeyLabels { s with overrideKeyboardMap := map } := by
  unfold remapKey
  split
  · exact Or.inl rfl
  · split
    · exact Or.inl rfl
    · split
      · exact Or.inl rfl
      · simp only []
        split
        · exact Or.inl rfl
        · split
          · split
            · exact Or.inr ⟨_, rfl⟩
            · exact Or.inl rfl
          · split
            · split
              · exact Or.inl rfl
              · exact Or.inr ⟨_, rfl⟩
            · exact Or.inl rfl

theorem inputOp_step (iop : InputOp) (s : LocalState) (hl : Labelled s) :
    Labelled (iop.apply s) ∧
    (noteView (iop.apply s) = noteView s ∨ (iop.apply s).activeSoundingNotes = []) := by
  rcases inputOp_as_localOp iop s with h | ⟨lop, h⟩
  · rw [h]
    exact ⟨hl, Or.inl rfl⟩
  · rw [h]
    obtain ⟨hv, ho, htr⟩ := localOp_view lop s
    exact ⟨labelled_congr s _ hv ho htr hl, Or.inl hv⟩

theorem shiftOctave_step (lo hi d : Int) (s : LocalState) (hl : Labelled s) :
    Labelled (shiftOctave lo hi d s) ∧
    (noteView (shiftOctave lo hi d s) = noteView s ∨
      (shiftOctave lo hi d s).activeSoundingNotes = []) := by
  by_cases h : lo ≤ s.currentOctaveOffset + d ∧ s.currentOctaveOffset + d ≤ hi
  · rw [shiftOctave_accept _ _ _ _ h]
    have := relabel_step s
      { releaseAllActiveNotes s with currentOctaveOffset := s.currentOctaveOffset + d }
      hl rfl rfl
    exact ⟨this.1, Or.inr this.2⟩
  · rw [shiftOctave_reject _ _ _ _ h]
    exact ⟨hl, Or.inl rfl⟩

theorem transposeKey_step (d : Int) (s : LocalState) (hl : Labelled s) :
    Labelled (transposeKey d s) ∧
    (noteView (transposeKey d s) = noteView s ∨ (transposeKey d s).activeSoundingNotes = []) := by
  by_cases h : s.currentTransposition + d ≥ -12 ∧ s.currentTransposition + d ≤ 12
  · have he : transposeKey d s = updateKeyLabels
        { releaseAllActiveNotes s with currentTransposition := s.currentTransposition + d } := by
      unfold transposeKey
      simp only [h, and_self, if_true]
    rw [he]
    have := relabel_step s
      { releaseAllActiveNotes s with currentTransposition := s.currentTransposition + d }
      hl rfl rfl
    exact ⟨this.1, Or.inr this.2⟩
  · have he : transposeKey d s = s := by
      unfold transposeKey
      simp only []
      rw [if_neg h]
    rw [he]
    exact ⟨hl, Or.inl rfl⟩

theorem setCurrentOctaveOffset_step (o : Int) (s : LocalState) (hl : Labelled s) :
    Labelled (setCurrentOctaveOffset o s) ∧
    (noteView (setCurrentOctaveOffset o s) = noteView s ∨
      (setCurrentOctaveOffset o s).activeSoundingNotes = []) := by
  have := relabel_step s { releaseAllActiveNotes s with currentOctaveOffset := o } hl rfl rfl
  exact ⟨this.1, Or.inr this.2⟩

theorem remapKey_step (clicked : Option Nat) (answer : Option String) (replace : Bool)
    (s : LocalState) (hl : Labelled s) :
    Labelled (remapKey clicked answer replace s) ∧
    (noteView (remapKey clicked answer replace s) = noteView s ∨
      (remapKey clicked answer replace s).activeSoundingNotes = []) := by
  rcases remapKey_cases clicked answer replace s with h | ⟨map, h⟩
  · rw [h]
    exact ⟨hl, Or.inl rfl⟩
  · rw [h]
    have hv := noteView_updateKeyLabels s map hl
    exact ⟨labelled_congr s _ hv rfl rfl hl, Or.inl hv⟩

theorem playerOp_step (op : PlayerOp) (s : LocalState) (hl : Labelled s) :
    Labelled (op.apply s) ∧
    (noteView (op.apply s) = noteView s ∨ (op.apply s).activeSoundingNotes = []) := by
  cases op with
  | input iop => exact inputOp_step iop s hl
  | shiftOctave d => exact shiftOctave_step MIN_OCTAVE MAX_OCTAVE d s hl
  | transposeKey d => exact transposeKey_step d s hl
  | setCurrentOctaveOffset o => exact setCurrentOctaveOffset_step o s hl
  | remap clicked answer replace => exact remapKey_step clicked answer replace s hl
  | useSampler b => exact ⟨labelled_congr s _ rfl rfl rfl hl, Or.inl rfl⟩

theorem labelled_runPlayerOps (ops : List PlayerOp) (s : LocalState) (hl : Labelled s) :
    Labelled (runPlayerOps ops s) := by
  induction ops generalizing s with
  | nil => exact hl
  | cons op ops ih =>
    unfold runPlayerOps
    rw [List.foldl_cons]
    exact ih _ (playerOp_step op s hl).1

theorem staysActive_head (N : String) (ops : List PlayerOp) (s : LocalState)
    (h : StaysActive N ops s) : N ∈ s.activeSoundingNotes := by
  cases ops with
  | nil => exact h
  | cons op ops => exact h.1

theorem staysActive_view (N : String) (ops : List PlayerOp) (s : LocalState)
    (hl : Labelled s) (h : StaysActive N ops s) :
    noteView (runPlayerOps ops s) = noteView s ∧
    N ∈ (runPlayerOps ops s).activeSoundingNotes := by
  induction ops generalizing s with
  | nil => exact ⟨rfl, h⟩
  | cons op ops ih =>
    unfold runPlayerOps
    rw [List.foldl_cons]
    obtain ⟨hl1, hv⟩ := playerOp_step op s hl
    have hN := staysActive_head N ops _ h.2
    obtain ⟨i1, i2⟩ := ih (op.apply s) hl1 h.2
    refine ⟨?_, i2⟩
    rcases hv with hv | hv
    · exact i1.trans hv
    · rw [hv] at hN
      cases hN

theorem getElem?_of_noteView (s t : LocalState) (hv : noteView t = noteView s) (i : Nat)
    (k : KeyElement) (hk : s.keys[i]? = some k) :
    ∃ k', t.keys[i]? = some k' ∧ k'.originalNote = k.originalNote ∧ k'.note = k.note := by
  have h1 : (noteView t)[i]? = (noteView s)[i]? := by rw [hv]
  simp only [noteView, List.getElem?_map, hk, Option.map_some'] at h1
  cases hk' : t.keys[i]? with
  | none => rw [hk'] at h1; cases h1
  | some k' =>
    rw [hk'] at h1
    simp only [Option.map_some', Option.some.injEq, Prod.mk.injEq] at h1
    exact ⟨k', rfl, h1.1, h1.2⟩

/-- C28: start from a state whose keys are labelled (as `updateKeyLabels` leaves them when
the page is set up) and run any calls of `activateKey`, `deactivateKey`, the
keyboard listeners, `setSustainState`, `shiftOctave`, `transposeKey`,
`setCurrentOctaveOffset`, key remapping and the sound toggle. In the state
reached, activating an idle key `k` (tracked under its original note `N`)
attacks and sends the displayed note `k.note` and puts `N` in the Active Note
Set. After any further calls during which `N` stays in the Active Note Set, the
key element still has original note `N` and still displays `k.note` (every call
that relabels the keys empties the set first), so `deactivateKey` on it
releases and sends `k.note` when sustain is off, and pushes `k.note` to the
deferred list when sustain is on: the same string as in the attack. -/
theorem held_key_keeps_sounding_note (s0 : LocalState) (before after : List PlayerOp)
    (i : Nat) (k : KeyElement) (hl : Labelled s0)
    (hk : (runPlayerOps before s0).keys[i]? = some k)
    (hidle : k.trackedNote ∉ (runPlayerOps before s0).activeSoundingNotes)
    (hstay : StaysActive k.trackedNote after (activateKey i (runPlayerOps before s0))) :
    (activateKey i (runPlayerOps before s0)).log =
      (runPlayerOps before s0).log ++
        [Effect.triggerAttack (runPlayerOps before s0).currentInstrument k.note,
         Effect.send
          { type := "noteOn", note := k.note,
            useSampler :=
              decide ((runPlayerOps before s0).currentInstrument = Instrument.sampler) }] ∧
    ∃ k', (runPlayerOps after (activateKey i (runPlayerOps before s0))).keys[i]? = some k' ∧
      k'.note = k.note ∧ k'.trackedNote = k.trackedNote ∧
      k'.trackedNote ∈
        (runPlayerOps after (activateKey i (runPlayerOps before s0))).activeSoundingNotes ∧
      ((runPlayerOps after (activateKey i (runPlayerOps before s0))).sustainActive = false →
        (deactivateKey i (runPlayerOps after (activateKey i (runPlayerOps before s0)))).log =
          (runPlayerOps after (activateKey i (runPlayerOps before s0))).log ++
            [Effect.triggerRelease
              (runPlayerOps after (activateKey i (runPlayerOps before s0))).currentInstrument
              k.note,
             Effect.send
              { type := "noteOff", note := k.note,
                useSampler := decide
                  ((runPlayerOps after (activateKey i
                    (runPlayerOps before s0))).currentInstrument = Instrument.sampler) }]) ∧
      ((runPlayerOps after (activateKey i (runPlayerOps before s0))).sustainActive = true →
        (deactivateKey i
          (runPlayerOps after (activateKey i (runPlayerOps before s0)))).sustainedNotes =
          (runPlayerOps after (activateKey i (runPlayerOps before s0))).sustainedNotes ++
            [k.note] ∧
        (deactivateKey i (runPlayerOps after (activateKey i (runPlayerOps before s0)))).log =
          (runPlayerOps after (activateKey i (runPlayerOps before s0))).log) := by
  have hls := labelled_runPlayerOps before s0 hl
  have hidleq := activateKey_of_idle i _ k hk hidle
  have hstep := inputOp_step (InputOp.pointer (LocalOp.key (KeyOp.activate i))) _ hls
  have hl1 : Labelled (activateKey i (runPlayerOps before s0)) := hstep.1
  have hv1 : noteView (activateKey i (runPlayerOps before s0)) =
      noteView (runPlayerOps before s0) :=
    (localOp_view (LocalOp.key (KeyOp.activate i)) _).1
  obtain ⟨hv, hin⟩ := staysActive_view k.trackedNote after _ hl1 hstay
  obtain ⟨k', hk', ho, hn⟩ := getElem?_of_noteView (runPlayerOps before s0) _ (hv.trans hv1) i k hk
  have htr : k'.trackedNote = k.trackedNote := by
    unfold KeyElement.trackedNote
    rw [ho, hn]
  have hde := deactivateKey_of_active i _ k' hk' (by rw [htr]; exact hin)
  refine ⟨?_, k', hk', hn, htr, by rw [htr]; exact hin, ?_, ?_⟩
  · rw [hidleq]
  · intro hs
    rw [hde, hs, hn]
    rfl
  · intro hs
    rw [hde, hs, hn]
    exact ⟨rfl, rfl⟩

theorem held_key_keeps_sounding_note_witness :
    ∃ k', (runPlayerOps
        [PlayerOp.input (InputOp.pointer (LocalOp.sustain true)),
         PlayerOp.remap (some 2) (some "q") false, PlayerOp.useSampler false]
        (activateKey 0
          (runPlayerOps [PlayerOp.shiftOctave 1] initialState))).keys[0]? = some k' ∧
      k'.note = "C4" ∧ k'.trackedNote = "C3" :=
  match held_key_keeps_sounding_note initialState [PlayerOp.shiftOctave 1]
      [PlayerOp.input (InputOp.pointer (LocalOp.sustain true)),
       PlayerOp.remap (some 2) (some "q") false, PlayerOp.useSampler false]
      0 { originalNote := some "C3", note := "C4", active := false, keyLabel := "A\r\nC4" }
      (by decide) (by decide) (by decide)
      ⟨by decide, by decide, by decide,
        (by decide : "C3" ∈ (Piano.setUseSampler false
          (remapKey (some 2) (some "q") false
            (setSustainState true
              (activateKey 0
                (runPlayerOps [PlayerOp.shiftOctave 1] initialState))))).activeSoundingNotes)⟩
      with
  | ⟨_, k', h1, h2, h3, _⟩ => ⟨k', h1, h2, h3⟩

/-! ## `transposeNote` over doubles -/

theorem ieee_exponent_of_lt (fuel n : Nat) (h : n < 2 ^ 53) : IEEE.exponent fuel n = 0 := by
  cases fuel with
  | zero => rfl
  | succ f => simp only [IEEE.exponent, if_pos h]

theorem ieee_round_of_lt (n : Nat) (h : n < 2 ^ 53) : IEEE.round n = n := by
  unfold IEEE.round
  rw [ieee_exponent_of_lt n n h]
  simp [Nat.mod_one]

theorem ieee_roundInt_of_lt (z : Int) (h : z.natAbs < 2 ^ 53) : IEEE.roundInt z = z := by
  cases z with
  | ofNat n =>
    have hn : n < 2 ^ 53 := by simpa using h
    simp only [IEEE.roundInt, ieee_round_of_lt n hn]
    rfl
  | negSucc n =>
    have hn : n + 1 < 2 ^ 53 := by simpa [Int.natAbs] using h
    simp only [IEEE.roundInt, ieee_round_of_lt (n + 1) hn]
    rfl

theorem ieee_exponent_spec (fuel n : Nat) (hn : 2 ^ 53 ≤ n) (hf : n ≤ fuel) :
    1 ≤ IEEE.exponent fuel n ∧ 2 ^ 52 ≤ n / 2 ^ IEEE.exponent fuel n := by
  induction fuel generalizing n with
  | zero =>
    have : (0 : Nat) < 2 ^ 53 := by norm_num
    omega
  | succ f ih =>
    have hlt : ¬ n < 2 ^ 53 := by omega
    simp only [IEEE.exponent, if_neg hlt]
    by_cases h2 : n / 2 < 2 ^ 53
    · rw [ieee_exponent_of_lt f (n / 2) h2]
      refine ⟨by omega, ?_⟩
      simp only [zero_add, pow_one]
      omega
    · have := ih (n / 2) (by omega) (by omega)
      refine ⟨by omega, ?_⟩
      have hp : n / 2 ^ (IEEE.exponent f (n / 2) + 1) =
          n / 2 / 2 ^ IEEE.exponent f (n / 2) := by
        rw [Nat.pow_succ, Nat.mul_comm, Nat.div_div_eq_div_mul]
      rw [hp]
      exact this.2

theorem ieee_le_round (n : Nat) (hn : 2 ^ 53 ≤ n) : 2 ^ 53 ≤ IEEE.round n := by
  obtain ⟨h1, h2⟩ := ieee_exponent_spec n n hn (le_refl n)
  have hp : 2 ≤ 2 ^ IEEE.exponent n n := by
    calc 2 = 2 ^ 1 := rfl
      _ ≤ 2 ^ IEEE.exponent n n := Nat.pow_le_pow_right (by norm_num) h1
  have hq : 2 ^ 53 ≤ n / 2 ^ IEEE.exponent n n * 2 ^ IEEE.exponent n n := by
    calc 2 ^ 53 = 2 ^ 52 * 2 := by norm_num
      _ ≤ n / 2 ^ IEEE.exponent n n * 2 ^ IEEE.exponent n n := Nat.mul_le_mul h2 hp
  have hq1 : n / 2 ^ IEEE.exponent n n * 2 ^ IEEE.exponent n n ≤
      (n / 2 ^ IEEE.exponent n n + 1) * 2 ^ IEEE.exponent n n :=
    Nat.mul_le_mul_right _ (Nat.le_succ _)
  unfold IEEE.round
  simp only []
  split
  · exact hq
  · split
    · exact le_trans hq hq1
    · split
      · exact hq
      · exact le_trans hq hq1

theorem ieee_round_eq_small (c v : Nat) (hv : v < 2 ^ 53) (h : IEEE.round c = v) : c = v := by
  by_cases hc : c < 2 ^ 53
  · rw [ieee_round_of_lt c hc] at h
    exact h
  · have := ieee_le_round c (by omega)
    omega

theorem ieee_shortest_of_lt (v : Nat) (hv : v < 2 ^ 53) : IEEE.shortest v = v := by
  unfold IEEE.shortest
  cases hfind : (List.range (Nat.repr v).length).findSome? (fun j =>
    let p := 10 ^ ((Nat.repr v).length - (j + 1))
    let lo := v / p * p
    let hi := lo + p
    if IEEE.round lo = v then
      if IEEE.round hi = v ∧ hi - v < v - lo then some hi else some lo
    else if IEEE.round hi = v then some hi
    else none) with
  | none => rfl
  | some c =>
    obtain ⟨j, _, hj⟩ := List.exists_of_findSome?_eq_some hfind
    simp only [Option.getD_some]
    simp only [] at hj
    split at hj
    · next hlo =>
      split at hj
      · next hhi =>
        cases hj
        exact ieee_round_eq_small _ v hv hhi.1
      · cases hj
        exact ieee_round_eq_small _ v hv hlo
    · split at hj
      · next hhi =>
        cases hj
        exact ieee_round_eq_small _ v hv hhi
      · cases hj

theorem ieee_natToString_of_lt (v : Nat) (hv : v < 2 ^ 53) : IEEE.natToString v = Nat.repr v := by
  unfold IEEE.natToString
  rw [ieee_shortest_of_lt v hv, if_pos (lt_trans hv (by norm_num))]

theorem ieee_numberToString_of_lt (z : Int) (h : z.natAbs < 2 ^ 53) :
    IEEE.numberToString (IEEE.Number.finite z) = numberToString z := by
  cases z with
  | ofNat n =>
    have hn : n < 2 ^ 53 := by simpa using h
    simp only [IEEE.numberToString, numberToString, ieee_natToString_of_lt n hn]
  | negSucc n =>
    have hn : n + 1 < 2 ^ 53 := by simpa [Int.natAbs] using h
    simp only [IEEE.numberToString, numberToString, ieee_natToString_of_lt (n + 1) hn]

theorem ieee_parseInt_of_lt (ds : List Char) (h : parseDigits ds < 2 ^ 53) :
    IEEE.parseInt ds = IEEE.Number.finite (parseDigits ds) := by
  unfold IEEE.parseInt
  rw [ieee_round_of_lt _ h, ieee_exponent_of_lt _ _ h, if_pos (by omega)]

theorem ieee_add_of_lt (v k : Int) (h : (v + k).natAbs < 2 ^ 53) :
    (IEEE.Number.finite v).add k = IEEE.Number.finite (v + k) := by
  simp only [IEEE.Number.add, ieee_roundInt_of_lt _ h]

theorem ieee_carryLoop_lt (fuel : Nat) (idx : Int) (oct : IEEE.Number) (h : idx < 12) :
    IEEE.carryLoop fuel (idx, oct) = some (idx, oct) := by
  have h12 : ¬ idx ≥ 12 := by omega
  cases fuel with
  | zero => simp only [IEEE.carryLoop, if_neg h12]
  | succ f => simp only [IEEE.carryLoop, if_neg h12]

theorem ieee_borrowLoop_ge (fuel : Nat) (idx : Int) (oct : IEEE.Number) (h : 0 ≤ idx) :
    IEEE.borrowLoop fuel (idx, oct) = some (idx, oct) := by
  have h0 : ¬ idx < 0 := by omega
  cases fuel with
  | zero => simp only [IEEE.borrowLoop, if_neg h0]
  | succ f => simp only [IEEE.borrowLoop, if_neg h0]

theorem ieee_carryLoop_eq (fuel : Nat) (idx oct : Int) (h0 : 0 ≤ idx) (hf : idx / 12 ≤ fuel)
    (hi : idx < 2 ^ 53) (hlo : -(2 ^ 53) < oct) (hhi : oct + idx / 12 < 2 ^ 53) :
    IEEE.carryLoop fuel (idx, IEEE.Number.finite oct) =
      some (idx % 12, IEEE.Number.finite (oct + idx / 12)) := by
  induction fuel generalizing idx oct with
  | zero =>
    have h1 : idx / 12 = 0 := by omega
    have h2 : idx % 12 = idx := by omega
    rw [ieee_carryLoop_lt _ _ _ (by omega), h1, h2]
    simp
  | succ f ih =>
    by_cases h : idx ≥ 12
    · have e := ih (idx - 12) (oct + 1) (by omega) (by omega) (by omega) (by omega) (by omega)
      have hr : IEEE.roundInt (idx - 12) = idx - 12 := ieee_roundInt_of_lt _ (by omega)
      have ha : (IEEE.Number.finite oct).add 1 = IEEE.Number.finite (oct + 1) :=
        ieee_add_of_lt _ _ (by omega)
      simp only [IEEE.carryLoop, if_pos h, hr, ha, e]
      have h1 : (idx - 12) % 12 = idx % 12 := by omega
      have h2 : oct + 1 + (idx - 12) / 12 = oct + idx / 12 := by omega
      rw [h1, h2]
    · have h1 : idx / 12 = 0 := by omega
      have h2 : idx % 12 = idx := by omega
      rw [ieee_carryLoop_lt _ _ _ (by omega), h1, h2]
      simp

theorem ieee_borrowLoop_eq (fuel : Nat) (idx oct : Int) (h12 : idx < 12) (hf : -idx ≤ fuel)
    (hi : -(2 ^ 53) < idx) (hhi : oct < 2 ^ 53) (hlo : -(2 ^ 53) < oct + idx / 12) :
    IEEE.borrowLoop fuel (idx, IEEE.Number.finite oct) =
      some (idx % 12, IEEE.Number.finite (oct + idx / 12)) := by
  induction fuel generalizing idx oct with
  | zero =>
    have h1 : idx / 12 = 0 := by omega
    have h2 : idx % 12 = idx := by omega
    rw [ieee_borrowLoop_ge _ _ _ (by omega), h1, h2]
    simp
  | succ f ih =>
    by_cases h : idx < 0
    · have e := ih (idx + 12) (oct - 1) (by omega) (by omega) (by omega) (by omega) (by omega)
      have hr : IEEE.roundInt (idx + 12) = idx + 12 := ieee_roundInt_of_lt _ (by omega)
      have ha : (IEEE.Number.finite oct).add (-1) = IEEE.Number.finite (oct - 1) :=
        ieee_add_of_lt _ _ (by omega)
      simp only [IEEE.borrowLoop, if_pos h, hr, ha, e]
      have h1 : (idx + 12) % 12 = idx % 12 := by omega
      have h2 : oct - 1 + (idx + 12) / 12 = oct + idx / 12 := by omega
      rw [h1, h2]
    · have h1 : idx / 12 = 0 := by omega
      have h2 : idx % 12 = idx := by omega
      rw [ieee_borrowLoop_ge _ _ _ (by omega), h1, h2]
      simp

theorem notesIndexOf_range (name : String) :
    notesIndexOf name = -1 ∨ (0 ≤ notesIndexOf name ∧ notesIndexOf name < 12) := by
  unfold notesIndexOf
  split
  · next h =>
    right
    have : NOTES.length = 12 := rfl
    omega
  · left; rfl

/-- Within the doubles that hold every integer, the arithmetic of `transposeNote` is
exact: when the octave numeral the expression finds is below `2 ^ 52` and
`|semitones| < 2 ^ 52`, the call returns, and its result is that of the embedding
over the integers. -/
theorem ieee_transposeNote_exact (note : String) (s : Int)
    (ho : ∀ name ds, regexMatch note.data = some (name, ds) → parseDigits ds < 2 ^ 52)
    (hs : s.natAbs < 2 ^ 52) :
    IEEE.transposeNote note s = some (transposeNote note s) := by
  unfold IEEE.transposeNote transposeNote
  cases hm : regexMatch note.data with
  | none => rfl
  | some m =>
    obtain ⟨name, ds⟩ := m
    have hds := ho name ds hm
    simp only []
    rw [ieee_parseInt_of_lt ds (by omega)]
    rcases notesIndexOf_range (String.mk name) with hidx | ⟨hidx0, hidx12⟩
    · rw [if_pos hidx, if_pos hidx]
    · have hne : ¬ notesIndexOf (String.mk name) = -1 := by omega
      rw [if_neg hne, if_neg hne]
      have hr : IEEE.roundInt (notesIndexOf (String.mk name) + s) =
          notesIndexOf (String.mk name) + s := ieee_roundInt_of_lt _ (by omega)
      rw [hr, loops_normalise]
      have hn : (notesIndexOf (String.mk name) + s).natAbs < 2 ^ 52 + 12 := by omega
      generalize notesIndexOf (String.mk name) + s = n at *
      have hnum : IEEE.numberToString (IEEE.Number.finite ((parseDigits ds : Int) + n / 12)) =
          numberToString ((parseDigits ds : Int) + n / 12) :=
        ieee_numberToString_of_lt _ (by omega)
      by_cases h0 : 0 ≤ n
      · rw [ieee_carryLoop_eq _ _ _ h0 (by omega) (by omega) (by omega) (by omega)]
        simp only [Option.some_bind]
        rw [ieee_borrowLoop_ge _ _ _ (by omega)]
        simp only [Option.map_some', hnum]
      · rw [ieee_carryLoop_lt _ _ _ (by omega)]
        simp only [Option.some_bind]
        rw [ieee_borrowLoop_eq _ _ _ (by omega) (by omega) (by omega) (by omega) (by omega)]
        simp only [Option.map_some', hnum]

/-- C4, the claim as stated fails on large octaves. The note `C9007199254740993` is
the pitch class `C` followed by the canonical numeral of `2 ^ 53 + 1`, which is not
a double: `parseInt` reads it as `9007199254740992`, and a shift by 0 semitones
returns `C9007199254740992`, not the note. From `10 ^ 21` on the octave is printed
in exponent form: a shift by 0 semitones turns `C1000000000000000000000` into
`C1e+21`. -/
theorem transposeNote_rounds_large_octave :
    "C9007199254740993" = NOTES.getD 0 "" ++ Nat.repr (2 ^ 53 + 1) ∧
    IEEE.transposeNote "C9007199254740993" 0 = some "C9007199254740992" ∧
    IEEE.transposeNote "C1000000000000000000000" 0 = some "C1e+21" := by
  decide

/-- C4 (amended): for the pitch class at index `i` of `NOTES` followed by the canonical
decimal numeral of an octave `o < 2 ^ 52`, and every integer `s` with
`|s| < 2 ^ 52`, `transposeNote` returns the pitch class at index `(i + s) mod 12`
followed by the numeral of `o + floor((i + s) / 12)`; with `s = 0` it returns the
note itself, and with `s = 12` the same pitch class one octave higher. -/
theorem transposeNote_spec (i : Nat) (hi : i < 12) (o : Nat) (s : Int)
    (ho : o < 2 ^ 52) (hs : s.natAbs < 2 ^ 52) :
    IEEE.transposeNote (NOTES.getD i "" ++ Nat.repr o) s =
      some (NOTES.getD (((i : Int) + s) % 12).toNat "" ++
        numberToString ((o : Int) + ((i : Int) + s) / 12)) ∧
    IEEE.transposeNote (NOTES.getD i "" ++ Nat.repr o) 0 =
      some (NOTES.getD i "" ++ Nat.repr o) ∧
    IEEE.transposeNote (NOTES.getD i "" ++ Nat.repr o) 12 =
      some (NOTES.getD i "" ++ Nat.repr (o + 1)) := by
  have hdef := notes_getD_default
  have hmatch : ∀ name ds,
      regexMatch (NOTES.getD i "" ++ Nat.repr o).data = some (name, ds) →
        parseDigits ds < 2 ^ 52 := by
    intro name ds h
    rw [String.data_append, regexMatch_note i hi _ (repr_ne_nil o) (repr_all_digits o)] at h
    simp only [Option.some.injEq, Prod.mk.injEq] at h
    rw [← h.2, parseDigits_repr]
    exact ho
  refine ⟨?_, ?_, ?_⟩
  · rw [ieee_transposeNote_exact _ s hmatch hs, transposeNote_note i hi o s, hdef _ (by omega)]
  · rw [ieee_transposeNote_exact _ 0 hmatch (by decide), transposeNote_note i hi o 0]
    have h1 : (((i : Int) + 0) % 12).toNat = i := by omega
    have h2 : (o : Int) + ((i : Int) + 0) / 12 = (o : Int) := by omega
    rw [h1, h2, hdef i hi, numberToString_natCast]
  · rw [ieee_transposeNote_exact _ 12 hmatch (by decide), transposeNote_note i hi o 12]
    have h1 : (((i : Int) + 12) % 12).toNat = i := by omega
    have h2 : (o : Int) + ((i : Int) + 12) / 12 = ((o + 1 : Nat) : Int) := by omega
    rw [h1, h2, hdef i hi, numberToString_natCast]

/-- Witness for C4: `C#3` lowered by 14 semitones is `B1`, and `A#11` raised by 2
semitones is `C12`. -/
theorem transposeNote_spec_witness :
    IEEE.transposeNote ("C#" ++ "3") (-14) = some ("B" ++ "1") ∧
    IEEE.transposeNote ("A#" ++ "11") 2 = some ("C" ++ "12") :=
  ⟨(transposeNote_spec 1 (by decide) 3 (-14) (by decide) (by decide)).1,
    (transposeNote_spec 10 (by decide) 11 2 (by decide) (by decide)).1⟩

end Piano
